import Mathlib

/-!
# Record collections of the `models` package

A shallow embedding of `src/models/recordcollection.go`.

* Go values of type `interface{}` are a tagged union (`Value`); `int64` ids are `Int`.
* Go maps are association lists; a `range` over a map visits the entries in list order,
  so every order a Go run can take is the order of some list.
* Pointers (`*RecordCollection`, `*Query`, `*Environment`, the cache) are addresses into
  the heaps of a `World`; a struct copy (`rSet := *rc`) allocates a new address.
* A method is a function `World → Res α` (`M α`): it gives back the result or the panic,
  the world it leaves behind, and the storage statements it sent to the driver, in order.
* Code of the package that lives in other files is either rebuilt from the specification
  (its doc comment says so) or taken as a field of `Ext`.
-/

set_option autoImplicit false

namespace Goerp

/-! ## Values, field names, field maps -/

/-- Dynamic values carried by field maps, the cache and query arguments: `nil`, `bool`,
`int64`, `string`, `[]int64`, a record set (the address of its collection) and the context
function of a contexted field (named by field and context). -/
inductive Value where
  | null
  | bool (b : Bool)
  | int (i : Int)
  | str (s : String)
  | ids (l : List Int)
  | rs (p : Nat)
  | ctxFunc (field : String) (ctx : String)
  deriving DecidableEq, Repr, Inhabited

/-- FieldName: a field name with its Go name (`Name()`) and its storage name (`JSON()`). -/
structure FieldName where
  name : String
  json : String
  deriving DecidableEq, Repr, Inhabited

/-- The primary key field name `ID`. -/
def ID : FieldName := ⟨"ID", "id"⟩

/-- The path separator `ExprSep`. -/
def ExprSep : String := "."

/-- FieldMap: a Go `map[string]interface{}`, as an association list. -/
abbrev FieldMap := List (String × Value)

/-- Map read `m[k]` with the `ok` flag. -/
def FieldMap.lookup (m : FieldMap) (k : String) : Option Value :=
  List.lookup k m

/-- Map read `m[k]`: the zero value `nil` when the key is absent. -/
def FieldMap.val (m : FieldMap) (k : String) : Value :=
  (List.lookup k m).getD Value.null

/-- Map write `m[k] = v`: the entry is replaced where the key exists, added otherwise. -/
def FieldMap.insert (m : FieldMap) (k : String) (v : Value) : FieldMap :=
  if m.any (fun p => p.1 == k) then m.map (fun p => if p.1 == k then (k, v) else p)
  else m ++ [(k, v)]

/-- Map delete `delete(m, k)`. -/
def FieldMap.remove (m : FieldMap) (k : String) : FieldMap :=
  m.filter (fun p => p.1 != k)

/-- The keys of a map. -/
def FieldMap.keys (m : FieldMap) : List String :=
  m.map Prod.fst

/-! ## Model registry -/

/-- Modelled from the spec: the relation kinds and semantic types of a field (package
`fieldtype`); only the kinds the record collection names are distinguished. -/
inductive FieldType where
  | Many2One
  | One2One
  | One2Many
  | Many2Many
  | Rev2One
  | Float
  | Integer
  | Other
  deriving DecidableEq, Repr, Inhabited

/-- Modelled from the spec: `IsNonStoredRelationType`, the "non-stored relation fields
(one-to-many, many-to-many, reverse-one)". -/
def FieldType.IsNonStoredRelationType : FieldType → Bool
  | .One2Many | .Many2Many | .Rev2One => true
  | _ => false

/-- Modelled from the spec: `IsReverseRelationType`, the relations whose foreign key
"points back" to the record (one-to-many, reverse-one). -/
def FieldType.IsReverseRelationType : FieldType → Bool
  | .One2Many | .Rev2One => true
  | _ => false

/-- Modelled from the spec: `IsFKRelationType`, the relations stored as a foreign key on
the record itself (many-to-one, one-to-one). -/
def FieldType.IsFKRelationType : FieldType → Bool
  | .Many2One | .One2One => true
  | _ => false

/-- Modelled from the spec: the field descriptor ("storage name, semantic type, relation
kind, stored flag, computed flag (with inverse function if settable), related-path flag,
context dependency, default-value function, group-aggregate operator"). The boolean
attributes are the results of the descriptor's predicate methods (`isStored()`, ...);
`contexts` lists the context names of a contexted field (`none` for a nil map);
`defaultFunc` says whether a default function is set (its value comes from
`Ext.defaultFunc`). -/
structure Field where
  name : String
  json : String
  fieldType : FieldType := FieldType.Other
  isStored : Bool := true
  isSettable : Bool := true
  isComputedField : Bool := false
  isRelatedField : Bool := false
  isContextedField : Bool := false
  isRelationField : Bool := false
  embed : Bool := false
  inverse : String := ""
  constraint : String := ""
  defaultFunc : Bool := false
  contexts : Option (List String) := none
  ctxValue : Bool := false
  relatedModelName : String := ""
  reverseFK : String := ""
  m2mRelTable : String := ""
  m2mOurField : String := ""
  m2mTheirField : String := ""
  groupOperator : String := ""
  zero : Value := Value.null
  deriving DecidableEq, Repr, Inhabited

/-- An `ORDER BY` item (`orderPredicate`). -/
structure OrderPredicate where
  field : FieldName
  desc : Bool
  deriving DecidableEq, Repr, Inhabited

/-- Modelled from the spec: the model ("immutable schema description — name, ordered field
registry, default ordering, SQL-level constraints"); `methods` are the registered method
names, `sqlConstraints` maps a constraint name to its error string and `isSystem` is the
result of `isSystem()`. -/
structure Model where
  name : String
  tableName : String := ""
  fields : List Field := []
  methods : List String := []
  defaultOrder : List OrderPredicate := []
  sqlConstraints : List (String × String) := []
  isSystem : Bool := false
  deriving DecidableEq, Repr, Inhabited

/-- Registry read `fields.Get(name)`: a field is found by its Go name or its storage name. -/
def Model.getField (m : Model) (k : String) : Option Field :=
  m.fields.find? (fun f => f.name == k || f.json == k)

/-- Registry conversion `model.FieldName(s)`: the field name of a key; a key that names
no field of the model stands for itself. -/
def Model.FieldName (m : Model) (k : String) : FieldName :=
  match m.getField k with
  | some f => ⟨f.name, f.json⟩
  | none => ⟨k, k⟩

/-- Registry list `fields.storedFieldNames()`. -/
def Model.storedFieldNames (m : Model) : List Goerp.FieldName :=
  (m.fields.filter (fun f => f.isStored)).map (fun f => ⟨f.name, f.json⟩)

/-- Registry list `fields.allFieldNames()`. -/
def Model.allFieldNames (m : Model) : List Goerp.FieldName :=
  m.fields.map (fun f => ⟨f.name, f.json⟩)

/-! ## Conditions and queries -/

/-- Modelled from the spec: the condition tree of a query. `empty` is `newCondition()`,
`pred f op v` a predicate on a field path, `and` and `or` the results of `AndCond` and
`Or`. Conditions are immutable values. -/
inductive Condition where
  | empty
  | pred (field : String) (op : String) (arg : Value)
  | and (a b : Condition)
  | or (a b : Condition)
  deriving DecidableEq, Repr, Inhabited

/-- Modelled from the spec: `AndCond`, the conjunction of two condition trees. -/
def Condition.AndCond (a b : Condition) : Condition :=
  Condition.and a b

/-- Modelled from the spec: the query ("condition tree, context-condition tree, orderings,
context-orderings, group-by expressions, limit, offset, fetch-all flag"), with the
back-pointer `recordSet` to the collection that owns it. -/
structure Query where
  recordSet : Nat
  cond : Condition := Condition.empty
  ctxCond : Condition := Condition.empty
  fetchAll : Bool := false
  limit : Int := 0
  offset : Int := 0
  groups : List FieldName := []
  ctxGroups : List FieldName := []
  orders : List OrderPredicate := []
  ctxOrders : List OrderPredicate := []
  deriving DecidableEq, Repr, Inhabited

/-! ## Cache, environment, collections -/

/-- Modelled from the spec: a cache key "(model name, record id, field storage name,
context-slug string)". -/
structure CacheKey where
  model : String
  id : Int
  field : String
  slug : String
  deriving DecidableEq, Repr, Inhabited

/-- Modelled from the spec: the cache, a memo store from keys to values, with the link
index of the many-to-many fields (field storage name and record id to linked ids). -/
structure Cache where
  data : List (CacheKey × Value) := []
  m2mLinks : List ((String × Int) × List Int) := []
  deriving DecidableEq, Repr, Inhabited

/-- Modelled from the spec: the environment ("acting user id, arbitrary context key/value
map, ..., monotonically decreasing counter used to mint negative ids for in-memory records,
and the Cache instance"); `cache` is the address of the cache instance. -/
structure Environment where
  uid : Int := 0
  context : List (String × Value) := []
  nextNegativeID : Int := 0
  cache : Nat := 0
  deriving DecidableEq, Repr, Inhabited

/-- Context read `context.GetBool(key)`. -/
def Environment.GetBool (e : Environment) (k : String) : Bool :=
  match List.lookup k e.context with
  | some (Value.bool b) => b
  | _ => false

/-- RecordCollection: the struct of the source; `none` is a nil pointer. -/
structure RecordCollection where
  model : Option Model := none
  query : Option Nat := none
  env : Option Nat := none
  prefetchRC : Option Nat := none
  ids : List Int := []
  fetched : Bool := false
  filtered : Bool := false
  hasNegIds : Bool := false
  deriving DecidableEq, Repr, Inhabited

/-! ## Worlds and the method monad -/

/-- A statement sent to the storage driver: `cr.Get`, `cr.Execute`, `cr.Select` and
`dbQuery`, with the SQL text and its arguments. -/
inductive Stmt where
  | get (sql : String) (args : List Value)
  | execute (sql : String) (args : List Value)
  | select (sql : String) (args : List Value)
  | query (sql : String) (args : List Value)
  deriving DecidableEq, Repr, Inhabited

/-- The heaps a method works on, and the storage as the driver sees it (`db`, the journal
of the transaction, owned by the driver). -/
structure World where
  rcs : List RecordCollection := []
  queries : List Query := []
  envs : List Environment := []
  caches : List Cache := []
  db : List Stmt := []
  deriving DecidableEq, Repr, Inhabited

deriving instance DecidableEq for Except

/-- The result of running a method: the value returned or the panic raised, the world
left behind, and the statements sent to storage. -/
structure Res (α : Type) where
  out : Except String α
  w : World
  ev : List Stmt
  deriving DecidableEq

/-- A method of the package, run in a world. -/
def M (α : Type) : Type := World → Res α

/-- Return a value. -/
def M.pure {α : Type} (a : α) : M α :=
  fun w => ⟨Except.ok a, w, []⟩

/-- Sequence two steps; a panic of the first step ends the run. -/
def M.bind {α β : Type} (m : M α) (f : α → M β) : M β :=
  fun w =>
    match m w with
    | ⟨Except.ok a, w1, e1⟩ =>
      match f a w1 with
      | ⟨o, w2, e2⟩ => ⟨o, w2, e1 ++ e2⟩
    | ⟨Except.error msg, w1, e1⟩ => ⟨Except.error msg, w1, e1⟩

instance : Monad M where
  pure := M.pure
  bind := M.bind

/-- A panic (`log.Panic`, a nil dereference, a failed type assertion). -/
def logPanic {α : Type} (msg : String) : M α :=
  fun w => ⟨Except.error msg, w, []⟩

/-- Record a statement sent to the storage driver. -/
def emit (s : Stmt) : M Unit :=
  fun w => ⟨Except.ok (), w, [s]⟩

/-- Read the world. -/
def getW : M World :=
  fun w => ⟨Except.ok w, w, []⟩

/-- Change the world. -/
def modifyW (f : World → World) : M Unit :=
  fun w => ⟨Except.ok (), f w, []⟩

/-- The pattern `defer func() { if r := recover(); r != nil { panic(f(r)) } }()`. -/
def rethrow {α : Type} (f : World → String → String) (m : M α) : M α :=
  fun w =>
    match m w with
    | ⟨Except.ok a, w1, e1⟩ => ⟨Except.ok a, w1, e1⟩
    | ⟨Except.error msg, w1, e1⟩ => ⟨Except.error (f w1 msg), w1, e1⟩

/-- A `for _, x := range xs` loop. -/
def forEach {α : Type} : List α → (α → M Unit) → M Unit
  | [], _ => M.pure ()
  | x :: xs, f => M.bind (f x) (fun _ => forEach xs f)

/-- Dereference a collection pointer. -/
def derefRC (p : Nat) : M RecordCollection :=
  fun w =>
    match w.rcs[p]? with
    | some r => ⟨Except.ok r, w, []⟩
    | none => ⟨Except.error "nil pointer dereference", w, []⟩

/-- Write through a collection pointer. -/
def modifyRC (p : Nat) (f : RecordCollection → RecordCollection) : M Unit :=
  fun w =>
    match w.rcs[p]? with
    | some r => ⟨Except.ok (), { w with rcs := w.rcs.set p (f r) }, []⟩
    | none => ⟨Except.error "nil pointer dereference", w, []⟩

/-- Dereference a query pointer. -/
def derefQuery (p : Option Nat) : M Query :=
  fun w =>
    match p.bind (fun a => w.queries[a]?) with
    | some q => ⟨Except.ok q, w, []⟩
    | none => ⟨Except.error "nil pointer dereference", w, []⟩

/-- Write through a query pointer. -/
def modifyQuery (p : Option Nat) (f : Query → Query) : M Unit :=
  fun w =>
    match p with
    | some a =>
      match w.queries[a]? with
      | some q => ⟨Except.ok (), { w with queries := w.queries.set a (f q) }, []⟩
      | none => ⟨Except.error "nil pointer dereference", w, []⟩
    | none => ⟨Except.error "nil pointer dereference", w, []⟩

/-- Dereference an environment pointer. -/
def derefEnv (p : Option Nat) : M Environment :=
  fun w =>
    match p.bind (fun a => w.envs[a]?) with
    | some e => ⟨Except.ok e, w, []⟩
    | none => ⟨Except.error "nil pointer dereference", w, []⟩

/-- Write through an environment pointer. -/
def modifyEnv (p : Option Nat) (f : Environment → Environment) : M Unit :=
  fun w =>
    match p with
    | some a =>
      match w.envs[a]? with
      | some e => ⟨Except.ok (), { w with envs := w.envs.set a (f e) }, []⟩
      | none => ⟨Except.error "nil pointer dereference", w, []⟩
    | none => ⟨Except.error "nil pointer dereference", w, []⟩

/-- Dereference a model pointer. -/
def derefModel (p : Option Model) : M Model :=
  fun w =>
    match p with
    | some m => ⟨Except.ok m, w, []⟩
    | none => ⟨Except.error "nil pointer dereference", w, []⟩

/-- Dereference a cache pointer. -/
def derefCache (p : Nat) : M Cache :=
  fun w =>
    match w.caches[p]? with
    | some c => ⟨Except.ok c, w, []⟩
    | none => ⟨Except.error "nil pointer dereference", w, []⟩

/-- Write through a cache pointer. -/
def modifyCache (p : Nat) (f : Cache → Cache) : M Unit :=
  fun w =>
    match w.caches[p]? with
    | some c => ⟨Except.ok (), { w with caches := w.caches.set p (f c) }, []⟩
    | none => ⟨Except.error "nil pointer dereference", w, []⟩

/-! ## The cache -/

/-- Modelled from the spec: `cache.updateEntry` ("single field"), which stores a value
under the key (model, id, field, context-slug). -/
def Cache.updateEntry (c : Cache) (model : String) (id : Int) (field : String) (v : Value)
    (slug : String) : Cache :=
  { c with data := (⟨model, id, field, slug⟩, v) ::
      c.data.filter (fun p => p.1 != ⟨model, id, field, slug⟩) }

/-- Modelled from the spec: `cache.get`, the value stored under a key (`nil` when there is
none). -/
def Cache.get (c : Cache) (model : String) (id : Int) (field : String) (slug : String) :
    Value :=
  (List.lookup ⟨model, id, field, slug⟩ c.data).getD Value.null

/-- Modelled from the spec: `cache.addRecord` ("bulk-insert a full row"), which stores
every entry of the row under the record's id. -/
def Cache.addRecord (c : Cache) (model : String) (id : Int) (row : FieldMap)
    (slug : String) : Cache :=
  row.foldl (fun acc p => acc.updateEntry model id p.1 p.2 slug) c

/-- Modelled from the spec: `cache.checkIfInCache` in strict mode ("require *all* requested
ids to have *all* requested fields present under the given slug"); the spec does not say
what the check answers when no id is requested, `noIds` is that answer. -/
def Cache.checkIfInCache (c : Cache) (noIds : Bool) (model : String) (ids : List Int)
    (fields : List String) (slug : String) : Bool :=
  if ids.isEmpty then noIds
  else
    ids.all (fun id =>
      fields.all (fun f => c.data.any (fun p => p.1 == ⟨model, id, f, slug⟩)))

/-- Modelled from the spec: `cache.invalidateRecord` ("invalidated per-record"), which
drops every entry of a record. -/
def Cache.invalidateRecord (c : Cache) (model : String) (id : Int) : Cache :=
  { c with data := c.data.filter (fun p => !(p.1.model == model && p.1.id == id)) }

/-- Modelled from the spec: `cache.removeM2MLinks`, which drops the links of a record for a
many-to-many field from the link index. -/
def Cache.removeM2MLinks (c : Cache) (field : String) (id : Int) : Cache :=
  { c with m2mLinks := c.m2mLinks.filter (fun p => p.1 != (field, id)) }

/-- Modelled from the spec: `cache.addM2MLink`, which adds links of a record for a
many-to-many field to the link index. -/
def Cache.addM2MLink (c : Cache) (field : String) (id : Int) (rel : List Int) : Cache :=
  { c with m2mLinks :=
      ((field, id), (List.lookup (field, id) c.m2mLinks).getD [] ++ rel) ::
        c.m2mLinks.filter (fun p => p.1 != (field, id)) }

/-! ## Code of the package outside `recordcollection.go` -/

/-- ModelData: the field map of a record and the records to create for its relation
fields (`ToCreate`). -/
inductive ModelData where
  | mk (fieldMap : FieldMap) (toCreate : List (String × List ModelData))
  deriving Inhabited

/-- The field map of a ModelData. -/
def ModelData.FieldMap : ModelData → Goerp.FieldMap
  | .mk m _ => m

/-- The create directives of a ModelData. -/
def ModelData.ToCreate : ModelData → List (String × List ModelData)
  | .mk _ t => t

/-- Modelled from the spec: `NewModelData(model)`, a ModelData with no field set. -/
def NewModelData : ModelData :=
  ModelData.mk [] []

/-- An argument or result of a method called by name (`Call`): a value, a list of field
names or a ModelData. -/
inductive Dyn where
  | val (v : Value)
  | names (l : List FieldName)
  | data (d : ModelData)
  deriving Inhabited

/-- The methods and functions of the package that `recordcollection.go` calls and that
live in other files. What only reads the registry or builds SQL text is a function; what
can do anything (run model methods, create records) is a method `M`; the storage driver
answers a statement from the journal of the statements it has received. -/
structure Ext where
  /-- The call `query.ctxArgsSlug()`: the context slug of a query. -/
  ctxArgsSlug : World → Query → String
  /-- The call `query.isEmpty()`. -/
  isEmpty : Query → Bool
  /-- The call `model.ordersFromStrings(exprs)`. -/
  ordersFromStrings : Model → List String → List OrderPredicate
  /-- The call `rc.CheckExecutionPermission(rc.model.methods.MustGet(name))`: `none` when the
  method exists and the user may run it, the panic otherwise. -/
  checkExecutionPermission : World → Nat → String → Option String
  /-- The model registry `Registry`. -/
  registry : List Model
  /-- The answer of `cache.checkIfInCache` for an empty list of ids. -/
  cacheCheckNoIds : Bool
  /-- The call `model.getRelatedFieldInfo(path)`: the descriptor of the field a path leads to. -/
  getRelatedFieldInfo : Model → FieldName → Except String Field
  /-- The call `sort.Sort(fields)`. -/
  sortFieldNames : List FieldName → List FieldName
  /-- The order in which a run ranges over a map (`for field, value := range fMap`), which
  the language leaves open: the entries of the map in the order of the run. -/
  rangeOrder : FieldMap → FieldMap
  /-- The call `filterOnDBFields(model, fields)`. -/
  filterOnDBFields : Model → List FieldName → List FieldName
  /-- The call `query.selectQuery(fields)`: SQL text and arguments. -/
  selectQuery : World → Query → List FieldName → String × List Value
  /-- The call `query.insertQuery(fMap)`. -/
  insertQuery : World → Query → FieldMap → String × List Value
  /-- The call `query.updateQuery(fMap)`. -/
  updateQuery : World → Query → FieldMap → String × List Value
  /-- The call `query.deleteQuery()`. -/
  deleteQuery : World → Query → String × List Value
  /-- The driver's answer to `dbQuery`: the rows, each scanned by `scanToFieldMap` into a
  field map or a scan error. -/
  queryRows : List Stmt → Stmt → Except String (List (Except String FieldMap))
  /-- The driver's answer to `cr.Select` into a `[]int64`. -/
  selectIds : List Stmt → Stmt → Except String (List Int)
  /-- The driver's answer to `cr.Get` into an `int64`. -/
  getId : List Stmt → Stmt → Except String Int
  /-- The driver's answer to `cr.Execute`: the number of rows affected. -/
  rowsAffected : List Stmt → Stmt → Except String Int
  /-- The call `rc.Call(method, args...)`. -/
  call : Nat → String → List Dyn → M Dyn
  /-- The call `env.Pool(modelName)` on the environment of a collection. -/
  pool : Option Nat → String → M Nat
  /-- The call `rc.Union(other)`. -/
  union : Nat → Option Nat → M Nat
  /-- The call `rc.Intersect(other)`. -/
  intersect : Nat → Nat → M Nat
  /-- The call `rc.Subtract(other)`. -/
  subtract : Nat → Nat → M Nat
  /-- The call `rc.WithEnv(env)`. -/
  withEnv : Nat → Environment → M Nat
  /-- The call `rc.WithContext(key, value)`. -/
  withContext : Nat → String → Value → M Nat
  /-- The call `rc.SortedDefault()`. -/
  sortedDefault : Nat → M Nat
  /-- The call `rc.addRecordRuleConditions(uid, perm)`. -/
  addRecordRuleConditions : Nat → Int → String → M Nat
  /-- The call `addNameSearchesToCondition(rc.model, rc.query.cond)`. -/
  addNameSearchesToCondition : Nat → M Unit
  /-- The call `rc.substituteRelatedFields(fields)` (the substituted fields). -/
  substituteRelatedFields : Nat → List FieldName → M (List FieldName)
  /-- The call `rc.substituteRelatedInQuery()`. -/
  substituteRelatedInQuery : Nat → M Nat
  /-- The call `rc.substituteRelatedInPath(path)`. -/
  substituteRelatedInPath : Nat → FieldName → M FieldName
  /-- The call `rc.computeFieldValues(&fMap, field)` followed by the read `fMap[field]`. -/
  computeFieldValues : Nat → String → M Value
  /-- The call `dates.Now()`. -/
  now : Value
  /-- Whether a recovered panic value is an `error` (`r.(error)`). -/
  isError : String → Bool
  /-- The call `adapters[db.DriverName()].substituteErrorMessage(err, errorString)`. -/
  substituteErrorMessage : String → String → String
  /-- The call `model.convertValuesToFieldType(&fMap, writeDB)` (the converted map). -/
  convertValuesToFieldType : Model → FieldMap → Bool → M FieldMap
  /-- The call `rc.createRelatedFKRecord(fi, data)`. -/
  createRelatedFKRecord : Nat → Field → ModelData → M Nat
  /-- The call `rc.createRelatedRecord(path, data)`. -/
  createRelatedRecord : Nat → FieldName → ModelData → M Nat
  /-- The call `rc.processInverseMethods(data)`. -/
  processInverseMethods : Nat → ModelData → M Unit
  /-- The call `rc.processTriggers(fields)`. -/
  processTriggers : Nat → List FieldName → M Unit
  /-- The context function `fi.contexts[ctxName]` applied to a collection. -/
  ctxFunc : Field → String → Nat → M Value
  /-- The call `rc.substituteRelatedFieldsInMap(fMap)`. -/
  substituteRelatedFieldsInMap : Nat → FieldMap → M FieldMap
  /-- The call `rc.addIntermediatePaths(fields)`. -/
  addIntermediatePaths : Nat → List FieldName → M (List FieldName)
  /-- The call `cache.getStrictRelatedRef(model, id, path, slug)`: the model name and id of the
  record the path leads to, or the error. -/
  getStrictRelatedRef : Cache → Model → Int → String → String → Except String (String × Int)
  /-- The call `cache.setX2MValue(modelName, id, field, relID, slug)`. -/
  setX2MValue : Cache → String → Int → String → Int → String → Cache
  /-- The call `rc.retrieveComputeData(fields)`: the data needed to recompute, after a
  deletion, the stored fields that depend on the collection (kept as a value). -/
  retrieveComputeData : Nat → List FieldName → M Value
  /-- The call `rc.updateStoredFields(compData)`. -/
  updateStoredFields : Nat → Value → M Unit
  /-- The call `fi.defaultFunc(env)` of the default function of a field. -/
  defaultFunc : Field → Environment → M Value
  /-- The second result of `rc.substituteRelatedFields(fields)`: the map from the
  substituted keys back to the requested ones. -/
  relatedSubstMap : World → Nat → List FieldName → List (String × String)
  /-- The call `filterOnDBFields(model, fields, true)`, which does not add the id. -/
  filterOnDBFieldsNoID : Model → List FieldName → List FieldName
  /-- The call `query.selectGroupQuery(fields, operators)`: SQL text and arguments. -/
  selectGroupQuery : World → Query → List FieldName → List (String × String) →
    String × List Value
  /-- The call `substituteKeys(vals, substMap)`. -/
  substituteKeys : FieldMap → List (String × String) → FieldMap
  /-- The call `getGroupCondition(groups, vals, cond)`. -/
  getGroupCondition : List FieldName → FieldMap → Condition → Condition
  /-- The call `query.getOrderByExpressions(false)`: the order expressions, each split in
  its segments. -/
  getOrderByExpressions : Query → List (List FieldName)
  /-- The call `query.getCtxOrderByExpressions()`. -/
  getCtxOrderByExpressions : Query → List (List FieldName)
  /-- The call `query.getGroupByExpressions()`. -/
  getGroupByExpressions : Query → List (List FieldName)

/-! ## withIds -/

/-- The loop of `withIds` from a given state of its three variables: the map `idsMap`
(a Go `map[int64]bool`, read as `false` where unset), `newIds` and `hasNegIds`. -/
def withIdsLoop : List Int → (Int → Bool) → List Int → Bool → List Int × Bool
  | [], _, newIds, hasNegIds => (newIds, hasNegIds)
  | id :: rest, idsMap, newIds, hasNegIds =>
    if id = 0 then withIdsLoop rest idsMap newIds hasNegIds
    else
      withIdsLoop rest (Function.update idsMap id true)
        (if !idsMap id then newIds ++ [id] else newIds)
        (if id < 0 then true else hasNegIds)

/-- Method `withIds`: sets the ids of the collection (zeros and duplicates removed) and,
when there is at least one id, records them in the cache and overrides the query with
`("ID", "in", ids)`. Returns the receiver. -/
def withIds (x : Ext) (rc : Nat) (ids : List Int) : M Nat := do
  let (newIds, hasNegIds) := withIdsLoop ids (fun _ => false) [] false
  modifyRC rc (fun r => { r with ids := newIds, fetched := true, filtered := false })
  if newIds.length > 0 then
    modifyRC rc (fun r => { r with hasNegIds := hasNegIds })
    forEach newIds (fun id => do
      let r ← derefRC rc
      let env ← derefEnv r.env
      let q ← derefQuery r.query
      let w ← getW
      let m ← derefModel r.model
      modifyCache env.cache (fun c =>
        c.updateEntry m.name id "id" (Value.int id) (x.ctxArgsSlug w q)))
    let r ← derefRC rc
    modifyQuery r.query (fun q =>
      { q with cond := Condition.pred ID.json "in" (Value.ids newIds), fetchAll := false,
               limit := 0, offset := 0 })
  return rc

/-! ## Search, Limit, Offset, OrderBy, GroupBy -/

/-- A struct copy that escapes to the heap (`rSet := *rc; ...; return &rSet`): the copy
gets a new address. -/
def allocRC (r : RecordCollection) : M Nat :=
  fun w => ⟨Except.ok w.rcs.length, { w with rcs := w.rcs ++ [r] }, []⟩

/-- A new query object on the heap. -/
def allocQuery (q : Query) : M Nat :=
  fun w => ⟨Except.ok w.queries.length, { w with queries := w.queries ++ [q] }, []⟩

/-- Modelled from the spec: `query.clone(rc)` ("each clones the underlying Query"), a new
query object with the contents of the original, owned by the collection `rs`. -/
def Query.clone (q : Option Nat) (rs : Nat) : M Nat := do
  let qv ← derefQuery q
  allocQuery { qv with recordSet := rs }

/-- Method `Search`: a new collection filtering on the current one with the additional
condition. -/
def Search (rc : Nat) (cond : Condition) : M Nat := do
  let r ← derefRC rc
  let rSetVal ← allocRC r
  let q ← Query.clone r.query rSetVal
  modifyRC rSetVal (fun v => { v with query := some q })
  modifyQuery (some q) (fun qv => { qv with cond := qv.cond.AndCond cond })
  return rSetVal

/-- Method `Limit`: a new collection with only the first `limit` records. -/
def Limit (rc : Nat) (limit : Int) : M Nat := do
  let r ← derefRC rc
  let rSet ← allocRC r
  let q ← Query.clone r.query rSet
  modifyRC rSet (fun v => { v with query := some q })
  modifyQuery (some q) (fun qv => { qv with limit := limit })
  return rSet

/-- Method `Offset`: a new collection with only the records starting at `offset`. -/
def Offset (rc : Nat) (offset : Int) : M Nat := do
  let r ← derefRC rc
  let rSet ← allocRC r
  let q ← Query.clone r.query rSet
  modifyRC rSet (fun v => { v with query := some q })
  modifyQuery (some q) (fun qv => { qv with offset := offset })
  return rSet

/-- Method `OrderBy`: a new collection ordered by the given expressions. -/
def OrderBy (x : Ext) (rc : Nat) (exprs : List String) : M Nat := do
  let r ← derefRC rc
  let rSet ← allocRC r
  let q ← Query.clone r.query rSet
  modifyRC rSet (fun v => { v with query := some q })
  let r0 ← derefRC rc
  let m ← derefModel r0.model
  modifyQuery (some q) (fun qv => { qv with orders := x.ordersFromStrings m exprs })
  return rSet

/-- Method `GroupBy`: a new collection grouped by the given fields, added to the groups
of the current one. -/
def GroupBy (rc : Nat) (fields : List FieldName) : M Nat := do
  let r ← derefRC rc
  let rSet ← allocRC r
  let q ← Query.clone r.query rSet
  modifyRC rSet (fun v => { v with query := some q })
  let exprs := fields.map (fun f => f)
  modifyQuery (some q) (fun qv => { qv with groups := qv.groups ++ exprs })
  return rSet

/-- The outcome the specification gives to a narrowing operation `m` run on the receiver `rc` in
the world `w`: it returns a collection at an address that did not exist before, the
receiver's struct (ids, flags, pointers) is as before, and so is the query the receiver
points at (condition, orders, groups, limit, offset). -/
def World.narrowed (w : World) (rc : Nat) (m : M Nat) : Prop :=
  ∃ p, (m w).out = Except.ok p ∧ w.rcs[p]? = none ∧ ((m w).w.rcs[p]?).isSome = true ∧
    (m w).w.rcs[rc]? = w.rcs[rc]? ∧
    ∀ r qp, w.rcs[rc]? = some r → r.query = some qp →
      (m w).w.queries[qp]? = w.queries[qp]?

/-- A collection is usable at an address: the address is allocated and the model, query,
environment and cache pointers of the collection resolve (no nil, no dangling pointer). -/
def World.valid (w : World) (rc : Nat) : Prop :=
  ∃ r m qp q ep e c, w.rcs[rc]? = some r ∧ r.model = some m ∧ r.query = some qp ∧
    w.queries[qp]? = some q ∧ r.env = some ep ∧ w.envs[ep]? = some e ∧
    w.caches[e.cache]? = some c

/-- The specification's words for the ids a collection keeps: an id of the input survives when it
is not zero and does not occur earlier in the input (`seen` is the part of the input
already passed), and the survivors keep their order. -/
def survivors (seen : List Int) : List Int → List Int
  | [] => []
  | a :: l =>
    if a = 0 ∨ a ∈ seen then survivors (a :: seen) l else a :: survivors (a :: seen) l

/-! ## Storage driver and small helpers -/

/-- Lift a fallible pure result: an error is a panic. -/
def liftExcept {α : Type} (e : Except String α) : M α :=
  fun w =>
    match e with
    | Except.ok a => ⟨Except.ok a, w, []⟩
    | Except.error msg => ⟨Except.error msg, w, []⟩

/-- Send a statement to the driver: it is recorded as sent and added to the journal. -/
def send (s : Stmt) : M (List Stmt) :=
  fun w => ⟨Except.ok w.db, { w with db := w.db ++ [s] }, [s]⟩

/-- The call `dbQuery(tx, query, args...)` with the scan of its rows. -/
def dbQuery (x : Ext) (sql : String) (args : List Value) :
    M (List (Except String FieldMap)) := do
  let journal ← send (Stmt.query sql args)
  liftExcept (x.queryRows journal (Stmt.query sql args))

/-- The call `cr.Select(&ids, query, args...)`. -/
def crSelect (x : Ext) (sql : String) (args : List Value) : M (List Int) := do
  let journal ← send (Stmt.select sql args)
  liftExcept (x.selectIds journal (Stmt.select sql args))

/-- The call `cr.Get(&id, query, args...)`. -/
def crGet (x : Ext) (sql : String) (args : List Value) : M Int := do
  let journal ← send (Stmt.get sql args)
  liftExcept (x.getId journal (Stmt.get sql args))

/-- An `Execute` statement sent to the driver, with the number of rows it affected. -/
def execStmt (x : Ext) (s : Stmt) : M Int := do
  let journal ← send s
  liftExcept (x.rowsAffected journal s)

/-- The call `cr.Execute(query, args...)` followed by `RowsAffected()`. -/
def crExecute (x : Ext) (sql : String) (args : List Value) : M Int :=
  execStmt x (Stmt.execute sql args)

/-- A loop that collects one result per element. -/
def forMap {α β : Type} : List α → (α → M β) → M (List β)
  | [], _ => M.pure []
  | a :: l, f => M.bind (f a) (fun b => M.bind (forMap l f) (fun bs => M.pure (b :: bs)))

/-- The check `rc.CheckExecutionPermission(rc.model.methods.MustGet(name))`. -/
def CheckExecutionPermission (x : Ext) (rc : Nat) (method : String) : M Unit :=
  fun w =>
    match x.checkExecutionPermission w rc method with
    | none => ⟨Except.ok (), w, []⟩
    | some msg => ⟨Except.error msg, w, []⟩

/-- The read `Registry.MustGet(modelName)`. -/
def registryMustGet (x : Ext) (modelName : String) : M Model :=
  match x.registry.find? (fun m => m.name == modelName) with
  | some m => M.pure m
  | none => logPanic "Unknown model in registry"

/-- A new environment object on the heap (`&env`). -/
def allocEnv (e : Environment) : M Nat :=
  fun w => ⟨Except.ok w.envs.length, { w with envs := w.envs ++ [e] }, []⟩

/-- The call `strings.Split(s, ExprSep)`: the segments of a string between the
separators (the separator is the one character of `ExprSep`). -/
def splitExpr (s : String) : List String :=
  (s.toList.splitOn '.').map String.mk

/-- The call `strings.Join(l, ExprSep)`: the segments with the separator between them. -/
def joinExpr (l : List String) : String :=
  String.mk (List.intercalate ['.'] (l.map String.toList))

/-- Modelled from the spec: `splitFieldNames(path, ExprSep)`, the segments of a path
("splits it into prefix (all relation hops) and leaf"). -/
def splitFieldNames (f : FieldName) : List FieldName :=
  List.zipWith (fun n j => (⟨n, j⟩ : FieldName)) (splitExpr f.name) (splitExpr f.json)

/-- Modelled from the spec: `joinFieldNames(segments, ExprSep)`, the path made of the
segments. -/
def joinFieldNames (l : List FieldName) : FieldName :=
  ⟨joinExpr (l.map (fun f => f.name)), joinExpr (l.map (fun f => f.json))⟩

/-- The type assertion `v.(RecordSet).Collection()`. -/
def asCollection (v : Value) : M Nat :=
  match v with
  | Value.rs p => M.pure p
  | _ => logPanic "interface conversion: not a RecordSet"

/-- The type assertion `v.(RecordSet).Collection()` on the result of a `Call`. -/
def dynCollection (d : Dyn) : M Nat :=
  match d with
  | Dyn.val (Value.rs p) => M.pure p
  | _ => logPanic "interface conversion: not a RecordSet"

/-- The read `s[0]` of a slice of ids. -/
def firstId (ids : List Int) : M Int :=
  match ids with
  | id :: _ => M.pure id
  | [] => logPanic "index out of range"

/-! ## Accessors -/

/-- The recursive calls of the methods below: `Fetch` and `Get` as they are available at
the next call depth. -/
structure Rec where
  Fetch : Nat → M Nat
  Get : Nat → FieldName → M Value

/-- Method `IsValid`: the collection pointer is not nil and its model, query and
environment are set. -/
def IsValid (rc : Option Nat) : M Bool :=
  fun w =>
    match rc.bind (fun a => w.rcs[a]?) with
    | none => ⟨Except.ok false, w, []⟩
    | some r => ⟨Except.ok (r.model.isSome && r.query.isSome && r.env.isSome), w, []⟩

/-- Method `Len`: the number of records, fetching if necessary. -/
def Len (k : Rec) (rc : Nat) : M Nat := do
  let _ ← k.Fetch rc
  let r ← derefRC rc
  return r.ids.length

/-- Method `Ids`: the ids, fetching if necessary. -/
def Ids (k : Rec) (rc : Nat) : M (List Int) := do
  let _ ← k.Fetch rc
  let r ← derefRC rc
  return r.ids

/-- Method `IsEmpty`: `!rc.IsValid() || rc.Len() == 0`. -/
def IsEmpty (k : Rec) (rc : Option Nat) : M Bool := do
  let valid ← IsValid rc
  if !valid then return true
  let n ← Len k (rc.getD 0)
  return n == 0

/-- Method `Env`: a copy of the environment of the collection. -/
def Env (rc : Nat) : M Environment := do
  let r ← derefRC rc
  derefEnv r.env

/-- Method `ModelName`. -/
def ModelName (rc : Nat) : M String := do
  let r ← derefRC rc
  let m ← derefModel r.model
  return m.name

/-- Function `InvalidRecordCollection`: a collection of the model without environment,
with a new query (Modelled from the spec: `newQuery()` is a query with no condition,
ordering, grouping, limit or offset). -/
def InvalidRecordCollection (x : Ext) (modelName : String) : M Nat := do
  let mi ← registryMustGet x modelName
  let rc ← allocRC { model := some mi, ids := [] }
  let q ← allocQuery { recordSet := rc }
  modifyRC rc (fun r => { r with query := some q })
  return rc

/-- Function `newRecordCollection`: a new empty collection of the model in (a copy of) the
given environment. -/
def newRecordCollection (x : Ext) (env : Environment) (modelName : String) : M Nat := do
  let rc ← InvalidRecordCollection x modelName
  let e ← allocEnv env
  modifyRC rc (fun r => { r with env := some e })
  return rc

/-- Method `Records`: the singleton collections that make up the collection. -/
def Records (x : Ext) (k : Rec) (rc : Nat) : M (List Nat) := do
  let _ ← Len k rc
  let ids ← Ids k rc
  forMap ids (fun id => do
    let env ← Env rc
    let name ← ModelName rc
    let newRC ← newRecordCollection x env name
    let res ← withIds x newRC [id]
    modifyRC res (fun r => { r with prefetchRC := some rc })
    return res)

/-- The cache check of a collection's model on the cache of its environment:
`rc.env.cache.checkIfInCache(rc.model, ids, fields, rc.query.ctxArgsSlug(), true)`. -/
def checkIfInCache (x : Ext) (rc : Nat) (ids : List Int) (fields : List String) :
    M Bool := do
  let r ← derefRC rc
  let env ← derefEnv r.env
  let c ← derefCache env.cache
  let m ← derefModel r.model
  let q ← derefQuery r.query
  let w ← getW
  return c.checkIfInCache x.cacheCheckNoIds m.name ids fields (x.ctxArgsSlug w q)

/-- The cache write `rc.env.cache.updateEntry(rc.model, id, field, v, rc.query.ctxArgsSlug())`. -/
def cacheUpdateEntry (x : Ext) (rc : Nat) (id : Int) (field : String) (v : Value) :
    M Unit := do
  let r ← derefRC rc
  let env ← derefEnv r.env
  let m ← derefModel r.model
  let q ← derefQuery r.query
  let w ← getW
  modifyCache env.cache (fun c => c.updateEntry m.name id field v (x.ctxArgsSlug w q))

/-! ## Fetch, Load, ForceLoad -/

/-- Method `applyDefaultOrder`: the model's default order when the query has none. -/
def applyDefaultOrder (rc : Nat) : M Unit := do
  let r ← derefRC rc
  let q ← derefQuery r.query
  if q.orders.length = 0 then
    let m ← derefModel r.model
    modifyQuery r.query (fun q => { q with orders := m.defaultOrder })

/-- Method `applyContexts`: sets the context condition and context orders of the query
from the contexted fields of the model. -/
def applyContexts (rc : Nat) : M Nat := do
  let r ← derefRC rc
  let m ← derefModel r.model
  let init : Condition × List OrderPredicate := (Condition.empty, [])
  let step (acc : Condition × List OrderPredicate) (fi : Field) :
      M (Condition × List OrderPredicate) :=
    match fi.contexts with
    | none => M.pure acc
    | some ctxs =>
      ctxs.foldlM (fun (acc : Condition × List OrderPredicate) ctxName => do
        let path := m.FieldName (fi.name ++ "erpContexts" ++ ExprSep ++ ctxName)
        let env ← derefEnv r.env
        let isNull := Condition.pred path.json "is null" Value.null
        let cond :=
          if !env.GetBool "erp_default_contexts" then
            Condition.or isNull (Condition.pred path.json "=" (Value.ctxFunc fi.name ctxName))
          else isNull
        return (acc.1.AndCond cond, acc.2 ++ [⟨path, true⟩])) acc
  let (ctxCond, ctxOrders) ← m.fields.foldlM step init
  modifyQuery r.query (fun q => { q with ctxCond := ctxCond, ctxOrders := ctxOrders })
  return rc

/-- Method `loadRelationFields`: loads the one2many, many2many and rev2one fields among
`fields` into the cache, one relation and one record at a time. -/
def loadRelationFields (x : Ext) (k : Rec) (rc : Nat) (fields : List FieldName) :
    M Unit := do
  if fields.length = 0 then return ()
  let fields := x.sortFieldNames fields
  let recs ← Records x k rc
  forEach recs (fun rec => do
    let rv ← derefRC rec
    let id ← firstId rv.ids
    forEach fields (fun fName => do
      let r ← derefRC rc
      let m ← derefModel r.model
      let fi ← liftExcept (x.getRelatedFieldInfo m fName)
      if !fi.fieldType.IsNonStoredRelationType then return ()
      let exprs := splitFieldNames fName
      let thisRC ←
        if exprs.length > 1 then (do
          let pfx := joinFieldNames exprs.dropLast
          let _ ← x.call rec "Load" [Dyn.names [pfx]]
          let v ← k.Get rec pfx
          asCollection v)
        else M.pure rec
      match fi.fieldType with
      | FieldType.One2Many =>
        let relRC ← x.pool r.env fi.relatedModelName
        let relModel ← derefModel (← derefRC relRC).model
        let s ← Search relRC
          (Condition.pred (relModel.FieldName fi.reverseFK).json "=" (Value.rs thisRC))
        let relRC ← dynCollection (← x.call s "Fetch" [])
        let rel ← derefRC relRC
        cacheUpdateEntry x rc id fName.json (Value.ids rel.ids)
      | FieldType.Many2Many =>
        let sql := "SELECT " ++ fi.m2mTheirField ++ " FROM " ++ fi.m2mRelTable ++
          " WHERE " ++ fi.m2mOurField ++ " = ?"
        if ← IsEmpty k (some thisRC) then return ()
        let t ← derefRC thisRC
        let tid ← firstId t.ids
        let _ ← derefEnv r.env
        let ids ← crSelect x sql [Value.int tid]
        cacheUpdateEntry x rc id fName.json (Value.ids ids)
      | FieldType.Rev2One =>
        let relRC ← x.pool r.env fi.relatedModelName
        let relModel ← derefModel (← derefRC relRC).model
        let s ← Search relRC
          (Condition.pred (relModel.FieldName fi.reverseFK).json "=" (Value.rs thisRC))
        let relRC ← dynCollection (← x.call s "Fetch" [])
        let rel ← derefRC relRC
        let relID : Int := rel.ids.headD 0
        cacheUpdateEntry x rc id fName.json (Value.int relID)
      | _ => return ()))

/-- The row loop of `ForceLoad`: every scanned row is added to the cache of `rSet` under
the slug of the query of `rc`, and its id is collected. -/
def loadRows (x : Ext) (rc rSet : Nat) (rows : List (Except String FieldMap)) :
    M (List Int) :=
  forMap rows (fun row => do
    let line ← liftExcept row
    let rs ← derefRC rSet
    let env ← derefEnv rs.env
    let id ← (match line.val "id" with
      | Value.int i => M.pure i
      | _ => logPanic "interface conversion: not an int64")
    let r ← derefRC rc
    let q ← derefQuery r.query
    let w ← getW
    let m ← derefModel rs.model
    modifyCache env.cache (fun c => c.addRecord m.name id line (x.ctxArgsSlug w q))
    return id)

/-- Method `ForceLoad`: queries the data of the collection and stores it in the cache. -/
def ForceLoad (x : Ext) (k : Rec) (rc : Nat) (fieldNames : List FieldName) : M Nat := do
  CheckExecutionPermission x rc "Load"
  let r ← derefRC rc
  let q ← derefQuery r.query
  if x.isEmpty q then return rc
  if r.hasNegIds then logPanic "Trying to load a memory RecordSet created by New"
  if q.groups.length > 0 then logPanic "Trying to load a grouped query"
  let prefetchEmpty ← IsEmpty k r.prefetchRC
  let r ← derefRC rc
  let prefetch := !prefetchEmpty && r.ids.length > 0
  let rSet ←
    if prefetch then (do
      let u ← x.union rc r.prefetchRC
      let env ← Env rc
      x.withEnv u env)
    else M.pure rc
  let env ← Env rc
  let rSet ← x.addRecordRuleConditions rSet env.uid "read"
  applyDefaultOrder rSet
  let fields ←
    if fieldNames.length = 0 then (do
      let m ← derefModel (← derefRC rSet).model
      M.pure m.storedFieldNames)
    else M.pure fieldNames
  x.addNameSearchesToCondition rSet
  let _ ← applyContexts rSet
  let subFields ← x.substituteRelatedFields rSet fields
  let rSet ← x.substituteRelatedInQuery rSet
  let rs ← derefRC rSet
  let m ← derefModel rs.model
  let dbFields := x.filterOnDBFields m subFields
  let qv ← derefQuery rs.query
  let w ← getW
  let (sql, args) := x.selectQuery w qv dbFields
  let _ ← derefEnv rs.env
  let rows ← dbQuery x sql args
  let ids ← loadRows x rc rSet rows
  let rSet ← withIds x rSet ids
  loadRelationFields x k rSet subFields
  if prefetch then
    let i ← x.intersect rSet rc
    let env ← Env rc
    let v ← x.withEnv i env
    let rv ← derefRC v
    modifyRC rc (fun _ => rv)
    return rc
  return rSet

/-- Method `Load`: looks the fields up in the cache and queries storage for them when
they are not all there. -/
def Load (x : Ext) (k : Rec) (rc : Nat) (fields : List FieldName) : M Nat := do
  let r ← derefRC rc
  let fields ←
    if fields.length = 0 then (do
      let m ← derefModel r.model
      M.pure m.storedFieldNames)
    else M.pure fields
  let cacheFields := fields.map (fun v => v.json)
  if ← checkIfInCache x rc r.ids cacheFields then return rc
  ForceLoad x k rc fields

/-- Method `Fetch`: queries the ids of the collection when they are not fetched yet and
the query is not empty. -/
def Fetch (x : Ext) (k : Rec) (rc : Nat) : M Nat := do
  let r ← derefRC rc
  if r.fetched then return rc
  let q ← derefQuery r.query
  if x.isEmpty q then return rc
  Load x k rc [ID]

/-! ## Get -/

/-- Method `Scan`: sets the collection from a value read from storage or the cache (`nil`
and `bool` leave it as it is, an `int64` or `[]int64` gives its ids, a record set is
copied), then sorts it by default order. Returns the error, if any. -/
def Scan (x : Ext) (rc : Nat) (src : Value) : M (Option String) := do
  if !(← IsValid (some rc)) then return some "recordset should be valid before scanning"
  let err ←
    (match src with
    | Value.null => M.pure none
    | Value.bool _ => M.pure none
    | Value.int i =>
      if i ≠ 0 then (do
        let _ ← withIds x rc [i]
        M.pure none)
      else M.pure none
    | Value.ids l => do
      let _ ← withIds x rc l
      M.pure none
    | Value.rs p => do
      let v ← derefRC p
      modifyRC rc (fun _ => v)
      M.pure none
    | _ => M.pure (some "unexpected type to represent Recordset") : M (Option String))
  if err.isSome then return err
  let sorted ← x.sortedDefault rc
  let sv ← derefRC sorted
  modifyRC rc (fun _ => sv)
  return none

/-- Method `convertToRecordSet`: the collection of the related model that a cached value
(`nil`, an id or a list of ids) stands for. -/
def convertToRecordSet (x : Ext) (rc : Nat) (val : Value) (relatedModelName : String) :
    M Nat := do
  let r ← derefRC rc
  if r.env.isNone then InvalidRecordCollection x relatedModelName
  else
    let env ← Env rc
    let res ← newRecordCollection x env relatedModelName
    let err ← Scan x res val
    if err.isSome then logPanic "Error while converting to RecordSet"
    return res

/-- Method `get`: the value of a field of the first record, loading the cache if necessary
(the whole row when `all` is set); the flag says whether storage was called. -/
def get (x : Ext) (k : Rec) (rc : Nat) (field : FieldName) (all : Bool) :
    M (Value × Bool) := do
  let _ ← k.Fetch rc
  let r ← derefRC rc
  let id0 ← firstId r.ids
  let isInCache ← checkIfInCache x rc [id0] [field.json]
  let dbCalled ←
    if !r.hasNegIds && !isInCache then (do
      let m ← derefModel r.model
      let fields := if all then [field] ++ m.storedFieldNames else [field]
      let _ ← Load x k rc fields
      M.pure true)
    else M.pure false
  if dbCalled then
    if ← IsEmpty k (some rc) then return (Value.null, true)
  let r ← derefRC rc
  let env ← derefEnv r.env
  let c ← derefCache env.cache
  let m ← derefModel r.model
  let id ← firstId r.ids
  let q ← derefQuery r.query
  let w ← getW
  return (c.get m.name id field.json (x.ctxArgsSlug w q), dbCalled)

/-- The `default` case of the switch of `Get`: the value read through `get`, or, for a
path on an in-memory record whose first hop is not empty, the final result of `Get`
(`Sum.inr`) delegated to the related collection. -/
def getStored (x : Ext) (k : Rec) (rc : Nat) (fieldName : FieldName) (fi : Field)
    (exprs : List FieldName) : M (Value ⊕ Value) := do
  let r ← derefRC rc
  let delegated ←
    if r.hasNegIds && exprs.length > 1 then (do
      let relRs ← k.Get rc (exprs.headD default)
      let rel ← asCollection relRs
      if !(← IsEmpty k (some rel)) then
        let v ← k.Get rel (joinFieldNames (exprs.drop 1))
        M.pure (some v)
      else M.pure none)
    else M.pure none
  match delegated with
  | some v => return Sum.inr v
  | none =>
    let all := !fi.fieldType.IsNonStoredRelationType
    let (res, _) ← get x k rc fieldName all
    return Sum.inl res

/-- Method `Get`: the value of a field for the first record of the collection, the zero
value of the field's type when the collection is empty. -/
def Get (x : Ext) (k : Rec) (rc : Nat) (fieldName : FieldName) : M Value := do
  let r ← derefRC rc
  let m ← derefModel r.model
  let fi ← liftExcept (x.getRelatedFieldInfo m fieldName)
  if !(← IsValid (some rc)) then
    if fi.isRelationField then
      let p ← convertToRecordSet x rc fi.zero fi.relatedModelName
      return Value.rs p
    return fi.zero
  CheckExecutionPermission x rc "Load"
  let _ ← k.Fetch rc
  let exprs := splitFieldNames fieldName
  let res ←
    if ← IsEmpty k (some rc) then M.pure (Sum.inl fi.zero)
    else if fi.isComputedField && !fi.isStored then (do
      let pfx := joinFieldNames exprs.dropLast
      let relRC ←
        if pfx.name ≠ "" then (do
          let v ← k.Get rc pfx
          asCollection v)
        else M.pure rc
      let v ← x.computeFieldValues relRC fi.json
      M.pure (Sum.inl v))
    else if fi.isRelatedField then (do
      let path ← x.substituteRelatedInPath rc fieldName
      let v ← k.Get rc path
      M.pure (Sum.inl v))
    else getStored x k rc fieldName fi exprs
  match res with
  | Sum.inr v => return v
  | Sum.inl res =>
    let res := if res = Value.null then fi.zero else res
    if fi.isRelationField then
      let p ← convertToRecordSet x rc res fi.relatedModelName
      return Value.rs p
    return res

/-- The methods at call depth `n`: at depth 0 a recursive call does not return. -/
def knot (x : Ext) : Nat → Rec
  | 0 => ⟨fun _ => logPanic "call depth exhausted", fun _ _ => logPanic "call depth exhausted"⟩
  | n + 1 => ⟨Fetch x (knot x n), Get x (knot x n)⟩

/-! ## Field maps and ModelData of a write -/

/-- Modelled from the spec: `fMap.RemovePK()`, which drops the primary key from the map. -/
def FieldMap.RemovePK (m : FieldMap) : FieldMap :=
  (FieldMap.remove m "id").remove "ID"

/-- Modelled from the spec: `fMap.RemovePKIfZero()`, which drops the primary key from the
map when it is zero. -/
def FieldMap.RemovePKIfZero (m : FieldMap) : FieldMap :=
  m.filter (fun p => !((p.1 == "id" || p.1 == "ID") && (p.2 == Value.int 0 || p.2 == Value.null)))

/-- Modelled from the spec: `fMap.FieldNames(model)`, the field names of the keys. -/
def FieldMap.FieldNames (m : FieldMap) (model : Model) : List Goerp.FieldName :=
  m.keys.map model.FieldName

/-- Modelled from the spec: `ModelData.Set(field, value)`; the field maps of a ModelData
are keyed by storage names. -/
def ModelData.Set (d : ModelData) (f : FieldName) (v : Value) : ModelData :=
  ModelData.mk (FieldMap.insert d.FieldMap f.json v) d.ToCreate

/-- Modelled from the spec: `ModelData.MergeWith(other)` ("If a field of the other Data
already exists here, the value is overridden, otherwise, the field is inserted"). -/
def ModelData.MergeWith (d other : ModelData) : ModelData :=
  ModelData.mk (other.FieldMap.foldl (fun acc p => FieldMap.insert acc p.1 p.2) d.FieldMap)
    (other.ToCreate.foldl (fun acc p => (acc.filter (fun e => e.1 != p.1)) ++ [p]) d.ToCreate)

/-- Method `substituteSQLErrorMessage`: a recovered storage error that names an SQL
constraint of the model gets the message declared for the constraint. -/
def substituteSQLErrorMessage (x : Ext) (rc : Nat) (w : World) (r : String) : String :=
  if !x.isError r then r
  else
    match (w.rcs[rc]?).bind (fun v => v.model) with
    | none => r
    | some m =>
      match m.sqlConstraints.find? (fun c => decide (c.1.toList <:+: r.toList)) with
      | some c => x.substituteErrorMessage r c.2
      | none => r

/-! ## Constraints -/

/-- Method `CheckConstraints`: runs the constraint method of each of the given fields on
every record, each method once; the first failing method panics. The methods are run in
the order in which the fields first name them. -/
def CheckConstraints (x : Ext) (k : Rec) (rc : Nat) (fields : List FieldName) :
    M Unit := do
  let env ← Env rc
  if env.GetBool "erp_skip_check_constraints" then return ()
  let r ← derefRC rc
  let m ← derefModel r.model
  let methods ← fields.foldlM (fun (methods : List String) f => do
    let fi ← (match m.getField f.json with
      | some fi => M.pure fi
      | none => logPanic "Unknown field in model")
    if fi.constraint ≠ "" ∧ fi.constraint ∉ methods then return methods ++ [fi.constraint]
    return methods) []
  forEach methods (fun method => do
    let recs ← Records x k rc
    forEach recs (fun rec => do
      let _ ← x.call rec method []
      return ()))

/-! ## Writing to storage -/

/-- Method `addAccessFieldsCreateData`: stamps the creation date and user. -/
def addAccessFieldsCreateData (x : Ext) (rc : Nat) (fMap : FieldMap) : M FieldMap := do
  let r ← derefRC rc
  let m ← derefModel r.model
  if !m.isSystem then
    let fMap := FieldMap.insert fMap "CreateDate" x.now
    let env ← derefEnv r.env
    return FieldMap.insert fMap "CreateUID" (Value.int env.uid)
  return fMap

/-- Method `addAccessFieldsUpdateData`: stamps the write date and user. -/
def addAccessFieldsUpdateData (x : Ext) (rc : Nat) (fMap : FieldMap) : M FieldMap := do
  let r ← derefRC rc
  let m ← derefModel r.model
  if !m.isSystem then
    let fMap := FieldMap.insert fMap "WriteDate" x.now
    let env ← derefEnv r.env
    return FieldMap.insert fMap "WriteUID" (Value.int env.uid)
  return fMap

/-- Method `addEmbeddedfields`: adds the foreign keys of the embedded records that the
map does not set. -/
def addEmbeddedfields (rc : Nat) (fMap : FieldMap) : M FieldMap := do
  let r ← derefRC rc
  let m ← derefModel r.model
  return m.fields.foldl (fun (acc : FieldMap) fi =>
    if !fi.embed then acc
    else if (acc.lookup fi.json).isSome then acc
    else FieldMap.insert acc (fi.name ++ ExprSep ++ "ID") Value.null) fMap

/-- Method `addContextsFieldsValues`: adds the context values of the contexted fields of
the map. -/
def addContextsFieldsValues (x : Ext) (rc : Nat) (fMap : FieldMap) : M FieldMap := do
  let r ← derefRC rc
  let m ← derefModel r.model
  fMap.foldlM (fun (res : FieldMap) kv => do
    let res := FieldMap.insert res kv.1 kv.2
    let fi ← liftExcept (x.getRelatedFieldInfo m (m.FieldName kv.1))
    match fi.contexts with
    | none => return res
    | some ctxs =>
      ctxs.foldlM (fun (res : FieldMap) ctxName => do
        let v ← x.ctxFunc fi ctxName rc
        return FieldMap.insert res (fi.name ++ "erpContexts." ++ ctxName) v) res) []

/-- Method `filterMapOnStoredFields`: the entries of the map whose key is a field stored
on this model, under the field's storage name; fields with an inverse method are left out
unless "erp_force_compute_write" is set in the context. -/
def filterMapOnStoredFields (rc : Nat) (fMap : FieldMap) : M FieldMap := do
  let r ← derefRC rc
  let m ← derefModel r.model
  fMap.foldlM (fun (newFMap : FieldMap) kv => do
    match m.getField kv.1 with
    | some fi =>
      if fi.isStored then
        if fi.inverse ≠ "" then
          let env ← derefEnv r.env
          if !env.GetBool "erp_force_compute_write" then return newFMap
        return FieldMap.insert newFMap fi.json kv.2
      else return newFMap
    | none => return newFMap) []

/-- The part of `doUpdate` under its `defer`: the test for a map holding only the write
date and user, the `UPDATE` statement, and the cache update. -/
def doUpdateBody (x : Ext) (k : Rec) (rc : Nat) (fMap : FieldMap) : M Unit := do
  if fMap.length = 2 then
    let okWD := (fMap.lookup "write_date").isSome
    let okWU := (fMap.lookup "write_uid").isSome
    if okWD && okWU then return ()
  let r ← derefRC rc
  if !r.hasNegIds then
    let q ← derefQuery r.query
    let w ← getW
    let (sql, args) := x.updateQuery w q fMap
    let _ ← derefEnv r.env
    let num ← crExecute x sql args
    if num = 0 then logPanic "Unexpected noop on update (num = 0)"
  let recs ← Records x k rc
  forEach recs (fun rec => do
    forEach fMap (fun kv => do
      let ids ← Ids k rec
      let id ← firstId ids
      cacheUpdateEntry x rc id kv.1 kv.2))

/-- Method `doUpdate`: updates the storage rows of the collection with the map, and the
cache of each record. -/
def doUpdate (x : Ext) (k : Rec) (rc : Nat) (fMap : FieldMap) : M Unit := do
  CheckExecutionPermission x rc "Write"
  if ← IsEmpty k (some rc) then logPanic "Trying to update an empty RecordSet"
  rethrow (substituteSQLErrorMessage x rc) (doUpdateBody x k rc fMap)

/-- Method `Set`: writes a value to a field of every record, through `Write`. -/
def Set (x : Ext) (rc : Nat) (fieldName : FieldName) (value : Value) : M Unit := do
  let md := NewModelData.Set fieldName value
  let _ ← x.call rc "Write" [Dyn.data md]
  return ()

/-- The type assertion `value.([]int64)`. -/
def asIds (v : Value) : M (List Int) :=
  match v with
  | Value.ids l => M.pure l
  | _ => logPanic "interface conversion: not a []int64"

/-- The statement that deletes the link rows of the given records for a many2many
field. -/
def m2mDelete (fi : Field) (ids : List Int) : Stmt :=
  Stmt.execute ("DELETE FROM " ++ fi.m2mRelTable ++ " WHERE " ++ fi.m2mOurField ++ " IN (?)")
    [Value.ids ids]

/-- The statement that inserts one link row for a many2many field. -/
def m2mInsert (fi : Field) (id relId : Int) : Stmt :=
  Stmt.execute ("INSERT INTO " ++ fi.m2mRelTable ++ " (" ++ fi.m2mOurField ++ ", " ++
    fi.m2mTheirField ++ ") VALUES (?, ?)") [Value.int id, Value.int relId]

/-- The body of the loop of the `Many2Many` case of `updateRelationFields` for one record:
the cache links of the record are dropped, one link row is inserted per related id, and
the cache links are set. -/
def m2mRelink (x : Ext) (cache : Nat) (fi : Field) (value : Value) (id : Int) : M Unit := do
  modifyCache cache (fun c => c.removeM2MLinks fi.json id)
  let rel ← asIds value
  forEach rel (fun relId => do
    let _ ← execStmt x (m2mInsert fi id relId)
    return ())
  modifyCache cache (fun c => c.addM2MLink fi.json id rel)

/-- The `Many2Many` case of `updateRelationFields`: one `DELETE` for the link rows of all
records of the collection, then the loop over the records. -/
def updateMany2Many (x : Ext) (rc : Nat) (fi : Field) (value : Value) : M Unit := do
  let r ← derefRC rc
  let env ← derefEnv r.env
  let _ ← execStmt x (m2mDelete fi r.ids)
  forEach r.ids (fun id => m2mRelink x env.cache fi value id)

/-- The `One2Many` case of `updateRelationFields`: the reverse key is cleared on the
records that are no longer children and set on the new children. -/
def updateOne2Many (x : Ext) (k : Rec) (rc : Nat) (fi : Field) (value : Value) :
    M Unit := do
  let r ← derefRC rc
  let m ← derefModel r.model
  let _ ← Len k rc
  let curPool ← x.pool r.env fi.relatedModelName
  let cur ← asCollection (← k.Get rc (m.FieldName fi.name))
  let curRS ← Search curPool (Condition.pred ID.json "in" (Value.rs cur))
  let newPool ← x.pool r.env fi.relatedModelName
  let newIds ← asIds value
  let newRS ← Search newPool (Condition.pred ID.json "in" (Value.ids newIds))
  let toRemove ← x.subtract curRS newRS
  if (← Len k toRemove) > 0 then
    let tm ← derefModel (← derefRC toRemove).model
    Set x toRemove (tm.FieldName fi.reverseFK) Value.null
  let toAdd ← x.subtract newRS curRS
  if (← Len k toAdd) > 0 then
    let am ← derefModel (← derefRC toAdd).model
    let recs ← Records x k rc
    let first ← (match recs with
      | p :: _ => M.pure p
      | [] => logPanic "index out of range")
    Set x toAdd (am.FieldName fi.reverseFK) (Value.rs first)

/-- Method `updateRelationFields`: updates the one2many and many2many fields of the map:
the reverse keys of a one2many field, the link rows of a many2many field. -/
def updateRelationFields (x : Ext) (k : Rec) (rc : Nat) (fMap : FieldMap) : M Unit := do
  let _ ← k.Fetch rc
  forEach fMap (fun kv => do
    let r ← derefRC rc
    let m ← derefModel r.model
    let fi ← liftExcept (x.getRelatedFieldInfo m (m.FieldName kv.1))
    match fi.fieldType with
    | FieldType.One2Many => updateOne2Many x k rc fi kv.2
    | FieldType.Rev2One => return ()
    | FieldType.Many2Many => updateMany2Many x rc fi kv.2
    | _ => return ())

/-! ## Related records -/

/-- Method `relatedFieldMap`: the entries of the map that lie under the path to the
related record of `field`, keyed relative to that record, and the path. -/
def relatedFieldMap (fMap : FieldMap) (field : FieldName) : FieldMap × FieldName :=
  let exprs := splitFieldNames field
  let pfx := joinFieldNames exprs.dropLast
  let res := fMap.foldl (fun (res : FieldMap) kv =>
    let fExprs := splitExpr kv.1
    if (pfx.json ++ ExprSep).toList.isPrefixOf kv.1.toList then
      FieldMap.insert res (joinExpr (fExprs.drop (exprs.length - 1))) kv.2
    else res) []
  (res, pfx)

/-- The cache check of a collection's model on the cache of its environment under a
given slug: `rc.env.cache.checkIfInCache(rc.model, ids, fields, slug, true)`. -/
def checkIfInCacheSlug (x : Ext) (rc : Nat) (ids : List Int) (fields : List String)
    (slug : String) : M Bool := do
  let r ← derefRC rc
  let env ← derefEnv r.env
  let c ← derefCache env.cache
  let m ← derefModel r.model
  return c.checkIfInCache x.cacheCheckNoIds m.name ids fields slug

/-- Method `loadRelatedRecords`: loads the records the given paths lead to when they are
not in the cache, for the default context and for the context of the collection. -/
def loadRelatedRecords (x : Ext) (k : Rec) (rc : Nat) (fields : List FieldName) :
    M Unit := do
  let r ← derefRC rc
  let q ← derefQuery r.query
  let w ← getW
  if x.ctxArgsSlug w q ≠ "" then
    let toLoad ← fields.foldlM (fun (toLoad : List FieldName) field => do
      if (splitFieldNames field).length ≤ 1 then return toLoad
      if !(← checkIfInCacheSlug x rc (← derefRC rc).ids [field.json] "") then
        return toLoad ++ [field]
      return toLoad) []
    if toLoad.length > 0 then
      let d ← x.withContext rc "erp_default_contexts" (Value.bool true)
      let _ ← Load x k d toLoad
  let toLoad ← fields.foldlM (fun (toLoad : List FieldName) field => do
    if (splitFieldNames field).length ≤ 1 then return toLoad
    if !(← checkIfInCache x rc (← derefRC rc).ids [field.json]) then
      return toLoad ++ [field]
    return toLoad) []
  if toLoad.length > 0 then
    let _ ← x.call rc "Load" [Dyn.names toLoad]

/-- Method `updateRelatedFields`: writes the related fields of the map to the records
they live on, creating those records when they do not exist. -/
def updateRelatedFields (x : Ext) (k : Rec) (rc : Nat) (fMap : FieldMap) : M Unit := do
  let _ ← k.Fetch rc
  let fMap ← x.substituteRelatedFieldsInMap rc fMap
  let r ← derefRC rc
  let m ← derefModel r.model
  let fields := fMap.keys.map m.FieldName
  let fields ← x.addIntermediatePaths rc fields
  loadRelatedRecords x k rc fields
  let fields := x.sortFieldNames fields
  let recs ← Records x k rc
  let updateMap ← recs.foldlM (fun (updateMap : List ((String × Int) × FieldMap)) rec => do
    let res ← fields.foldlM
      (fun (acc : List String × List ((String × Int) × FieldMap)) path => do
        let (vals, pfx) := relatedFieldMap fMap path
        if pfx.json ∈ acc.1 then return acc
        let rv ← derefRC rec
        let renv ← derefEnv rv.env
        let c ← derefCache renv.cache
        let rm ← derefModel rv.model
        let rid ← firstId rv.ids
        let q ← derefQuery (← derefRC rc).query
        let w ← getW
        match x.getStrictRelatedRef c rm rid path.json (x.ctxArgsSlug w q) with
        | Except.error _ =>
          let fp ← liftExcept (x.getRelatedFieldInfo rm pfx)
          let p ← x.pool rv.env fp.relatedModelName
          let _ := p
          let nr ← x.createRelatedRecord rec pfx (ModelData.mk vals [])
          let nrIds ← Ids k nr
          let nrId ← firstId nrIds
          let q ← derefQuery (← derefRC rc).query
          let w ← getW
          modifyCache renv.cache (fun c =>
            x.setX2MValue c rm.name rid pfx.json nrId (x.ctxArgsSlug w q))
          return (acc.1 ++ [pfx.json], acc.2)
        | Except.ok ref =>
          if vals.length = 0 then return acc
          return (acc.1, (acc.2.filter (fun e => e.1 != ref)) ++ [(ref, vals)]))
      ([], updateMap)
    return res.2) []
  loadRelatedRecords x k rc fields
  let recs ← Records x k rc
  forEach recs (fun rec => do
    forEach fields (fun path => do
      let rv ← derefRC rec
      let renv ← derefEnv rv.env
      let c ← derefCache renv.cache
      let rm ← derefModel rv.model
      let rid ← firstId rv.ids
      match x.getStrictRelatedRef c rm rid path.json "" with
      | Except.ok _ => return ()
      | Except.error _ =>
        let fi ← liftExcept (x.getRelatedFieldInfo rm path)
        if !fi.ctxValue then return ()
        let (vals, pfx) := relatedFieldMap fMap path
        let field := (path.json.drop (pfx.json ++ ExprSep).length)
        let field := if (pfx.json ++ ExprSep).isPrefixOf path.json then field else path.json
        let defVals : FieldMap :=
          FieldMap.insert [("record_id", FieldMap.val vals "record_id")] field
            (FieldMap.val vals field)
        let r0 ← derefRC rc
        let m0 ← derefModel r0.model
        let fp ← liftExcept (x.getRelatedFieldInfo m0 pfx)
        let p ← x.pool r0.env fp.relatedModelName
        let _ := p
        let nr ← x.createRelatedRecord rc pfx (ModelData.mk defVals [])
        let env0 ← derefEnv r0.env
        let nrIds ← Ids k nr
        let nrId ← firstId nrIds
        let rcId ← firstId (← derefRC rc).ids
        modifyCache env0.cache (fun c => x.setX2MValue c m0.name rcId pfx.json nrId "")))
  forEach updateMap (fun e => do
    let r0 ← derefRC rc
    let p ← x.pool r0.env e.1.1
    let rs ← withIds x p [e.1.2]
    let _ ← x.call rs "Write" [Dyn.data (ModelData.mk e.2 [])]
    return ())

/-! ## create and update -/

/-- Method `createReverseRelationRecords`: creates the records asked for by the create
directives of the reverse relation fields. -/
def createReverseRelationRecords (x : Ext) (rc : Nat) (data : ModelData) : M Unit :=
  forEach data.ToCreate (fun fd => do
    let r ← derefRC rc
    let m ← derefModel r.model
    let fName := m.FieldName fd.1
    let fi ← liftExcept (x.getRelatedFieldInfo m fName)
    if !fi.fieldType.IsReverseRelationType then return ()
    forEach fd.2 (fun d => do
      let _ ← x.createRelatedRecord rc fName d
      return ()))

/-- Method `createFKRelationRecords`: creates the records asked for by the create
directives of the foreign key and many2many fields and sets the fields to them. -/
def createFKRelationRecords (x : Ext) (rc : Nat) (data : ModelData) : M ModelData :=
  data.ToCreate.foldlM (fun (res : ModelData) fd => do
    let r ← derefRC rc
    let m ← derefModel r.model
    let fName := m.FieldName fd.1
    let fi ← liftExcept (x.getRelatedFieldInfo m fName)
    if !fi.fieldType.IsFKRelationType ∧ fi.fieldType ≠ FieldType.Many2Many then return res
    let relRS ← x.pool r.env fi.relatedModelName
    let relRS ← fd.2.foldlM (fun (relRS : Nat) d => do
      let created ← x.createRelatedFKRecord rc fi d
      if fi.fieldType = FieldType.Many2Many then x.union relRS (some created)
      else return created) relRS
    let res := res.Set fName (Value.rs relRS)
    return ModelData.mk res.FieldMap (res.ToCreate.filter (fun e => e.1 != fd.1))) data

/-- Method `applyDefaults`: the defaults given by `DefaultGet`, overridden by the values
the data sets. -/
def applyDefaults (x : Ext) (rc : Nat) (md : ModelData) (create : Bool) : M ModelData := do
  let c ← x.withContext rc "erp_ignore_computed_defaults" (Value.bool create)
  let d ← x.call c "DefaultGet" []
  let defaults ← (match d with
    | Dyn.data defaults => M.pure defaults
    | _ => logPanic "interface conversion: not a RecordData")
  return defaults.MergeWith md

/-- The first part of `create` (to the line "clean our fMap from ID and non stored
fields"): permission check, create directives of the foreign keys, defaults, contexts,
creation stamps, conversion. Gives the field map, the stored field map and the data. The
stored fields are taken from the field map in the order in which the run ranges over it:
the stamps are written under the keys "CreateDate" and "CreateUID", next to the keys of
the data, and the entry that is ranged over last is the one stored. -/
def createPrepare (x : Ext) (rc : Nat) (data0 : ModelData) :
    M (FieldMap × FieldMap × ModelData) := do
  CheckExecutionPermission x rc "Create"
  let data ← createFKRelationRecords x rc data0
  let newData ← applyDefaults x rc data true
  let fMap := newData.FieldMap
  let _ ← applyContexts rc
  let fMap ← addAccessFieldsCreateData x rc fMap
  let fMap ← addEmbeddedfields rc fMap
  let m ← derefModel (← derefRC rc).model
  let fMap ← x.convertValuesToFieldType m fMap true
  let fMap ← addContextsFieldsValues x rc fMap
  let fMap := fMap.RemovePKIfZero
  let storedFieldMap ← filterMapOnStoredFields rc (x.rangeOrder fMap)
  return (fMap, storedFieldMap, data)

/-- The second part of `create` ("insert in DB"): the `INSERT` statement, the cache update
with the new row, and the collection of the created id. -/
def createStore (x : Ext) (rc : Nat) (storedFieldMap : FieldMap) : M Nat := do
  let r ← derefRC rc
  let q ← derefQuery r.query
  let w ← getW
  let (sql, args) := x.insertQuery w q storedFieldMap
  let env ← derefEnv r.env
  let createdId ← crGet x sql args
  let m ← derefModel r.model
  let q ← derefQuery r.query
  let w ← getW
  modifyCache env.cache (fun c =>
    c.addRecord m.name createdId storedFieldMap (x.ctxArgsSlug w q))
  withIds x rc [createdId]

/-- The third part of `create`: relation fields, related fields, reverse relation
directives, inverse methods and triggers, in this order. -/
def createSync (x : Ext) (k : Rec) (rSet : Nat) (fMap : FieldMap) (data : ModelData) :
    M Unit := do
  updateRelationFields x k rSet fMap
  updateRelatedFields x k rSet fMap
  createReverseRelationRecords x rSet data
  x.processInverseMethods rSet data
  let rm ← derefModel (← derefRC rSet).model
  x.processTriggers rSet (fMap.FieldNames rm)

/-- Method `create`: inserts a new record with the given data and returns its collection:
the three parts above, then the constraint check. -/
def create (x : Ext) (k : Rec) (rc : Nat) (data : ModelData) : M Nat :=
  rethrow (substituteSQLErrorMessage x rc) (do
    let (fMap, storedFieldMap, data) ← createPrepare x rc data
    let rSet ← createStore x rc storedFieldMap
    createSync x k rSet fMap data
    let rm ← derefModel (← derefRC rSet).model
    CheckConstraints x k rSet (data.FieldMap.FieldNames rm)
    return rSet)

/-- Method `update`: writes the given data to the records of the collection. -/
def update (x : Ext) (k : Rec) (rc : Nat) (data : ModelData) : M Bool := do
  let r ← derefRC rc
  if !r.hasNegIds then
    let loaded ← ForceLoad x k rc [ID]
    if ← IsEmpty k (some loaded) then return true
  let env ← Env rc
  let rSet ← x.addRecordRuleConditions rc env.uid "write"
  let data ← createFKRelationRecords x rc data
  let fMap := data.FieldMap
  let fMap ← addAccessFieldsUpdateData x rSet fMap
  let _ ← applyContexts rSet
  let fMap ← addContextsFieldsValues x rSet fMap
  x.processInverseMethods rSet data
  let rm ← derefModel (← derefRC rSet).model
  let fMap ← x.convertValuesToFieldType rm fMap true
  let fMap := fMap.RemovePK
  let storedFieldMap ← filterMapOnStoredFields rSet (x.rangeOrder fMap)
  doUpdate x k rSet storedFieldMap
  let _ ← Fetch x k rSet
  updateRelationFields x k rSet fMap
  updateRelatedFields x k rSet fMap
  createReverseRelationRecords x rSet data
  let rm ← derefModel (← derefRC rSet).model
  x.processTriggers rSet (fMap.FieldNames rm)
  CheckConstraints x k rSet (data.FieldMap.FieldNames rm)
  return true

/-! ## new, unlink, getDefaults -/

/-- Method `InvalidateCache`: drops the cache entries of every record of the collection,
then loads the collection again. -/
def InvalidateCache (x : Ext) (k : Rec) (rc : Nat) : M Unit := do
  let recs ← Records x k rc
  forEach recs (fun rec => do
    let r ← derefRC rc
    let env ← derefEnv r.env
    let rv ← derefRC rec
    let id ← firstId rv.ids
    let m ← derefModel r.model
    modifyCache env.cache (fun c => c.invalidateRecord m.name id))
  let _ ← Load x k rc []
  return ()

/-- An integer as an `int64` holds it: reduced modulo `2^64` into the range from `-2^63`
to `2^63 - 1`. -/
def wrapInt64 (i : Int) : Int :=
  (i + 9223372036854775808) % 18446744073709551616 - 9223372036854775808

/-- The part of `new` after `InvalidateCache`: the counter of the environment the receiver
points at is decremented and gives the id; the data, with this id, goes to the cache; the
receiver, set to the id by `withIds`, is returned. The counter is an `int64`: the
decrement `nextNegativeID--` wraps around at the least value. -/
def newRecord (x : Ext) (rc : Nat) (data : ModelData) : M Nat := do
  let r ← derefRC rc
  modifyEnv r.env (fun e => { e with nextNegativeID := wrapInt64 (e.nextNegativeID - 1) })
  let env ← derefEnv r.env
  let id := env.nextNegativeID
  let fMap := FieldMap.insert data.FieldMap "id" (Value.int id)
  let m ← derefModel r.model
  let fMap ← x.convertValuesToFieldType m fMap false
  let rSet ← withIds x rc [id]
  let r ← derefRC rc
  let env ← derefEnv r.env
  let m ← derefModel r.model
  let q ← derefQuery (← derefRC rSet).query
  let w ← getW
  modifyCache env.cache (fun c => c.addRecord m.name id fMap (x.ctxArgsSlug w q))
  return rSet

/-- Method `new`: a record that is valid only in memory, identified by a negative id. -/
def new (x : Ext) (k : Rec) (rc : Nat) (data : ModelData) : M Nat := do
  InvalidateCache x k rc
  newRecord x rc data

/-- The part of `unlink` between the two recomputation calls: the `DELETE` statement
(not sent for a collection with negative ids; `num` stays 0) and the invalidation of the
cache for every id. -/
def unlinkStore (x : Ext) (rc rSet : Nat) (ids : List Int) : M Int := do
  let rs ← derefRC rSet
  let num ←
    if !rs.hasNegIds then (do
      let q ← derefQuery rs.query
      let w ← getW
      let (sql, args) := x.deleteQuery w q
      let _ ← derefEnv rs.env
      crExecute x sql args)
    else M.pure 0
  forEach ids (fun id => do
    let r ← derefRC rc
    let env ← derefEnv r.env
    let m ← derefModel r.model
    modifyCache env.cache (fun c => c.invalidateRecord m.name id))
  return num

/-- The part of `unlink` after the emptiness test: the data for the recomputation is
retrieved, the rows are deleted and the cache invalidated, and the stored fields that
referenced the collection are recomputed. -/
def unlinkBody (x : Ext) (rc rSet : Nat) (ids : List Int) : M Int := do
  let m ← derefModel (← derefRC rc).model
  let compData ← x.retrieveComputeData rc m.allFieldNames
  let num ← unlinkStore x rc rSet ids
  x.updateStoredFields rc compData
  return num

/-- Method `unlink`: deletes the storage rows of the collection and returns the number of
deleted rows. -/
def unlink (x : Ext) (k : Rec) (rc : Nat) : M Int := do
  CheckExecutionPermission x rc "Unlink"
  let env ← Env rc
  let rSet ← x.addRecordRuleConditions rc env.uid "unlink"
  let ids ← Ids k rSet
  if ← IsEmpty k (some rSet) then return 0
  unlinkBody x rc rSet ids

/-- The first step of `getDefaults`: the map of the default values given by the context,
one for each entry `default_<field>` whose `<field>` is a field of the model
(`strings.HasPrefix` and `strings.TrimPrefix` on the characters of the key). -/
def ctxDefaults (m : Model) (context : List (String × Value)) : FieldMap :=
  context.foldl (fun (acc : FieldMap) kv =>
    if !("default_".toList.isPrefixOf kv.1.toList) then acc
    else if (m.getField (String.mk (kv.1.toList.drop "default_".length))).isNone then acc
    else FieldMap.insert acc (String.mk (kv.1.toList.drop "default_".length)) kv.2) []

/-- Method `getDefaults`: the default values for a new record, from the context and the
default functions of the fields. With `create` set, computed fields and related fields
that are not contexted get no default. -/
def getDefaults (x : Ext) (rc : Nat) (create : Bool) : M ModelData := do
  let r ← derefRC rc
  let env ← derefEnv r.env
  let m ← derefModel r.model
  let defaults := ctxDefaults m env.context
  let name ← ModelName rc
  let mi ← registryMustGet x name
  mi.fields.foldlM (fun (md : ModelData) fi => do
    if !fi.isSettable then return md
    if create && (fi.isComputedField || (fi.isRelatedField && !fi.isContextedField)) then
      return md
    let fName := m.FieldName fi.name
    match defaults.lookup fi.json with
    | some val => return md.Set fName val
    | none =>
      if !fi.defaultFunc then return md
      let e ← Env rc
      let v ← x.defaultFunc fi e
      return md.Set fName v) NewModelData

/-- The world with the cache at an address replaced. -/
def World.withCache (w : World) (p : Nat) (c : Cache) : World :=
  { w with caches := w.caches.set p c }

/-- The world after the driver has received further statements. -/
def World.sent (w : World) (l : List Stmt) : World :=
  { w with db := w.db ++ l }

/-- A step leaves a component `g` of the world as it was, whatever its outcome. -/
def M.keeps {α β : Type} (g : World → β) (m : M α) : Prop :=
  ∀ w, g (m w).w = g w

/-- A step sends no statement to storage, whatever its outcome. -/
def M.silent {α : Type} (m : M α) : Prop :=
  ∀ w, (m w).ev = []

/-! ## Concrete worlds used to run the definitions -/

/-- A model `Partner` with a name (checked by the constraint method `checkName`), an age,
the creation and write stamps and tags. -/
def partnerModel : Model where
  name := "Partner"
  tableName := "partner"
  fields := [{ name := "ID", json := "id" },
    { name := "Name", json := "name", constraint := "checkName" },
    { name := "Age", json := "age", fieldType := FieldType.Integer },
    { name := "CreateDate", json := "create_date" },
    { name := "CreateUID", json := "create_uid", fieldType := FieldType.Integer },
    { name := "WriteDate", json := "write_date" },
    { name := "WriteUID", json := "write_uid", fieldType := FieldType.Integer },
    { name := "Tags", json := "tags", fieldType := FieldType.Many2Many, isStored := false,
      isRelationField := true, relatedModelName := "Tag", m2mRelTable := "partner_tag_rel",
      m2mOurField := "partner_id", m2mTheirField := "tag_id", zero := Value.ids [] }]
  methods := ["Load", "Write", "Create", "Unlink"]

/-- Collaborators of a plain installation: no context slug, a query is empty when it has
no condition, every method may be run, `DefaultGet` gives the default age 18, other
methods called by name do nothing, the record rules add no condition, nothing is
substituted, the order and group expressions of a query are its orders and groups, and
the storage accepts every statement (a new row gets the id 1). -/
def extPlain : Ext where
  ctxArgsSlug := fun _ _ => ""
  isEmpty := fun q => q.cond == Condition.empty
  ordersFromStrings := fun _ es => es.map (fun e => ⟨⟨e, e⟩, false⟩)
  checkExecutionPermission := fun _ _ _ => none
  registry := [partnerModel]
  cacheCheckNoIds := false
  getRelatedFieldInfo := fun m f =>
    match m.getField f.json with
    | some fi => Except.ok fi
    | none => Except.error "unknown field"
  sortFieldNames := fun l => l
  rangeOrder := fun m => m
  filterOnDBFields := fun _ l => l
  selectQuery := fun _ _ _ => ("SELECT", [])
  insertQuery := fun _ _ m => ("INSERT", m.map Prod.snd)
  updateQuery := fun _ _ m => ("UPDATE", m.map Prod.snd)
  deleteQuery := fun _ _ => ("DELETE", [])
  queryRows := fun _ _ => Except.ok []
  selectIds := fun _ _ => Except.ok []
  getId := fun _ _ => Except.ok 1
  rowsAffected := fun _ _ => Except.ok 1
  call := fun _ method _ =>
    if method == "DefaultGet" then M.pure (Dyn.data (ModelData.mk [("age", Value.int 18)] []))
    else M.pure (Dyn.val Value.null)
  pool := fun _ _ => logPanic "no pool"
  union := fun rc _ => M.pure rc
  intersect := fun rc _ => M.pure rc
  subtract := fun rc _ => M.pure rc
  withEnv := fun rc _ => M.pure rc
  withContext := fun rc _ _ => M.pure rc
  sortedDefault := fun rc => M.pure rc
  addRecordRuleConditions := fun rc _ _ => M.pure rc
  addNameSearchesToCondition := fun _ => M.pure ()
  substituteRelatedFields := fun _ l => M.pure l
  substituteRelatedInQuery := fun rc => M.pure rc
  substituteRelatedInPath := fun _ f => M.pure f
  computeFieldValues := fun _ _ => M.pure Value.null
  now := Value.str "2026-01-01 00:00:00"
  isError := fun _ => false
  substituteErrorMessage := fun r _ => r
  convertValuesToFieldType := fun _ m _ => M.pure m
  createRelatedFKRecord := fun rc _ _ => M.pure rc
  createRelatedRecord := fun rc _ _ => M.pure rc
  processInverseMethods := fun _ _ => M.pure ()
  processTriggers := fun _ _ => M.pure ()
  ctxFunc := fun _ _ _ => M.pure Value.null
  substituteRelatedFieldsInMap := fun _ m => M.pure m
  addIntermediatePaths := fun _ l => M.pure l
  getStrictRelatedRef := fun _ m id _ _ => Except.ok (m.name, id)
  setX2MValue := fun c _ _ _ _ _ => c
  retrieveComputeData := fun _ _ => M.pure Value.null
  updateStoredFields := fun _ _ => M.pure ()
  defaultFunc := fun _ _ => M.pure Value.null
  relatedSubstMap := fun _ _ _ => []
  filterOnDBFieldsNoID := fun _ l => l
  selectGroupQuery := fun _ _ _ _ => ("SELECT GROUP", [])
  substituteKeys := fun m _ => m
  getGroupCondition := fun _ _ c => c
  getOrderByExpressions := fun q => q.orders.map (fun o => splitFieldNames o.field)
  getCtxOrderByExpressions := fun q => q.ctxOrders.map (fun o => splitFieldNames o.field)
  getGroupByExpressions := fun q => q.groups.map splitFieldNames

/-- A world with one `Partner` collection at address 0, holding the in-memory record `-1`
(as left by `new`). -/
def memoryWorld : World where
  rcs := [{ model := some partnerModel, query := some 0, env := some 0, ids := [-1],
            fetched := true, hasNegIds := true }]
  queries := [{ recordSet := 0, cond := Condition.pred "id" "in" (Value.ids [-1]) }]
  envs := [{ uid := 1, nextNegativeID := -1, cache := 0 }]
  caches := [{ data := [(⟨"Partner", -1, "id", ""⟩, Value.int (-1))] }]

/-- A world with a new `Partner` collection at address 0, as `env.Pool("Partner")` gives
it: no id, not fetched, a query without condition. -/
def poolWorld : World where
  rcs := [{ model := some partnerModel, query := some 0, env := some 0 }]
  queries := [{ recordSet := 0 }]
  envs := [{ uid := 1, cache := 0 }]
  caches := [{}]

/-- The world `poolWorld` after the collection has been fetched without result (as
`withIds` with no id leaves it): no id, the fetched flag set. -/
def fetchedPoolWorld : World where
  rcs := [{ model := some partnerModel, query := some 0, env := some 0, fetched := true }]
  queries := [{ recordSet := 0 }]
  envs := [{ uid := 1, cache := 0 }]
  caches := [{}]

/-- A world with the `Partner` collection of the stored record 5 at address 0, whose id and
name are in the cache. -/
def storedWorld : World where
  rcs := [{ model := some partnerModel, query := some 0, env := some 0, ids := [5],
            fetched := true }]
  queries := [{ recordSet := 0, cond := Condition.pred "id" "in" (Value.ids [5]) }]
  envs := [{ uid := 1, cache := 0 }]
  caches := [{ data := [(⟨"Partner", 5, "id", ""⟩, Value.int 5),
                        (⟨"Partner", 5, "name", ""⟩, Value.str "Ada")] }]

/-- The plain collaborators with a storage that answers every query with the row of
record 5, aged 36. -/
def extDb : Ext :=
  { extPlain with
    queryRows := fun _ _ => Except.ok [Except.ok [("id", Value.int 5), ("age", Value.int 36)]] }

/-- The plain collaborators with a constraint method `checkName` that fails. -/
def extStrict : Ext :=
  { extPlain with
    call := fun rc method args =>
      if method == "checkName" then logPanic "ValidationError: the name is required"
      else extPlain.call rc method args }

/-- The many2many field `Tags` of `partnerModel`. -/
def tagsField : Field :=
  { name := "Tags", json := "tags", fieldType := FieldType.Many2Many, isStored := false,
    isRelationField := true, relatedModelName := "Tag", m2mRelTable := "partner_tag_rel",
    m2mOurField := "partner_id", m2mTheirField := "tag_id", zero := Value.ids [] }

/-- The world `storedWorld` in which record 5 is linked to the tags 1, 2 and 3. -/
def linkedWorld : World :=
  { storedWorld with
    caches := [{ data := [(⟨"Partner", 5, "id", ""⟩, Value.int 5),
                          (⟨"Partner", 5, "name", ""⟩, Value.str "Ada")],
                 m2mLinks := [(("tags", 5), [1, 2, 3])] }] }

/-- Data of a create that violates the constraint of the name and sets a tag. -/
def failingData : ModelData :=
  ModelData.mk [("name", Value.str ""), ("tags", Value.ids [2])] []

/-- The run of the first part of `create` on `failingData` in `poolWorld`. -/
def failingPrepare : Res (FieldMap × FieldMap × ModelData) :=
  createPrepare extStrict 0 failingData poolWorld

/-- The maps and data the first part gives. -/
def failingMaps : FieldMap × FieldMap × ModelData :=
  match failingPrepare.out with
  | Except.ok v => v
  | Except.error _ => default

/-- The run of the second part of `create` after `failingPrepare`. -/
def failingStore : Res Nat :=
  createStore extStrict 0 failingMaps.2.1 failingPrepare.w

/-- The run of the third part of `create` after `failingStore`. -/
def failingSync : Res Unit :=
  createSync extStrict (knot extStrict 2) 0 failingMaps.1 failingMaps.2.2 failingStore.w

/-- The run of the constraint check after `failingSync`. -/
def failingCheck : Res Unit :=
  CheckConstraints extStrict (knot extStrict 2) 0
    (failingMaps.2.2.FieldMap.FieldNames partnerModel) failingSync.w

/-- Data of a create that sets the name only. -/
def adaData : ModelData :=
  ModelData.mk [("name", Value.str "Ada")] []

/-- Data of a create that sets the name and the creation user. -/
def stampData : ModelData :=
  ModelData.mk [("name", Value.str "Ada"), ("create_uid", Value.int 42)] []

/-- The specification's words for the map that create and update send to storage: the
entry of the input for a key is kept, under the storage name of the field, when the key
names a field of the model that is stored and that has no inverse method (or when the
context flag `force` is set); every other entry is dropped. -/
def storedEntry (m : Model) (force : Bool) (kv : String × Value) : Option (String × Value) :=
  match m.getField kv.1 with
  | some fi => if fi.isStored = true ∧ (fi.inverse = "" ∨ force = true) then some (fi.json, kv.2)
    else none
  | none => none

/-- The specification's words for the whole map sent to storage: the kept entries of the
input, written one after the other to a new map. -/
def storedEntries (m : Model) (force : Bool) (fMap : FieldMap) : FieldMap :=
  fMap.foldl (fun acc kv =>
    match storedEntry m force kv with
    | some jv => FieldMap.insert acc jv.1 jv.2
    | none => acc) []

/-- The world with the collection at an address replaced. -/
def World.withRC (w : World) (p : Nat) (r : RecordCollection) : World :=
  { w with rcs := w.rcs.set p r }

/-- The world with the query at an address replaced. -/
def World.withQuery (w : World) (p : Nat) (q : Query) : World :=
  { w with queries := w.queries.set p q }

/-- The collection `withIds` leaves at the receiver's address. -/
def withIdsRC (r : RecordCollection) (ids : List Int) : RecordCollection :=
  { r with ids := survivors [] ids, fetched := true, filtered := false,
           hasNegIds := if survivors [] ids = [] then r.hasNegIds
             else ids.any (fun i => decide (i < 0)) }

/-- The query `withIds` leaves at the address of the receiver's query. -/
def withIdsQuery (q : Query) (ids : List Int) : Query :=
  if survivors [] ids = [] then q
  else { q with cond := Condition.pred ID.json "in" (Value.ids (survivors [] ids)),
                fetchAll := false, limit := 0, offset := 0 }

/-- The world with one more collection, one more query and one more environment. -/
def World.grown (w : World) (rv : RecordCollection) (qv : Query) (e : Environment) : World :=
  { w with rcs := w.rcs ++ [rv], queries := w.queries ++ [qv], envs := w.envs ++ [e] }

/-- World `w2` keeps every collection, query and environment of `w` at its address (it may
have more), has the same storage journal, and has the same caches except at `cp`. -/
def World.grows (w w2 : World) (cp : Nat) : Prop :=
  (∀ (p : Nat) v, w.rcs[p]? = some v → w2.rcs[p]? = some v) ∧
  (∀ (p : Nat) v, w.queries[p]? = some v → w2.queries[p]? = some v) ∧
  (∀ (p : Nat) v, w.envs[p]? = some v → w2.envs[p]? = some v) ∧
  w2.db = w.db ∧ w2.caches.length = w.caches.length ∧
  ∀ p : Nat, p ≠ cp → w2.caches[p]? = w.caches[p]?

/-- The singleton collection that `Records` builds for an id: a new collection of the
model with its own query (at `qa`) and its own copy of the environment (at `ea`), set to
the id by `withIds`, with the parent `rc` as prefetch collection. -/
def recordOf (mi : Model) (qa ea rc : Nat) (id : Int) : RecordCollection :=
  { withIdsRC { model := some mi, query := some qa, env := some ea, ids := [] } [id] with
    prefetchRC := some rc }

/-- The first loop of `CheckConstraints` as a function: the constraint method of a field
is added to the methods collected so far when the field has one and it is not yet among
them (the Go map `methods`). -/
def collectConstraint (m : Model) (methods : List String) (f : FieldName) : List String :=
  match m.getField f.json with
  | some fi => if fi.constraint ≠ "" ∧ fi.constraint ∉ methods then methods ++ [fi.constraint]
    else methods
  | none => methods

/-- A model `Team` whose name and code share the constraint method `checkName`, whose
size has the constraint method `checkSize` and whose note has none. -/
def teamModel : Model where
  name := "Team"
  tableName := "team"
  fields := [{ name := "ID", json := "id" },
    { name := "Name", json := "name", constraint := "checkName" },
    { name := "Code", json := "code", constraint := "checkName" },
    { name := "Size", json := "size", fieldType := FieldType.Integer,
      constraint := "checkSize" },
    { name := "Note", json := "note" }]
  methods := ["Load", "Write", "Create", "Unlink"]

/-- The plain collaborators with the model `Team` and with methods that leave a trace: a
method called by name on a collection sends the statement `CALL` of its name with the ids
of the collection, and does nothing else. -/
def extTrace : Ext :=
  { extPlain with
    registry := [partnerModel, teamModel]
    call := fun rc method _ => do
      let r ← derefRC rc
      emit (Stmt.execute ("CALL " ++ method) [Value.ids r.ids])
      return Dyn.val Value.null }

/-- A world with the `Team` collection of the stored records 1 and 2 at address 0. -/
def teamWorld : World where
  rcs := [{ model := some teamModel, query := some 0, env := some 0, ids := [1, 2],
            fetched := true }]
  queries := [{ recordSet := 0, cond := Condition.pred "id" "in" (Value.ids [1, 2]) }]
  envs := [{ uid := 1, cache := 0 }]
  caches := [{}]

/-- The world with the environment at an address replaced. -/
def World.withEnvAt (w : World) (p : Nat) (e : Environment) : World :=
  { w with envs := w.envs.set p e }

/-- A world with two new `Partner` collections, at the addresses 0 and 1, that point at
the same environment object: each has its own query (without condition), no id, and is
not fetched. -/
def pairWorld : World where
  rcs := [{ model := some partnerModel, query := some 0, env := some 0 },
          { model := some partnerModel, query := some 1, env := some 0 }]
  queries := [{ recordSet := 0 }, { recordSet := 1 }]
  envs := [{ uid := 1, cache := 0 }]
  caches := [{}]

/-- Two collections made by `newRecordCollection` from the environment `Env()` of the
collection at address 0, then `new` on each of them; gives the addresses and the ids of
the two collections. -/
def newOnEnvCopies (x : Ext) (data1 data2 : ModelData) : M ((Nat × List Int) × (Nat × List Int)) := do
  let e ← Env 0
  let a ← newRecordCollection x e "Partner"
  let b ← newRecordCollection x e "Partner"
  let ra ← new x (knot x 2) a data1
  let rb ← new x (knot x 2) b data2
  let va ← derefRC ra
  let vb ← derefRC rb
  return ((ra, va.ids), (rb, vb.ids))

/-- The cache after the entries of the records `ids` of a model have been dropped, one
record after the other. -/
def invalidated (c : Cache) (model : String) (ids : List Int) : Cache :=
  ids.foldl (fun c id => c.invalidateRecord model id) c

/-- The cache after the entries of a field map have been written for each of the records
`ids` of a model under a context slug, one record after the other. -/
def writtenCache (c : Cache) (model slug : String) (ids : List Int) (fMap : FieldMap) : Cache :=
  ids.foldl (fun c id => fMap.foldl (fun c kv => c.updateEntry model id kv.1 kv.2 slug) c) c

/-- A model `Tag` with a name. -/
def tagModel : Model where
  name := "Tag"
  tableName := "tag"
  fields := [{ name := "ID", json := "id" }, { name := "Name", json := "name" }]
  methods := ["Load", "Write", "Create", "Unlink"]

/-- The plain collaborators with the model `Tag` in the registry. -/
def extTags : Ext :=
  { extPlain with registry := [partnerModel, tagModel] }

/-- A model `Child` with a name and the key `Parent` of its parent. -/
def childModel : Model where
  name := "Child"
  tableName := "child"
  fields := [{ name := "ID", json := "id" }, { name := "Name", json := "name" },
    { name := "Parent", json := "parent_id", fieldType := FieldType.Many2One,
      isRelationField := true, relatedModelName := "Parent" }]
  methods := ["Load", "Write", "Create", "Unlink"]

/-- The one2many field `Children` of `parentModel`, with the reverse key `Parent`. -/
def childrenField : Field :=
  { name := "Children", json := "children", fieldType := FieldType.One2Many,
    isStored := false, isRelationField := true, relatedModelName := "Child",
    reverseFK := "Parent", zero := Value.ids [] }

/-- A model `Parent` with a name and its children. -/
def parentModel : Model where
  name := "Parent"
  tableName := "parent"
  fields := [{ name := "ID", json := "id" }, { name := "Name", json := "name" },
    childrenField]
  methods := ["Load", "Write", "Create", "Unlink"]

/-- The ids a search condition on the id asks for, in a world: those of a list, or those
held by a collection. -/
def askedIds (w : World) : Condition → List Int
  | Condition.pred _ _ (Value.ids l) => l
  | Condition.pred _ _ (Value.rs p) => ((w.rcs[p]?).map (fun r => r.ids)).getD []
  | Condition.and a b => askedIds w a ++ askedIds w b
  | _ => []

/-- The plain collaborators with the models `Parent` and `Child` in the registry. -/
def extKin : Ext :=
  { extPlain with registry := [parentModel, childModel] }

/-- Collaborators of an installation with the models `Parent` and `Child` in which every
record asked for exists: `Pool` gives a new collection of the model in the environment,
`Subtract` gives a fetched collection holding the ids the first search asks for and the
second does not, and a method called by name leaves a trace, the statement `CALL` of its
name with the ids of the collection and the fields and values of its data. -/
def extFamily : Ext :=
  { extKin with
    pool := fun env name => do
      let e ← derefEnv env
      newRecordCollection extKin e name
    subtract := fun a b => do
      let ra ← derefRC a
      let rb ← derefRC b
      let qa ← derefQuery ra.query
      let qb ← derefQuery rb.query
      let w ← getW
      let res ← allocRC ra
      modifyRC res (fun v => { v with
        ids := (askedIds w qa.cond).filter (fun i => !(askedIds w qb.cond).contains i),
        fetched := true })
      return res
    call := fun rc method args => do
      let r ← derefRC rc
      let shown := match args with
        | [Dyn.data md] => md.FieldMap.foldr (fun kv l => Value.str kv.1 :: kv.2 :: l) []
        | _ => []
      emit (Stmt.execute ("CALL " ++ method) (Value.ids r.ids :: shown))
      return Dyn.val Value.null }

/-- A world with the `Parent` collection of the stored record 7 at address 0, whose
children 1, 2 and 3 are in the cache. -/
def familyWorld : World where
  rcs := [{ model := some parentModel, query := some 0, env := some 0, ids := [7],
            fetched := true }]
  queries := [{ recordSet := 0, cond := Condition.pred "id" "in" (Value.ids [7]) }]
  envs := [{ uid := 1, cache := 0 }]
  caches := [{ data := [(⟨"Parent", 7, "id", ""⟩, Value.int 7),
                        (⟨"Parent", 7, "children", ""⟩, Value.ids [1, 2, 3])] }]

/-- The body of the loop of `getDefaults` as a function, for default functions that give
the values `dv`: the data after one field. -/
def getDefaultsStep (m : Model) (defaults : FieldMap) (create : Bool) (dv : Field → Value)
    (md : ModelData) (fi : Field) : ModelData :=
  if !fi.isSettable then md
  else if create && (fi.isComputedField || (fi.isRelatedField && !fi.isContextedField)) then md
  else
    match defaults.lookup fi.json with
    | some val => md.Set (m.FieldName fi.name) val
    | none => if !fi.defaultFunc then md else md.Set (m.FieldName fi.name) (dv fi)

/-- The default of a field in the words of the specification: only a settable field has
one; with `create` set a computed field has none, nor has a related field that is not
contexted; the context entry `default_<field>` is taken in preference to the default
function of the field, whose value is `dv`. -/
def specDefault (context : List (String × Value)) (create : Bool) (dv : Field → Value)
    (fi : Field) : Option Value :=
  if fi.isSettable = false then none
  else if create = true ∧ (fi.isComputedField = true ∨
      (fi.isRelatedField = true ∧ fi.isContextedField = false)) then none
  else (List.lookup ("default_" ++ fi.json) context).or
    (if fi.defaultFunc = true then some (dv fi) else none)

/-- A model `Member` with a name and an age that have a default function, a computed
score that has one too, and a note without default; the id is not settable. -/
def memberModel : Model where
  name := "Member"
  tableName := "member"
  fields := [{ name := "ID", json := "id", isSettable := false },
    { name := "Name", json := "name", defaultFunc := true },
    { name := "Age", json := "age", fieldType := FieldType.Integer, defaultFunc := true },
    { name := "Score", json := "score", fieldType := FieldType.Integer,
      isComputedField := true, defaultFunc := true },
    { name := "Note", json := "note" }]
  methods := ["Load", "Write", "Create", "Unlink"]

/-- The value the default function of a field of `Member` gives. -/
def memberDefault (fi : Field) : Value :=
  Value.str ("default " ++ fi.json)

/-- The plain collaborators with the model `Member` and its default functions. -/
def extMemberFields : Ext :=
  { extPlain with
    registry := [memberModel]
    defaultFunc := fun fi _ => M.pure (memberDefault fi) }

/-- The collaborators of `extMemberFields` with the method `DefaultGet` of the model, which
returns `getDefaults` for a create. -/
def extMember : Ext :=
  { extMemberFields with
    call := fun rc method _ =>
      if method == "DefaultGet" then do
        let d ← getDefaults extMemberFields rc true
        return Dyn.data d
      else M.pure (Dyn.val Value.null) }

/-- A world with a new `Member` collection at address 0 whose context gives the default
age 30 and the language. -/
def memberWorld : World where
  rcs := [{ model := some memberModel, query := some 0, env := some 0 }]
  queries := [{ recordSet := 0 }]
  envs := [{ uid := 1, cache := 0,
             context := [("default_age", Value.int 30), ("lang", Value.str "en")] }]
  caches := [{}]

/-- The world with one more collection and one more query. -/
def World.copied (w : World) (rv : RecordCollection) (qv : Query) : World :=
  { w with rcs := w.rcs ++ [rv], queries := w.queries ++ [qv] }

/-- The outcome of a narrowing operation `op` on a fetched receiver with the struct `r`:
it returns a collection, without sending a statement, that is fetched and holds the ids
of the receiver, so that `Fetch` on it returns it with nothing changed and nothing sent,
and `Ids` and `Len` give the ids of the receiver and their number in the same way. -/
def World.keepsFetched (x : Ext) (n : Nat) (w : World) (r : RecordCollection) (op : M Nat) :
    Prop :=
  ∃ (p : Nat) (w2 : World) (r2 : RecordCollection),
    op w = ⟨Except.ok p, w2, []⟩ ∧ w2.rcs[p]? = some r2 ∧ r2.fetched = true ∧
    r2.ids = r.ids ∧ Fetch x (knot x n) p w2 = ⟨Except.ok p, w2, []⟩ ∧
    Ids (knot x (n + 1)) p w2 = ⟨Except.ok r.ids, w2, []⟩ ∧
    Len (knot x (n + 1)) p w2 = ⟨Except.ok r.ids.length, w2, []⟩

/-- Modelled from the spec: a row of `Aggregates` ("one row per group with: the aggregated
field values, the row count of that group, and a reconstructable Condition"). -/
structure GroupAggregateRow where
  Values : ModelData
  Count : Int
  Condition : Condition

/-- Modelled from the spec: `NewModelDataFromRS(rs, fMaps...)`, a ModelData of the model
with the entries of the given maps (no field set when no map is given). -/
def NewModelDataFromRS (fMap : FieldMap) : ModelData :=
  ModelData.mk fMap []

/-- Method `clone`: a new collection identical to this one, with a clone of its query. -/
def clone (rc : Nat) : M Nat := do
  let r ← derefRC rc
  let rSet ← allocRC r
  let q ← Query.clone r.query rSet
  modifyRC rSet (fun v => { v with query := some q })
  return rSet

/-- Method `fixGroupByOrders`: adds the order expressions that are neither grouped nor
among the given fields to the group by clause, and orders by the groups when the receiver
has no order. -/
def fixGroupByOrders (x : Ext) (rc : Nat) (fieldNames : List FieldName) : M Nat := do
  let r ← derefRC rc
  let q ← derefQuery r.query
  let orderExprs := x.getOrderByExpressions q
  let ctxOrderExprs := x.getCtxOrderByExpressions q
  let groupExprs := x.getGroupByExpressions q
  let groupFields := groupExprs.map joinFieldNames
  let ctxGroupFields : List FieldName := []
  let rSet ← orderExprs.foldlM (fun (rSet : Nat) o => do
    let oName := joinFieldNames o
    if !groupFields.contains oName && !fieldNames.contains oName then GroupBy rSet [oName]
    else return rSet) rc
  let rSet ← ctxOrderExprs.foldlM (fun (rSet : Nat) o => do
    let oName := joinFieldNames o
    if !ctxGroupFields.contains oName && !fieldNames.contains oName then
      let c ← clone rSet
      modifyQuery (← derefRC c).query (fun qv => { qv with ctxGroups := qv.ctxGroups ++ [oName] })
      return c
    else return rSet) rSet
  let q0 ← derefQuery (← derefRC rc).query
  if q0.orders.length = 0 then
    let qv ← derefQuery (← derefRC rSet).query
    OrderBy x rSet (qv.groups.map (fun g => g.json))
  else return rSet

/-- Method `fieldsGroupOperators`: the fields to aggregate in a group by query and the
map from field to SQL aggregate function (a Go `map[string]string`). -/
def fieldsGroupOperators (x : Ext) (rc : Nat) (fields : List FieldName) :
    M (List FieldName × List (String × String)) := do
  let r ← derefRC rc
  let q ← derefQuery r.query
  let groups := q.groups.map (fun g => g.json)
  fields.foldlM (fun (acc : List FieldName × List (String × String)) dbf => do
    if groups.contains dbf.json then
      return (acc.1, acc.2.filter (fun e => e.1 != dbf.json) ++ [(dbf.json, "")])
    let m ← derefModel (← derefRC rc).model
    let fi ← liftExcept (x.getRelatedFieldInfo m dbf)
    if fi.fieldType ≠ FieldType.Float ∧ fi.fieldType ≠ FieldType.Integer then return acc
    return (acc.1 ++ [dbf],
      acc.2.filter (fun e => e.1 != dbf.json) ++ [(dbf.json, fi.groupOperator)])) ([], [])

/-- The part of `Aggregates` from the record rules to the query: gives the rows of the
storage, each scanned into a map or a scan error, and the substitution map. -/
def aggregatesSelect (x : Ext) (rc : Nat) (fieldNames : List FieldName) :
    M (List (Except String FieldMap) × List (String × String)) := do
  let r ← derefRC rc
  let env ← derefEnv r.env
  let rSet ← x.addRecordRuleConditions rc env.uid "read"
  let _ ← applyContexts rSet
  let fields := fieldNames
  let w0 ← getW
  let substMap := x.relatedSubstMap w0 rSet fields
  let subFields ← x.substituteRelatedFields rSet fields
  let rSet ← x.substituteRelatedInQuery rSet
  let rm ← derefModel (← derefRC rSet).model
  let dbFields := x.filterOnDBFieldsNoID rm subFields
  let rSet ← fixGroupByOrders x rSet subFields
  let (gFields, ops) ← fieldsGroupOperators x rSet dbFields
  let rs ← derefRC rSet
  let qv ← derefQuery rs.query
  let w ← getW
  let (sql, args) := x.selectGroupQuery w qv gFields ops
  let _ ← derefEnv rs.env
  let rows ← dbQuery x sql args
  return (rows, substMap)

/-- The body of the loop of `Aggregates` over the rows: the row of the result for a row
of the storage. -/
def aggregateRow (x : Ext) (rc : Nat) (groups : List FieldName)
    (substMap : List (String × String)) (row : Except String FieldMap) :
    M GroupAggregateRow :=
  match row with
  | Except.error e => logPanic e
  | Except.ok vals => do
    let cnt ← (match List.lookup "__count" vals with
      | some (Value.int c) => M.pure c
      | _ => logPanic "interface conversion: not an int64")
    let vals := FieldMap.remove vals "__count"
    let vals := x.substituteKeys vals substMap
    let q ← derefQuery (← derefRC rc).query
    return ⟨NewModelDataFromRS vals, cnt, x.getGroupCondition groups vals q.cond⟩

/-- Method `Aggregates`: the result of the query of the collection, which must be a
grouped query. -/
def Aggregates (x : Ext) (rc : Nat) (fieldNames : List FieldName) :
    M (List GroupAggregateRow) := do
  let r ← derefRC rc
  let q ← derefQuery r.query
  if q.groups.length = 0 then logPanic "Trying to get aggregates of a non-grouped query"
  let groups := q.groups
  let (rows, substMap) ← aggregatesSelect x rc fieldNames
  forMap rows (aggregateRow x rc groups substMap)

/-- Method `First`: the values of the first record of the collection as a ModelData. The
ModelData made for an empty collection is dropped: the source has no `return` there. -/
def First (x : Ext) (k : Rec) (rc : Nat) : M ModelData := do
  let _ ← k.Fetch rc
  if ← IsEmpty k (some rc) then
    let _ := NewModelData
    pure ()
  let m ← derefModel (← derefRC rc).model
  let fields := m.allFieldNames
  let _ ← Load x k rc fields
  let res := NewModelDataFromRS []
  fields.foldlM (fun (res : ModelData) f => do
    let v ← k.Get rc f
    return res.Set f v) res

/-- A model `Sale` with a department and an amount summed in aggregates. -/
def saleModel : Model where
  name := "Sale"
  tableName := "sale"
  fields := [{ name := "ID", json := "id" }, { name := "Dept", json := "dept" },
    { name := "Amt", json := "amt", fieldType := FieldType.Integer, groupOperator := "sum" }]
  methods := ["Load", "Write", "Create", "Unlink"]

/-- The rows of the two groups of the departments A (two rows, amount 30) and B (one
row, amount 5), as scanned from the storage. -/
def saleRows : List (Except String FieldMap) :=
  [Except.ok [("dept", Value.str "A"), ("amt", Value.int 30), ("__count", Value.int 2)],
   Except.ok [("dept", Value.str "B"), ("amt", Value.int 5), ("__count", Value.int 1)]]

/-- The plain collaborators with the model `Sale` and a storage that answers every query
with the rows `saleRows`. -/
def extSale : Ext :=
  { extPlain with
    registry := [saleModel]
    queryRows := fun _ _ => Except.ok saleRows }

/-- A world with a `Sale` collection at address 0 whose query is grouped by the
department and ordered by the amount. -/
def saleWorld : World where
  rcs := [{ model := some saleModel, query := some 0, env := some 0 }]
  queries := [{ recordSet := 0, groups := [⟨"Dept", "dept"⟩],
                orders := [⟨⟨"Amt", "amt"⟩, false⟩] }]
  envs := [{ uid := 1, cache := 0 }]
  caches := [{}]

/-- The run of the part of `Aggregates` before its loop on the `Sale` collection of
`saleWorld`, for the amount. -/
def saleSelect : Res (List (Except String FieldMap) × List (String × String)) :=
  aggregatesSelect extSale 0 [⟨"Amt", "amt"⟩] saleWorld

/-- The state of `fixGroupByOrders` between two steps, for a receiver `rc` with the struct
`r` and the query `q`: the receiver and its query are as at the start, and the current
collection `p` has the model of the receiver and a query with the groups `G` and the
orders of `q`. -/
def World.regrouped (w : World) (rc : Nat) (r : RecordCollection) (q : Query) (p : Nat)
    (G : List FieldName) : Prop :=
  w.rcs[rc]? = some r ∧ r.query.bind (fun a => w.queries[a]?) = some q ∧
  ∃ (rp : RecordCollection) (qp : Query), w.rcs[p]? = some rp ∧ rp.model = r.model ∧
    rp.query.bind (fun a => w.queries[a]?) = some qp ∧ qp.groups = G ∧ qp.orders = q.orders

/-- The plain collaborators with the storage of `extDb`, the model `Tag`, and the method
`Write` of a model, which is `update`. -/
def extWrite : Ext :=
  { extDb with
    registry := [partnerModel, tagModel]
    call := fun rc method args =>
      if method == "Write" then
        match args with
        | [Dyn.data md] => do
          let b ← update extDb (knot extDb 2) rc md
          return Dyn.val (Value.bool b)
        | _ => logPanic "Write: bad arguments"
      else extDb.call rc method args }

/-- The collaborators of `extDb` with the model `Tag`, whose `SELECT` carries the names of
the fields it reads as its arguments. -/
def extCols : Ext :=
  { extDb with
    registry := [partnerModel, tagModel]
    selectQuery := fun _ _ fs => ("SELECT", fs.map (fun f => Value.str f.json)) }

/-- The load of `Age` with the stored fields of `Partner` on `storedWorld`. -/
def ageLoad : Res Nat :=
  Load extCols (knot extCols 2) 0 ([⟨"Age", "age"⟩] ++ partnerModel.storedFieldNames) storedWorld

/-- The load of `Tags` alone on `storedWorld`. -/
def tagsLoad : Res Nat :=
  Load extCols (knot extCols 2) 0 [⟨"Tags", "tags"⟩] storedWorld

/-- The steps of `update` after its first test and before `doUpdate`: the record rules,
the records of the foreign-key relations, the write stamps, the contexts, the inverse
methods, the conversion of the values and the map of the stored fields. It gives the
collection to update, the field map, the stored field map and the data. -/
def updatePrepare (x : Ext) (rc : Nat) (data : ModelData) :
    M (Nat × FieldMap × FieldMap × ModelData) := do
  let env ← Env rc
  let rSet ← x.addRecordRuleConditions rc env.uid "write"
  let data ← createFKRelationRecords x rc data
  let fMap := data.FieldMap
  let fMap ← addAccessFieldsUpdateData x rSet fMap
  let _ ← applyContexts rSet
  let fMap ← addContextsFieldsValues x rSet fMap
  x.processInverseMethods rSet data
  let rm ← derefModel (← derefRC rSet).model
  let fMap ← x.convertValuesToFieldType rm fMap true
  let fMap := fMap.RemovePK
  let storedFieldMap ← filterMapOnStoredFields rSet (x.rangeOrder fMap)
  return (rSet, fMap, storedFieldMap, data)

/-- A run of `create` from `w` to `w9` with the statements `ev` and the result `p`, as
a chain of its steps, each one run in the world the one before it left: the preparation,
the `INSERT`, the new row added to the cache, `withIds`, `updateRelationFields`,
`updateRelatedFields`, `createReverseRelationRecords`, the inverse methods, the triggers
and the constraint checks; `ev` is the statements of the steps, in this order. -/
def createSteps (x : Ext) (k : Rec) (rc : Nat) (data : ModelData) (w w9 : World)
    (ev : List Stmt) (p : Nat) : Prop :=
  ∃ (fMap stored : FieldMap) (data2 : ModelData) (r r5 r6 : RecordCollection)
    (q q1 : Query) (env : Environment) (m rm rm2 : Model) (id : Int)
    (w0 wi wc w1 w2 w3 w4 w5 w6 : World) (e0 ei ew e2 e3 e4 e5 e6 e7 : List Stmt),
    createPrepare x rc data w = ⟨Except.ok (fMap, stored, data2), w0, e0⟩ ∧
    w0.rcs[rc]? = some r ∧ r.query.bind (fun a => w0.queries[a]?) = some q ∧
    r.env.bind (fun a => w0.envs[a]?) = some env ∧ r.model = some m ∧
    crGet x (x.insertQuery w0 q stored).1 (x.insertQuery w0 q stored).2 w0
      = ⟨Except.ok id, wi, ei⟩ ∧
    r.query.bind (fun a => wi.queries[a]?) = some q1 ∧
    modifyCache env.cache (fun c => c.addRecord m.name id stored (x.ctxArgsSlug wi q1)) wi
      = ⟨Except.ok (), wc, []⟩ ∧
    withIds x rc [id] wc = ⟨Except.ok p, w1, ew⟩ ∧
    updateRelationFields x k p fMap w1 = ⟨Except.ok (), w2, e2⟩ ∧
    updateRelatedFields x k p fMap w2 = ⟨Except.ok (), w3, e3⟩ ∧
    createReverseRelationRecords x p data2 w3 = ⟨Except.ok (), w4, e4⟩ ∧
    x.processInverseMethods p data2 w4 = ⟨Except.ok (), w5, e5⟩ ∧
    w5.rcs[p]? = some r5 ∧ r5.model = some rm ∧
    x.processTriggers p (fMap.FieldNames rm) w5 = ⟨Except.ok (), w6, e6⟩ ∧
    w6.rcs[p]? = some r6 ∧ r6.model = some rm2 ∧
    CheckConstraints x k p (data2.FieldMap.FieldNames rm2) w6 = ⟨Except.ok (), w9, e7⟩ ∧
    ev = e0 ++ (ei ++ (ew ++ (e2 ++ (e3 ++ (e4 ++ (e5 ++ (e6 ++ e7)))))))

/-- A run of `update` past its first test, from `w` to `w9` with the statements `ev`, as
a chain of its steps, each one run in the world the one before it left: the preparation,
`doUpdate`, `Fetch`, `updateRelationFields`, `updateRelatedFields`,
`createReverseRelationRecords`, the triggers and the constraint checks; `ev` is the
statements of the steps, in this order. -/
def updateSteps (x : Ext) (k : Rec) (rc : Nat) (data : ModelData) (w w9 : World)
    (ev : List Stmt) : Prop :=
  ∃ (rSet p : Nat) (fMap stored : FieldMap) (data2 : ModelData) (r4 : RecordCollection)
    (rm : Model) (wa wb wc w2 w3 w4 w6 : World) (ea eb ec e2 e3 e4 e6 e7 : List Stmt),
    updatePrepare x rc data w = ⟨Except.ok (rSet, fMap, stored, data2), wa, ea⟩ ∧
    doUpdate x k rSet stored wa = ⟨Except.ok (), wb, eb⟩ ∧
    Fetch x k rSet wb = ⟨Except.ok p, wc, ec⟩ ∧
    updateRelationFields x k rSet fMap wc = ⟨Except.ok (), w2, e2⟩ ∧
    updateRelatedFields x k rSet fMap w2 = ⟨Except.ok (), w3, e3⟩ ∧
    createReverseRelationRecords x rSet data2 w3 = ⟨Except.ok (), w4, e4⟩ ∧
    w4.rcs[rSet]? = some r4 ∧ r4.model = some rm ∧
    x.processTriggers rSet (fMap.FieldNames rm) w4 = ⟨Except.ok (), w6, e6⟩ ∧
    CheckConstraints x k rSet (data2.FieldMap.FieldNames rm) w6 = ⟨Except.ok (), w9, e7⟩ ∧
    ev = ea ++ (eb ++ (ec ++ (e2 ++ (e3 ++ (e4 ++ (e6 ++ e7))))))

/-- A run of `update` from `w` to `w9` with the statements `ev`: on a collection with
negative ids, the chain of the steps; on a collection without negative ids, `ForceLoad`
of the id and the test of emptiness, then either nothing more (the loaded collection is
empty) or the chain of the steps. -/
def updateRun (x : Ext) (k : Rec) (rc : Nat) (data : ModelData) (w w9 : World)
    (ev : List Stmt) : Prop :=
  ∃ r, w.rcs[rc]? = some r ∧
    ((r.hasNegIds = true ∧ updateSteps x k rc data w w9 ev) ∨
      (r.hasNegIds = false ∧ ∃ loaded w1 e1 e2,
        ForceLoad x k rc [ID] w = ⟨Except.ok loaded, w1, e1⟩ ∧
        (IsEmpty k (some loaded) w1 = ⟨Except.ok true, w9, e2⟩ ∧ ev = e1 ++ e2 ∨
          ∃ ws ev2, IsEmpty k (some loaded) w1 = ⟨Except.ok false, ws, e2⟩ ∧
            updateSteps x k rc data ws w9 ev2 ∧ ev = e1 ++ (e2 ++ ev2))))

/-- The collaborators of `extDb` with the model `Tag`, whose inverse methods, triggers and
constraint method `checkName` each leave a statement as a trace. -/
def extSteps : Ext :=
  { extDb with
    registry := [partnerModel, tagModel]
    processInverseMethods := fun _ _ => emit (Stmt.execute "inverse methods" [])
    processTriggers := fun _ _ => emit (Stmt.execute "triggers" [])
    call := fun rc method args =>
      if method == "checkName" then do
        emit (Stmt.execute "constraint checkName" [])
        return Dyn.val Value.null
      else extDb.call rc method args }

/-- Data that sets the name and links the tag 2. -/
def tracedData : ModelData :=
  ModelData.mk [("name", Value.str "Ada"), ("tags", Value.ids [2])] []

/-- The run of `create` on `tracedData` in `poolWorld`. -/
def tracedCreate : Res Nat :=
  create extSteps (knot extSteps 2) 0 tracedData poolWorld

/-- The run of `update` on `tracedData` in `storedWorld`. -/
def tracedUpdate : Res Bool :=
  update extSteps (knot extSteps 2) 0 tracedData storedWorld

/-- The world `poolWorld` with the counter of the environment at the least `int64`. -/
def lastIdWorld : World :=
  { poolWorld with envs := [{ uid := 1, nextNegativeID := -9223372036854775808, cache := 0 }] }

/-- A world with a `Partner` collection at address 0 that is a search not fetched yet: no
id, a query on the id 5. -/
def searchWorld : World where
  rcs := [{ model := some partnerModel, query := some 0, env := some 0 }]
  queries := [{ recordSet := 0, cond := Condition.pred "id" "in" (Value.ids [5]) }]
  envs := [{ uid := 1, cache := 0 }]
  caches := [{}]

/-- The run of `Ids` on the search of `searchWorld`, which loads the ids. -/
def searchIds : Res (List Int) :=
  Ids (knot extDb 3) 0 searchWorld

/-- Cache `c2` holds every key that cache `c` holds. -/
def Cache.keysIn (c c2 : Cache) : Prop :=
  ∀ key, (List.lookup key c.data).isSome = true → (List.lookup key c2.data).isSome = true

/-- Every cache of `w` is still a cache of `w2`, at its address, and has lost no key. -/
def World.keepsKeys (w w2 : World) : Prop :=
  ∀ (p : Nat) (c : Cache), w.caches[p]? = some c →
    ∃ c2, w2.caches[p]? = some c2 ∧ c.keysIn c2

/-- A computation that removes no key from any cache, whatever the world it starts in. -/
def M.growsCache {α : Type} (m : M α) : Prop :=
  ∀ w : World, w.keepsKeys (m w).w

/-- The id of a scanned row (0 when the row is an error or has no integer id). -/
def rowId (row : Except String FieldMap) : Int :=
  match row with
  | Except.ok line =>
    match line.val "id" with
    | Value.int i => i
    | _ => 0
  | Except.error _ => 0

/-- The query as `ForceLoad` leaves it before the `SELECT` on a model without context
fields: the default order of the model when the query has none (`applyDefaultOrder`), and
no context condition nor context order (`applyContexts`). -/
def Query.forLoad (q : Query) (m : Model) : Query :=
  { q with orders := if q.orders.length = 0 then m.defaultOrder else q.orders,
           ctxCond := Condition.empty, ctxOrders := [] }

/-- The fields that `Load` and `ForceLoad` read: the given ones or, when none is given,
the stored fields of the model. -/
def loadFields (m : Model) (fieldNames : List FieldName) : List FieldName :=
  if fieldNames.length = 0 then m.storedFieldNames else fieldNames

/-- The `SELECT` that `ForceLoad` sends for the fields on the collection with the query
`q` at the address `qp`. -/
def loadStmt (x : Ext) (w : World) (qp : Nat) (q : Query) (m : Model)
    (fieldNames : List FieldName) : Stmt :=
  Stmt.query
    (x.selectQuery (w.withQuery qp (q.forLoad m)) (q.forLoad m)
      (x.filterOnDBFields m (loadFields m fieldNames))).1
    (x.selectQuery (w.withQuery qp (q.forLoad m)) (q.forLoad m)
      (x.filterOnDBFields m (loadFields m fieldNames))).2

/-- The plain collaborators in a run that ranges over a map from its last entry to its
first. -/
def extReverse : Ext :=
  { extPlain with rangeOrder := List.reverse }

/-! # Theorems -/

/-! ## The method monad -/

@[simp] theorem bind_run {α β : Type} (m : M α) (f : α → M β) : (m >>= f) = M.bind m f := rfl

@[simp] theorem pure_run {α : Type} (a : α) : (pure a : M α) = M.pure a := rfl

theorem forEach_nil {α : Type} (f : α → M Unit) : forEach [] f = M.pure () := rfl

theorem forEach_cons {α : Type} (a : α) (l : List α) (f : α → M Unit) :
    forEach (a :: l) f = M.bind (f a) (fun _ => forEach l f) := rfl

theorem keeps_pure {α β : Type} (g : World → β) (a : α) : M.keeps g (M.pure a) :=
  fun _ => rfl

theorem keeps_logPanic {α β : Type} (g : World → β) (msg : String) :
    M.keeps g (logPanic msg : M α) :=
  fun _ => rfl

theorem keeps_emit {β : Type} (g : World → β) (s : Stmt) : M.keeps g (emit s) :=
  fun _ => rfl

theorem keeps_getW {β : Type} (g : World → β) : M.keeps g getW :=
  fun _ => rfl

theorem keeps_bind {α γ β : Type} (g : World → β) (m : M α) (f : α → M γ)
    (hm : M.keeps g m) (hf : ∀ a, M.keeps g (f a)) : M.keeps g (M.bind m f) := by
  intro w
  unfold M.bind
  have h1 := hm w
  rcases hmw : m w with ⟨o, w1, e1⟩
  rw [hmw] at h1
  cases o with
  | error msg => exact h1
  | ok a =>
    simp only at h1 ⊢
    exact (hf a w1).trans h1

theorem keeps_forEach {α β : Type} (g : World → β) (l : List α) (f : α → M Unit)
    (hf : ∀ a, M.keeps g (f a)) : M.keeps g (forEach l f) := by
  induction l with
  | nil => exact keeps_pure g ()
  | cons a l ih => exact keeps_bind g _ _ (hf a) (fun _ => ih)

theorem keeps_derefRC {β : Type} (g : World → β) (p : Nat) : M.keeps g (derefRC p) := by
  intro w; unfold derefRC; split <;> rfl

theorem keeps_derefQuery {β : Type} (g : World → β) (p : Option Nat) :
    M.keeps g (derefQuery p) := by
  intro w; unfold derefQuery; split <;> rfl

theorem keeps_derefEnv {β : Type} (g : World → β) (p : Option Nat) :
    M.keeps g (derefEnv p) := by
  intro w; unfold derefEnv; split <;> rfl

theorem keeps_derefModel {β : Type} (g : World → β) (p : Option Model) :
    M.keeps g (derefModel p) := by
  intro w; unfold derefModel; split <;> rfl

theorem keeps_derefCache {β : Type} (g : World → β) (p : Nat) :
    M.keeps g (derefCache p) := by
  intro w; unfold derefCache; split <;> rfl

theorem keeps_modifyCache {β : Type} (g : World → β) (p : Nat) (f : Cache → Cache)
    (hg : ∀ (w : World) (cs : List Cache), g { w with caches := cs } = g w) :
    M.keeps g (modifyCache p f) := by
  intro w; unfold modifyCache; split
  · exact hg w _
  · rfl

theorem keeps_modifyQuery {β : Type} (g : World → β) (p : Option Nat) (f : Query → Query)
    (hg : ∀ (w : World) (qs : List Query), g { w with queries := qs } = g w) :
    M.keeps g (modifyQuery p f) := by
  intro w; unfold modifyQuery; split
  · split
    · exact hg w _
    · rfl
  · rfl

theorem keeps_modifyRC {β : Type} (g : World → β) (p : Nat)
    (f : RecordCollection → RecordCollection)
    (hg : ∀ (w : World) (rs : List RecordCollection), g { w with rcs := rs } = g w) :
    M.keeps g (modifyRC p f) := by
  intro w; unfold modifyRC; split
  · exact hg w _
  · rfl

theorem silent_pure {α : Type} (a : α) : M.silent (M.pure a) :=
  fun _ => rfl

theorem silent_logPanic {α : Type} (msg : String) : M.silent (logPanic msg : M α) :=
  fun _ => rfl

theorem silent_getW : M.silent getW :=
  fun _ => rfl

theorem silent_modifyW (f : World → World) : M.silent (modifyW f) :=
  fun _ => rfl

theorem silent_bind {α γ : Type} (m : M α) (f : α → M γ)
    (hm : M.silent m) (hf : ∀ a, M.silent (f a)) : M.silent (M.bind m f) := by
  intro w
  unfold M.bind
  have h1 := hm w
  rcases hmw : m w with ⟨o, w1, e1⟩
  rw [hmw] at h1
  cases o with
  | error msg => exact h1
  | ok a =>
    simp only at h1 ⊢
    rw [hf a w1, h1]
    rfl

theorem silent_forEach {α : Type} (l : List α) (f : α → M Unit)
    (hf : ∀ a, M.silent (f a)) : M.silent (forEach l f) := by
  induction l with
  | nil => exact silent_pure ()
  | cons a l ih => exact silent_bind _ _ (hf a) (fun _ => ih)

theorem silent_derefRC (p : Nat) : M.silent (derefRC p) := by
  intro w; unfold derefRC; split <;> rfl

theorem silent_derefQuery (p : Option Nat) : M.silent (derefQuery p) := by
  intro w; unfold derefQuery; split <;> rfl

theorem silent_derefEnv (p : Option Nat) : M.silent (derefEnv p) := by
  intro w; unfold derefEnv; split <;> rfl

theorem silent_derefModel (p : Option Model) : M.silent (derefModel p) := by
  intro w; unfold derefModel; split <;> rfl

theorem silent_derefCache (p : Nat) : M.silent (derefCache p) := by
  intro w; unfold derefCache; split <;> rfl

theorem silent_modifyCache (p : Nat) (f : Cache → Cache) : M.silent (modifyCache p f) := by
  intro w; unfold modifyCache; split <;> rfl

theorem silent_modifyQuery (p : Option Nat) (f : Query → Query) :
    M.silent (modifyQuery p f) := by
  intro w; unfold modifyQuery; split
  · split <;> rfl
  · rfl

theorem silent_modifyRC (p : Nat) (f : RecordCollection → RecordCollection) :
    M.silent (modifyRC p f) := by
  intro w; unfold modifyRC; split <;> rfl

theorem res_eta {α : Type} (r : Res α) : (⟨r.out, r.w, r.ev⟩ : Res α) = r := rfl

@[simp] theorem pure_bind {α β : Type} (a : α) (f : α → M β) :
    M.bind (M.pure a) f = f a := by
  funext w
  simp only [M.bind, M.pure]
  rfl

theorem liftExcept_ok {α : Type} (a : α) : liftExcept (Except.ok a : Except String α) = M.pure a :=
  rfl

theorem bind_pure_unit (m : M Unit) : M.bind m (fun _ => M.pure ()) = m := by
  funext w
  simp only [M.bind, M.pure]
  rcases m w with ⟨o, w1, e1⟩
  cases o <;> simp

theorem bind_silent {α β : Type} (m : M α) (f : α → M β) (w : World) (a : α)
    (h : m w = ⟨Except.ok a, w, []⟩) : M.bind m f w = f a w := by
  simp only [M.bind, h]
  rfl

theorem bind_ok {α β : Type} (m : M α) (f : α → M β) (w w1 : World) (a : α)
    (e1 : List Stmt) (h : m w = ⟨Except.ok a, w1, e1⟩) :
    M.bind m f w = ⟨(f a w1).out, (f a w1).w, e1 ++ (f a w1).ev⟩ := by
  simp only [M.bind, h]

theorem bind_error {α β : Type} (m : M α) (f : α → M β) (w w1 : World) (msg : String)
    (e1 : List Stmt) (h : m w = ⟨Except.error msg, w1, e1⟩) :
    M.bind m f w = ⟨Except.error msg, w1, e1⟩ := by
  simp only [M.bind, h]

theorem bind_assoc_run {α β γ : Type} (m : M α) (f : α → M β) (g : β → M γ) :
    M.bind (M.bind m f) g = M.bind m (fun a => M.bind (f a) g) := by
  funext w
  simp only [M.bind]
  rcases m w with ⟨o, w1, e1⟩
  cases o with
  | error msg => rfl
  | ok a =>
    simp only
    rcases f a w1 with ⟨o2, w2, e2⟩
    cases o2 with
    | error msg => rfl
    | ok b => simp only [List.append_assoc]

theorem run_of_out {α : Type} (r : Res α) (a : α) (h : r.out = Except.ok a) :
    r = ⟨Except.ok a, r.w, r.ev⟩ := by
  cases r
  simp only at h
  rw [h]

theorem bind_ok_eq {α β : Type} (m : M α) (f : α → M β) (w w1 w2 : World) (a : α)
    (o : Except String β) (e1 e2 : List Stmt) (h : m w = ⟨Except.ok a, w1, e1⟩)
    (h2 : f a w1 = ⟨o, w2, e2⟩) : M.bind m f w = ⟨o, w2, e1 ++ e2⟩ := by
  simp only [M.bind, h, h2]

theorem derefRC_run (p : Nat) (w : World) (r : RecordCollection) (h : w.rcs[p]? = some r) :
    derefRC p w = ⟨Except.ok r, w, []⟩ := by
  simp only [derefRC, h]

theorem derefQuery_run (p : Option Nat) (w : World) (q : Query)
    (h : p.bind (fun a => w.queries[a]?) = some q) :
    derefQuery p w = ⟨Except.ok q, w, []⟩ := by
  simp only [derefQuery, h]

theorem derefEnv_run (p : Option Nat) (w : World) (e : Environment)
    (h : p.bind (fun a => w.envs[a]?) = some e) :
    derefEnv p w = ⟨Except.ok e, w, []⟩ := by
  simp only [derefEnv, h]

theorem derefModel_run (m : Model) (w : World) :
    derefModel (some m) w = ⟨Except.ok m, w, []⟩ := rfl

theorem derefCache_run (p : Nat) (w : World) (c : Cache) (h : w.caches[p]? = some c) :
    derefCache p w = ⟨Except.ok c, w, []⟩ := by
  simp only [derefCache, h]

theorem getW_run (w : World) : getW w = ⟨Except.ok w, w, []⟩ := rfl

theorem modifyRC_bind {α : Type} (p : Nat) (f : RecordCollection → RecordCollection)
    (k : Unit → M α) (w : World) (r : RecordCollection) (h : w.rcs[p]? = some r) :
    M.bind (modifyRC p f) k w = k () { w with rcs := w.rcs.set p (f r) } := by
  simp only [M.bind, modifyRC, h]
  rcases k () { w with rcs := w.rcs.set p (f r) } with ⟨o, w2, e2⟩
  rfl

theorem derefRC_bind {α : Type} (p : Nat) (k : RecordCollection → M α) (w : World)
    (r : RecordCollection) (h : w.rcs[p]? = some r) :
    M.bind (derefRC p) k w = k r w := by
  simp only [M.bind, derefRC, h]
  rcases k r w with ⟨o, w2, e2⟩
  rfl

theorem getElem?_set_self_of_some {α : Type} (l : List α) (p : Nat) (a b : α)
    (h : l[p]? = some a) : (l.set p b)[p]? = some b := by
  have hlt : p < l.length := by
    rcases Nat.lt_or_ge p l.length with h1 | h1
    · exact h1
    · rw [List.getElem?_eq_none h1] at h; cases h
  simp [List.getElem?_set, hlt]

/-! ## withIds -/

theorem survivors_spec (l : List Int) : ∀ seen : List Int,
    (survivors seen l).Nodup ∧
      ∀ a, a ∈ survivors seen l ↔ (a ∈ l ∧ a ≠ 0 ∧ a ∉ seen) := by
  induction l with
  | nil => intro seen; simp [survivors]
  | cons b l ih =>
    intro seen
    obtain ⟨hn, hm⟩ := ih (b :: seen)
    by_cases hb : b = 0 ∨ b ∈ seen
    · simp only [survivors, if_pos hb]
      refine ⟨hn, fun a => ?_⟩
      rw [hm a]
      simp only [List.mem_cons, not_or]
      constructor
      · rintro ⟨h1, h2, h3, h4⟩
        exact ⟨Or.inr h1, h2, h4⟩
      · rintro ⟨h1, h2, h3⟩
        have hab : a ≠ b := by
          rintro rfl
          rcases hb with hb | hb
          · exact h2 hb
          · exact h3 hb
        rcases h1 with h1 | h1
        · exact absurd h1 hab
        · exact ⟨h1, h2, hab, h3⟩
    · simp only [survivors, if_neg hb]
      rw [not_or] at hb
      refine ⟨List.nodup_cons.mpr ⟨?_, hn⟩, fun a => ?_⟩
      · intro hmem
        have := (hm b).mp hmem
        simp at this
      · rw [List.mem_cons, hm a]
        simp only [List.mem_cons, not_or]
        constructor
        · rintro (rfl | ⟨h1, h2, h3, h4⟩)
          · exact ⟨Or.inl rfl, hb.1, hb.2⟩
          · exact ⟨Or.inr h1, h2, h4⟩
        · rintro ⟨h1, h2, h3⟩
          by_cases hab : a = b
          · exact Or.inl hab
          · rcases h1 with h1 | h1
            · exact absurd h1 hab
            · exact Or.inr ⟨h1, h2, hab, h3⟩

theorem withIdsLoop_fst (l : List Int) : ∀ (seen : List Int) (idsMap : Int → Bool)
    (acc : List Int) (neg : Bool),
    (∀ i, idsMap i = true ↔ (i ∈ seen ∧ i ≠ 0)) →
      (withIdsLoop l idsMap acc neg).1 = acc ++ survivors seen l := by
  induction l with
  | nil => intro seen idsMap acc neg _; simp [withIdsLoop, survivors]
  | cons b l ih =>
    intro seen idsMap acc neg hinv
    by_cases hb0 : b = 0
    · subst hb0
      simp only [withIdsLoop, survivors, if_true, true_or]
      apply ih
      intro i
      rw [hinv i]
      simp only [List.mem_cons]
      constructor
      · rintro ⟨h1, h2⟩; exact ⟨Or.inr h1, h2⟩
      · rintro ⟨h1 | h1, h2⟩
        · exact absurd h1 h2
        · exact ⟨h1, h2⟩
    · have hinv2 : ∀ i, Function.update idsMap b true i = true ↔ (i ∈ b :: seen ∧ i ≠ 0) := by
        intro i
        by_cases hib : i = b
        · subst hib; simp [hb0]
        · rw [Function.update_noteq hib, hinv i]
          simp [hib]
      simp only [withIdsLoop, survivors, if_neg hb0, false_or]
      rw [ih (b :: seen) _ _ _ hinv2]
      by_cases hs : b ∈ seen
      · have : idsMap b = true := (hinv b).mpr ⟨hs, hb0⟩
        simp [this, hs]
      · have : idsMap b = false := by
          cases h : idsMap b with
          | false => rfl
          | true => exact absurd ((hinv b).mp h).1 hs
        simp [this, hs, hb0]

theorem withIdsLoop_snd (l : List Int) : ∀ (idsMap : Int → Bool) (acc : List Int)
    (neg : Bool), (withIdsLoop l idsMap acc neg).2 = (neg || l.any (fun i => decide (i < 0))) := by
  induction l with
  | nil => intro idsMap acc neg; simp [withIdsLoop]
  | cons b l ih =>
    intro idsMap acc neg
    by_cases hb0 : b = 0
    · subst hb0
      simp [withIdsLoop, ih]
    · simp only [withIdsLoop, if_neg hb0, ih, List.any_cons]
      by_cases hneg : b < 0
      · simp [hneg]
      · simp [hneg]

/-- The loop of `withIds` that records the ids in the cache: on a usable collection it
ends normally, sends nothing to storage and touches the cache heap only. -/
theorem withIds_cacheLoop (x : Ext) (rc : Nat) (l : List Int) : ∀ w : World, w.valid rc →
    ∃ w2 : World, forEach l (fun id => (do
        let r ← derefRC rc
        let env ← derefEnv r.env
        let q ← derefQuery r.query
        let w ← getW
        let m ← derefModel r.model
        modifyCache env.cache (fun c =>
          c.updateEntry m.name id "id" (Value.int id) (x.ctxArgsSlug w q)) : M Unit)) w
        = ⟨Except.ok (), w2, []⟩ ∧ w2.rcs = w.rcs ∧ w2.queries = w.queries ∧
          w2.envs = w.envs ∧ w2.db = w.db ∧ w2.valid rc := by
  induction l with
  | nil => intro w hv; exact ⟨w, rfl, rfl, rfl, rfl, rfl, hv⟩
  | cons a l ih =>
    intro w hv
    obtain ⟨r, m, qp, q, ep, e, c, h1, h2, h3, h4, h5, h6, h7⟩ := hv
    have hlt : e.cache < w.caches.length := by
      rcases Nat.lt_or_ge e.cache w.caches.length with h | h
      · exact h
      · rw [List.getElem?_eq_none h] at h7; cases h7
    obtain ⟨c1, hc1⟩ : ∃ c1 : Cache,
        c1 = c.updateEntry m.name a "id" (Value.int a) (x.ctxArgsSlug w q) := ⟨_, rfl⟩
    have hv1 : World.valid { w with caches := w.caches.set e.cache c1 } rc :=
      ⟨r, m, qp, q, ep, e, c1, h1, h2, h3, h4, h5, h6, by simp [List.getElem?_set, hlt]⟩
    obtain ⟨w2, e1, e2, e3, e4, e5, e6⟩ := ih _ hv1
    subst hc1
    refine ⟨w2, ?_, e2, e3, e4, e5, e6⟩
    simp only [bind_run] at e1
    rw [forEach_cons]
    simp only [bind_run, M.bind, derefRC, derefEnv, derefQuery, derefModel, getW, modifyCache,
      h1, h2, h3, h4, h5, h6, h7, Option.bind]
    rw [e1]
    rfl

/-- What `withIds` leaves at the receiver's address, whatever the outcome: the ids are the
survivors of the input, the collection is fetched and not filtered, and the negative-id
flag is the loop's flag when there is an id and the former flag when there is none. -/
theorem withIds_receiver (x : Ext) (w : World) (rc : Nat) (ids : List Int)
    (r : RecordCollection) (h : w.rcs[rc]? = some r) :
    (withIds x rc ids w).w.rcs[rc]? = some { r with
      ids := survivors [] ids, fetched := true, filtered := false,
      hasNegIds := if survivors [] ids = [] then r.hasNegIds
        else ids.any (fun i => decide (i < 0)) } := by
  have hlt : rc < w.rcs.length := by
    rcases Nat.lt_or_ge rc w.rcs.length with h1 | h1
    · exact h1
    · rw [List.getElem?_eq_none h1] at h; cases h
  have hfst : (withIdsLoop ids (fun _ => false) [] false).1 = survivors [] ids := by
    rw [withIdsLoop_fst ids [] (fun _ => false) [] false (by simp)]; rfl
  have hsnd : (withIdsLoop ids (fun _ => false) [] false).2
      = ids.any (fun i => decide (i < 0)) := by
    rw [withIdsLoop_snd]; rfl
  unfold withIds
  rcases hl : withIdsLoop ids (fun _ => false) [] false with ⟨newIds, neg⟩
  rw [hl] at hfst hsnd
  simp only at hfst hsnd
  subst hfst hsnd
  by_cases hnil : survivors [] ids = []
  · simp [M.bind, M.pure, modifyRC, h, hnil, List.getElem?_set, hlt]
  · have hpos : (survivors [] ids).length > 0 := List.length_pos.mpr hnil
    simp only [bind_run, pure_run, hpos, if_true, hnil, if_false]
    have hk : M.keeps (fun w => w.rcs)
        (M.bind (forEach (survivors [] ids) (fun id =>
          M.bind (derefRC rc) (fun r => M.bind (derefEnv r.env) (fun env =>
            M.bind (derefQuery r.query) (fun q => M.bind getW (fun w =>
              M.bind (derefModel r.model) (fun m => modifyCache env.cache (fun c =>
                c.updateEntry m.name id "id" (Value.int id) (x.ctxArgsSlug w q)))))))))
          (fun _ => M.bind (derefRC rc) (fun r =>
            M.bind (modifyQuery r.query (fun q =>
              { q with cond := Condition.pred ID.json "in" (Value.ids (survivors [] ids)),
                       fetchAll := false, limit := 0, offset := 0 }))
              (fun _ => M.pure rc)))) := by
      refine keeps_bind _ _ _ (keeps_forEach _ _ _ (fun id => ?_)) (fun _ => ?_)
      · refine keeps_bind _ _ _ (keeps_derefRC _ _) (fun r => ?_)
        refine keeps_bind _ _ _ (keeps_derefEnv _ _) (fun env => ?_)
        refine keeps_bind _ _ _ (keeps_derefQuery _ _) (fun q => ?_)
        refine keeps_bind _ _ _ (keeps_getW _) (fun w => ?_)
        refine keeps_bind _ _ _ (keeps_derefModel _ _) (fun m => ?_)
        exact keeps_modifyCache _ _ _ (fun _ _ => rfl)
      · refine keeps_bind _ _ _ (keeps_derefRC _ _) (fun r => ?_)
        refine keeps_bind _ _ _ (keeps_modifyQuery _ _ _ (fun _ _ => rfl)) (fun _ => ?_)
        exact keeps_pure _ _
    rw [modifyRC_bind _ _ _ _ _ h, modifyRC_bind _ _ _ _ _ (getElem?_set_self_of_some _ _ _ _ h)]
    refine (congrArg (fun l : List RecordCollection => l[rc]?) (hk _)).trans ?_
    simp [List.getElem?_set, hlt]

theorem survivors_sublist (l : List Int) : ∀ seen : List Int,
    (survivors seen l).Sublist l := by
  induction l with
  | nil => intro seen; simp [survivors]
  | cons b l ih =>
    intro seen
    by_cases hb : b = 0 ∨ b ∈ seen
    · simp only [survivors, if_pos hb]
      exact List.Sublist.cons _ (ih _)
    · simp only [survivors, if_neg hb]
      exact List.Sublist.cons₂ _ (ih _)

theorem valid_set_rc (w : World) (rc : Nat) (f : RecordCollection → RecordCollection)
    (hf : ∀ r, (f r).model = r.model ∧ (f r).query = r.query ∧ (f r).env = r.env)
    (hv : w.valid rc) :
    ∃ r, w.rcs[rc]? = some r ∧ World.valid { w with rcs := w.rcs.set rc (f r) } rc := by
  obtain ⟨r, m, qp, q, ep, e, c, h1, h2, h3, h4, h5, h6, h7⟩ := hv
  refine ⟨r, h1, f r, m, qp, q, ep, e, c, getElem?_set_self_of_some _ _ _ _ h1, ?_, ?_, h4, ?_,
    h6, h7⟩
  · rw [(hf r).1, h2]
  · rw [(hf r).2.1, h3]
  · rw [(hf r).2.2, h5]

/-- On a usable collection `withIds` returns the receiver, sends nothing to storage and
leaves the environments and the storage as they were. -/
theorem withIds_ok (x : Ext) (w : World) (rc : Nat) (ids : List Int) (hv : w.valid rc) :
    ∃ w2, withIds x rc ids w = ⟨Except.ok rc, w2, []⟩ ∧ w2.envs = w.envs ∧ w2.db = w.db ∧
      w2.valid rc := by
  unfold withIds
  rcases hl : withIdsLoop ids (fun _ => false) [] false with ⟨newIds, neg⟩
  obtain ⟨r, h, hv1⟩ := valid_set_rc w rc
    (fun r => { r with ids := newIds, fetched := true, filtered := false })
    (fun _ => ⟨rfl, rfl, rfl⟩) hv
  simp only [bind_run, pure_run]
  rw [modifyRC_bind _ _ _ _ _ h]
  by_cases hpos : newIds.length > 0
  · rw [if_pos hpos]
    obtain ⟨r1, h1, hv2⟩ := valid_set_rc _ rc (fun r => { r with hasNegIds := neg })
      (fun _ => ⟨rfl, rfl, rfl⟩) hv1
    rw [modifyRC_bind _ _ _ _ _ h1]
    obtain ⟨w2, e1, e2, e3, e4, e5, e6⟩ := withIds_cacheLoop x rc newIds _ hv2
    simp only [bind_run] at e1
    obtain ⟨r2, m, qp, q, ep, e, c, g1, g2, g3, g4, g5, g6, g7⟩ := e6
    have hlt : qp < w2.queries.length := by
      rcases Nat.lt_or_ge qp w2.queries.length with h | h
      · exact h
      · rw [List.getElem?_eq_none h] at g4; cases g4
    obtain ⟨q2, hq2⟩ : ∃ q2 : Query, q2 = { q with
        cond := Condition.pred ID.json "in" (Value.ids newIds), fetchAll := false,
        limit := 0, offset := 0 } := ⟨_, rfl⟩
    refine ⟨{ w2 with queries := w2.queries.set qp q2 }, ?_, ?_, ?_, ?_⟩
    · simp only [M.bind, e1, derefRC, g1, modifyQuery, g3, g4, M.pure, hq2]
      rfl
    · exact e4
    · exact e5
    · exact ⟨r2, m, qp, q2, ep, e, c, g1, g2, g3, by simp [List.getElem?_set, hlt], g5, g6, g7⟩
  · rw [if_neg hpos]
    exact ⟨_, rfl, rfl, rfl, hv1⟩

/-- C1: for every list of ids, `withIds` on a usable collection returns the receiver and
stores exactly the input with every zero removed and every repeated id reduced to its
first occurrence, in the order of the input; the stored list has no zero and no
duplicate, and holds exactly the non-zero ids of the input. -/
theorem withIds_stores_survivors (x : Ext) (w : World) (rc : Nat) (ids : List Int)
    (hv : w.valid rc) :
    (withIds x rc ids w).out = Except.ok rc ∧
      (∃ r, (withIds x rc ids w).w.rcs[rc]? = some r ∧ r.ids = survivors [] ids) ∧
      0 ∉ survivors [] ids ∧ (survivors [] ids).Nodup ∧
      (∀ a, a ∈ survivors [] ids ↔ (a ∈ ids ∧ a ≠ 0)) ∧ (survivors [] ids).Sublist ids := by
  obtain ⟨w2, h2, -⟩ := withIds_ok x w rc ids hv
  obtain ⟨r, _, _, _, _, _, _, h, -⟩ := hv
  have hs := survivors_spec ids []
  refine ⟨by rw [h2], ⟨_, withIds_receiver x w rc ids r h, rfl⟩, ?_, hs.1, ?_,
    survivors_sublist ids []⟩
  · intro h0
    exact ((hs.2 0).mp h0).2.1 rfl
  · intro a
    rw [hs.2 a]
    simp

/-- C1, run on the ids `[0, 3, 3, -1, 5]`: the collection keeps `[3, -1, 5]`. -/
theorem withIds_stores_survivors_witness :
    memoryWorld.valid 0 ∧ survivors [] [0, 3, 3, -1, 5] = [3, -1, 5] ∧
      (withIds extPlain 0 [0, 3, 3, -1, 5] memoryWorld).out = Except.ok 0 ∧
      (∃ r, (withIds extPlain 0 [0, 3, 3, -1, 5] memoryWorld).w.rcs[0]? = some r ∧
        r.ids = survivors [] [0, 3, 3, -1, 5]) :=
  have hv : memoryWorld.valid 0 := ⟨_, _, _, _, _, _, _, rfl, rfl, rfl, rfl, rfl, rfl, rfl⟩
  have h := withIds_stores_survivors extPlain memoryWorld 0 [0, 3, 3, -1, 5] hv
  ⟨hv, by decide, h.1, h.2.1⟩

/-- C2, as the code has it: after `withIds` the negative-id flag of the receiver is true
exactly when the stored list holds a negative id provided the stored list is not empty;
when the stored list is empty the flag keeps the value the receiver had before. -/
theorem withIds_hasNegIds (x : Ext) (w : World) (rc : Nat) (ids : List Int)
    (r : RecordCollection) (h : w.rcs[rc]? = some r) :
    ∃ r2, (withIds x rc ids w).w.rcs[rc]? = some r2 ∧
      (r2.ids ≠ [] → (r2.hasNegIds = true ↔ ∃ id ∈ r2.ids, id < 0)) ∧
      (r2.ids = [] → r2.hasNegIds = r.hasNegIds) := by
  refine ⟨_, withIds_receiver x w rc ids r h, ?_, ?_⟩
  · intro hne
    simp only at hne
    simp only [if_neg hne, List.any_eq_true, decide_eq_true_eq]
    have hs := (survivors_spec ids []).2
    constructor
    · rintro ⟨i, hi, hneg⟩
      exact ⟨i, (hs i).mpr ⟨hi, by omega, by simp⟩, hneg⟩
    · rintro ⟨i, hi, hneg⟩
      exact ⟨i, ((hs i).mp hi).1, hneg⟩
  · intro hnil
    simp only at hnil
    simp only [if_pos hnil]

/-- C2, run on the in-memory collection of `memoryWorld` and the ids `[-7, 0, 2]`. -/
theorem withIds_hasNegIds_witness :
    memoryWorld.rcs[0]? = some
        { model := some partnerModel, query := some 0, env := some 0, ids := [-1],
          fetched := true, hasNegIds := true } ∧
      ∃ r2, (withIds extPlain 0 [-7, 0, 2] memoryWorld).w.rcs[0]? = some r2 ∧
        (r2.ids ≠ [] → (r2.hasNegIds = true ↔ ∃ id ∈ r2.ids, id < 0)) ∧
        (r2.ids = [] → r2.hasNegIds = true) :=
  ⟨rfl, withIds_hasNegIds extPlain memoryWorld 0 [-7, 0, 2] _ rfl⟩

/-- C2 fails as stated: `withIds` with no id on a collection that carried the in-memory
record `-1` leaves an empty id list with the negative-id flag still set. -/
theorem withIds_hasNegIds_stale :
    ∃ r, (withIds extPlain 0 [] memoryWorld).w.rcs[0]? = some r ∧ r.ids = [] ∧
      ¬ (r.hasNegIds = true ↔ ∃ id ∈ r.ids, id < 0) := by
  refine ⟨{ model := some partnerModel, query := some 0, env := some 0, ids := [],
            fetched := true, hasNegIds := true }, by rfl, rfl, by decide⟩

/-! ## Search, Limit, Offset, OrderBy, GroupBy -/

theorem lt_length_of_getElem? {α : Type} (l : List α) (p : Nat) (a : α)
    (h : l[p]? = some a) : p < l.length := by
  rcases Nat.lt_or_ge p l.length with h1 | h1
  · exact h1
  · rw [List.getElem?_eq_none h1] at h; cases h

/-- The common part of the five narrowing operations: copy the struct to a new address,
clone the query for it, then write `f` to the clone. -/
theorem narrow_run (w : World) (rc : Nat) (f : Query → Query) (hv : w.valid rc) :
    w.narrowed rc (M.bind (derefRC rc) (fun r => M.bind (allocRC r) (fun rSet =>
      M.bind (Query.clone r.query rSet) (fun q =>
        M.bind (modifyRC rSet (fun v => { v with query := some q })) (fun _ =>
          M.bind (modifyQuery (some q) f) (fun _ => M.pure rSet)))))) := by
  obtain ⟨r, m, qp, q, ep, e, c, h1, h2, h3, h4, h5, h6, h7⟩ := hv
  have hrc := lt_length_of_getElem? _ _ _ h1
  have hqp := lt_length_of_getElem? _ _ _ h4
  refine ⟨w.rcs.length, ?_, ?_, ?_, ?_, ?_⟩
  · simp [M.bind, M.pure, derefRC, allocRC, Query.clone, derefQuery, allocQuery, modifyRC,
      modifyQuery, h1, h3, h4]
  · simp
  · simp [M.bind, M.pure, derefRC, allocRC, Query.clone, derefQuery, allocQuery, modifyRC,
      modifyQuery, h1, h3, h4]
  · simp [M.bind, M.pure, derefRC, allocRC, Query.clone, derefQuery, allocQuery, modifyRC,
      modifyQuery, h1, h3, h4, List.getElem?_set, List.getElem?_append, hrc, Nat.ne_of_gt hrc]
  · intro r0 qp0 hr0 hq0
    rw [h1] at hr0
    cases hr0
    rw [h3] at hq0
    cases hq0
    simp [M.bind, M.pure, derefRC, allocRC, Query.clone, derefQuery, allocQuery, modifyRC,
      modifyQuery, h1, h3, h4, List.getElem?_set, List.getElem?_append, hqp, Nat.ne_of_gt hqp]

/-- C10: on a usable collection `Search`, `Limit`, `Offset`, `OrderBy` and `GroupBy`, for
every argument, return a new collection and leave the receiver as it was: its struct
(ids, fetched and hasNegIds flags) and the query it points at (condition, orders, groups,
limit, offset) are the same after the call as before. -/
theorem narrowing_leaves_receiver (x : Ext) (w : World) (rc : Nat) (hv : w.valid rc)
    (cond : Condition) (limit offset : Int) (exprs : List String) (fields : List FieldName) :
    w.narrowed rc (Search rc cond) ∧ w.narrowed rc (Limit rc limit) ∧
      w.narrowed rc (Offset rc offset) ∧ w.narrowed rc (OrderBy x rc exprs) ∧
      w.narrowed rc (GroupBy rc fields) := by
  refine ⟨narrow_run w rc _ hv, narrow_run w rc _ hv, narrow_run w rc _ hv, ?_,
    narrow_run w rc _ hv⟩
  have hv2 := hv
  obtain ⟨r, m, qp, q, ep, e, c, h1, h2, h3, h4, h5, h6, h7⟩ := hv2
  obtain ⟨os, hos⟩ : ∃ os, os = x.ordersFromStrings m exprs := ⟨_, rfl⟩
  have hn := narrow_run w rc (fun qv => { qv with orders := os }) hv
  have hrc := lt_length_of_getElem? _ _ _ h1
  have heq : OrderBy x rc exprs w = M.bind (derefRC rc) (fun r => M.bind (allocRC r)
      (fun rSet => M.bind (Query.clone r.query rSet) (fun q =>
        M.bind (modifyRC rSet (fun v => { v with query := some q })) (fun _ =>
          M.bind (modifyQuery (some q) (fun qv => { qv with orders := os }))
            (fun _ => M.pure rSet))))) w := by
    simp [OrderBy, M.bind, M.pure, derefRC, allocRC, Query.clone, derefQuery, allocQuery,
      modifyRC, modifyQuery, derefModel, h1, h2, h3, h4, List.getElem?_set,
      List.getElem?_append, hrc, Nat.ne_of_gt hrc, hos]
  unfold World.narrowed at hn ⊢
  rw [heq]
  exact hn

/-- C10, run on the stored collection of `storedWorld`. -/
theorem narrowing_leaves_receiver_witness :
    storedWorld.valid 0 ∧
      storedWorld.narrowed 0 (Search 0 (Condition.pred "name" "=" (Value.str "Ada"))) ∧
      storedWorld.narrowed 0 (Limit 0 1) ∧ storedWorld.narrowed 0 (Offset 0 2) ∧
      storedWorld.narrowed 0 (OrderBy extPlain 0 ["name"]) ∧
      storedWorld.narrowed 0 (GroupBy 0 [⟨"Name", "name"⟩]) :=
  have hv : storedWorld.valid 0 := ⟨_, _, _, _, _, _, _, rfl, rfl, rfl, rfl, rfl, rfl, rfl⟩
  ⟨hv, narrowing_leaves_receiver extPlain storedWorld 0 hv
    (Condition.pred "name" "=" (Value.str "Ada")) 1 2 ["name"] [⟨"Name", "name"⟩]⟩

/-! ## Fetch and Load -/

/-- Method `Fetch` on a fetched collection returns the receiver and does nothing else. -/
theorem fetch_of_fetched (x : Ext) (k : Rec) (w : World) (rc : Nat) (r : RecordCollection)
    (h1 : w.rcs[rc]? = some r) (hf : r.fetched = true) :
    Fetch x k rc w = ⟨Except.ok rc, w, []⟩ := by
  simp only [Fetch, bind_run, pure_run]
  rw [bind_silent _ _ _ _ (derefRC_run _ _ _ h1)]
  simp only [hf, if_true]
  rfl

/-- C9: on a collection whose query is empty (or that is fetched already) `Fetch` returns
the receiver, leaves the world as it is and sends nothing to storage; on a collection that
is not fetched and whose query is not empty, and only there, `Fetch` is `Load` of the id
field alone. -/
theorem fetch_loads_iff (x : Ext) (k : Rec) (w : World) (rc : Nat) (r : RecordCollection)
    (q : Query) (h1 : w.rcs[rc]? = some r)
    (h2 : r.query.bind (fun a => w.queries[a]?) = some q) :
    (x.isEmpty q = true → Fetch x k rc w = ⟨Except.ok rc, w, []⟩) ∧
      (r.fetched = true → Fetch x k rc w = ⟨Except.ok rc, w, []⟩) ∧
      (r.fetched = false → x.isEmpty q = false → Fetch x k rc w = Load x k rc [ID] w) := by
  refine ⟨fun he => ?_, fun hf => ?_, fun hf he => ?_⟩
  · cases hf : r.fetched <;>
      simp [Fetch, M.bind, M.pure, derefRC, derefQuery, h1, h2, he, hf]
  · simp [Fetch, M.bind, M.pure, derefRC, derefQuery, h1, h2, hf]
  · simp only [Fetch, bind_run, pure_run]
    rw [bind_silent _ _ _ _ (derefRC_run _ _ _ h1)]
    simp only [hf, Bool.false_eq_true, if_false, pure_bind]
    rw [bind_silent _ _ _ _ (derefQuery_run _ _ _ h2)]
    simp only [he, Bool.false_eq_true, if_false, pure_bind]

/-- C9, run on the new collection of `poolWorld`, whose query is empty. -/
theorem fetch_loads_iff_witness :
    Fetch extPlain (knot extPlain 0) 0 poolWorld = ⟨Except.ok 0, poolWorld, []⟩ :=
  (fetch_loads_iff extPlain (knot extPlain 0) poolWorld 0 _ _ rfl rfl).1 rfl

theorem checkIfInCache_run (x : Ext) (w : World) (rc : Nat) (ids : List Int)
    (fields : List String) (r : RecordCollection) (m : Model) (q : Query) (e : Environment)
    (c : Cache) (h1 : w.rcs[rc]? = some r) (h2 : r.model = some m)
    (h3 : r.query.bind (fun a => w.queries[a]?) = some q)
    (h4 : r.env.bind (fun a => w.envs[a]?) = some e) (h5 : w.caches[e.cache]? = some c) :
    checkIfInCache x rc ids fields w =
      ⟨Except.ok (c.checkIfInCache x.cacheCheckNoIds m.name ids fields (x.ctxArgsSlug w q)),
        w, []⟩ := by
  simp only [checkIfInCache, bind_run, pure_run]
  rw [bind_silent _ _ _ _ (derefRC_run _ _ _ h1), bind_silent _ _ _ _ (derefEnv_run _ _ _ h4),
    bind_silent _ _ _ _ (derefCache_run _ _ _ h5), h2,
    bind_silent _ _ _ _ (derefModel_run _ _), bind_silent _ _ _ _ (derefQuery_run _ _ _ h3),
    bind_silent _ _ _ _ (getW_run _)]
  rfl

/-- Method `Load` on a usable collection: the cache check on the requested fields (the stored
field names when none is given), then the receiver or `ForceLoad`. -/
theorem load_unfold (x : Ext) (k : Rec) (w : World) (rc : Nat)
    (fields : List FieldName) (r : RecordCollection) (m : Model)
    (h1 : w.rcs[rc]? = some r) (h2 : r.model = some m) :
    Load x k rc fields w =
      M.bind (checkIfInCache x rc r.ids
        ((if fields.length = 0 then m.storedFieldNames else fields).map (fun v => v.json)))
        (fun hit => if hit = true then M.pure rc
          else ForceLoad x k rc (if fields.length = 0 then m.storedFieldNames else fields))
        w := by
  simp only [Load, bind_run, pure_run]
  rw [bind_silent _ _ _ _ (derefRC_run _ _ _ h1)]
  by_cases hf : fields.length = 0
  · simp only [hf, if_true, h2]
    rw [bind_silent _ _ _ _ (bind_silent _ _ _ _ (derefModel_run _ _))]
    simp only [pure_bind]
  · simp only [hf, if_false, pure_bind]

/-- Method `Load` when the cache check succeeds. -/
theorem load_of_cached (x : Ext) (k : Rec) (w : World) (rc : Nat)
    (fields : List FieldName) (r : RecordCollection) (m : Model) (q : Query)
    (e : Environment) (c : Cache) (h1 : w.rcs[rc]? = some r) (h2 : r.model = some m)
    (h3 : r.query.bind (fun a => w.queries[a]?) = some q)
    (h4 : r.env.bind (fun a => w.envs[a]?) = some e) (h5 : w.caches[e.cache]? = some c)
    (hc : c.checkIfInCache x.cacheCheckNoIds m.name r.ids
        ((if fields.length = 0 then m.storedFieldNames else fields).map (fun v => v.json))
        (x.ctxArgsSlug w q) = true) :
    Load x k rc fields w = ⟨Except.ok rc, w, []⟩ := by
  rw [load_unfold x k w rc fields r m h1 h2,
    bind_silent _ _ _ _ (checkIfInCache_run x w rc _ _ r m q e c h1 h2 h3 h4 h5), if_pos hc]
  rfl

/-- Method `Load` when the cache check fails. -/
theorem load_of_missing (x : Ext) (k : Rec) (w : World) (rc : Nat)
    (fields : List FieldName) (r : RecordCollection) (m : Model) (q : Query)
    (e : Environment) (c : Cache) (h1 : w.rcs[rc]? = some r) (h2 : r.model = some m)
    (h3 : r.query.bind (fun a => w.queries[a]?) = some q)
    (h4 : r.env.bind (fun a => w.envs[a]?) = some e) (h5 : w.caches[e.cache]? = some c)
    (hc : c.checkIfInCache x.cacheCheckNoIds m.name r.ids
        ((if fields.length = 0 then m.storedFieldNames else fields).map (fun v => v.json))
        (x.ctxArgsSlug w q) = false) :
    Load x k rc fields w =
      ForceLoad x k rc (if fields.length = 0 then m.storedFieldNames else fields) w := by
  rw [load_unfold x k w rc fields r m h1 h2,
    bind_silent _ _ _ _ (checkIfInCache_run x w rc _ _ r m q e c h1 h2 h3 h4 h5), hc]
  rfl

/-- C8: on a usable collection, with the requested fields being the given ones or, when
none is given, the stored field names of the model: when the strict cache check reports
them present for every id under the slug of the query, `Load` returns the receiver, leaves
the world as it is and sends nothing to storage; otherwise `Load` is `ForceLoad` on these
fields. -/
theorem load_cache_or_forceLoad (x : Ext) (k : Rec) (w : World) (rc : Nat)
    (fields : List FieldName) (r : RecordCollection) (m : Model) (q : Query)
    (e : Environment) (c : Cache) (h1 : w.rcs[rc]? = some r) (h2 : r.model = some m)
    (h3 : r.query.bind (fun a => w.queries[a]?) = some q)
    (h4 : r.env.bind (fun a => w.envs[a]?) = some e) (h5 : w.caches[e.cache]? = some c) :
    (c.checkIfInCache x.cacheCheckNoIds m.name r.ids
        ((if fields.length = 0 then m.storedFieldNames else fields).map (fun v => v.json))
        (x.ctxArgsSlug w q) = true →
      Load x k rc fields w = ⟨Except.ok rc, w, []⟩) ∧
    (c.checkIfInCache x.cacheCheckNoIds m.name r.ids
        ((if fields.length = 0 then m.storedFieldNames else fields).map (fun v => v.json))
        (x.ctxArgsSlug w q) = false →
      Load x k rc fields w =
        ForceLoad x k rc (if fields.length = 0 then m.storedFieldNames else fields) w) := by
  have hrun := load_unfold x k w rc fields r m h1 h2
  have hchk := checkIfInCache_run x w rc r.ids
    ((if fields.length = 0 then m.storedFieldNames else fields).map (fun v => v.json))
    r m q e c h1 h2 h3 h4 h5
  rw [hrun, bind_silent _ _ _ _ hchk]
  constructor
  · intro h; rw [if_pos h]; rfl
  · intro h; rw [h]; rfl

/-- C8, run on the stored collection of `storedWorld`: its id and name are cached, an age
is not. -/
theorem load_cache_or_forceLoad_witness :
    Load extPlain (knot extPlain 0) 0 [⟨"Name", "name"⟩] storedWorld
        = ⟨Except.ok 0, storedWorld, []⟩ ∧
      Load extPlain (knot extPlain 0) 0 [⟨"Age", "age"⟩] storedWorld
        = ForceLoad extPlain (knot extPlain 0) 0 [⟨"Age", "age"⟩] storedWorld :=
  ⟨(load_cache_or_forceLoad extPlain (knot extPlain 0) storedWorld 0 [⟨"Name", "name"⟩]
      _ partnerModel _ _ _ rfl rfl rfl rfl rfl).1 (by decide),
    (load_cache_or_forceLoad extPlain (knot extPlain 0) storedWorld 0 [⟨"Age", "age"⟩]
      _ partnerModel _ _ _ rfl rfl rfl rfl rfl).2 (by decide)⟩

/-- The guard at the head of `ForceLoad` ("Never load RecordSets without query"): on an
empty query `ForceLoad` returns the receiver or fails the permission check; either way
the world is as before and nothing is sent to storage. -/
theorem forceLoad_empty_query (x : Ext) (k : Rec) (w : World) (rc : Nat)
    (fs : List FieldName) (r : RecordCollection) (q : Query) (h1 : w.rcs[rc]? = some r)
    (h3 : r.query.bind (fun a => w.queries[a]?) = some q) (he : x.isEmpty q = true) :
    ForceLoad x k rc fs w = ⟨Except.ok rc, w, []⟩ ∨
      ∃ msg, ForceLoad x k rc fs w = ⟨Except.error msg, w, []⟩ := by
  cases hp : x.checkExecutionPermission w rc "Load" with
  | some msg =>
    right
    refine ⟨msg, ?_⟩
    have : CheckExecutionPermission x rc "Load" w = ⟨Except.error msg, w, []⟩ := by
      simp only [CheckExecutionPermission, hp]
    simp only [ForceLoad, bind_run, pure_run]
    rw [bind_error _ _ _ _ _ _ this]
  | none =>
    left
    have : CheckExecutionPermission x rc "Load" w = ⟨Except.ok (), w, []⟩ := by
      simp only [CheckExecutionPermission, hp]
    simp only [ForceLoad, bind_run, pure_run]
    rw [bind_silent _ _ _ _ this, bind_silent _ _ _ _ (derefRC_run _ _ _ h1),
      bind_silent _ _ _ _ (derefQuery_run _ _ _ h3)]
    simp only [he, if_true]
    rfl

/-! ## doUpdate -/

theorem isValid_run (w : World) (rc : Nat) (r : RecordCollection)
    (h1 : w.rcs[rc]? = some r) :
    IsValid (some rc) w =
      ⟨Except.ok (r.model.isSome && r.query.isSome && r.env.isSome), w, []⟩ := by
  simp only [IsValid, Option.bind, h1]

/-- Method `Len` on a fetched collection, at any call depth above zero. -/
theorem len_of_fetched (x : Ext) (n : Nat) (w : World) (rc : Nat) (r : RecordCollection)
    (h1 : w.rcs[rc]? = some r) (hf : r.fetched = true) :
    Len (knot x (n + 1)) rc w = ⟨Except.ok r.ids.length, w, []⟩ := by
  simp only [Len, bind_run, pure_run, knot]
  rw [bind_silent _ _ _ _ (fetch_of_fetched x _ w rc r h1 hf),
    bind_silent _ _ _ _ (derefRC_run _ _ _ h1)]
  rfl

/-- Method `Ids` on a fetched collection, at any call depth above zero. -/
theorem ids_of_fetched (x : Ext) (n : Nat) (w : World) (rc : Nat) (r : RecordCollection)
    (h1 : w.rcs[rc]? = some r) (hf : r.fetched = true) :
    Ids (knot x (n + 1)) rc w = ⟨Except.ok r.ids, w, []⟩ := by
  simp only [Ids, bind_run, pure_run, knot]
  rw [bind_silent _ _ _ _ (fetch_of_fetched x _ w rc r h1 hf),
    bind_silent _ _ _ _ (derefRC_run _ _ _ h1)]
  rfl

/-- Method `IsEmpty` on a fetched collection whose pointers are set. -/
theorem isEmpty_of_fetched (x : Ext) (n : Nat) (w : World) (rc : Nat)
    (r : RecordCollection) (h1 : w.rcs[rc]? = some r) (hf : r.fetched = true)
    (hm : r.model.isSome = true) (hq : r.query.isSome = true) (he : r.env.isSome = true) :
    IsEmpty (knot x (n + 1)) (some rc) w = ⟨Except.ok (r.ids.length == 0), w, []⟩ := by
  simp only [IsEmpty, bind_run, pure_run]
  rw [bind_silent _ _ _ _ (isValid_run w rc r h1)]
  simp only [hm, hq, he, Bool.and_self, Bool.not_true, Bool.false_eq_true, if_false,
    Option.getD_some, pure_bind]
  rw [bind_silent _ _ _ _ (len_of_fetched x n w rc r h1 hf)]
  rfl

/-- The test at the head of the body of `doUpdate`: a map of two entries that holds the
write date and the write user ends the body at once. -/
theorem doUpdateBody_metadata (x : Ext) (k : Rec) (rc : Nat) (fMap : FieldMap) (w : World)
    (hlen : fMap.length = 2) (hwd : (fMap.lookup "write_date").isSome = true)
    (hwu : (fMap.lookup "write_uid").isSome = true) :
    doUpdateBody x k rc fMap w = ⟨Except.ok (), w, []⟩ := by
  simp only [doUpdateBody, bind_run, pure_run, hlen, if_true, hwd, hwu, Bool.and_self]
  rfl

/-- C5, as the code has it: when the stored field map holds exactly the write date and
the write user, the body of `doUpdate` returns at once on every collection, before any
`UPDATE` query is built or executed and before any cache write; and on a fetched,
non-empty collection that the user may write, `doUpdate` as a whole returns normally,
sends no statement to storage and leaves the world (cache included) as it was. -/
theorem doUpdate_write_metadata_only (x : Ext) (rc : Nat) (fMap : FieldMap)
    (hlen : fMap.length = 2) (hwd : (fMap.lookup "write_date").isSome = true)
    (hwu : (fMap.lookup "write_uid").isSome = true) :
    (∀ (k : Rec) (w : World), doUpdateBody x k rc fMap w = ⟨Except.ok (), w, []⟩) ∧
    (∀ (n : Nat) (w : World) (r : RecordCollection), w.rcs[rc]? = some r →
      r.fetched = true → r.ids ≠ [] → r.model.isSome = true → r.query.isSome = true →
      r.env.isSome = true → x.checkExecutionPermission w rc "Write" = none →
      doUpdate x (knot x (n + 1)) rc fMap w = ⟨Except.ok (), w, []⟩) := by
  refine ⟨fun k w => doUpdateBody_metadata x k rc fMap w hlen hwd hwu, ?_⟩
  intro n w r h1 hf hne hm hq he hp
  have hperm : CheckExecutionPermission x rc "Write" w = ⟨Except.ok (), w, []⟩ := by
    simp only [CheckExecutionPermission, hp]
  have hlen0 : (r.ids.length == 0) = false := by
    cases hi : r.ids with
    | nil => exact absurd hi hne
    | cons a l => rfl
  simp only [doUpdate, bind_run, pure_run]
  rw [bind_silent _ _ _ _ hperm,
    bind_silent _ _ _ _ (isEmpty_of_fetched x n w rc r h1 hf hm hq he)]
  simp only [hlen0, Bool.false_eq_true, if_false, pure_bind]
  simp only [rethrow, doUpdateBody_metadata x _ rc fMap w hlen hwd hwu]

/-- C5, run on the stored collection of `storedWorld`. -/
theorem doUpdate_write_metadata_only_witness :
    doUpdateBody extPlain (knot extPlain 0) 0
        [("write_date", Value.str "2026-01-01 00:00:00"), ("write_uid", Value.int 1)]
        storedWorld = ⟨Except.ok (), storedWorld, []⟩ ∧
      doUpdate extPlain (knot extPlain 1) 0
        [("write_date", Value.str "2026-01-01 00:00:00"), ("write_uid", Value.int 1)]
        storedWorld = ⟨Except.ok (), storedWorld, []⟩ :=
  have h := doUpdate_write_metadata_only extPlain 0
    [("write_date", Value.str "2026-01-01 00:00:00"), ("write_uid", Value.int 1)]
    (by decide) (by decide) (by decide)
  ⟨h.1 _ _, h.2 0 storedWorld _ rfl rfl (by decide) rfl rfl rfl rfl⟩

/-- C5 fails as stated: `update` with no data on the stored collection of `storedWorld`
has the stored field map of the write date and write user only, and yet sends a statement
to storage, the `SELECT` of the `ForceLoad(ID)` at its head. -/
theorem update_write_metadata_sends_select :
    (M.bind (addAccessFieldsUpdateData extDb 0 []) (fun fMap =>
        filterMapOnStoredFields 0 fMap) storedWorld).out
      = Except.ok [("write_date", Value.str "2026-01-01 00:00:00"),
          ("write_uid", Value.int 1)] ∧
    (update extDb (knot extDb 2) 0 (ModelData.mk [] []) storedWorld).out = Except.ok true ∧
    (update extDb (knot extDb 2) 0 (ModelData.mk [] []) storedWorld).ev
      = [Stmt.query "SELECT" []] := by
  decide!

/-! ## updateRelationFields -/

theorem execStmt_run (x : Ext) (s : Stmt) (w : World)
    (hdrv : ∀ j t, ∃ a, x.rowsAffected j t = Except.ok a) :
    ∃ a, execStmt x s w = ⟨Except.ok a, { w with db := w.db ++ [s] }, [s]⟩ := by
  obtain ⟨a, ha⟩ := hdrv w.db s
  refine ⟨a, ?_⟩
  simp only [execStmt, bind_run, M.bind, send, liftExcept, ha]
  rfl

/-- The loop that inserts the link rows of one record: one `INSERT` per related id. -/
theorem m2m_insert_loop (x : Ext) (fi : Field) (id : Int)
    (hdrv : ∀ j t, ∃ a, x.rowsAffected j t = Except.ok a) (rel : List Int) :
    ∀ w : World, forEach rel (fun relId =>
        M.bind (execStmt x (m2mInsert fi id relId)) (fun _ => M.pure ())) w
      = ⟨Except.ok (), { w with db := w.db ++ rel.map (m2mInsert fi id) },
          rel.map (m2mInsert fi id)⟩ := by
  induction rel with
  | nil => intro w; simp [forEach, M.pure]
  | cons a l ih =>
    intro w
    obtain ⟨n, hn⟩ := execStmt_run x (m2mInsert fi id a) w hdrv
    rw [forEach_cons, bind_ok _ _ _ _ _ _ (bind_ok _ _ _ _ _ _ hn)]
    simp only [M.pure, List.append_nil, ih]
    simp

/-- One round of the loop over the records: the links of the record in the cache become
the new list, and one `INSERT` is sent per related id. -/
theorem m2mRelink_run (x : Ext) (cp : Nat) (fi : Field) (rel : List Int) (id : Int)
    (hdrv : ∀ j t, ∃ a, x.rowsAffected j t = Except.ok a) (w : World) (c : Cache)
    (hc : w.caches[cp]? = some c) :
    m2mRelink x cp fi (Value.ids rel) id w
      = ⟨Except.ok (),
          (w.withCache cp ((c.removeM2MLinks fi.json id).addM2MLink fi.json id rel)).sent
            (rel.map (m2mInsert fi id)),
          rel.map (m2mInsert fi id)⟩ := by
  have hlt := lt_length_of_getElem? _ _ _ hc
  have h1 : modifyCache cp (fun c => c.removeM2MLinks fi.json id) w
      = ⟨Except.ok (), { w with caches := w.caches.set cp (c.removeM2MLinks fi.json id) },
          []⟩ := by
    simp only [modifyCache, hc]
  simp only [m2mRelink, bind_run, pure_run, asIds, pure_bind]
  rw [bind_ok _ _ _ _ _ _ h1, bind_ok _ _ _ _ _ _ (m2m_insert_loop x fi id hdrv rel _)]
  simp [modifyCache, List.getElem?_set, hlt, World.withCache, World.sent]

theorem lookup_filter_ne {α β : Type} [BEq α] [LawfulBEq α] (k : α) (l : List (α × β)) :
    List.lookup k (l.filter (fun p => p.1 != k)) = none := by
  induction l with
  | nil => rfl
  | cons a l ih =>
    obtain ⟨a1, a2⟩ := a
    by_cases h : a1 = k
    · subst h
      simpa [List.filter_cons] using ih
    · have hk : (k == a1) = false := by
        rw [beq_eq_false_iff_ne]
        exact fun e => h e.symm
      have hne : (a1 != k) = true := by simp [h]
      rw [List.filter_cons, if_pos hne, List.lookup_cons, hk]
      exact ih

theorem lookup_filter_other {α β : Type} [BEq α] [LawfulBEq α] (k k2 : α)
    (l : List (α × β)) (h : k2 ≠ k) :
    List.lookup k2 (l.filter (fun p => p.1 != k)) = List.lookup k2 l := by
  induction l with
  | nil => rfl
  | cons a l ih =>
    obtain ⟨a1, a2⟩ := a
    by_cases ha : a1 = k
    · subst ha
      have hk : (k2 == a1) = false := by
        rw [beq_eq_false_iff_ne]
        exact h
      have hne : ¬ ((a1 != a1) = true) := by simp
      rw [List.filter_cons, if_neg hne, List.lookup_cons, hk]
      exact ih
    · have hne : (a1 != k) = true := by simp [ha]
      rw [List.filter_cons, if_pos hne, List.lookup_cons, List.lookup_cons, ih]


/-- The links the cache holds for a record after one round of the loop. -/
theorem relink_lookup (c : Cache) (field : String) (id : Int) (rel : List Int) :
    List.lookup (field, id) ((c.removeM2MLinks field id).addM2MLink field id rel).m2mLinks
      = some rel := by
  simp only [Cache.addM2MLink, Cache.removeM2MLinks, List.lookup_cons, beq_self_eq_true,
    lookup_filter_ne, Option.getD_none, List.nil_append]

theorem relink_lookup_other (c : Cache) (field : String) (id : Int) (rel : List Int)
    (key : String × Int) (h : key ≠ (field, id)) :
    List.lookup key ((c.removeM2MLinks field id).addM2MLink field id rel).m2mLinks
      = List.lookup key c.m2mLinks := by
  have hk : (key == (field, id)) = false := by
    rw [beq_eq_false_iff_ne]
    exact h
  simp only [Cache.addM2MLink, Cache.removeM2MLinks, List.lookup_cons, hk]
  rw [lookup_filter_other _ _ _ h, lookup_filter_other _ _ _ h]

/-- The loop over the records of the `Many2Many` case: one `INSERT` per record and related
id, in order, and afterwards the cache links of every record are the new list. -/
theorem m2m_relink_loop (x : Ext) (cp : Nat) (fi : Field) (rel : List Int)
    (hdrv : ∀ j t, ∃ a, x.rowsAffected j t = Except.ok a) (ids : List Int) :
    ∀ (w : World) (c : Cache), w.caches[cp]? = some c →
      ∃ c2, forEach ids (fun id => m2mRelink x cp fi (Value.ids rel) id) w
          = ⟨Except.ok (),
              (w.withCache cp c2).sent (ids.flatMap (fun id => rel.map (m2mInsert fi id))),
              ids.flatMap (fun id => rel.map (m2mInsert fi id))⟩ ∧
        (∀ id ∈ ids, List.lookup (fi.json, id) c2.m2mLinks = some rel) ∧
        (∀ key : String × Int, (∀ id ∈ ids, key ≠ (fi.json, id)) →
          List.lookup key c2.m2mLinks = List.lookup key c.m2mLinks) := by
  induction ids with
  | nil =>
    intro w c hc
    refine ⟨c, ?_, by simp, fun _ _ => rfl⟩
    have hlt := lt_length_of_getElem? _ _ _ hc
    have : w.caches.set cp c = w.caches := by
      apply List.ext_getElem?
      intro i
      by_cases hi : i = cp
      · subst hi; simp [List.getElem?_set, hlt, hc]
      · rw [List.getElem?_set_ne (fun e => hi e.symm)]
    cases w
    simp_all [forEach, M.pure, World.withCache, World.sent]
  | cons a l ih =>
    intro w c hc
    have hlt := lt_length_of_getElem? _ _ _ hc
    have h1 := m2mRelink_run x cp fi rel a hdrv w c hc
    have hc1 : ((w.withCache cp ((c.removeM2MLinks fi.json a).addM2MLink fi.json a rel)).sent
        (rel.map (m2mInsert fi a))).caches[cp]?
        = some ((c.removeM2MLinks fi.json a).addM2MLink fi.json a rel) := by
      simp [World.withCache, World.sent, List.getElem?_set, hlt]
    obtain ⟨c2, e1, e2, e3⟩ := ih _ _ hc1
    refine ⟨c2, ?_, ?_, ?_⟩
    · rw [forEach_cons, bind_ok _ _ _ _ _ _ h1, e1]
      simp [World.withCache, World.sent, List.set_set]
    · intro id hid
      by_cases hl : id ∈ l
      · exact e2 id hl
      · have ha : id = a := by
          rcases List.mem_cons.mp hid with h | h
          · exact h
          · exact absurd h hl
        subst ha
        rw [e3 (fi.json, id) (fun j hj e => hl (by
          have : id = j := by injection e
          rw [this]; exact hj))]
        exact relink_lookup c fi.json id rel
    · intro key hkey
      rw [e3 key (fun id hid => hkey id (List.mem_cons_of_mem _ hid))]
      exact relink_lookup_other c fi.json a rel key (hkey a (List.mem_cons_self _ _))

/-- C6, as the code has it: a write of a many-to-many field with the ids `N` on a fetched
collection sends one `DELETE` for the link rows of all records of the collection (whatever
the current links are), then one `INSERT` per record and per id of `N`, in order; links
that are both current and in `N` are deleted and inserted again. Afterwards the cache
links of every record of the collection are `N`. -/
theorem updateRelationFields_many2many (x : Ext) (n : Nat) (w : World) (rc : Nat)
    (key : String) (N : List Int) (r : RecordCollection) (m : Model) (e : Environment)
    (c : Cache) (fi : Field) (h1 : w.rcs[rc]? = some r) (hf : r.fetched = true)
    (h2 : r.model = some m) (h4 : r.env.bind (fun a => w.envs[a]?) = some e)
    (h5 : w.caches[e.cache]? = some c)
    (hfi : x.getRelatedFieldInfo m (m.FieldName key) = Except.ok fi)
    (hft : fi.fieldType = FieldType.Many2Many)
    (hdrv : ∀ j t, ∃ a, x.rowsAffected j t = Except.ok a) :
    ∃ c2, updateRelationFields x (knot x (n + 1)) rc [(key, Value.ids N)] w
        = ⟨Except.ok (),
            (w.withCache e.cache c2).sent (m2mDelete fi r.ids ::
              r.ids.flatMap (fun id => N.map (m2mInsert fi id))),
            m2mDelete fi r.ids :: r.ids.flatMap (fun id => N.map (m2mInsert fi id))⟩ ∧
      ∀ id ∈ r.ids, List.lookup (fi.json, id) c2.m2mLinks = some N := by
  obtain ⟨a, ha⟩ := execStmt_run x (m2mDelete fi r.ids) w hdrv
  have hc1 : (w.sent [m2mDelete fi r.ids]).caches[e.cache]? = some c := h5
  obtain ⟨c2, e1, e2, -⟩ := m2m_relink_loop x e.cache fi N hdrv r.ids _ c hc1
  refine ⟨c2, ?_, e2⟩
  have hm2m : updateMany2Many x rc fi (Value.ids N) w
      = ⟨Except.ok (),
          (w.withCache e.cache c2).sent (m2mDelete fi r.ids ::
            r.ids.flatMap (fun id => N.map (m2mInsert fi id))),
          m2mDelete fi r.ids :: r.ids.flatMap (fun id => N.map (m2mInsert fi id))⟩ := by
    simp only [updateMany2Many, bind_run]
    rw [bind_silent _ _ _ _ (derefRC_run _ _ _ h1),
      bind_silent _ _ _ _ (derefEnv_run _ _ _ h4), bind_ok _ _ _ _ _ _ ha]
    have e1b : forEach r.ids (fun id => m2mRelink x e.cache fi (Value.ids N) id)
        { w with db := w.db ++ [m2mDelete fi r.ids] } = _ := e1
    rw [e1b]
    simp [World.withCache, World.sent]
  simp only [updateRelationFields, bind_run, pure_run, knot]
  rw [bind_silent _ _ _ _ (fetch_of_fetched x _ w rc r h1 hf), forEach_cons, forEach_nil,
    bind_pure_unit, bind_silent _ _ _ _ (derefRC_run _ _ _ h1), h2,
    bind_silent _ _ _ _ (derefModel_run _ _)]
  simp only [hfi, liftExcept]
  rw [bind_silent _ _ _ _ rfl]
  simp only [hft]
  exact hm2m

/-- C6, run on `linkedWorld`, where record 5 has the tags 1, 2 and 3, with the write of
the tags 2, 3 and 4. -/
theorem updateRelationFields_many2many_witness :
    ∃ c2, updateRelationFields extPlain (knot extPlain 1) 0 [("Tags", Value.ids [2, 3, 4])]
        linkedWorld
        = ⟨Except.ok (),
            (linkedWorld.withCache 0 c2).sent (m2mDelete tagsField [5] ::
              [5].flatMap (fun id => [2, 3, 4].map (m2mInsert tagsField id))),
            m2mDelete tagsField [5] ::
              [5].flatMap (fun id => [2, 3, 4].map (m2mInsert tagsField id))⟩ ∧
      ∀ id ∈ [5], List.lookup (tagsField.json, id) c2.m2mLinks = some [2, 3, 4] :=
  updateRelationFields_many2many extPlain 0 linkedWorld 0 "Tags" [2, 3, 4]
    { model := some partnerModel, query := some 0, env := some 0, ids := [5],
      fetched := true }
    partnerModel { uid := 1, cache := 0 }
    { data := [(⟨"Partner", 5, "id", ""⟩, Value.int 5),
               (⟨"Partner", 5, "name", ""⟩, Value.str "Ada")],
      m2mLinks := [(("tags", 5), [1, 2, 3])] }
    tagsField (by decide!) (by decide!) (by decide!)
    (by decide!) (by decide!) (by decide!) (by decide!) (fun _ _ => ⟨1, rfl⟩)

/-- C6 fails as stated: with the current links 1, 2, 3 of record 5 and the write of 2, 3, 4
the code sends a `DELETE` for all link rows of record 5 and then inserts 2, 3 and 4: the
links 2 and 3 are not left untouched, and 4 is not the only link added. -/
theorem updateRelationFields_many2many_reinserts :
    (updateRelationFields extPlain (knot extPlain 1) 0 [("Tags", Value.ids [2, 3, 4])]
        linkedWorld).out = Except.ok () ∧
    (updateRelationFields extPlain (knot extPlain 1) 0 [("Tags", Value.ids [2, 3, 4])]
        linkedWorld).ev
      = [Stmt.execute "DELETE FROM partner_tag_rel WHERE partner_id IN (?)" [Value.ids [5]],
         Stmt.execute "INSERT INTO partner_tag_rel (partner_id, tag_id) VALUES (?, ?)"
           [Value.int 5, Value.int 2],
         Stmt.execute "INSERT INTO partner_tag_rel (partner_id, tag_id) VALUES (?, ?)"
           [Value.int 5, Value.int 3],
         Stmt.execute "INSERT INTO partner_tag_rel (partner_id, tag_id) VALUES (?, ?)"
           [Value.int 5, Value.int 4]] := by
  decide!

/-! ## create -/

theorem rethrow_error {α : Type} (f : World → String → String) (m : M α) (w w1 : World)
    (msg : String) (e1 : List Stmt) (h : m w = ⟨Except.error msg, w1, e1⟩) :
    rethrow f m w = ⟨Except.error (f w1 msg), w1, e1⟩ := by
  simp only [rethrow, h]

theorem rethrow_ok {α : Type} (f : World → String → String) (m : M α) (w w1 : World)
    (a : α) (e1 : List Stmt) (h : m w = ⟨Except.ok a, w1, e1⟩) :
    rethrow f m w = ⟨Except.ok a, w1, e1⟩ := by
  simp only [rethrow, h]

/-- A successful run of two steps in sequence is a successful run of each. -/
theorem bind_ok_inv {α β : Type} (m : M α) (f : α → M β) (w w2 : World) (b : β)
    (ev : List Stmt) (h : M.bind m f w = ⟨Except.ok b, w2, ev⟩) :
    ∃ a w1 e1 e2, m w = ⟨Except.ok a, w1, e1⟩ ∧ f a w1 = ⟨Except.ok b, w2, e2⟩ ∧
      ev = e1 ++ e2 := by
  rcases hm : m w with ⟨o, w1, e1⟩
  cases o with
  | error msg =>
    rw [bind_error _ _ _ _ _ _ hm] at h
    simp at h
  | ok a =>
    rw [bind_ok _ _ _ _ _ _ hm] at h
    rcases hf : f a w1 with ⟨o2, w3, e2⟩
    rw [hf] at h
    simp only [Res.mk.injEq] at h
    obtain ⟨ho, hw, he⟩ := h
    subst ho hw he
    exact ⟨a, w1, e1, e2, rfl, hf, rfl⟩

/-- A successful run that starts with a silent step. -/
theorem bind_silent_inv {α β : Type} (m : M α) (f : α → M β) (hs : M.silent m)
    (w w2 : World) (b : β) (ev : List Stmt) (h : M.bind m f w = ⟨Except.ok b, w2, ev⟩) :
    ∃ a w1, f a w1 = ⟨Except.ok b, w2, ev⟩ := by
  obtain ⟨a, w1, e1, e2, h1, h2, h3⟩ := bind_ok_inv m f w w2 b ev h
  have : e1 = [] := by
    have := hs w
    rw [h1] at this
    exact this
  subst this
  exact ⟨a, w1, by rw [h3]; exact h2⟩

/-- Every successful run of `crGet` followed by further steps starts with the `Get`
statement. -/
theorem crGet_bind_sends {β : Type} (x : Ext) (sql : String) (args : List Value)
    (f : Int → M β) (w w2 : World) (b : β) (ev : List Stmt)
    (h : M.bind (crGet x sql args) f w = ⟨Except.ok b, w2, ev⟩) :
    ∃ rest, ev = Stmt.get sql args :: rest := by
  obtain ⟨a, w1, e1, e2, h1, -, h3⟩ := bind_ok_inv _ f w w2 b ev h
  simp only [crGet, bind_run] at h1
  obtain ⟨j, w0, e0, e3, g1, g2, g3⟩ := bind_ok_inv _ _ w w1 a e1 h1
  simp only [send, Res.mk.injEq] at g1
  obtain ⟨-, -, g1⟩ := g1
  exact ⟨e3 ++ e2, by rw [h3, g3, ← g1]; rfl⟩

/-- Every successful run of the second part of `create` starts with the `INSERT`
statement sent through `cr.Get`. -/
theorem createStore_sends_insert (x : Ext) (rc : Nat) (stored : FieldMap) (w w2 : World)
    (p : Nat) (ev : List Stmt) (h : createStore x rc stored w = ⟨Except.ok p, w2, ev⟩) :
    ∃ sql args rest, ev = Stmt.get sql args :: rest := by
  simp only [createStore, bind_run] at h
  obtain ⟨r, wa, h⟩ := bind_silent_inv _ _ (silent_derefRC _) _ _ _ _ h
  obtain ⟨q, wb, h⟩ := bind_silent_inv _ _ (silent_derefQuery _) _ _ _ _ h
  obtain ⟨w0, wc, h⟩ := bind_silent_inv _ _ silent_getW _ _ _ _ h
  obtain ⟨e, wd, h⟩ := bind_silent_inv _ _ (silent_derefEnv _) _ _ _ _ h
  obtain ⟨rest, hrest⟩ := crGet_bind_sends x _ _ _ _ _ _ _ h
  exact ⟨_, _, rest, hrest⟩

/-- C4, as the code has it: the constraints are checked by the last step of `create`.
Whenever a create fails in its constraint check, the three parts before it have run: the
statements sent to storage are those of the preparation, then the `INSERT` of the row and
what follows it, then those of the relation synchronization, inverse methods and
triggers, then those of the check itself; `create` raises the failure (passed through
`substituteSQLErrorMessage`) in the world the check left, and undoes nothing itself. -/
theorem create_constraint_failure (x : Ext) (k : Rec) (w : World) (rc : Nat)
    (data : ModelData) (fMap stored : FieldMap) (data2 : ModelData) (w1 : World)
    (ev1 : List Stmt)
    (hprep : createPrepare x rc data w = ⟨Except.ok (fMap, stored, data2), w1, ev1⟩)
    (rSet : Nat) (w2 : World) (ev2 : List Stmt)
    (hstore : createStore x rc stored w1 = ⟨Except.ok rSet, w2, ev2⟩)
    (w3 : World) (ev3 : List Stmt)
    (hsync : createSync x k rSet fMap data2 w2 = ⟨Except.ok (), w3, ev3⟩)
    (r3 : RecordCollection) (rm : Model) (hr3 : w3.rcs[rSet]? = some r3)
    (hrm : r3.model = some rm) (msg : String) (w4 : World) (ev4 : List Stmt)
    (hchk : CheckConstraints x k rSet (data2.FieldMap.FieldNames rm) w3
      = ⟨Except.error msg, w4, ev4⟩) :
    create x k rc data w
        = ⟨Except.error (substituteSQLErrorMessage x rc w4 msg), w4,
            ev1 ++ (ev2 ++ (ev3 ++ ev4))⟩ ∧
      ∃ sql args rest, ev2 = Stmt.get sql args :: rest := by
  refine ⟨?_, createStore_sends_insert x rc stored w1 w2 rSet ev2 hstore⟩
  have hinner : (M.bind (derefRC rSet) (fun r => M.bind (derefModel r.model) (fun rm =>
      M.bind (CheckConstraints x k rSet (data2.FieldMap.FieldNames rm))
        (fun _ => M.pure rSet)))) w3 = ⟨Except.error msg, w4, ev4⟩ := by
    rw [bind_silent _ _ _ _ (derefRC_run _ _ _ hr3), hrm,
      bind_silent _ _ _ _ (derefModel_run _ _), bind_error _ _ _ _ _ _ hchk]
  unfold create
  apply rethrow_error
  simp only [bind_run, pure_run]
  rw [bind_ok _ _ _ _ _ _ hprep]
  simp only []
  rw [bind_ok _ _ _ _ _ _ hstore, bind_ok _ _ _ _ _ _ hsync]
  simp only [hinner]

/-- C4, run on `failingData`: the create fails in the constraint check after the three
parts before it have run, and its statements start with the `INSERT`. -/
theorem create_constraint_failure_witness :
    create extStrict (knot extStrict 2) 0 failingData poolWorld
        = ⟨Except.error (substituteSQLErrorMessage extStrict 0 failingCheck.w
              "ValidationError: the name is required"), failingCheck.w,
            failingPrepare.ev ++ (failingStore.ev ++ (failingSync.ev ++ failingCheck.ev))⟩ ∧
      ∃ sql args rest, failingStore.ev = Stmt.get sql args :: rest :=
  create_constraint_failure extStrict (knot extStrict 2) poolWorld 0 failingData
    failingMaps.1 failingMaps.2.1 failingMaps.2.2 failingPrepare.w failingPrepare.ev rfl
    0 failingStore.w failingStore.ev (by decide!) failingSync.w failingSync.ev (by decide!)
    ((failingSync.w.rcs[0]?).getD default) partnerModel (by decide!) (by decide!)
    "ValidationError: the name is required" failingCheck.w failingCheck.ev (by decide!)

/-- C4 fails as stated: the create of `failingData`, which violates the constraint of the
name, fails only after the row has been inserted and the tags have been synchronized:
the `INSERT` of the row and the `DELETE` and `INSERT` of the link rows have been sent to
storage when the failure is raised. -/
theorem create_constraint_failure_after_insert :
    (create extStrict (knot extStrict 2) 0 failingData poolWorld).out
      = Except.error "ValidationError: the name is required" ∧
    (create extStrict (knot extStrict 2) 0 failingData poolWorld).ev
      = [Stmt.get "INSERT" [Value.int 18, Value.str "", Value.str "2026-01-01 00:00:00",
           Value.int 1],
         Stmt.execute "DELETE FROM partner_tag_rel WHERE partner_id IN (?)" [Value.ids [1]],
         Stmt.execute "INSERT INTO partner_tag_rel (partner_id, tag_id) VALUES (?, ?)"
           [Value.int 1, Value.int 2]] := by
  decide!

/-! ## The cache -/

theorem cache_get_updateEntry_same (c : Cache) (model : String) (id : Int) (field : String)
    (v : Value) (slug : String) :
    (c.updateEntry model id field v slug).get model id field slug = v := by
  simp [Cache.get, Cache.updateEntry, List.lookup_cons]

theorem cache_get_updateEntry_other (c : Cache) (model : String) (id : Int)
    (field field2 : String) (v : Value) (slug : String) (h : field2 ≠ field) :
    (c.updateEntry model id field v slug).get model id field2 slug
      = c.get model id field2 slug := by
  have hne : (⟨model, id, field2, slug⟩ : CacheKey) ≠ ⟨model, id, field, slug⟩ := by
    intro e
    injection e with _ _ e3 _
    exact h e3
  have hk : ((⟨model, id, field2, slug⟩ : CacheKey) == ⟨model, id, field, slug⟩) = false := by
    rw [beq_eq_false_iff_ne]
    exact hne
  simp only [Cache.get, Cache.updateEntry, List.lookup_cons, hk]
  rw [lookup_filter_other _ _ _ hne]

/-- A key is present in the cache. -/
theorem cache_any_iff_lookup (l : List (CacheKey × Value)) (key : CacheKey) :
    l.any (fun p => p.1 == key) = (List.lookup key l).isSome := by
  induction l with
  | nil => rfl
  | cons a l ih =>
    obtain ⟨a1, a2⟩ := a
    by_cases h : a1 = key
    · subst h
      simp [List.lookup_cons]
    · have hk : (key == a1) = false := by
        rw [beq_eq_false_iff_ne]
        exact fun e => h e.symm
      have hk2 : (a1 == key) = false := by
        rw [beq_eq_false_iff_ne]
        exact h
      simp only [List.any_cons, hk2, Bool.false_or, ih, List.lookup_cons, hk]

theorem cache_has_updateEntry_same (c : Cache) (model : String) (id : Int) (field : String)
    (v : Value) (slug : String) :
    (List.lookup ⟨model, id, field, slug⟩
      (c.updateEntry model id field v slug).data).isSome = true := by
  simp [Cache.updateEntry, List.lookup_cons]

/-- The strict cache check for one id and one field is the presence of the key. -/
theorem checkIfInCache_single (c : Cache) (noIds : Bool) (model : String) (id : Int)
    (field slug : String) :
    c.checkIfInCache noIds model [id] [field] slug
      = (List.lookup ⟨model, id, field, slug⟩ c.data).isSome := by
  simp [Cache.checkIfInCache, cache_any_iff_lookup]

/-- Method `get` on a fetched collection of stored records whose first record has the
field in the cache: the cached value, without any call to storage. -/
theorem get_of_cached (x : Ext) (n : Nat) (w : World) (rc : Nat) (f : FieldName)
    (all : Bool) (r : RecordCollection) (m : Model) (q : Query) (e : Environment)
    (c : Cache) (id : Int) (rest : List Int) (v : Value)
    (h1 : w.rcs[rc]? = some r) (h2 : r.model = some m)
    (h3 : r.query.bind (fun a => w.queries[a]?) = some q)
    (h4 : r.env.bind (fun a => w.envs[a]?) = some e) (h5 : w.caches[e.cache]? = some c)
    (hf : r.fetched = true) (hids : r.ids = id :: rest)
    (hv : List.lookup ⟨m.name, id, f.json, x.ctxArgsSlug w q⟩ c.data = some v) :
    get x (knot x (n + 1)) rc f all w = ⟨Except.ok (v, false), w, []⟩ := by
  have hchk : checkIfInCache x rc [id] [f.json] w = ⟨Except.ok true, w, []⟩ := by
    rw [checkIfInCache_run x w rc _ _ r m q e c h1 h2 h3 h4 h5, checkIfInCache_single, hv]
    rfl
  simp only [get, bind_run, pure_run, knot]
  rw [bind_silent _ _ _ _ (fetch_of_fetched x _ w rc r h1 hf),
    bind_silent _ _ _ _ (derefRC_run _ _ _ h1), hids]
  simp only [firstId, pure_bind]
  rw [bind_silent _ _ _ _ hchk]
  simp only [Bool.not_true, Bool.and_false, Bool.false_eq_true, if_false, pure_bind]
  rw [bind_silent _ _ _ _ (derefRC_run _ _ _ h1), bind_silent _ _ _ _ (derefEnv_run _ _ _ h4),
    bind_silent _ _ _ _ (derefCache_run _ _ _ h5), h2,
    bind_silent _ _ _ _ (derefModel_run _ _), hids]
  simp only [pure_bind]
  rw [bind_silent _ _ _ _ (derefQuery_run _ _ _ h3), bind_silent _ _ _ _ (getW_run _)]
  simp [M.pure, Cache.get, hv]

theorem fieldMap_insert_keys_nodup (m : FieldMap) (k : String) (v : Value)
    (h : (m.map Prod.fst).Nodup) : ((FieldMap.insert m k v).map Prod.fst).Nodup := by
  unfold FieldMap.insert
  split
  · have : (m.map (fun p => if p.1 == k then (k, v) else p)).map Prod.fst = m.map Prod.fst := by
      rw [List.map_map]
      apply List.map_congr_left
      intro p _
      by_cases hp : p.1 = k
      · simp [hp]
      · simp [hp]
    rw [this]
    exact h
  · rename_i hany
    rw [List.map_append, List.nodup_append]
    refine ⟨h, by simp, ?_⟩
    intro a ha hb
    simp only [List.map_cons, List.map_nil, List.mem_singleton] at hb
    subst hb
    apply hany
    obtain ⟨p, hp, hpa⟩ := List.mem_map.mp ha
    exact List.any_eq_true.mpr ⟨p, hp, by simp [hpa]⟩

/-- A property of the accumulator that every successful step keeps holds at the end of a
successful `foldlM`. -/
theorem foldlM_ok_inv {α β : Type} (P : β → Prop) (f : β → α → M β)
    (hstep : ∀ b a w b2 w2 ev, P b → f b a w = ⟨Except.ok b2, w2, ev⟩ → P b2)
    (l : List α) : ∀ (b : β) (w : World) (b2 : β) (w2 : World) (ev : List Stmt), P b →
      List.foldlM f b l w = ⟨Except.ok b2, w2, ev⟩ → P b2 := by
  induction l with
  | nil =>
    intro b w b2 w2 ev hb h
    simp only [List.foldlM_nil, pure_run, M.pure, Res.mk.injEq, Except.ok.injEq] at h
    rw [← h.1]
    exact hb
  | cons a l ih =>
    intro b w b2 w2 ev hb h
    simp only [List.foldlM_cons, bind_run] at h
    obtain ⟨b1, w1, e1, e2, g1, g2, -⟩ := bind_ok_inv _ _ _ _ _ _ h
    exact ih b1 w1 b2 w2 e2 (hstep b a w b1 w1 e1 hb g1) g2

theorem pure_ok_inv {α : Type} (a b : α) (w w2 : World) (ev : List Stmt)
    (h : M.pure a w = ⟨Except.ok b, w2, ev⟩) : a = b := by
  simp only [M.pure, Res.mk.injEq, Except.ok.injEq] at h
  exact h.1

/-- The stored field map that `filterMapOnStoredFields` gives has distinct keys. -/
theorem filterMapOnStoredFields_nodup (rc : Nat) (fMap stored : FieldMap) (w w2 : World)
    (ev : List Stmt) (h : filterMapOnStoredFields rc fMap w = ⟨Except.ok stored, w2, ev⟩) :
    (stored.map Prod.fst).Nodup := by
  simp only [filterMapOnStoredFields, bind_run, pure_run] at h
  obtain ⟨r, w1, -, e2, -, h, -⟩ := bind_ok_inv _ _ _ _ _ _ h
  obtain ⟨m, w1, -, e2, -, h, -⟩ := bind_ok_inv _ _ _ _ _ _ h
  refine foldlM_ok_inv (fun b : FieldMap => (b.map Prod.fst).Nodup) _ ?_ fMap [] _ _ _ _
    (by simp) h
  intro b a w b2 w2 ev hb hrun
  cases hg : m.getField a.1 with
  | none =>
    simp only [hg] at hrun
    rw [← pure_ok_inv _ _ _ _ _ hrun]
    exact hb
  | some fi =>
    simp only [hg] at hrun
    by_cases hs : fi.isStored = true
    · simp only [hs, if_true] at hrun
      by_cases hi : fi.inverse ≠ ""
      · rw [if_pos hi] at hrun
        obtain ⟨env, w3, -, e3, -, hrun, -⟩ := bind_ok_inv _ _ _ _ _ _ hrun
        by_cases hgb : env.GetBool "erp_force_compute_write" = true
        · simp only [hgb, Bool.not_true, Bool.false_eq_true, if_false, pure_bind] at hrun
          rw [← pure_ok_inv _ _ _ _ _ hrun]
          exact fieldMap_insert_keys_nodup _ _ _ hb
        · simp only [hgb, Bool.not_false, if_true] at hrun
          rw [← pure_ok_inv _ _ _ _ _ hrun]
          exact hb
      · rw [if_neg hi] at hrun
        simp only [pure_bind] at hrun
        rw [← pure_ok_inv _ _ _ _ _ hrun]
        exact fieldMap_insert_keys_nodup _ _ _ hb
    · simp only [hs, if_false] at hrun
      rw [← pure_ok_inv _ _ _ _ _ hrun]
      exact hb

theorem checkPermission_ok (x : Ext) (w : World) (rc : Nat) (method : String)
    (hp : x.checkExecutionPermission w rc method = none) :
    CheckExecutionPermission x rc method w = ⟨Except.ok (), w, []⟩ := by
  simp only [CheckExecutionPermission, hp]

theorem checkPermission_error (x : Ext) (w : World) (rc : Nat) (method msg : String)
    (hp : x.checkExecutionPermission w rc method = some msg) :
    CheckExecutionPermission x rc method w = ⟨Except.error msg, w, []⟩ := by
  simp only [CheckExecutionPermission, hp]

/-- C12: on a collection whose query is not empty and that carries negative ids
(`hasNegIds` set) or whose query is grouped, `ForceLoad` panics: the run ends in a panic,
no statement has been sent to storage and the world (the cache with it) is as before;
when the permission check passes, the panic is the one of the in-memory collection or of
the grouped query. -/
theorem forceLoad_panics_before_storage (x : Ext) (k : Rec) (w : World) (rc : Nat)
    (fs : List FieldName) (r : RecordCollection) (q : Query) (h1 : w.rcs[rc]? = some r)
    (h3 : r.query.bind (fun a => w.queries[a]?) = some q) (hne : x.isEmpty q = false)
    (hbad : r.hasNegIds = true ∨ q.groups ≠ []) :
    ∃ msg, ForceLoad x k rc fs w = ⟨Except.error msg, w, []⟩ ∧
      (x.checkExecutionPermission w rc "Load" = none →
        msg = if r.hasNegIds = true then "Trying to load a memory RecordSet created by New"
          else "Trying to load a grouped query") := by
  cases hp : x.checkExecutionPermission w rc "Load" with
  | some msg =>
    refine ⟨msg, ?_, fun h => by cases h⟩
    simp only [ForceLoad, bind_run, pure_run]
    rw [bind_error _ _ _ _ _ _ (checkPermission_error x w rc _ _ hp)]
  | none =>
    refine ⟨_, ?_, fun _ => rfl⟩
    simp only [ForceLoad, bind_run, pure_run]
    rw [bind_silent _ _ _ _ (checkPermission_ok x w rc _ hp),
      bind_silent _ _ _ _ (derefRC_run _ _ _ h1),
      bind_silent _ _ _ _ (derefQuery_run _ _ _ h3)]
    simp only [hne, Bool.false_eq_true, if_false]
    by_cases hn : r.hasNegIds = true
    · simp only [hn, if_true]
      rfl
    · have hg : q.groups.length > 0 := by
        rcases hbad with h | h
        · exact absurd h hn
        · exact List.length_pos.mpr h
      simp only [hn, if_false]
      rw [bind_silent _ _ _ _ (show (M.pure PUnit.unit : M PUnit) w = ⟨Except.ok PUnit.unit, w, []⟩ from rfl)]
      simp only [hg, if_true]
      rfl

/-- C12, run on the in-memory collection of `memoryWorld`. -/
theorem forceLoad_panics_before_storage_witness :
    memoryWorld.rcs[0]? = some
        { model := some partnerModel, query := some 0, env := some 0, ids := [-1],
          fetched := true, hasNegIds := true } ∧
      ∃ msg, ForceLoad extPlain (knot extPlain 1) 0 [] memoryWorld
          = ⟨Except.error msg, memoryWorld, []⟩ ∧
        (extPlain.checkExecutionPermission memoryWorld 0 "Load" = none →
          msg = if (true : Bool) = true then "Trying to load a memory RecordSet created by New"
            else "Trying to load a grouped query") :=
  ⟨rfl, forceLoad_panics_before_storage extPlain (knot extPlain 1) memoryWorld 0 [] _ _ rfl rfl
    (by decide) (Or.inl rfl)⟩

/-! ## filterMapOnStoredFields -/

theorem lookup_map_replace_ne (m : FieldMap) (k j : String) (v : Value) (hjk : j ≠ k) :
    List.lookup j (m.map (fun p => if (p.1 == k) = true then (k, v) else p))
      = List.lookup j m := by
  induction m with
  | nil => rfl
  | cons p m ih =>
    obtain ⟨a, b⟩ := p
    by_cases hak : a = k
    · subst hak
      have h1 : (j == a) = false := beq_eq_false_iff_ne.mpr hjk
      simp only [List.map_cons, beq_self_eq_true, if_true, List.lookup_cons, h1, ih]
    · have h1 : (a == k) = false := beq_eq_false_iff_ne.mpr hak
      simp only [List.map_cons, h1, Bool.false_eq_true, if_false, List.lookup_cons, ih]

theorem lookup_map_replace_self (m : FieldMap) (k : String) (v : Value)
    (hany : m.any (fun p => p.1 == k) = true) :
    List.lookup k (m.map (fun p => if (p.1 == k) = true then (k, v) else p)) = some v := by
  induction m with
  | nil => simp at hany
  | cons p m ih =>
    obtain ⟨a, b⟩ := p
    by_cases hak : a = k
    · subst hak
      simp only [List.map_cons, beq_self_eq_true, if_true, List.lookup_cons]
    · have h1 : (a == k) = false := beq_eq_false_iff_ne.mpr hak
      have h2 : (k == a) = false := beq_eq_false_iff_ne.mpr (Ne.symm hak)
      simp only [List.any_cons, h1, Bool.false_or] at hany
      simp only [List.map_cons, h1, Bool.false_eq_true, if_false, List.lookup_cons, h2, ih hany]

theorem lookup_append_new (m : FieldMap) (k j : String) (v : Value)
    (hany : m.any (fun p => p.1 == k) = false) :
    List.lookup j (m ++ [(k, v)]) = if j = k then some v else List.lookup j m := by
  induction m with
  | nil =>
    by_cases hjk : j = k
    · subst hjk
      simp [List.lookup_cons]
    · have h1 : (j == k) = false := beq_eq_false_iff_ne.mpr hjk
      simp [List.lookup_cons, h1, hjk]
  | cons p m ih =>
    obtain ⟨a, b⟩ := p
    simp only [List.any_cons, Bool.or_eq_false_iff] at hany
    have hak : a ≠ k := fun h => by
      have := hany.1
      simp [h] at this
    by_cases hja : j = a
    · subst hja
      simp [List.lookup_cons, hak]
    · have h1 : (j == a) = false := beq_eq_false_iff_ne.mpr hja
      simp only [List.cons_append, List.lookup_cons, h1, ih hany.2]

/-- A read after a write of a map: the written key gives the written value, every other
key gives what it gave before. -/
theorem lookup_fieldMap_insert (m : FieldMap) (k j : String) (v : Value) :
    List.lookup j (FieldMap.insert m k v) = if j = k then some v else List.lookup j m := by
  unfold FieldMap.insert
  by_cases hany : m.any (fun p => p.1 == k) = true
  · rw [if_pos hany]
    by_cases hjk : j = k
    · subst hjk
      rw [if_pos rfl]
      exact lookup_map_replace_self m j v hany
    · rw [if_neg hjk]
      exact lookup_map_replace_ne m k j v hjk
  · rw [if_neg hany]
    exact lookup_append_new m k j v (Bool.eq_false_iff.mpr hany)

/-- An entry of a map after a write is the written entry or an entry from before. -/
theorem mem_fieldMap_insert (m : FieldMap) (k : String) (v : Value) (p : String × Value)
    (h : p ∈ FieldMap.insert m k v) : p = (k, v) ∨ p ∈ m := by
  unfold FieldMap.insert at h
  by_cases hany : m.any (fun p => p.1 == k) = true
  · rw [if_pos hany] at h
    obtain ⟨p0, hp0, he⟩ := List.mem_map.mp h
    by_cases h1 : (p0.1 == k) = true
    · rw [if_pos h1] at he
      exact Or.inl he.symm
    · rw [if_neg h1] at he
      exact Or.inr (he ▸ hp0)
  · rw [if_neg hany] at h
    rcases List.mem_append.mp h with h | h
    · exact Or.inr h
    · exact Or.inl (by simpa using h)

/-- A loop whose body returns without effect returns the fold of the results. -/
theorem foldlM_pure_run {α β : Type} (f : β → α → M β) (g : β → α → β) (w : World)
    (hstep : ∀ b a, f b a w = ⟨Except.ok (g b a), w, []⟩) (l : List α) :
    ∀ b : β, List.foldlM f b l w = ⟨Except.ok (l.foldl g b), w, []⟩ := by
  induction l with
  | nil => intro b; rfl
  | cons a l ih =>
    intro b
    simp only [List.foldlM_cons, bind_run, List.foldl_cons]
    rw [bind_silent _ _ _ _ (hstep b a)]
    exact ih _

/-- The run of `filterMapOnStoredFields` on a collection with a model and an environment:
it returns the kept entries, changes nothing and sends nothing. -/
theorem filterMapOnStoredFields_run (rc : Nat) (fMap : FieldMap) (w : World)
    (r : RecordCollection) (m : Model) (e : Environment)
    (h1 : w.rcs[rc]? = some r) (h2 : r.model = some m)
    (h4 : r.env.bind (fun a => w.envs[a]?) = some e) :
    filterMapOnStoredFields rc fMap w
      = ⟨Except.ok (storedEntries m (e.GetBool "erp_force_compute_write") fMap), w, []⟩ := by
  simp only [filterMapOnStoredFields, bind_run, pure_run]
  rw [bind_silent _ _ _ _ (derefRC_run _ _ _ h1), h2,
    bind_silent _ _ _ _ (derefModel_run m w)]
  unfold storedEntries
  refine foldlM_pure_run _ _ w (fun b a => ?_) fMap []
  unfold storedEntry
  cases hg : m.getField a.1 with
  | none => rfl
  | some fi =>
    simp only
    by_cases hs : fi.isStored = true
    · simp only [hs, if_true, true_and]
      by_cases hi : fi.inverse = ""
      · simp only [hi, ne_eq, not_true_eq_false, if_false, true_or, if_true, pure_bind]
        rfl
      · have hi2 : fi.inverse ≠ "" := hi
        rw [if_pos hi2, bind_silent _ _ _ _ (derefEnv_run _ _ _ h4)]
        by_cases hgb : e.GetBool "erp_force_compute_write" = true
        · simp only [hgb, Bool.not_true, Bool.false_eq_true, if_false, pure_bind, or_true,
            if_true]
          rfl
        · simp only [hgb, Bool.not_false, if_true, hi, or_self, if_false]
          rfl
    · simp only [hs, if_false, Bool.false_eq_true, false_and]
      rfl

theorem storedEntry_some (m : Model) (force : Bool) (kv jv : String × Value)
    (h : storedEntry m force kv = some jv) :
    ∃ fi, m.getField kv.1 = some fi ∧ fi.isStored = true ∧ fi.json = jv.1 ∧ kv.2 = jv.2 ∧
      (fi.inverse = "" ∨ force = true) := by
  unfold storedEntry at h
  cases hg : m.getField kv.1 with
  | none => simp [hg] at h
  | some fi =>
    simp only [hg] at h
    by_cases hc : fi.isStored = true ∧ (fi.inverse = "" ∨ force = true)
    · rw [if_pos hc] at h
      cases h
      exact ⟨fi, rfl, hc.1, rfl, rfl, hc.2⟩
    · rw [if_neg hc] at h
      cases h

theorem storedEntries_sound (m : Model) (force : Bool) (l : FieldMap) :
    ∀ (acc : FieldMap) (p : String × Value),
      p ∈ l.foldl (fun acc kv =>
        match storedEntry m force kv with
        | some jv => FieldMap.insert acc jv.1 jv.2
        | none => acc) acc →
      p ∈ acc ∨ ∃ kv ∈ l, storedEntry m force kv = some p := by
  induction l with
  | nil => intro acc p h; exact Or.inl h
  | cons kv l ih =>
    intro acc p h
    rw [List.foldl_cons] at h
    rcases ih _ p h with h | ⟨kv2, hk, he⟩
    · cases hs : storedEntry m force kv with
      | none =>
        rw [hs] at h
        exact Or.inl h
      | some jv =>
        rw [hs] at h
        rcases mem_fieldMap_insert _ _ _ _ h with h | h
        · exact Or.inr ⟨kv, List.mem_cons_self _ _, by rw [hs, h]⟩
        · exact Or.inl h
    · exact Or.inr ⟨kv2, List.mem_cons_of_mem _ hk, he⟩

theorem storedEntries_keeps_some (m : Model) (force : Bool) (j : String) (l : FieldMap) :
    ∀ acc : FieldMap, (List.lookup j acc).isSome = true →
      (List.lookup j (l.foldl (fun acc kv =>
        match storedEntry m force kv with
        | some jv => FieldMap.insert acc jv.1 jv.2
        | none => acc) acc)).isSome = true := by
  induction l with
  | nil => intro acc h; exact h
  | cons kv l ih =>
    intro acc h
    rw [List.foldl_cons]
    apply ih
    cases hs : storedEntry m force kv with
    | none => exact h
    | some jv =>
      simp only
      rw [lookup_fieldMap_insert]
      by_cases hj : j = jv.1
      · rw [if_pos hj]; rfl
      · rw [if_neg hj]; exact h

theorem storedEntries_untouched (m : Model) (force : Bool) (j : String) (l : FieldMap) :
    ∀ acc : FieldMap, (∀ kv ∈ l, ∀ jv, storedEntry m force kv = some jv → jv.1 ≠ j) →
      List.lookup j (l.foldl (fun acc kv =>
        match storedEntry m force kv with
        | some jv => FieldMap.insert acc jv.1 jv.2
        | none => acc) acc) = List.lookup j acc := by
  induction l with
  | nil => intro acc _; rfl
  | cons kv l ih =>
    intro acc h
    rw [List.foldl_cons, ih _ (fun kv2 hk => h kv2 (List.mem_cons_of_mem _ hk))]
    cases hs : storedEntry m force kv with
    | none => rfl
    | some jv =>
      simp only
      rw [lookup_fieldMap_insert, if_neg (Ne.symm (h kv (List.mem_cons_self _ _) jv hs))]

theorem storedEntries_complete (m : Model) (force : Bool) (j : String) (v : Value)
    (l : FieldMap) : ∀ (acc : FieldMap) (kv : String × Value), kv ∈ l →
      storedEntry m force kv = some (j, v) →
      (List.lookup j (l.foldl (fun acc kv =>
        match storedEntry m force kv with
        | some jv => FieldMap.insert acc jv.1 jv.2
        | none => acc) acc)).isSome = true ∧
      (((l.filterMap (storedEntry m force)).map Prod.fst).Nodup →
        List.lookup j (l.foldl (fun acc kv =>
          match storedEntry m force kv with
          | some jv => FieldMap.insert acc jv.1 jv.2
          | none => acc) acc) = some v) := by
  induction l with
  | nil => intro acc kv h; cases h
  | cons a l ih =>
    intro acc kv hk hs
    rw [List.foldl_cons]
    rcases List.mem_cons.mp hk with rfl | hk
    · have hl : List.lookup j (FieldMap.insert acc j v) = some v := by
        rw [lookup_fieldMap_insert, if_pos rfl]
      refine ⟨?_, fun hnd => ?_⟩
      · apply storedEntries_keeps_some
        rw [hs]
        simp only
        rw [hl]; rfl
      · rw [storedEntries_untouched, hs]
        · exact hl
        · intro kv2 hk2 jv2 hs2 hj
          rw [List.filterMap_cons, hs, List.map_cons, List.nodup_cons] at hnd
          apply hnd.1
          rw [← hj]
          exact List.mem_map.mpr ⟨jv2, List.mem_filterMap.mpr ⟨kv2, hk2, hs2⟩, rfl⟩
    · refine ⟨(ih _ kv hk hs).1, fun hnd => (ih _ kv hk hs).2 ?_⟩
      rw [List.filterMap_cons] at hnd
      cases ha : storedEntry m force a with
      | none => rw [ha] at hnd; exact hnd
      | some jv =>
        rw [ha, List.map_cons, List.nodup_cons] at hnd
        exact hnd.2

/-- C19: on a collection with a model and an environment, `filterMapOnStoredFields`
returns, without changing anything, a map with distinct keys in which every entry is the
value of an input entry under the storage name of the stored field the input key names
(a field with an inverse method only when the context flag `erp_force_compute_write` is
set); every input entry of such a field has its storage name as a key of the result,
with the input's value when no two input keys name the same field; input entries whose
key names no field, a field that is not stored, or a field with an inverse method while
the flag is not set, give no entry. -/
theorem filterMapOnStoredFields_stored_only (rc : Nat) (fMap : FieldMap) (w : World)
    (r : RecordCollection) (m : Model) (e : Environment)
    (h1 : w.rcs[rc]? = some r) (h2 : r.model = some m)
    (h4 : r.env.bind (fun a => w.envs[a]?) = some e) :
    ∃ out, filterMapOnStoredFields rc fMap w = ⟨Except.ok out, w, []⟩ ∧
      (out.map Prod.fst).Nodup ∧
      (∀ j v, (j, v) ∈ out → ∃ key fi, (key, v) ∈ fMap ∧ m.getField key = some fi ∧
        fi.isStored = true ∧ fi.json = j ∧
        (fi.inverse = "" ∨ e.GetBool "erp_force_compute_write" = true)) ∧
      (∀ key v fi, (key, v) ∈ fMap → m.getField key = some fi → fi.isStored = true →
        (fi.inverse = "" ∨ e.GetBool "erp_force_compute_write" = true) →
        (List.lookup fi.json out).isSome = true ∧
        (((fMap.filterMap (storedEntry m (e.GetBool "erp_force_compute_write"))).map
            Prod.fst).Nodup → List.lookup fi.json out = some v)) ∧
      (∀ key v, (key, v) ∈ fMap →
        (m.getField key = none ∨ ∃ fi, m.getField key = some fi ∧ (fi.isStored = false ∨
          (fi.inverse ≠ "" ∧ e.GetBool "erp_force_compute_write" = false))) →
        storedEntry m (e.GetBool "erp_force_compute_write") (key, v) = none) ∧
      out = storedEntries m (e.GetBool "erp_force_compute_write") fMap := by
  have hrun := filterMapOnStoredFields_run rc fMap w r m e h1 h2 h4
  refine ⟨_, hrun, filterMapOnStoredFields_nodup rc fMap _ w w [] hrun, ?_, ?_, ?_, rfl⟩
  · intro j v hmem
    rcases storedEntries_sound m _ fMap [] (j, v) hmem with h | ⟨kv, hk, hs⟩
    · cases h
    · obtain ⟨fi, g1, g2, g3, g4, g5⟩ := storedEntry_some m _ kv (j, v) hs
      refine ⟨kv.1, fi, ?_, g1, g2, g3, g5⟩
      have : kv = (kv.1, v) := Prod.ext rfl g4
      rw [← this]
      exact hk
  · intro key v fi hmem hg hs hi
    have hse : storedEntry m (e.GetBool "erp_force_compute_write") (key, v)
        = some (fi.json, v) := by
      unfold storedEntry
      simp only [hg]
      rw [if_pos ⟨hs, hi⟩]
    exact storedEntries_complete m _ fi.json v fMap [] (key, v) hmem hse
  · intro key v _ hcase
    unfold storedEntry
    rcases hcase with hg | ⟨fi, hg, hns | ⟨hi, hf⟩⟩
    · simp only [hg]
    · simp only [hg]
      rw [if_neg (fun h => by rw [hns] at h; exact absurd h.1 (by decide))]
    · simp only [hg]
      rw [if_neg (fun h => by
        rcases h.2 with h | h
        · exact hi h
        · rw [hf] at h; exact absurd h (by decide))]

/-- C19, run on a write of the name, the tags (not stored) and an unknown key to the
stored record of `storedWorld`: only the name is kept, under its storage name. -/
theorem filterMapOnStoredFields_stored_only_witness :
    filterMapOnStoredFields 0
        [("Name", Value.str "Bob"), ("tags", Value.ids [1]), ("nickname", Value.str "b")]
        storedWorld = ⟨Except.ok [("name", Value.str "Bob")], storedWorld, []⟩ ∧
      ∃ out, filterMapOnStoredFields 0
          [("Name", Value.str "Bob"), ("tags", Value.ids [1]), ("nickname", Value.str "b")]
          storedWorld = ⟨Except.ok out, storedWorld, []⟩ ∧
        (out.map Prod.fst).Nodup ∧
        (∀ j v, (j, v) ∈ out → ∃ key fi,
          (key, v) ∈ [("Name", Value.str "Bob"), ("tags", Value.ids [1]),
            ("nickname", Value.str "b")] ∧ partnerModel.getField key = some fi ∧
          fi.isStored = true ∧ fi.json = j ∧ (fi.inverse = "" ∨ false = true)) :=
  have h := filterMapOnStoredFields_stored_only 0
    [("Name", Value.str "Bob"), ("tags", Value.ids [1]), ("nickname", Value.str "b")]
    storedWorld _ partnerModel { uid := 1, cache := 0 } rfl rfl rfl
  ⟨by decide!, h.choose, h.choose_spec.1, h.choose_spec.2.1, h.choose_spec.2.2.1⟩

/-! ## Runs of withIds and Records in full -/

theorem list_set_same {α : Type} (l : List α) (p : Nat) (a : α) (h : l[p]? = some a) :
    l.set p a = l := by
  apply List.ext_getElem?
  intro i
  by_cases hi : p = i
  · subst hi
    rw [getElem?_set_self_of_some l p a a h, h]
  · rw [List.getElem?_set_ne hi]

/-- The cache loop of `withIds` on a usable collection: it returns, and the world it
leaves is the former world with the cache of the environment replaced. -/
theorem withIds_cacheLoop_run (x : Ext) (rc : Nat) (r : RecordCollection) (m : Model)
    (q : Query) (e : Environment) (l : List Int) : ∀ (w : World) (c : Cache),
    w.rcs[rc]? = some r → r.model = some m →
    r.query.bind (fun a => w.queries[a]?) = some q →
    r.env.bind (fun a => w.envs[a]?) = some e → w.caches[e.cache]? = some c →
    ∃ c2 : Cache, forEach l (fun id => (do
        let r ← derefRC rc
        let env ← derefEnv r.env
        let q ← derefQuery r.query
        let w ← getW
        let m ← derefModel r.model
        modifyCache env.cache (fun c =>
          c.updateEntry m.name id "id" (Value.int id) (x.ctxArgsSlug w q)) : M Unit)) w
        = ⟨Except.ok (), w.withCache e.cache c2, []⟩ := by
  induction l with
  | nil =>
    intro w c h1 h2 h3 h4 h5
    refine ⟨c, ?_⟩
    rw [forEach_nil]
    simp only [M.pure, World.withCache, list_set_same _ _ _ h5]
  | cons a l ih =>
    intro w c h1 h2 h3 h4 h5
    have hlt := lt_length_of_getElem? _ _ _ h5
    obtain ⟨c1, hc1⟩ : ∃ c1 : Cache,
        c1 = c.updateEntry m.name a "id" (Value.int a) (x.ctxArgsSlug w q) := ⟨_, rfl⟩
    obtain ⟨c2, hc2⟩ := ih (w.withCache e.cache c1) c1 h1 h2 h3 h4
      (by simp [World.withCache, List.getElem?_set, hlt])
    refine ⟨c2, ?_⟩
    simp only [bind_run] at hc2
    rw [forEach_cons]
    simp only [bind_run, M.bind, derefRC, derefEnv, derefQuery, derefModel, getW, modifyCache,
      h1, h2, h3, h4, h5]
    subst hc1
    simp only [World.withCache] at hc2
    rw [hc2]
    simp [World.withCache]

/-- The part of `withIds` after the struct is set, on a usable collection. -/
theorem withIds_tail_run (x : Ext) (rc : Nat) (newIds : List Int) (w : World)
    (r : RecordCollection) (m : Model) (qp : Nat) (q : Query) (ep : Nat) (e : Environment)
    (c : Cache) (h1 : w.rcs[rc]? = some r) (h2 : r.model = some m) (h3 : r.query = some qp)
    (h3b : w.queries[qp]? = some q) (h4 : r.env = some ep) (h4b : w.envs[ep]? = some e)
    (h5 : w.caches[e.cache]? = some c) (f : Query → Query) :
    ∃ c2 : Cache, M.bind (forEach newIds (fun id =>
        M.bind (derefRC rc) (fun r => M.bind (derefEnv r.env) (fun env =>
          M.bind (derefQuery r.query) (fun q => M.bind getW (fun w =>
            M.bind (derefModel r.model) (fun m => modifyCache env.cache (fun c =>
              c.updateEntry m.name id "id" (Value.int id) (x.ctxArgsSlug w q)))))))))
        (fun _ => M.bind (derefRC rc) (fun r =>
          M.bind (modifyQuery r.query f) (fun _ => M.pure rc))) w
      = ⟨Except.ok rc, (w.withQuery qp (f q)).withCache e.cache c2, []⟩ := by
  obtain ⟨c2, hc2⟩ := withIds_cacheLoop_run x rc r m q e newIds w c h1 h2
    (by rw [h3]; exact h3b) (by rw [h4]; exact h4b) h5
  simp only [bind_run] at hc2
  refine ⟨c2, ?_⟩
  rw [bind_ok _ _ _ _ _ _ hc2]
  have g5 : (w.withCache e.cache c2).rcs[rc]? = some r := h1
  have g6 : (w.withCache e.cache c2).queries[qp]? = some q := h3b
  simp only [M.bind, derefRC, g5, modifyQuery, h3, g6, M.pure, List.append_nil]
  rfl

/-- The run of `withIds` on a usable collection, in full: it returns the receiver, sends
nothing, and changes the receiver's struct, the receiver's query and the cache only. -/
theorem withIds_run (x : Ext) (w : World) (rc : Nat) (ids : List Int)
    (r : RecordCollection) (m : Model) (qp : Nat) (q : Query) (ep : Nat) (e : Environment)
    (c : Cache) (h1 : w.rcs[rc]? = some r) (h2 : r.model = some m) (h3 : r.query = some qp)
    (h3b : w.queries[qp]? = some q) (h4 : r.env = some ep) (h4b : w.envs[ep]? = some e)
    (h5 : w.caches[e.cache]? = some c) :
    ∃ c2 : Cache, withIds x rc ids w
      = ⟨Except.ok rc, (((w.withRC rc (withIdsRC r ids)).withQuery qp
          (withIdsQuery q ids)).withCache e.cache c2), []⟩ := by
  have hfst : (withIdsLoop ids (fun _ => false) [] false).1 = survivors [] ids := by
    rw [withIdsLoop_fst ids [] (fun _ => false) [] false (by simp)]; rfl
  have hsnd : (withIdsLoop ids (fun _ => false) [] false).2
      = ids.any (fun i => decide (i < 0)) := by
    rw [withIdsLoop_snd]; rfl
  unfold withIds
  rcases hl : withIdsLoop ids (fun _ => false) [] false with ⟨newIds, neg⟩
  rw [hl] at hfst hsnd
  simp only at hfst hsnd
  subst hfst hsnd
  simp only [bind_run, pure_run]
  rw [modifyRC_bind _ _ _ _ _ h1]
  by_cases hnil : survivors [] ids = []
  · have hpos : ¬ (survivors [] ids).length > 0 := by rw [hnil]; simp
    rw [if_neg hpos]
    refine ⟨c, ?_⟩
    simp only [M.bind, M.pure, World.withRC, World.withQuery, World.withCache, withIdsRC,
      withIdsQuery, hnil, if_true, list_set_same _ _ _ h3b, list_set_same _ _ _ h5,
      List.append_nil]
  · have hpos : (survivors [] ids).length > 0 := List.length_pos.mpr hnil
    rw [if_pos hpos, modifyRC_bind _ _ _ _ _ (getElem?_set_self_of_some _ _ _ _ h1)]
    obtain ⟨c2, hc2⟩ := withIds_tail_run x rc (survivors [] ids)
      (w.withRC rc (withIdsRC r ids)) (withIdsRC r ids) m qp q ep e c
      (getElem?_set_self_of_some _ _ _ _ h1) h2 h3 h3b h4 h4b h5 (fun q => { q with
        cond := Condition.pred ID.json "in" (Value.ids (survivors [] ids)), fetchAll := false,
        limit := 0, offset := 0 })
    refine ⟨c2, ?_⟩
    have key : ∀ W : World, W = w.withRC rc (withIdsRC r ids) →
        M.bind (forEach (survivors [] ids) (fun id =>
          M.bind (derefRC rc) (fun r => M.bind (derefEnv r.env) (fun env =>
            M.bind (derefQuery r.query) (fun q => M.bind getW (fun w =>
              M.bind (derefModel r.model) (fun m => modifyCache env.cache (fun c =>
                c.updateEntry m.name id "id" (Value.int id) (x.ctxArgsSlug w q)))))))))
          (fun _ => M.bind (derefRC rc) (fun r =>
            M.bind (modifyQuery r.query (fun q => { q with
              cond := Condition.pred ID.json "in" (Value.ids (survivors [] ids)),
              fetchAll := false, limit := 0, offset := 0 })) (fun _ => M.pure rc))) W
        = ⟨Except.ok rc, (((w.withRC rc (withIdsRC r ids)).withQuery qp
            (withIdsQuery q ids)).withCache e.cache c2), []⟩ := by
      intro W hW
      rw [hW, hc2]
      simp only [withIdsQuery, if_neg hnil]
    exact key _ (by simp only [World.withRC, withIdsRC, if_neg hnil, List.set_set])

theorem list_set_length_append {α : Type} (l : List α) (a b : α) :
    (l ++ [a]).set l.length b = l ++ [b] := by
  induction l with
  | nil => rfl
  | cons c l ih => simp only [List.cons_append, List.length_cons, List.set_cons_succ, ih]

theorem getElem?_length_append {α : Type} (l : List α) (a : α) :
    (l ++ [a])[l.length]? = some a := by
  simp

theorem getElem?_append_of_some {α : Type} (l l2 : List α) (p : Nat) (a : α)
    (h : l[p]? = some a) : (l ++ l2)[p]? = some a := by
  rw [List.getElem?_append_left (lt_length_of_getElem? _ _ _ h)]
  exact h

theorem env_run (w : World) (rc : Nat) (r : RecordCollection) (e : Environment)
    (h1 : w.rcs[rc]? = some r) (h4 : r.env.bind (fun a => w.envs[a]?) = some e) :
    Env rc w = ⟨Except.ok e, w, []⟩ := by
  simp only [Env, bind_run]
  rw [bind_silent _ _ _ _ (derefRC_run _ _ _ h1)]
  exact derefEnv_run _ _ _ h4

theorem modelName_run (w : World) (rc : Nat) (r : RecordCollection) (m : Model)
    (h1 : w.rcs[rc]? = some r) (h2 : r.model = some m) :
    ModelName rc w = ⟨Except.ok m.name, w, []⟩ := by
  simp only [ModelName, bind_run, pure_run]
  rw [bind_silent _ _ _ _ (derefRC_run _ _ _ h1), h2,
    bind_silent _ _ _ _ (derefModel_run m w)]
  rfl

/-- The run of `newRecordCollection` for a model of the registry: a new collection, a new
query and a new environment object are allocated. -/
theorem newRecordCollection_run (x : Ext) (w : World) (env : Environment) (name : String)
    (mi : Model) (hreg : x.registry.find? (fun m => m.name == name) = some mi) :
    newRecordCollection x env name w
      = ⟨Except.ok w.rcs.length,
          w.grown { model := some mi, query := some w.queries.length,
                    env := some w.envs.length, ids := [] } { recordSet := w.rcs.length } env,
          []⟩ := by
  simp only [newRecordCollection, InvalidRecordCollection, registryMustGet, hreg, bind_run,
    pure_run, M.bind, M.pure, allocRC, allocQuery, allocEnv, modifyRC,
    getElem?_length_append, list_set_length_append, World.grown, List.append_nil]

theorem grows_refl (w : World) (cp : Nat) : w.grows w cp :=
  ⟨fun _ _ h => h, fun _ _ h => h, fun _ _ h => h, rfl, rfl, fun _ _ => rfl⟩

theorem grows_trans (w w1 w2 : World) (cp : Nat) (h1 : w.grows w1 cp) (h2 : w1.grows w2 cp) :
    w.grows w2 cp :=
  ⟨fun p v h => h2.1 p v (h1.1 p v h), fun p v h => h2.2.1 p v (h1.2.1 p v h),
    fun p v h => h2.2.2.1 p v (h1.2.2.1 p v h), h2.2.2.2.1.trans h1.2.2.2.1,
    h2.2.2.2.2.1.trans h1.2.2.2.2.1, fun p hp => (h2.2.2.2.2.2 p hp).trans (h1.2.2.2.2.2 p hp)⟩

theorem grows_cache_some (w w2 : World) (cp : Nat) (c : Cache) (h : w.grows w2 cp)
    (hc : w.caches[cp]? = some c) : ∃ c2, w2.caches[cp]? = some c2 := by
  have hlt := lt_length_of_getElem? _ _ _ hc
  rw [← h.2.2.2.2.1] at hlt
  exact ⟨w2.caches[cp], List.getElem?_eq_getElem hlt⟩

theorem grows_grown_withCache (w : World) (rv : RecordCollection) (qv : Query)
    (e : Environment) (cp : Nat) (c2 : Cache) :
    w.grows ((w.grown rv qv e).withCache cp c2) cp := by
  refine ⟨fun p v h => getElem?_append_of_some _ _ _ _ h,
    fun p v h => getElem?_append_of_some _ _ _ _ h,
    fun p v h => getElem?_append_of_some _ _ _ _ h, rfl, ?_, fun p hp => ?_⟩
  · simp [World.withCache, World.grown]
  · simp only [World.withCache, World.grown]
    rw [List.getElem?_set_ne (Ne.symm hp)]

/-- One turn of the loop of `Records`: a new singleton collection for the id, with its own
query and its own copy of the environment; the cache of the environment is the only
thing that changes otherwise. -/
theorem records_step_run (x : Ext) (w : World) (rc : Nat) (id : Int)
    (r : RecordCollection) (m mi : Model) (e : Environment) (c : Cache)
    (h1 : w.rcs[rc]? = some r) (h2 : r.model = some m)
    (h4 : r.env.bind (fun a => w.envs[a]?) = some e) (h5 : w.caches[e.cache]? = some c)
    (hreg : x.registry.find? (fun m2 => m2.name == m.name) = some mi) :
    ∃ c2 : Cache,
      M.bind (Env rc) (fun env => M.bind (ModelName rc) (fun name =>
        M.bind (newRecordCollection x env name) (fun newRC =>
          M.bind (withIds x newRC [id]) (fun res =>
            M.bind (modifyRC res (fun r => { r with prefetchRC := some rc }))
              (fun _ => M.pure res))))) w
      = ⟨Except.ok w.rcs.length,
          (w.grown (recordOf mi w.queries.length w.envs.length rc id)
            (withIdsQuery { recordSet := w.rcs.length } [id]) e).withCache e.cache c2,
          []⟩ := by
  rw [bind_silent _ _ _ _ (env_run w rc r e h1 h4),
    bind_silent _ _ _ _ (modelName_run w rc r m h1 h2),
    bind_ok _ _ _ _ _ _ (newRecordCollection_run x w e m.name mi hreg)]
  obtain ⟨c2, hc2⟩ := withIds_run x
    (w.grown { model := some mi, query := some w.queries.length,
               env := some w.envs.length, ids := [] } { recordSet := w.rcs.length } e)
    w.rcs.length [id]
    { model := some mi, query := some w.queries.length, env := some w.envs.length, ids := [] }
    mi w.queries.length { recordSet := w.rcs.length } w.envs.length e c
    (getElem?_length_append _ _) rfl rfl (getElem?_length_append _ _) rfl
    (getElem?_length_append _ _) h5
  refine ⟨c2, ?_⟩
  rw [bind_ok _ _ _ _ _ _ hc2]
  simp only [M.bind, modifyRC, M.pure, World.withCache, World.withQuery, World.withRC,
    World.grown, list_set_length_append, getElem?_length_append, recordOf, List.append_nil]

theorem grows_env_bind (w w2 : World) (cp : Nat) (h : w.grows w2 cp) (p : Option Nat)
    (e : Environment) (h4 : p.bind (fun a => w.envs[a]?) = some e) :
    p.bind (fun a => w2.envs[a]?) = some e := by
  cases p with
  | none => cases h4
  | some a => exact h.2.2.1 a e h4

theorem grows_query_bind (w w2 : World) (cp : Nat) (h : w.grows w2 cp) (p : Option Nat)
    (q : Query) (h3 : p.bind (fun a => w.queries[a]?) = some q) :
    p.bind (fun a => w2.queries[a]?) = some q := by
  cases p with
  | none => cases h3
  | some a => exact h.2.1 a q h3

/-- The loop of `Records`: one singleton collection per id, in the order of the ids; the
world grows by these collections, their queries and their environments, and the cache of
the environment is the only thing that changes otherwise. -/
theorem records_loop_run (x : Ext) (rc : Nat) (r : RecordCollection) (m mi : Model)
    (e : Environment)
    (hreg : x.registry.find? (fun m2 => m2.name == m.name) = some mi) (ids : List Int) :
    ∀ (w : World) (c : Cache), w.rcs[rc]? = some r → r.model = some m →
      r.env.bind (fun a => w.envs[a]?) = some e → w.caches[e.cache]? = some c →
      ∃ (w2 : World) (recs : List Nat),
        forMap ids (fun id =>
          M.bind (Env rc) (fun env => M.bind (ModelName rc) (fun name =>
            M.bind (newRecordCollection x env name) (fun newRC =>
              M.bind (withIds x newRC [id]) (fun res =>
                M.bind (modifyRC res (fun r => { r with prefetchRC := some rc }))
                  (fun _ => M.pure res)))))) w
          = ⟨Except.ok recs, w2, []⟩ ∧ w.grows w2 e.cache ∧
        List.Forall₂ (fun id rec => ∃ qa ea, w2.rcs[rec]? = some (recordOf mi qa ea rc id) ∧
          w2.envs[ea]? = some e ∧ (w2.queries[qa]?).isSome = true) ids recs := by
  induction ids with
  | nil =>
    intro w c _ _ _ _
    exact ⟨w, [], rfl, grows_refl w _, List.Forall₂.nil⟩
  | cons id l ih =>
    intro w c h1 h2 h4 h5
    obtain ⟨c2, hstep⟩ := records_step_run x w rc id r m mi e c h1 h2 h4 h5 hreg
    have hg := grows_grown_withCache w (recordOf mi w.queries.length w.envs.length rc id)
      (withIdsQuery { recordSet := w.rcs.length } [id]) e e.cache c2
    have hc2 : ((w.grown (recordOf mi w.queries.length w.envs.length rc id)
        (withIdsQuery { recordSet := w.rcs.length } [id]) e).withCache e.cache c2).caches[
          e.cache]? = some c2 := by
      simp only [World.withCache, World.grown]
      exact getElem?_set_self_of_some _ _ _ _ h5
    obtain ⟨w2, recs, hrun, hg2, hall⟩ := ih _ c2 (hg.1 rc r h1) h2
      (grows_env_bind _ _ _ hg _ _ h4) hc2
    refine ⟨w2, w.rcs.length :: recs, ?_, grows_trans _ _ _ _ hg hg2, ?_⟩
    · simp only [forMap]
      rw [bind_ok _ _ _ _ _ _ hstep, bind_ok _ _ _ _ _ _ hrun]
      rfl
    · refine List.Forall₂.cons ⟨w.queries.length, w.envs.length, hg2.1 _ _ ?_, hg2.2.2.1 _ _ ?_,
        ?_⟩ hall
      · simp only [World.withCache, World.grown]
        exact getElem?_length_append _ _
      · simp only [World.withCache, World.grown]
        exact getElem?_length_append _ _
      · rw [hg2.2.1 w.queries.length (withIdsQuery { recordSet := w.rcs.length } [id]) (by
          simp only [World.withCache, World.grown]
          exact getElem?_length_append _ _)]
        rfl

/-- The run of `Records` on a fetched collection of a model of the registry. -/
theorem records_run (x : Ext) (n : Nat) (w : World) (rc : Nat) (r : RecordCollection)
    (m mi : Model) (e : Environment) (c : Cache)
    (h1 : w.rcs[rc]? = some r) (h2 : r.model = some m)
    (h4 : r.env.bind (fun a => w.envs[a]?) = some e) (h5 : w.caches[e.cache]? = some c)
    (hf : r.fetched = true)
    (hreg : x.registry.find? (fun m2 => m2.name == m.name) = some mi) :
    ∃ (w2 : World) (recs : List Nat),
      Records x (knot x (n + 1)) rc w = ⟨Except.ok recs, w2, []⟩ ∧ w.grows w2 e.cache ∧
      List.Forall₂ (fun id rec => ∃ qa ea, w2.rcs[rec]? = some (recordOf mi qa ea rc id) ∧
        w2.envs[ea]? = some e ∧ (w2.queries[qa]?).isSome = true) r.ids recs := by
  obtain ⟨w2, recs, hrun, hg, hall⟩ := records_loop_run x rc r m mi e hreg r.ids w c h1 h2 h4 h5
  refine ⟨w2, recs, ?_, hg, hall⟩
  simp only [Records, bind_run, pure_run]
  rw [bind_silent _ _ _ _ (len_of_fetched x n w rc r h1 hf),
    bind_silent _ _ _ _ (ids_of_fetched x n w rc r h1 hf)]
  exact hrun

/-! ## CheckConstraints -/

/-- A loop whose body returns without effect on every element of the list returns the fold
of the results. -/
theorem foldlM_pure_run_mem {α β : Type} (f : β → α → M β) (g : β → α → β) (w : World)
    (l : List α) : ∀ b : β, (∀ b, ∀ a ∈ l, f b a w = ⟨Except.ok (g b a), w, []⟩) →
      List.foldlM f b l w = ⟨Except.ok (l.foldl g b), w, []⟩ := by
  induction l with
  | nil => intro b _; rfl
  | cons a l ih =>
    intro b hstep
    simp only [List.foldlM_cons, bind_run, List.foldl_cons]
    rw [bind_silent _ _ _ _ (hstep b a (List.mem_cons_self _ _))]
    exact ih _ (fun b a ha => hstep b a (List.mem_cons_of_mem _ ha))

theorem collectConstraint_spec (m : Model) (l : List FieldName) :
    ∀ acc : List String, acc.Nodup →
      (l.foldl (collectConstraint m) acc).Nodup ∧
      ∀ c, c ∈ l.foldl (collectConstraint m) acc ↔
        (c ∈ acc ∨ (c ≠ "" ∧ ∃ f ∈ l, ∃ fi, m.getField f.json = some fi ∧
          fi.constraint = c)) := by
  induction l with
  | nil => intro acc h; exact ⟨h, fun c => by simp⟩
  | cons f l ih =>
    intro acc hacc
    rw [List.foldl_cons]
    have hstep : (collectConstraint m acc f).Nodup ∧
        ∀ c, c ∈ collectConstraint m acc f ↔
          (c ∈ acc ∨ (c ≠ "" ∧ ∃ fi, m.getField f.json = some fi ∧ fi.constraint = c)) := by
      unfold collectConstraint
      cases hg : m.getField f.json with
      | none => exact ⟨hacc, fun c => by simp⟩
      | some fi =>
        simp only
        by_cases hc : fi.constraint ≠ "" ∧ fi.constraint ∉ acc
        · rw [if_pos hc]
          refine ⟨?_, fun c => ?_⟩
          · rw [List.nodup_append]
            refine ⟨hacc, List.nodup_singleton _, ?_⟩
            intro a ha hb
            rw [List.mem_singleton] at hb
            exact hc.2 (hb ▸ ha)
          · rw [List.mem_append, List.mem_singleton]
            constructor
            · rintro (h | h)
              · exact Or.inl h
              · exact Or.inr ⟨h ▸ hc.1, fi, rfl, h.symm⟩
            · rintro (h | ⟨_, fi2, h2, h3⟩)
              · exact Or.inl h
              · cases h2
                exact Or.inr h3.symm
        · rw [if_neg hc]
          refine ⟨hacc, fun c => ⟨Or.inl, ?_⟩⟩
          rintro (h | ⟨hne, fi2, h2, h3⟩)
          · exact h
          · cases h2
            by_contra hn
            exact hc ⟨h3 ▸ hne, h3 ▸ hn⟩
    obtain ⟨hn, hm⟩ := ih _ hstep.1
    refine ⟨hn, fun c => ?_⟩
    rw [hm c, hstep.2 c]
    constructor
    · rintro ((h | ⟨h1, fi, h2, h3⟩) | ⟨h1, f2, hf2, fi, h2, h3⟩)
      · exact Or.inl h
      · exact Or.inr ⟨h1, f, List.mem_cons_self _ _, fi, h2, h3⟩
      · exact Or.inr ⟨h1, f2, List.mem_cons_of_mem _ hf2, fi, h2, h3⟩
    · rintro (h | ⟨h1, f2, hf2, fi, h2, h3⟩)
      · exact Or.inl (Or.inl h)
      · rcases List.mem_cons.mp hf2 with rfl | hf2
        · exact Or.inl (Or.inr ⟨h1, fi, h2, h3⟩)
        · exact Or.inr ⟨h1, f2, hf2, fi, h2, h3⟩

/-- C18: `CheckConstraints` on a collection with a model and an environment. When the
context flag `erp_skip_check_constraints` is set it returns at once: nothing is called,
nothing changes. Otherwise, for fields of the model, it is the loop over a list of methods
without repetition that holds exactly the constraint methods (non-empty names) of the
given fields, and for each of them the loop over `Records()` of the collection with one
call of the method on each record: no other method is called. On a fetched collection
of a model of the registry `Records()` gives one singleton collection per id. -/
theorem checkConstraints_once_per_record (x : Ext) (n : Nat) (w : World) (rc : Nat)
    (fields : List FieldName) (r : RecordCollection) (m : Model) (e : Environment)
    (h1 : w.rcs[rc]? = some r) (h2 : r.model = some m)
    (h4 : r.env.bind (fun a => w.envs[a]?) = some e) :
    (e.GetBool "erp_skip_check_constraints" = true →
      CheckConstraints x (knot x (n + 1)) rc fields w = ⟨Except.ok (), w, []⟩) ∧
    (e.GetBool "erp_skip_check_constraints" = false →
      (∀ f ∈ fields, (m.getField f.json).isSome = true) →
      ∃ methods : List String, methods.Nodup ∧
        (∀ c, c ∈ methods ↔ (c ≠ "" ∧ ∃ f ∈ fields, ∃ fi, m.getField f.json = some fi ∧
          fi.constraint = c)) ∧
        CheckConstraints x (knot x (n + 1)) rc fields w =
          forEach methods (fun method =>
            M.bind (Records x (knot x (n + 1)) rc) (fun recs =>
              forEach recs (fun rec => M.bind (x.call rec method []) (fun _ => M.pure ()))))
            w) ∧
    (∀ (mi : Model) (c : Cache), w.caches[e.cache]? = some c → r.fetched = true →
      x.registry.find? (fun m2 => m2.name == m.name) = some mi →
      ∃ (w2 : World) (recs : List Nat),
        Records x (knot x (n + 1)) rc w = ⟨Except.ok recs, w2, []⟩ ∧
        List.Forall₂ (fun id rec => ∃ rv, w2.rcs[rec]? = some rv ∧ rv.ids = survivors [] [id] ∧
          rv.model = some mi ∧ rv.fetched = true) r.ids recs) := by
  refine ⟨?_, ?_, ?_⟩
  · intro hskip
    simp only [CheckConstraints, bind_run, pure_run]
    rw [bind_silent _ _ _ _ (env_run w rc r e h1 h4)]
    simp only [hskip, if_true]
    rfl
  · intro hskip hknown
    obtain ⟨hn, hm⟩ := collectConstraint_spec m fields [] List.nodup_nil
    refine ⟨fields.foldl (collectConstraint m) [], hn, fun c => ?_, ?_⟩
    · rw [hm c]
      simp
    · simp only [CheckConstraints, bind_run, pure_run]
      rw [bind_silent _ _ _ _ (env_run w rc r e h1 h4)]
      simp only [hskip, Bool.false_eq_true, if_false]
      rw [bind_silent _ _ _ _ (show (M.pure PUnit.unit : M PUnit) w = _ from rfl),
        bind_silent _ _ _ _ (derefRC_run _ _ _ h1), h2,
        bind_silent _ _ _ _ (derefModel_run m w)]
      rw [bind_silent _ _ _ _ (foldlM_pure_run_mem _ (collectConstraint m) w fields []
        (fun b a ha => ?_))]
      obtain ⟨fi, hfi⟩ := Option.isSome_iff_exists.mp (hknown a ha)
      unfold collectConstraint
      simp only [hfi]
      rw [bind_silent _ _ _ _ (show (M.pure fi : M Field) w = _ from rfl)]
      by_cases hc : fi.constraint ≠ "" ∧ fi.constraint ∉ b
      · rw [if_pos hc, if_pos hc]; rfl
      · rw [if_neg hc, if_neg hc]; rfl
  · intro mi c h5 hf hreg
    obtain ⟨w2, recs, hrun, -, hall⟩ := records_run x n w rc r m mi e c h1 h2 h4 h5 hf hreg
    refine ⟨w2, recs, hrun, hall.imp ?_⟩
    rintro id rec ⟨qa, ea, hrec, -, -⟩
    exact ⟨_, hrec, rfl, rfl, rfl⟩

/-- C18, run with traced methods on the `Team` records 1 and 2 and the fields name, code,
size and note: `checkName`, shared by the name and the code, is called once on each
record, `checkSize` once on each record, and nothing else is called. -/
theorem checkConstraints_once_per_record_witness :
    (CheckConstraints extTrace (knot extTrace 1) 0
        [⟨"Name", "name"⟩, ⟨"Code", "code"⟩, ⟨"Size", "size"⟩, ⟨"Note", "note"⟩]
        teamWorld).ev
      = [Stmt.execute "CALL checkName" [Value.ids [1]],
         Stmt.execute "CALL checkName" [Value.ids [2]],
         Stmt.execute "CALL checkSize" [Value.ids [1]],
         Stmt.execute "CALL checkSize" [Value.ids [2]]] ∧
    ∃ methods : List String, methods.Nodup ∧
      (∀ c, c ∈ methods ↔ (c ≠ "" ∧
        ∃ f ∈ [(⟨"Name", "name"⟩ : FieldName), ⟨"Code", "code"⟩, ⟨"Size", "size"⟩,
          ⟨"Note", "note"⟩], ∃ fi, teamModel.getField f.json = some fi ∧ fi.constraint = c)) ∧
      CheckConstraints extTrace (knot extTrace 1) 0
          [⟨"Name", "name"⟩, ⟨"Code", "code"⟩, ⟨"Size", "size"⟩, ⟨"Note", "note"⟩] teamWorld =
        forEach methods (fun method =>
          M.bind (Records extTrace (knot extTrace 1) 0) (fun recs =>
            forEach recs (fun rec =>
              M.bind (extTrace.call rec method []) (fun _ => M.pure ()))))
          teamWorld :=
  ⟨by decide!,
    (checkConstraints_once_per_record extTrace 0 teamWorld 0
      [⟨"Name", "name"⟩, ⟨"Code", "code"⟩, ⟨"Size", "size"⟩, ⟨"Note", "note"⟩]
      _ teamModel { uid := 1, cache := 0 } rfl rfl rfl).2.1 (by decide) (by decide)⟩

/-! ## new -/

theorem survivors_single (id : Int) (hid : id ≠ 0) : survivors [] [id] = [id] := by
  simp [survivors, hid]

theorem modifyEnv_run (w : World) (ep : Nat) (e : Environment) (f : Environment → Environment)
    (h : w.envs[ep]? = some e) :
    modifyEnv (some ep) f w = ⟨Except.ok (), w.withEnvAt ep (f e), []⟩ := by
  simp only [modifyEnv, h, World.withEnvAt]

/-- The decrement of an `int64` counter above the least value does not wrap. -/
theorem wrapInt64_pred (i : Int) (hlo : -9223372036854775808 < i)
    (hhi : i < 9223372036854775808) : wrapInt64 (i - 1) = i - 1 := by
  unfold wrapInt64
  omega

/-- The run of `newRecord` on a usable collection whose counter is above the least `int64`,
in full: the counter of the environment object is decremented, the receiver is set to the
new value of the counter, and the record goes to the cache. -/
theorem newRecord_run (x : Ext) (w : World) (rc : Nat) (data : ModelData)
    (r : RecordCollection) (m : Model) (qp : Nat) (q : Query) (ep : Nat) (e : Environment)
    (c : Cache) (fm : FieldMap)
    (h1 : w.rcs[rc]? = some r) (h2 : r.model = some m) (h3 : r.query = some qp)
    (h3b : w.queries[qp]? = some q) (h4 : r.env = some ep) (h4b : w.envs[ep]? = some e)
    (h5 : w.caches[e.cache]? = some c)
    (hconv : ∀ w2, x.convertValuesToFieldType m
      (FieldMap.insert data.FieldMap "id" (Value.int (e.nextNegativeID - 1))) false w2
        = ⟨Except.ok fm, w2, []⟩)
    (hlo : -9223372036854775808 < e.nextNegativeID)
    (hhi : e.nextNegativeID < 9223372036854775808) :
    ∃ c3 : Cache, newRecord x rc data w
      = ⟨Except.ok rc,
          ((((w.withEnvAt ep { e with nextNegativeID := e.nextNegativeID - 1 }).withRC rc
              (withIdsRC r [e.nextNegativeID - 1])).withQuery qp
              (withIdsQuery q [e.nextNegativeID - 1])).withCache e.cache c3), []⟩ := by
  have hwrap := wrapInt64_pred e.nextNegativeID hlo hhi
  obtain ⟨e1, he1⟩ : ∃ e1 : Environment,
      e1 = { e with nextNegativeID := e.nextNegativeID - 1 } := ⟨_, rfl⟩
  have hw1e : (w.withEnvAt ep e1).envs[ep]? = some e1 :=
    getElem?_set_self_of_some _ _ _ _ h4b
  have hc1 : (w.withEnvAt ep e1).caches[e1.cache]? = some c := by rw [he1]; exact h5
  obtain ⟨c2, hc2⟩ := withIds_run x (w.withEnvAt ep e1) rc [e1.nextNegativeID] r m qp q ep e1 c
    h1 h2 h3 h3b h4 hw1e hc1
  have hcache : e1.cache = e.cache := by rw [he1]
  have hid : e1.nextNegativeID = e.nextNegativeID - 1 := by rw [he1]
  refine ⟨c2.addRecord m.name (e.nextNegativeID - 1) fm
    (x.ctxArgsSlug ((((w.withEnvAt ep e1).withRC rc (withIdsRC r [e1.nextNegativeID])).withQuery
      qp (withIdsQuery q [e1.nextNegativeID])).withCache e1.cache c2)
      (withIdsQuery q [e1.nextNegativeID])), ?_⟩
  simp only [newRecord, bind_run, pure_run]
  rw [bind_silent _ _ _ _ (derefRC_run _ _ _ h1), h4,
    bind_ok _ _ _ _ _ _ (modifyEnv_run w ep e _ h4b)]
  simp only [hwrap]
  rw [← he1]
  rw [bind_silent _ _ _ _ (derefEnv_run (some ep) _ e1 hw1e), h2,
    bind_silent _ _ _ _ (derefModel_run m _), hid, bind_silent _ _ _ _ (hconv _), ← hid,
    bind_ok _ _ _ _ _ _ hc2]
  have g1 : ((((w.withEnvAt ep e1).withRC rc (withIdsRC r [e1.nextNegativeID])).withQuery
      qp (withIdsQuery q [e1.nextNegativeID])).withCache e1.cache c2).rcs[rc]?
      = some (withIdsRC r [e1.nextNegativeID]) :=
    getElem?_set_self_of_some _ _ _ _ h1
  have g2 : ((((w.withEnvAt ep e1).withRC rc (withIdsRC r [e1.nextNegativeID])).withQuery
      qp (withIdsQuery q [e1.nextNegativeID])).withCache e1.cache c2).queries[qp]?
      = some (withIdsQuery q [e1.nextNegativeID]) :=
    getElem?_set_self_of_some _ _ _ _ h3b
  have g3 : ((((w.withEnvAt ep e1).withRC rc (withIdsRC r [e1.nextNegativeID])).withQuery
      qp (withIdsQuery q [e1.nextNegativeID])).withCache e1.cache c2).caches[e1.cache]?
      = some c2 :=
    getElem?_set_self_of_some _ _ _ _ hc1
  have g7 : ((((w.withEnvAt ep e1).withRC rc (withIdsRC r [e1.nextNegativeID])).withQuery
      qp (withIdsQuery q [e1.nextNegativeID])).withCache e1.cache c2).envs[ep]?
      = some e1 := hw1e
  have g4 : (withIdsRC r [e1.nextNegativeID]).env = some ep := h4
  have g5 : (withIdsRC r [e1.nextNegativeID]).model = some m := h2
  have g6 : (withIdsRC r [e1.nextNegativeID]).query = some qp := h3
  simp only [M.bind, derefRC, g1, derefEnv, g4, Option.bind, derefModel, g5, derefQuery, g6,
    g2, g7, getW, modifyCache, g3, M.pure, List.append_nil]
  rw [hid, hcache]
  simp only [World.withCache, World.withQuery, World.withRC, World.withEnvAt, List.set_set, he1]
/-- Method `Fetch` on a collection whose query is empty returns the receiver and does
nothing else. -/
theorem fetch_of_empty_query (x : Ext) (k : Rec) (w : World) (rc : Nat) (r : RecordCollection)
    (q : Query) (h1 : w.rcs[rc]? = some r)
    (h3 : r.query.bind (fun a => w.queries[a]?) = some q) (he : x.isEmpty q = true) :
    Fetch x k rc w = ⟨Except.ok rc, w, []⟩ := by
  simp only [Fetch, bind_run, pure_run]
  rw [bind_silent _ _ _ _ (derefRC_run _ _ _ h1)]
  by_cases hf : r.fetched = true
  · simp only [hf, if_true]; rfl
  · simp only [hf, Bool.false_eq_true, if_false]
    rw [bind_silent _ _ _ _ (show (M.pure PUnit.unit : M PUnit) w = _ from rfl),
      bind_silent _ _ _ _ (derefQuery_run _ _ _ h3)]
    simp only [he, if_true]
    rfl

/-- Method `ForceLoad` on a collection whose query is empty, for a user who may load:
it returns the receiver and does nothing else. -/
theorem forceLoad_empty_query_ok (x : Ext) (k : Rec) (w : World) (rc : Nat)
    (fs : List FieldName) (r : RecordCollection) (q : Query) (h1 : w.rcs[rc]? = some r)
    (h3 : r.query.bind (fun a => w.queries[a]?) = some q) (he : x.isEmpty q = true)
    (hp : x.checkExecutionPermission w rc "Load" = none) :
    ForceLoad x k rc fs w = ⟨Except.ok rc, w, []⟩ := by
  simp only [ForceLoad, bind_run, pure_run]
  rw [bind_silent _ _ _ _ (checkPermission_ok x w rc _ hp),
    bind_silent _ _ _ _ (derefRC_run _ _ _ h1),
    bind_silent _ _ _ _ (derefQuery_run _ _ _ h3)]
  simp only [he, if_true]
  rfl

/-- Method `InvalidateCache` on a collection without ids whose query is empty, for a user
who may load: there is no record to invalidate and nothing to load. -/
theorem invalidateCache_fresh (x : Ext) (n : Nat) (w : World) (rc : Nat)
    (r : RecordCollection) (m : Model) (q : Query) (e : Environment) (c : Cache)
    (h1 : w.rcs[rc]? = some r) (h2 : r.model = some m)
    (h3 : r.query.bind (fun a => w.queries[a]?) = some q)
    (h4 : r.env.bind (fun a => w.envs[a]?) = some e) (h5 : w.caches[e.cache]? = some c)
    (hids : r.ids = []) (he : x.isEmpty q = true)
    (hp : x.checkExecutionPermission w rc "Load" = none) :
    InvalidateCache x (knot x (n + 1)) rc w = ⟨Except.ok (), w, []⟩ := by
  have hfetch : (knot x (n + 1)).Fetch rc w = ⟨Except.ok rc, w, []⟩ :=
    fetch_of_empty_query x (knot x n) w rc r q h1 h3 he
  have hrec : Records x (knot x (n + 1)) rc w = ⟨Except.ok [], w, []⟩ := by
    simp only [Records, Len, Ids, bind_run, pure_run]
    rw [bind_silent _ _ _ _ (show M.bind ((knot x (n + 1)).Fetch rc) (fun _ =>
        M.bind (derefRC rc) (fun r => M.pure r.ids.length)) w = ⟨Except.ok 0, w, []⟩ from by
      rw [bind_silent _ _ _ _ hfetch, bind_silent _ _ _ _ (derefRC_run _ _ _ h1), hids]; rfl)]
    rw [bind_silent _ _ _ _ (show M.bind ((knot x (n + 1)).Fetch rc) (fun _ =>
        M.bind (derefRC rc) (fun r => M.pure r.ids)) w = ⟨Except.ok [], w, []⟩ from by
      rw [bind_silent _ _ _ _ hfetch, bind_silent _ _ _ _ (derefRC_run _ _ _ h1), hids]; rfl)]
    rfl
  have hload : Load x (knot x (n + 1)) rc [] w = ⟨Except.ok rc, w, []⟩ := by
    rw [load_unfold x _ w rc [] r m h1 h2,
      bind_silent _ _ _ _ (checkIfInCache_run x w rc _ _ r m q e c h1 h2 h3 h4 h5)]
    by_cases hit : c.checkIfInCache x.cacheCheckNoIds m.name r.ids
        ((if ([] : List FieldName).length = 0 then m.storedFieldNames else []).map
          (fun v => v.json)) (x.ctxArgsSlug w q) = true
    · rw [if_pos hit]; rfl
    · rw [if_neg hit]
      exact forceLoad_empty_query_ok x _ w rc _ r q h1 h3 he hp
  simp only [InvalidateCache, bind_run, pure_run]
  rw [bind_silent _ _ _ _ hrec, forEach_nil,
    bind_silent _ _ _ _ (show (M.pure () : M Unit) w = _ from rfl),
    bind_silent _ _ _ _ hload]
  rfl

/-- The run of `new` on a collection without ids whose query is empty, in full. -/
theorem new_fresh_run (x : Ext) (n : Nat) (w : World) (rc : Nat) (data : ModelData)
    (r : RecordCollection) (m : Model) (qp : Nat) (q : Query) (ep : Nat) (e : Environment)
    (c : Cache) (fm : FieldMap)
    (h1 : w.rcs[rc]? = some r) (h2 : r.model = some m) (h3 : r.query = some qp)
    (h3b : w.queries[qp]? = some q) (h4 : r.env = some ep) (h4b : w.envs[ep]? = some e)
    (h5 : w.caches[e.cache]? = some c)
    (hids : r.ids = []) (he : x.isEmpty q = true)
    (hp : x.checkExecutionPermission w rc "Load" = none)
    (hconv : ∀ w2, x.convertValuesToFieldType m
      (FieldMap.insert data.FieldMap "id" (Value.int (e.nextNegativeID - 1))) false w2
        = ⟨Except.ok fm, w2, []⟩)
    (hlo : -9223372036854775808 < e.nextNegativeID)
    (hhi : e.nextNegativeID < 9223372036854775808) :
    ∃ c3 : Cache, new x (knot x (n + 1)) rc data w
      = ⟨Except.ok rc,
          ((((w.withEnvAt ep { e with nextNegativeID := e.nextNegativeID - 1 }).withRC rc
              (withIdsRC r [e.nextNegativeID - 1])).withQuery qp
              (withIdsQuery q [e.nextNegativeID - 1])).withCache e.cache c3), []⟩ := by
  obtain ⟨c3, hc3⟩ := newRecord_run x w rc data r m qp q ep e c fm h1 h2 h3 h3b h4 h4b h5 hconv
    hlo hhi
  refine ⟨c3, ?_⟩
  simp only [new, bind_run]
  rw [bind_silent _ _ _ _ (invalidateCache_fresh x n w rc r m q e c h1 h2
    (by rw [h3]; exact h3b) (by rw [h4]; exact h4b) h5 hids he hp)]
  exact hc3

theorem withIdsRC_single (r : RecordCollection) (id : Int) (hid : id < 0) :
    withIdsRC r [id] = { r with ids := [id], fetched := true, filtered := false,
                                hasNegIds := true } := by
  have h0 : id ≠ 0 := by omega
  simp [withIdsRC, survivors_single id h0, hid]

/-- Two calls of `new` in a row on two different collections without ids and with an empty
query (as `env.Pool` gives them) that point at the same environment object, whose counter
is not positive and at least two above the least `int64`: both calls return their
receiver and send nothing to storage; the first receiver holds exactly the id
`counter - 1`, the second exactly the id `counter - 2`, both with the negative-id flag
set; the ids are negative and strictly decreasing, the first receiver keeps its id, and
the counter of the environment object ends at the last id. -/
theorem new_mints_decreasing (x : Ext) (n : Nat) (w : World) (a b : Nat)
    (data1 data2 : ModelData) (ra rb : RecordCollection) (ma mb : Model) (qa qb : Nat)
    (qva qvb : Query) (ep : Nat) (e : Environment) (c : Cache) (fm1 fm2 : FieldMap)
    (hab : a ≠ b) (hq : qa ≠ qb)
    (ha1 : w.rcs[a]? = some ra) (ha2 : ra.model = some ma) (ha3 : ra.query = some qa)
    (ha3b : w.queries[qa]? = some qva) (ha4 : ra.env = some ep) (haids : ra.ids = [])
    (hae : x.isEmpty qva = true)
    (hb1 : w.rcs[b]? = some rb) (hb2 : rb.model = some mb) (hb3 : rb.query = some qb)
    (hb3b : w.queries[qb]? = some qvb) (hb4 : rb.env = some ep) (hbids : rb.ids = [])
    (hbe : x.isEmpty qvb = true)
    (h4b : w.envs[ep]? = some e) (h5 : w.caches[e.cache]? = some c)
    (hp : ∀ w2 p, x.checkExecutionPermission w2 p "Load" = none)
    (hconv1 : ∀ w2, x.convertValuesToFieldType ma
      (FieldMap.insert data1.FieldMap "id" (Value.int (e.nextNegativeID - 1))) false w2
        = ⟨Except.ok fm1, w2, []⟩)
    (hconv2 : ∀ w2, x.convertValuesToFieldType mb
      (FieldMap.insert data2.FieldMap "id" (Value.int (e.nextNegativeID - 1 - 1))) false w2
        = ⟨Except.ok fm2, w2, []⟩)
    (hcnt : e.nextNegativeID ≤ 0) (hlo : -9223372036854775807 < e.nextNegativeID) :
    ∃ (w1 w2 : World) (va vb : RecordCollection) (e2 : Environment),
      new x (knot x (n + 1)) a data1 w = ⟨Except.ok a, w1, []⟩ ∧
      new x (knot x (n + 1)) b data2 w1 = ⟨Except.ok b, w2, []⟩ ∧
      w1.rcs[a]? = some va ∧ va.ids = [e.nextNegativeID - 1] ∧ va.hasNegIds = true ∧
      w2.rcs[a]? = some va ∧
      w2.rcs[b]? = some vb ∧ vb.ids = [e.nextNegativeID - 2] ∧ vb.hasNegIds = true ∧
      w2.envs[ep]? = some e2 ∧ e2.nextNegativeID = e.nextNegativeID - 2 ∧
      e.nextNegativeID - 2 < e.nextNegativeID - 1 ∧ e.nextNegativeID - 1 < 0 := by
  obtain ⟨c1, hrun1⟩ := new_fresh_run x n w a data1 ra ma qa qva ep e c fm1 ha1 ha2 ha3 ha3b
    ha4 h4b h5 haids hae (hp _ _) hconv1 (by omega) (by omega)
  obtain ⟨e1, he1⟩ : ∃ e1 : Environment,
      e1 = { e with nextNegativeID := e.nextNegativeID - 1 } := ⟨_, rfl⟩
  rw [← he1] at hrun1
  obtain ⟨w1, hw1⟩ : ∃ w1 : World,
      w1 = ((((w.withEnvAt ep e1).withRC a (withIdsRC ra [e.nextNegativeID - 1])).withQuery qa
        (withIdsQuery qva [e.nextNegativeID - 1])).withCache e.cache c1) := ⟨_, rfl⟩
  rw [← hw1] at hrun1
  have g1 : w1.rcs[b]? = some rb := by
    rw [hw1]
    simp only [World.withCache, World.withQuery, World.withRC, World.withEnvAt]
    rw [List.getElem?_set_ne hab]
    exact hb1
  have g1a : w1.rcs[a]? = some (withIdsRC ra [e.nextNegativeID - 1]) := by
    rw [hw1]
    exact getElem?_set_self_of_some _ _ _ _ ha1
  have g2 : w1.queries[qb]? = some qvb := by
    rw [hw1]
    simp only [World.withCache, World.withQuery, World.withRC, World.withEnvAt]
    rw [List.getElem?_set_ne hq]
    exact hb3b
  have g3 : w1.envs[ep]? = some e1 := by
    rw [hw1]
    exact getElem?_set_self_of_some _ _ _ _ h4b
  have g4 : w1.caches[e1.cache]? = some c1 := by
    rw [hw1, he1]
    exact getElem?_set_self_of_some _ _ _ _ h5
  have hconv2' : ∀ w2, x.convertValuesToFieldType mb
      (FieldMap.insert data2.FieldMap "id" (Value.int (e1.nextNegativeID - 1))) false w2
        = ⟨Except.ok fm2, w2, []⟩ := by
    rw [he1]; exact hconv2
  obtain ⟨c2, hrun2⟩ := new_fresh_run x n w1 b data2 rb mb qb qvb ep e1 c1 fm2 g1 hb2 hb3 g2
    hb4 g3 g4 hbids hbe (hp _ _) hconv2' (by rw [he1]; simp only; omega)
    (by rw [he1]; simp only; omega)
  have hid1 : e.nextNegativeID - 1 < 0 := by omega
  have hid2 : e1.nextNegativeID - 1 < 0 := by rw [he1]; simp only; omega
  have hid2e : e1.nextNegativeID - 1 = e.nextNegativeID - 2 := by rw [he1]; simp only; omega
  refine ⟨w1, _, withIdsRC ra [e.nextNegativeID - 1], withIdsRC rb [e1.nextNegativeID - 1],
    { e1 with nextNegativeID := e1.nextNegativeID - 1 }, hrun1, hrun2, g1a, ?_, ?_, ?_, ?_, ?_,
    ?_, ?_, ?_, by omega, hid1⟩
  · rw [withIdsRC_single _ _ hid1]
  · rw [withIdsRC_single _ _ hid1]
  · simp only [World.withCache, World.withQuery, World.withRC, World.withEnvAt]
    rw [List.getElem?_set_ne (Ne.symm hab)]
    exact g1a
  · exact getElem?_set_self_of_some _ _ _ _ g1
  · rw [withIdsRC_single _ _ hid2, hid2e]
  · rw [withIdsRC_single _ _ hid2]
  · exact getElem?_set_self_of_some _ _ _ _ g3
  · exact hid2e

/-- The two collections of `pairWorld` point at the same environment object with the
counter 0: the first `new` mints -1, the second -2. -/
theorem new_mints_decreasing_witness :
    ∃ (w1 w2 : World) (va vb : RecordCollection) (e2 : Environment),
      new extPlain (knot extPlain 1) 0 adaData pairWorld = ⟨Except.ok 0, w1, []⟩ ∧
      new extPlain (knot extPlain 1) 1 stampData w1 = ⟨Except.ok 1, w2, []⟩ ∧
      w1.rcs[0]? = some va ∧ va.ids = [(0 : Int) - 1] ∧ va.hasNegIds = true ∧
      w2.rcs[0]? = some va ∧
      w2.rcs[1]? = some vb ∧ vb.ids = [(0 : Int) - 2] ∧ vb.hasNegIds = true ∧
      w2.envs[0]? = some e2 ∧ e2.nextNegativeID = (0 : Int) - 2 ∧
      (0 : Int) - 2 < 0 - 1 ∧ (0 : Int) - 1 < 0 :=
  new_mints_decreasing extPlain 0 pairWorld 0 1 adaData stampData _ _ partnerModel partnerModel
    0 1 _ _ 0 { uid := 1, cache := 0 } {} _ _ (by decide) (by decide) rfl rfl rfl rfl rfl rfl
    rfl rfl rfl rfl rfl rfl rfl rfl rfl rfl (fun _ _ => rfl) (fun _ => rfl) (fun _ => rfl)
    (by decide) (by decide)

/-- C14: the code on two collections of one environment. Two collections obtained from
the environment of one collection (`newRecordCollection` on `Env()`, as `Records()` does)
carry each a copy of the counter; `new` on each of them mints the same id -1, so the two
in-memory records (at the addresses 1 and 2) share their id. And a second `new` on a
collection that holds an in-memory record already does not mint an id: it panics in
`InvalidateCache`. -/
theorem new_same_id_through_env_copies :
    (newOnEnvCopies extPlain adaData stampData poolWorld).out
      = Except.ok ((1, [-1]), (2, [-1])) ∧
    (M.bind (new extPlain (knot extPlain 2) 0 adaData)
        (fun rc => new extPlain (knot extPlain 2) rc stampData) poolWorld).out
      = Except.error "Trying to load a memory RecordSet created by New" := by
  decide!

/-! ## The id list of a fetched collection -/

/-- C11, as the code has it. For a usable collection whose ids have been fetched: `Fetch`
returns the receiver and changes nothing; `withIds` does not keep the id list: it returns
the receiver itself, not a new collection, and the receiver holds in place the ids it was
given (zeros and repeats removed), whatever it held before; and `new`, on a fetched
collection without ids whose query is empty and whose counter is not positive and above
the least `int64`, returns the receiver itself, which holds in place the id that was
minted. -/
theorem withIds_overwrites_fetched_ids (x : Ext) (n : Nat) (w : World) (rc : Nat)
    (r : RecordCollection) (m : Model) (qp : Nat) (q : Query) (ep : Nat) (e : Environment)
    (c : Cache) (h1 : w.rcs[rc]? = some r) (h2 : r.model = some m) (h3 : r.query = some qp)
    (h3b : w.queries[qp]? = some q) (h4 : r.env = some ep) (h4b : w.envs[ep]? = some e)
    (h5 : w.caches[e.cache]? = some c) (hf : r.fetched = true) :
    Fetch x (knot x n) rc w = ⟨Except.ok rc, w, []⟩ ∧
    (∀ ids : List Int, ∃ w2 r2, withIds x rc ids w = ⟨Except.ok rc, w2, []⟩ ∧
      w2.rcs[rc]? = some r2 ∧ r2.ids = survivors [] ids ∧ r2.fetched = true) ∧
    (∀ (data : ModelData) (fm : FieldMap), r.ids = [] → x.isEmpty q = true →
      x.checkExecutionPermission w rc "Load" = none → e.nextNegativeID ≤ 0 →
      -9223372036854775808 < e.nextNegativeID →
      (∀ w2, x.convertValuesToFieldType m
        (FieldMap.insert data.FieldMap "id" (Value.int (e.nextNegativeID - 1))) false w2
          = ⟨Except.ok fm, w2, []⟩) →
      ∃ w2 r2, new x (knot x (n + 1)) rc data w = ⟨Except.ok rc, w2, []⟩ ∧
        w2.rcs[rc]? = some r2 ∧ r2.ids = [e.nextNegativeID - 1] ∧ r2.fetched = true) := by
  refine ⟨fetch_of_fetched x _ w rc r h1 hf, fun ids => ?_, ?_⟩
  · obtain ⟨c2, hrun⟩ := withIds_run x w rc ids r m qp q ep e c h1 h2 h3 h3b h4 h4b h5
    exact ⟨_, withIdsRC r ids, hrun, getElem?_set_self_of_some _ _ _ _ h1, rfl, rfl⟩
  · intro data fm hids he hp hcnt hlo hconv
    obtain ⟨c3, hrun⟩ := new_fresh_run x n w rc data r m qp q ep e c fm h1 h2 h3 h3b h4 h4b h5
      hids he hp hconv hlo (by omega)
    refine ⟨_, withIdsRC r [e.nextNegativeID - 1], hrun,
      getElem?_set_self_of_some _ _ _ _ h1, ?_, rfl⟩
    rw [withIdsRC_single _ _ (by omega)]

/-- C11, run on the stored record 5 of `storedWorld` for `Fetch` and `withIds`, and on the
fetched collection without ids of `fetchedPoolWorld` for `new`, which mints -1 in
place. -/
theorem withIds_overwrites_fetched_ids_witness :
    (Fetch extPlain (knot extPlain 0) 0 storedWorld = ⟨Except.ok 0, storedWorld, []⟩ ∧
      (∀ ids : List Int, ∃ w2 r2, withIds extPlain 0 ids storedWorld = ⟨Except.ok 0, w2, []⟩ ∧
        w2.rcs[0]? = some r2 ∧ r2.ids = survivors [] ids ∧ r2.fetched = true)) ∧
    ((fetchedPoolWorld.rcs[0]?).map (fun r => (r.fetched, r.ids)) = some (true, []) ∧
      ∃ w2 r2, new extPlain (knot extPlain 1) 0 adaData fetchedPoolWorld
          = ⟨Except.ok 0, w2, []⟩ ∧
        w2.rcs[0]? = some r2 ∧ r2.ids = [(0 : Int) - 1] ∧ r2.fetched = true) :=
  have h := withIds_overwrites_fetched_ids extPlain 0 storedWorld 0 _ partnerModel 0 _ 0
    { uid := 1, cache := 0 } _ rfl rfl rfl rfl rfl rfl rfl rfl
  ⟨⟨h.1, h.2.1⟩, rfl,
    (withIds_overwrites_fetched_ids extPlain 0 fetchedPoolWorld 0 _ partnerModel 0 _ 0
      { uid := 1, cache := 0 } _ rfl rfl rfl rfl rfl rfl rfl rfl).2.2 adaData
      (FieldMap.insert adaData.FieldMap "id" (Value.int ((0 : Int) - 1)))
      rfl rfl rfl (by decide) (by decide) (fun _ => rfl)⟩

/-- C11 fails as stated: the collection at address 0 of `storedWorld` is fetched and holds
the id 5; `withIds` with the id 7 returns the same address 0, and the collection at this
address now holds the id 7. -/
theorem withIds_changes_fetched_ids_in_place :
    (storedWorld.rcs[0]?).map (fun r => (r.fetched, r.ids)) = some (true, [5]) ∧
    (withIds extPlain 0 [7] storedWorld).out = Except.ok 0 ∧
    ((withIds extPlain 0 [7] storedWorld).w.rcs[0]?).map (fun r => (r.fetched, r.ids))
      = some (true, [7]) ∧
    (withIds extPlain 0 [7] storedWorld).w.rcs.length = storedWorld.rcs.length := by
  decide!

/-! ## unlink -/

/-- The invalidation loop of `unlink` on a usable collection: the cache of the environment
loses the entries of the given records, nothing else changes. -/
theorem unlink_invalidate_run (rc : Nat) (r : RecordCollection) (m : Model) (e : Environment)
    (ids : List Int) : ∀ (w : World) (c : Cache), w.rcs[rc]? = some r → r.model = some m →
    r.env.bind (fun a => w.envs[a]?) = some e → w.caches[e.cache]? = some c →
    forEach ids (fun id => (do
        let r ← derefRC rc
        let env ← derefEnv r.env
        let m ← derefModel r.model
        modifyCache env.cache (fun c => c.invalidateRecord m.name id) : M Unit)) w
      = ⟨Except.ok (), w.withCache e.cache (invalidated c m.name ids), []⟩ := by
  induction ids with
  | nil =>
    intro w c h1 h2 h4 h5
    rw [forEach_nil]
    simp only [M.pure, World.withCache, invalidated, List.foldl_nil, list_set_same _ _ _ h5]
  | cons a l ih =>
    intro w c h1 h2 h4 h5
    have hlt := lt_length_of_getElem? _ _ _ h5
    have hc2 := ih (w.withCache e.cache (c.invalidateRecord m.name a))
      (c.invalidateRecord m.name a) h1 h2 h4
      (by simp [World.withCache, List.getElem?_set, hlt])
    simp only [bind_run] at hc2
    rw [forEach_cons]
    simp only [bind_run, M.bind, derefRC, derefEnv, derefModel, modifyCache, h1, h2, h4, h5]
    simp only [World.withCache] at hc2
    rw [hc2]
    simp [World.withCache, invalidated]

theorem invalidated_data (model : String) (ids : List Int) : ∀ (c : Cache)
    (p : CacheKey × Value),
    p ∈ (invalidated c model ids).data ↔ (p ∈ c.data ∧ ¬ (p.1.model = model ∧ p.1.id ∈ ids)) := by
  induction ids with
  | nil => intro c p; simp [invalidated]
  | cons a l ih =>
    intro c p
    have := ih (c.invalidateRecord model a) p
    simp only [invalidated, List.foldl_cons] at this ⊢
    rw [this]
    simp only [Cache.invalidateRecord, List.mem_filter, Bool.not_eq_true', Bool.and_eq_false_imp,
      beq_iff_eq, beq_eq_false_iff_ne, ne_eq, List.mem_cons, not_and, not_or]
    constructor
    · rintro ⟨⟨h1, h2⟩, h3⟩
      exact ⟨h1, fun hm => ⟨h2 hm, h3 hm⟩⟩
    · rintro ⟨h1, h2⟩
      exact ⟨⟨h1, fun hm => (h2 hm).1⟩, fun hm => (h2 hm).2⟩

theorem invalidated_links (model : String) (ids : List Int) : ∀ c : Cache,
    (invalidated c model ids).m2mLinks = c.m2mLinks := by
  induction ids with
  | nil => intro c; rfl
  | cons a l ih =>
    intro c
    simp only [invalidated, List.foldl_cons] at ih ⊢
    rw [ih]
    rfl
/-- The run of `unlinkStore` when the collection to delete carries negative ids: no
statement is sent, the number of deleted rows is 0, and the cache loses the entries of
the given ids. -/
theorem unlinkStore_neg_run (x : Ext) (w : World) (rc rSet : Nat) (ids : List Int)
    (r rs : RecordCollection) (m : Model) (e : Environment) (c : Cache)
    (h1 : w.rcs[rc]? = some r) (h2 : r.model = some m)
    (h4 : r.env.bind (fun a => w.envs[a]?) = some e) (h5 : w.caches[e.cache]? = some c)
    (hs : w.rcs[rSet]? = some rs) (hneg : rs.hasNegIds = true) :
    unlinkStore x rc rSet ids w
      = ⟨Except.ok 0, w.withCache e.cache (invalidated c m.name ids), []⟩ := by
  have hinv := unlink_invalidate_run rc r m e ids w c h1 h2 h4 h5
  simp only [bind_run] at hinv
  simp only [unlinkStore, bind_run, pure_run]
  rw [bind_silent _ _ _ _ (derefRC_run _ _ _ hs)]
  simp only [hneg, Bool.not_true, Bool.false_eq_true, if_false]
  rw [bind_silent _ _ _ _ (show (M.pure (0 : Int) : M Int) w = _ from rfl),
    bind_ok _ _ _ _ _ _ hinv]
  rfl

/-- The run of `unlinkStore` when the collection to delete carries no negative id: the
`DELETE` statement of the query is sent, the number of deleted rows is the number of rows
the driver reports for it, and the cache loses the entries of the given ids. -/
theorem unlinkStore_pos_run (x : Ext) (w : World) (rc rSet : Nat) (ids : List Int)
    (r rs : RecordCollection) (m : Model) (e es : Environment) (c : Cache) (qs : Query)
    (num : Int)
    (h1 : w.rcs[rc]? = some r) (h2 : r.model = some m)
    (h4 : r.env.bind (fun a => w.envs[a]?) = some e) (h5 : w.caches[e.cache]? = some c)
    (hs : w.rcs[rSet]? = some rs) (hneg : rs.hasNegIds = false)
    (hsq : rs.query.bind (fun a => w.queries[a]?) = some qs)
    (hse : rs.env.bind (fun a => w.envs[a]?) = some es)
    (hnum : x.rowsAffected w.db (Stmt.execute (x.deleteQuery w qs).1 (x.deleteQuery w qs).2)
      = Except.ok num) :
    unlinkStore x rc rSet ids w
      = ⟨Except.ok num,
          (w.sent [Stmt.execute (x.deleteQuery w qs).1 (x.deleteQuery w qs).2]).withCache
            e.cache (invalidated c m.name ids),
          [Stmt.execute (x.deleteQuery w qs).1 (x.deleteQuery w qs).2]⟩ := by
  have hinv := unlink_invalidate_run rc r m e ids
    (w.sent [Stmt.execute (x.deleteQuery w qs).1 (x.deleteQuery w qs).2]) c h1 h2 h4 h5
  simp only [bind_run] at hinv
  have hexec : crExecute x (x.deleteQuery w qs).1 (x.deleteQuery w qs).2 w
      = ⟨Except.ok num, w.sent [Stmt.execute (x.deleteQuery w qs).1 (x.deleteQuery w qs).2],
          [Stmt.execute (x.deleteQuery w qs).1 (x.deleteQuery w qs).2]⟩ := by
    simp only [crExecute, execStmt, bind_run, M.bind, send, hnum, liftExcept, World.sent]
    rfl
  simp only [unlinkStore, bind_run, pure_run]
  rw [bind_silent _ _ _ _ (derefRC_run _ _ _ hs)]
  simp only [hneg, Bool.not_false, if_true]
  rw [bind_ok _ _ _ _ _ _ (show M.bind (derefQuery rs.query) (fun q => M.bind getW (fun w =>
      M.bind (derefEnv rs.env) (fun _ => crExecute x (x.deleteQuery w q).1
        (x.deleteQuery w q).2))) w = _ from by
    rw [bind_silent _ _ _ _ (derefQuery_run _ _ _ hsq), bind_silent _ _ _ _ (getW_run _),
      bind_silent _ _ _ _ (derefEnv_run _ _ _ hse)]
    exact hexec)]
  rw [bind_ok _ _ _ _ _ _ hinv]
  rfl
/-- The start of `unlink`, to the emptiness test: the permission check, the record rules
and the ids of the collection the rules give, which is fetched. -/
theorem unlink_unfold (x : Ext) (n : Nat) (w w1 : World) (rc rSet : Nat)
    (r rs : RecordCollection) (e : Environment) (ev1 : List Stmt)
    (hperm : x.checkExecutionPermission w rc "Unlink" = none)
    (h1 : w.rcs[rc]? = some r) (h4 : r.env.bind (fun a => w.envs[a]?) = some e)
    (hrule : x.addRecordRuleConditions rc e.uid "unlink" w = ⟨Except.ok rSet, w1, ev1⟩)
    (hs : w1.rcs[rSet]? = some rs) (hsf : rs.fetched = true)
    (hsm : rs.model.isSome = true) (hsq : rs.query.isSome = true)
    (hse : rs.env.isSome = true) :
    unlink x (knot x (n + 1)) rc w =
      M.bind (fun _ => (⟨Except.ok (), w1, ev1⟩ : Res Unit)) (fun _ =>
        if (rs.ids.length == 0) = true then (M.pure 0 : M Int)
        else unlinkBody x rc rSet rs.ids) w := by
  simp only [unlink, bind_run, pure_run]
  rw [bind_silent _ _ _ _ (checkPermission_ok x w rc _ hperm),
    bind_silent _ _ _ _ (env_run w rc r e h1 h4), bind_ok _ _ _ _ _ _ hrule,
    bind_silent _ _ _ _ (ids_of_fetched x n w1 rSet rs hs hsf),
    bind_silent _ _ _ _ (isEmpty_of_fetched x n w1 rSet rs hs hsf hsm hsq hse)]
  rw [bind_ok _ _ w w1 () ev1 rfl]
  by_cases hz : (rs.ids.length == 0) = true
  · simp only [hz, if_true]
  · simp only [hz, if_false, Bool.false_eq_true]
    rfl

/-- The run of `unlinkBody` from the runs of its parts. -/
theorem unlinkBody_run (x : Ext) (w w2 w3 w4 : World) (rc rSet : Nat) (ids : List Int)
    (r : RecordCollection) (m : Model) (cd : Value) (num : Int) (ev2 ev3 ev4 : List Stmt)
    (h1 : w.rcs[rc]? = some r) (h2 : r.model = some m)
    (hcomp : x.retrieveComputeData rc m.allFieldNames w = ⟨Except.ok cd, w2, ev2⟩)
    (hstore : unlinkStore x rc rSet ids w2 = ⟨Except.ok num, w3, ev3⟩)
    (hupd : x.updateStoredFields rc cd w3 = ⟨Except.ok (), w4, ev4⟩) :
    unlinkBody x rc rSet ids w = ⟨Except.ok num, w4, ev2 ++ (ev3 ++ ev4)⟩ := by
  simp only [unlinkBody, bind_run, pure_run]
  rw [bind_silent _ _ _ _ (derefRC_run _ _ _ h1), h2,
    bind_silent _ _ _ _ (derefModel_run m w), bind_ok _ _ _ _ _ _ hcomp,
    bind_ok _ _ _ _ _ _ hstore, bind_ok _ _ _ _ _ _ hupd]
  simp [M.pure]

/-- The start of `unlink`, to the emptiness test: the permission check and the record
rules, then `Ids` and `IsEmpty` on the collection the rules give. -/
theorem unlink_start (x : Ext) (k : Rec) (w w1 : World) (rc rSet : Nat)
    (r : RecordCollection) (e : Environment) (ev1 : List Stmt)
    (hperm : x.checkExecutionPermission w rc "Unlink" = none)
    (h1 : w.rcs[rc]? = some r) (h4 : r.env.bind (fun a => w.envs[a]?) = some e)
    (hrule : x.addRecordRuleConditions rc e.uid "unlink" w = ⟨Except.ok rSet, w1, ev1⟩) :
    unlink x k rc w =
      M.bind (fun _ => (⟨Except.ok (), w1, ev1⟩ : Res Unit)) (fun _ =>
        M.bind (Ids k rSet) (fun ids =>
          M.bind (IsEmpty k (some rSet)) (fun b =>
            if b = true then (M.pure 0 : M Int) else unlinkBody x rc rSet ids))) w := by
  simp only [unlink, bind_run, pure_run]
  rw [bind_silent _ _ _ _ (checkPermission_ok x w rc _ hperm),
    bind_silent _ _ _ _ (env_run w rc r e h1 h4), bind_ok _ _ _ _ _ _ hrule]
  rw [bind_ok _ _ w w1 () ev1 rfl]
  simp only [pure_bind]

/-- C16: `unlink`, for a user who may unlink, on any collection. The record rules give a
collection `rSet`, on which `unlink` calls `Ids` and `IsEmpty`: they load the ids when
`rSet` is not fetched, and on a fetched `rSet` they read its ids and send nothing. When
`IsEmpty` gives true, `unlink` returns 0 at once: the world and the statements are those
the rules and these two calls left, no `DELETE` is sent and no cache entry is dropped.
Otherwise, when `rSet` carries no negative id, `unlink` sends exactly one statement of
its own, the `DELETE` of the query of `rSet`, between the statements of the two
recomputation calls, drops the cache entries of the ids, and returns the number of rows
the driver reports for this `DELETE`; when `rSet` carries negative ids, it sends no
`DELETE` and returns 0. -/
theorem unlink_returns_rows_deleted (x : Ext) (n : Nat) (w w1 wi wj : World) (rc rSet : Nat)
    (r : RecordCollection) (e : Environment) (ev1 evi evj : List Stmt) (ids : List Int)
    (b : Bool)
    (hperm : x.checkExecutionPermission w rc "Unlink" = none)
    (h1 : w.rcs[rc]? = some r) (h4 : r.env.bind (fun a => w.envs[a]?) = some e)
    (hrule : x.addRecordRuleConditions rc e.uid "unlink" w = ⟨Except.ok rSet, w1, ev1⟩)
    (hids : Ids (knot x (n + 1)) rSet w1 = ⟨Except.ok ids, wi, evi⟩)
    (hemp : IsEmpty (knot x (n + 1)) (some rSet) wi = ⟨Except.ok b, wj, evj⟩) :
    (b = true → unlink x (knot x (n + 1)) rc w = ⟨Except.ok 0, wj, ev1 ++ (evi ++ evj)⟩) ∧
    (b = false → ∀ (r1 r2 rs2 : RecordCollection) (m m2 : Model) (cd : Value)
      (w2 w4 : World) (ev2 ev4 : List Stmt) (e2 : Environment) (c2 : Cache),
      wj.rcs[rc]? = some r1 → r1.model = some m →
      x.retrieveComputeData rc m.allFieldNames wj = ⟨Except.ok cd, w2, ev2⟩ →
      w2.rcs[rSet]? = some rs2 → w2.rcs[rc]? = some r2 → r2.model = some m2 →
      r2.env.bind (fun a => w2.envs[a]?) = some e2 → w2.caches[e2.cache]? = some c2 →
      (rs2.hasNegIds = false → ∀ (qs2 : Query) (es2 : Environment) (num : Int),
        rs2.query.bind (fun a => w2.queries[a]?) = some qs2 →
        rs2.env.bind (fun a => w2.envs[a]?) = some es2 →
        x.rowsAffected w2.db (Stmt.execute (x.deleteQuery w2 qs2).1 (x.deleteQuery w2 qs2).2)
          = Except.ok num →
        x.updateStoredFields rc cd
          ((w2.sent [Stmt.execute (x.deleteQuery w2 qs2).1 (x.deleteQuery w2 qs2).2]).withCache
            e2.cache (invalidated c2 m2.name ids)) = ⟨Except.ok (), w4, ev4⟩ →
        unlink x (knot x (n + 1)) rc w
          = ⟨Except.ok num, w4,
              ev1 ++ (evi ++ (evj ++ (ev2 ++
                ([Stmt.execute (x.deleteQuery w2 qs2).1 (x.deleteQuery w2 qs2).2] ++ ev4))))⟩ ∧
        ∀ p ∈ (invalidated c2 m2.name ids).data, ¬ (p.1.model = m2.name ∧ p.1.id ∈ ids)) ∧
      (rs2.hasNegIds = true →
        x.updateStoredFields rc cd (w2.withCache e2.cache (invalidated c2 m2.name ids))
          = ⟨Except.ok (), w4, ev4⟩ →
        unlink x (knot x (n + 1)) rc w
          = ⟨Except.ok 0, w4, ev1 ++ (evi ++ (evj ++ (ev2 ++ ev4)))⟩)) ∧
    (∀ rs : RecordCollection, w1.rcs[rSet]? = some rs → rs.fetched = true →
      rs.model.isSome = true → rs.query.isSome = true → rs.env.isSome = true →
      ids = rs.ids ∧ b = (rs.ids.length == 0) ∧ wi = w1 ∧ wj = w1 ∧ evi = [] ∧ evj = []) := by
  have hun := unlink_start x (knot x (n + 1)) w w1 rc rSet r e ev1 hperm h1 h4 hrule
  refine ⟨?_, ?_, ?_⟩
  · intro hb
    subst hb
    rw [hun, bind_ok _ _ w w1 () ev1 rfl, bind_ok _ _ _ _ _ _ hids, bind_ok _ _ _ _ _ _ hemp]
    simp [M.pure]
  · intro hb r1 r2 rs2 m m2 cd w2 w4 ev2 ev4 e2 c2 g1 g2 hcomp gs g3 g4 g5 g6
    subst hb
    constructor
    · intro gneg qs2 es2 num gsq gse hnum hupd
      refine ⟨?_, fun p hp => ((invalidated_data _ _ _ p).mp hp).2⟩
      rw [hun, bind_ok _ _ w w1 () ev1 rfl, bind_ok _ _ _ _ _ _ hids,
        bind_ok _ _ _ _ _ _ hemp]
      simp only [Bool.false_eq_true, if_false]
      rw [unlinkBody_run x wj w2 _ w4 rc rSet ids r1 m cd num ev2 _ ev4 g1 g2 hcomp
        (unlinkStore_pos_run x w2 rc rSet ids r2 rs2 m2 e2 es2 c2 qs2 num g3 g4 g5 g6 gs
          gneg gsq gse hnum) hupd]
    · intro gneg hupd
      rw [hun, bind_ok _ _ w w1 () ev1 rfl, bind_ok _ _ _ _ _ _ hids,
        bind_ok _ _ _ _ _ _ hemp]
      simp only [Bool.false_eq_true, if_false]
      rw [unlinkBody_run x wj w2 _ w4 rc rSet ids r1 m cd 0 ev2 _ ev4 g1 g2 hcomp
        (unlinkStore_neg_run x w2 rc rSet ids r2 rs2 m2 e2 c2 g3 g4 g5 g6 gs gneg) hupd]
      simp
  · intro rs hs hsf hsm hsq hse
    rw [ids_of_fetched x n w1 rSet rs hs hsf] at hids
    simp only [Res.mk.injEq, Except.ok.injEq] at hids
    obtain ⟨hi, hw, he⟩ := hids
    subst hw
    rw [isEmpty_of_fetched x n w1 rSet rs hs hsf hsm hsq hse] at hemp
    simp only [Res.mk.injEq, Except.ok.injEq] at hemp
    obtain ⟨hb, hw2, he2⟩ := hemp
    exact ⟨hi.symm, hb.symm, rfl, hw2.symm, he.symm, he2.symm⟩
/-- C16, run on the search of `searchWorld`, which is not fetched: `Ids` loads the id 5
with one `SELECT`, then one `DELETE` is sent and the number of rows the driver reports,
1, is returned. -/
theorem unlink_returns_rows_deleted_witness :
    (searchWorld.rcs[0]?).map (fun r => (r.fetched, r.ids)) = some (false, []) ∧
    searchIds.ev = [Stmt.query "SELECT" []] ∧
    unlink extDb (knot extDb 3) 0 searchWorld
      = ⟨Except.ok 1,
          (searchIds.w.sent [Stmt.execute "DELETE" []]).withCache 0
            (invalidated ((searchIds.w.caches[0]?).getD default) "Partner" [5]),
          searchIds.ev ++ [Stmt.execute "DELETE" []]⟩ := by
  have h := ((((unlink_returns_rows_deleted extDb 2 searchWorld searchWorld searchIds.w
      searchIds.w 0 0 _ { uid := 1, cache := 0 } [] searchIds.ev [] [5] false rfl rfl rfl rfl
      (run_of_out searchIds [5] (by decide!)) (by decide!)).2.1 rfl
      ((searchIds.w.rcs[0]?).getD default) ((searchIds.w.rcs[0]?).getD default)
      ((searchIds.w.rcs[0]?).getD default) partnerModel partnerModel Value.null searchIds.w
      ((searchIds.w.sent [Stmt.execute "DELETE" []]).withCache 0
        (invalidated ((searchIds.w.caches[0]?).getD default) "Partner" [5])) [] []
      { uid := 1, cache := 0 } ((searchIds.w.caches[0]?).getD default)
      (by decide!) (by decide!) rfl (by decide!) (by decide!) (by decide!) (by decide!)
      (by decide!)).1 (by decide!)
      ((searchIds.w.queries[0]?).getD default) { uid := 1, cache := 0 } 1
      (by decide!) (by decide!) rfl rfl)).1
  simp only [List.nil_append, List.append_nil] at h
  exact ⟨rfl, by decide!, h⟩

/-! ## Collections with negative ids and storage -/

theorem cacheUpdateEntry_run (x : Ext) (w : World) (rc : Nat) (id : Int) (field : String)
    (v : Value) (r : RecordCollection) (m : Model) (q : Query) (e : Environment) (c : Cache)
    (h1 : w.rcs[rc]? = some r) (h2 : r.model = some m)
    (h3 : r.query.bind (fun a => w.queries[a]?) = some q)
    (h4 : r.env.bind (fun a => w.envs[a]?) = some e) (h5 : w.caches[e.cache]? = some c) :
    cacheUpdateEntry x rc id field v w
      = ⟨Except.ok (), w.withCache e.cache (c.updateEntry m.name id field v (x.ctxArgsSlug w q)),
          []⟩ := by
  simp only [cacheUpdateEntry, bind_run]
  rw [bind_silent _ _ _ _ (derefRC_run _ _ _ h1), bind_silent _ _ _ _ (derefEnv_run _ _ _ h4),
    h2, bind_silent _ _ _ _ (derefModel_run m w),
    bind_silent _ _ _ _ (derefQuery_run _ _ _ h3), bind_silent _ _ _ _ (getW_run _)]
  simp only [modifyCache, h5, World.withCache]

/-- The inner loop of the cache update of `doUpdate` for one record: every entry of the
map is written to the cache for the id of the record. -/
theorem doUpdate_fields_loop (x : Ext) (n : Nat) (rc rec : Nat) (id : Int)
    (r rv : RecordCollection) (m : Model) (q : Query) (e : Environment) (s : String)
    (hs : ∀ W : World, x.ctxArgsSlug W q = s) (hrv : rv.ids = [id]) (hrf : rv.fetched = true)
    (h2 : r.model = some m) (fMap : FieldMap) :
    ∀ (w : World) (c : Cache), w.rcs[rc]? = some r → w.rcs[rec]? = some rv →
      r.query.bind (fun a => w.queries[a]?) = some q →
      r.env.bind (fun a => w.envs[a]?) = some e → w.caches[e.cache]? = some c →
      forEach fMap (fun kv =>
        M.bind (Ids (knot x (n + 1)) rec) (fun ids => M.bind (firstId ids) (fun id =>
          cacheUpdateEntry x rc id kv.1 kv.2))) w
        = ⟨Except.ok (),
            w.withCache e.cache
              (fMap.foldl (fun c kv => c.updateEntry m.name id kv.1 kv.2 s) c), []⟩ := by
  induction fMap with
  | nil =>
    intro w c _ _ _ _ h5
    rw [forEach_nil]
    simp only [M.pure, World.withCache, List.foldl_nil, list_set_same _ _ _ h5]
  | cons kv l ih =>
    intro w c h1 hr h3 h4 h5
    have hlt := lt_length_of_getElem? _ _ _ h5
    have hstep := cacheUpdateEntry_run x w rc id kv.1 kv.2 r m q e c h1 h2 h3 h4 h5
    rw [hs w] at hstep
    have hnext := ih (w.withCache e.cache (c.updateEntry m.name id kv.1 kv.2 s))
      (c.updateEntry m.name id kv.1 kv.2 s) h1 hr h3 h4
      (by simp [World.withCache, List.getElem?_set, hlt])
    rw [forEach_cons, bind_ok _ _ _ _ _ _ (show M.bind (Ids (knot x (n + 1)) rec) (fun ids =>
        M.bind (firstId ids) (fun id => cacheUpdateEntry x rc id kv.1 kv.2)) w = _ from by
      rw [bind_silent _ _ _ _ (ids_of_fetched x n w rec rv hr hrf), hrv,
        bind_silent _ _ _ _ (show firstId [id] w = ⟨Except.ok id, w, []⟩ from rfl)]
      exact hstep), hnext]
    simp [World.withCache]

/-- The cache update of `doUpdate` for the singleton collections of the records: every
entry of the map is written to the cache for every id. -/
theorem doUpdate_records_loop (x : Ext) (n : Nat) (rc : Nat)
    (r : RecordCollection) (m : Model) (q : Query) (e : Environment) (s : String)
    (hs : ∀ W : World, x.ctxArgsSlug W q = s) (h2 : r.model = some m) (fMap : FieldMap)
    (rcs : List RecordCollection) (ids : List Int) (recs : List Nat)
    (hall : List.Forall₂ (fun id rec => ∃ rv, rcs[rec]? = some rv ∧ rv.ids = [id] ∧
      rv.fetched = true) ids recs) :
    ∀ (w : World) (c : Cache), w.rcs = rcs → w.rcs[rc]? = some r →
      r.query.bind (fun a => w.queries[a]?) = some q →
      r.env.bind (fun a => w.envs[a]?) = some e → w.caches[e.cache]? = some c →
      forEach recs (fun rec => forEach fMap (fun kv =>
        M.bind (Ids (knot x (n + 1)) rec) (fun ids => M.bind (firstId ids) (fun id =>
          cacheUpdateEntry x rc id kv.1 kv.2)))) w
        = ⟨Except.ok (), w.withCache e.cache (writtenCache c m.name s ids fMap), []⟩ := by
  induction hall with
  | nil =>
    intro w c _ _ _ _ h5
    rw [forEach_nil]
    simp only [M.pure, World.withCache, writtenCache, List.foldl_nil, list_set_same _ _ _ h5]
  | @cons id rec ids recs hrec _ ih =>
    intro w c hw h1 h3 h4 h5
    obtain ⟨rv, hr, hrv, hrf⟩ := hrec
    have hlt := lt_length_of_getElem? _ _ _ h5
    have hstep := doUpdate_fields_loop x n rc rec id r rv m q e s hs hrv hrf h2 fMap w c h1
      (by rw [hw]; exact hr) h3 h4 h5
    have hnext := ih (w.withCache e.cache
      (fMap.foldl (fun c kv => c.updateEntry m.name id kv.1 kv.2 s) c))
      (fMap.foldl (fun c kv => c.updateEntry m.name id kv.1 kv.2 s) c) hw h1 h3 h4
      (by simp [World.withCache, List.getElem?_set, hlt])
    rw [forEach_cons, bind_ok _ _ _ _ _ _ hstep, hnext]
    simp [World.withCache, writtenCache]

theorem cache_lookup_updateEntry_ne (c : Cache) (key : CacheKey) (model : String) (id : Int)
    (field : String) (v : Value) (slug : String) (h : key ≠ ⟨model, id, field, slug⟩) :
    List.lookup key (c.updateEntry model id field v slug).data = List.lookup key c.data := by
  have hk : (key == (⟨model, id, field, slug⟩ : CacheKey)) = false := by
    rw [beq_eq_false_iff_ne]
    exact h
  simp only [Cache.updateEntry, List.lookup_cons, hk]
  rw [lookup_filter_other _ _ _ h]

theorem fieldsFold_other (model slug : String) (id : Int) (l : FieldMap) :
    ∀ (c : Cache) (key : CacheKey),
      (key.model ≠ model ∨ key.id ≠ id ∨ key.slug ≠ slug ∨ key.field ∉ l.map Prod.fst) →
      List.lookup key (l.foldl (fun c kv => c.updateEntry model id kv.1 kv.2 slug) c).data
        = List.lookup key c.data := by
  induction l with
  | nil => intro c key _; rfl
  | cons kv l ih =>
    intro c key h
    rw [List.foldl_cons, ih]
    · apply cache_lookup_updateEntry_ne
      intro hk
      subst hk
      rcases h with h | h | h | h
      · exact h rfl
      · exact h rfl
      · exact h rfl
      · exact h (by simp)
    · rcases h with h | h | h | h
      · exact Or.inl h
      · exact Or.inr (Or.inl h)
      · exact Or.inr (Or.inr (Or.inl h))
      · exact Or.inr (Or.inr (Or.inr (fun hm => h (by
          rw [List.map_cons]; exact List.mem_cons_of_mem _ hm))))

theorem fieldsFold_get (model slug : String) (id : Int) (k : String) (v : Value)
    (l : FieldMap) : ∀ c : Cache, (l.map Prod.fst).Nodup → (k, v) ∈ l →
      (l.foldl (fun c kv => c.updateEntry model id kv.1 kv.2 slug) c).get model id k slug
        = v := by
  induction l with
  | nil => intro c _ h; cases h
  | cons kv l ih =>
    intro c hnd hmem
    rw [List.map_cons, List.nodup_cons] at hnd
    rw [List.foldl_cons]
    rcases List.mem_cons.mp hmem with h | h
    · subst h
      unfold Cache.get
      rw [fieldsFold_other model slug id l _ ⟨model, id, k, slug⟩
        (Or.inr (Or.inr (Or.inr hnd.1)))]
      exact cache_get_updateEntry_same c model id k v slug
    · exact ih _ hnd.2 h

theorem writtenCache_other (model slug : String) (fMap : FieldMap) (ids : List Int) :
    ∀ (c : Cache) (key : CacheKey), key.id ∉ ids →
      List.lookup key (writtenCache c model slug ids fMap).data = List.lookup key c.data := by
  induction ids with
  | nil => intro c key _; rfl
  | cons a l ih =>
    intro c key h
    have ha : key.id ≠ a := fun e => h (by rw [e]; exact List.mem_cons_self _ _)
    have hl : key.id ∉ l := fun e => h (List.mem_cons_of_mem _ e)
    have := ih (fMap.foldl (fun c kv => c.updateEntry model a kv.1 kv.2 slug) c) key hl
    simp only [writtenCache, List.foldl_cons] at this ⊢
    rw [this]
    exact fieldsFold_other model slug a fMap c key (Or.inr (Or.inl ha))

/-- After the cache update of `doUpdate`, the cache gives, for every id and every entry of
the map (a Go map: its keys are distinct), the value of the entry. -/
theorem writtenCache_get (model slug : String) (fMap : FieldMap) (k : String) (v : Value)
    (hnd : (fMap.map Prod.fst).Nodup) (hmem : (k, v) ∈ fMap) (id : Int) (ids : List Int) :
    ∀ c : Cache, id ∈ ids → (writtenCache c model slug ids fMap).get model id k slug = v := by
  induction ids with
  | nil => intro c h; cases h
  | cons a l ih =>
    intro c h
    by_cases hl : id ∈ l
    · have := ih (fMap.foldl (fun c kv => c.updateEntry model a kv.1 kv.2 slug) c) hl
      simp only [writtenCache, List.foldl_cons] at this ⊢
      exact this
    · have ha : id = a := by
        rcases List.mem_cons.mp h with h | h
        · exact h
        · exact absurd h hl
      subst ha
      have := writtenCache_other model slug fMap l
        (fMap.foldl (fun c kv => c.updateEntry model id kv.1 kv.2 slug) c)
        ⟨model, id, k, slug⟩ hl
      simp only [writtenCache, List.foldl_cons] at this ⊢
      unfold Cache.get
      rw [this]
      exact fieldsFold_get model slug id k v fMap c hnd hmem

theorem forall₂_imp_mem {α β : Type} (P R : α → β → Prop) (l1 : List α) (l2 : List β)
    (h : List.Forall₂ P l1 l2) (himp : ∀ a b, a ∈ l1 → P a b → R a b) :
    List.Forall₂ R l1 l2 := by
  induction h with
  | nil => exact List.Forall₂.nil
  | @cons a b l1 l2 hab _ ih =>
    exact List.Forall₂.cons (himp a b (List.mem_cons_self _ _) hab)
      (ih (fun a2 b2 ha2 => himp a2 b2 (List.mem_cons_of_mem _ ha2)))

/-- The part of `doUpdate` after the test for a map with the write date and user only, on
a fetched collection that carries negative ids: no statement is sent, and every entry of
the map is written to the cache for every id. -/
theorem doUpdateBody_neg_run (x : Ext) (n : Nat) (w : World) (rc : Nat) (fMap : FieldMap)
    (r : RecordCollection) (m : Model) (q : Query) (e : Environment) (c : Cache)
    (h1 : w.rcs[rc]? = some r) (h2 : r.model = some m)
    (h3 : r.query.bind (fun a => w.queries[a]?) = some q)
    (h4 : r.env.bind (fun a => w.envs[a]?) = some e) (h5 : w.caches[e.cache]? = some c)
    (hneg : r.hasNegIds = true) (hf : r.fetched = true) (hz : (0 : Int) ∉ r.ids)
    (hreg : x.registry.find? (fun m2 => m2.name == m.name) = some m)
    (hslug : ∀ (w1 w2 : World) (q1 q2 : Query), q1.ctxCond = q2.ctxCond →
      x.ctxArgsSlug w1 q1 = x.ctxArgsSlug w2 q2)
    (hmeta : ¬ (fMap.length = 2 ∧ (fMap.lookup "write_date").isSome = true ∧
      (fMap.lookup "write_uid").isSome = true)) :
    ∃ (w2 : World) (c2 : Cache), w.grows w2 e.cache ∧ w2.caches[e.cache]? = some c2 ∧
      doUpdateBody x (knot x (n + 1)) rc fMap w
        = ⟨Except.ok (),
            w2.withCache e.cache (writtenCache c2 m.name (x.ctxArgsSlug w q) r.ids fMap),
            []⟩ := by
  obtain ⟨w2, recs, hrec, hg, hall⟩ := records_run x n w rc r m m e c h1 h2 h4 h5 hf hreg
  obtain ⟨c2, hc2⟩ := grows_cache_some w w2 e.cache c hg h5
  have hall2 : List.Forall₂ (fun id rec => ∃ rv, w2.rcs[rec]? = some rv ∧ rv.ids = [id] ∧
      rv.fetched = true) r.ids recs := by
    refine forall₂_imp_mem _ _ _ _ hall ?_
    rintro id rec hid ⟨qa, ea, hrv, -, -⟩
    refine ⟨_, hrv, ?_, rfl⟩
    have h0 : id ≠ 0 := fun h => hz (h ▸ hid)
    simp only [recordOf, withIdsRC, survivors_single id h0]
  have hloop := doUpdate_records_loop x n rc r m q e (x.ctxArgsSlug w q)
    (fun W => hslug W w q q rfl) h2 fMap w2.rcs r.ids recs hall2 w2 c2 rfl (hg.1 rc r h1)
    (grows_query_bind _ _ _ hg _ _ h3) (grows_env_bind _ _ _ hg _ _ h4) hc2
  refine ⟨w2, c2, hg, hc2, ?_⟩
  simp only [doUpdateBody, bind_run, pure_run]
  by_cases hlen : fMap.length = 2
  · rw [if_pos hlen]
    have hcond : ¬ ((fMap.lookup "write_date").isSome && (fMap.lookup "write_uid").isSome)
        = true := by
      intro hc
      rw [Bool.and_eq_true] at hc
      exact hmeta ⟨hlen, hc.1, hc.2⟩
    rw [if_neg hcond, bind_silent _ _ _ _ (show (M.pure PUnit.unit : M PUnit) w = _ from rfl),
      bind_silent _ _ _ _ (derefRC_run _ _ _ h1)]
    simp only [hneg, Bool.not_true, Bool.false_eq_true, if_false]
    rw [bind_silent _ _ _ _ (show (M.pure PUnit.unit : M PUnit) w = _ from rfl),
      bind_ok _ _ _ _ _ _ hrec, hloop]
    rfl
  · rw [if_neg hlen, bind_silent _ _ _ _ (show (M.pure PUnit.unit : M PUnit) w = _ from rfl),
      bind_silent _ _ _ _ (derefRC_run _ _ _ h1)]
    simp only [hneg, Bool.not_true, Bool.false_eq_true, if_false]
    rw [bind_silent _ _ _ _ (show (M.pure PUnit.unit : M PUnit) w = _ from rfl),
      bind_ok _ _ _ _ _ _ hrec, hloop]
    rfl

/-- C13, as the code has it: a collection that carries negative ids does not reach storage,
and the cache is updated except for a map with the write date and user only. On a usable,
fetched collection with `hasNegIds` set and ids (none of them 0), for a user who may
write, `doUpdate` returns and sends no statement at all, whatever the map: the storage
journal is as before; when the map holds the write date and user only, nothing changes;
otherwise the cache gives afterwards, for every id of the collection and every entry of
the map, the value of the entry (under the context slug of the query). And `unlink`, when
the collection `rSet` that the record rules give is fetched, has ids and has `hasNegIds`
set, returns 0 and sends no statement of its own (only the statements of the record
rules and of the two recomputation calls), while the cache given to the second
recomputation call holds no entry of any of the ids. -/
theorem negative_ids_never_reach_storage (x : Ext) (n : Nat) (w : World) (rc : Nat)
    (r : RecordCollection) (m : Model) (q : Query) (e : Environment) (c : Cache)
    (h1 : w.rcs[rc]? = some r) (h2 : r.model = some m)
    (h3 : r.query.bind (fun a => w.queries[a]?) = some q)
    (h4 : r.env.bind (fun a => w.envs[a]?) = some e) (h5 : w.caches[e.cache]? = some c)
    (hneg : r.hasNegIds = true) (hf : r.fetched = true) (hids : r.ids ≠ [])
    (hz : (0 : Int) ∉ r.ids)
    (hreg : x.registry.find? (fun m2 => m2.name == m.name) = some m)
    (hslug : ∀ (w1 w2 : World) (q1 q2 : Query), q1.ctxCond = q2.ctxCond →
      x.ctxArgsSlug w1 q1 = x.ctxArgsSlug w2 q2) :
    (∀ fMap : FieldMap, x.checkExecutionPermission w rc "Write" = none →
      ∃ w2 : World, doUpdate x (knot x (n + 1)) rc fMap w = ⟨Except.ok (), w2, []⟩ ∧
        w2.db = w.db ∧
        ((fMap.length = 2 ∧ (fMap.lookup "write_date").isSome = true ∧
          (fMap.lookup "write_uid").isSome = true) → w2 = w) ∧
        (¬ (fMap.length = 2 ∧ (fMap.lookup "write_date").isSome = true ∧
          (fMap.lookup "write_uid").isSome = true) → (fMap.map Prod.fst).Nodup →
          ∃ c2, w2.caches[e.cache]? = some c2 ∧ ∀ id ∈ r.ids, ∀ k v, (k, v) ∈ fMap →
            c2.get m.name id k (x.ctxArgsSlug w q) = v)) ∧
    (∀ (rSet : Nat) (w1 w2 w4 : World) (ev1 ev2 ev4 : List Stmt)
      (rs r1 r2 rs2 : RecordCollection) (m1 m2 : Model) (cd : Value) (e2 : Environment)
      (c2 : Cache),
      x.checkExecutionPermission w rc "Unlink" = none →
      x.addRecordRuleConditions rc e.uid "unlink" w = ⟨Except.ok rSet, w1, ev1⟩ →
      w1.rcs[rSet]? = some rs → rs.fetched = true → rs.model.isSome = true →
      rs.query.isSome = true → rs.env.isSome = true → rs.ids ≠ [] →
      w1.rcs[rc]? = some r1 → r1.model = some m1 →
      x.retrieveComputeData rc m1.allFieldNames w1 = ⟨Except.ok cd, w2, ev2⟩ →
      w2.rcs[rSet]? = some rs2 → rs2.hasNegIds = true →
      w2.rcs[rc]? = some r2 → r2.model = some m2 →
      r2.env.bind (fun a => w2.envs[a]?) = some e2 → w2.caches[e2.cache]? = some c2 →
      x.updateStoredFields rc cd (w2.withCache e2.cache (invalidated c2 m2.name rs.ids))
        = ⟨Except.ok (), w4, ev4⟩ →
      unlink x (knot x (n + 1)) rc w = ⟨Except.ok 0, w4, ev1 ++ (ev2 ++ ev4)⟩ ∧
      ∀ p ∈ (invalidated c2 m2.name rs.ids).data, ¬ (p.1.model = m2.name ∧ p.1.id ∈ rs.ids)) := by
  have hm : r.model.isSome = true := by rw [h2]; rfl
  have hq : r.query.isSome = true := by
    cases hqq : r.query with
    | none => rw [hqq] at h3; cases h3
    | some _ => rfl
  have he : r.env.isSome = true := by
    cases hee : r.env with
    | none => rw [hee] at h4; cases h4
    | some _ => rfl
  have hnz : (r.ids.length == 0) = false := by
    rw [beq_eq_false_iff_ne]
    intro h
    exact hids (List.length_eq_zero.mp h)
  constructor
  · intro fMap hperm
    have hstart : ∀ (w2 : World),
        doUpdateBody x (knot x (n + 1)) rc fMap w = ⟨Except.ok (), w2, []⟩ →
        doUpdate x (knot x (n + 1)) rc fMap w = ⟨Except.ok (), w2, []⟩ := by
      intro w2 hbody
      simp only [doUpdate, bind_run, pure_run]
      rw [bind_silent _ _ _ _ (checkPermission_ok x w rc _ hperm),
        bind_silent _ _ _ _ (isEmpty_of_fetched x n w rc r h1 hf hm hq he)]
      simp only [hnz, Bool.false_eq_true, if_false]
      rw [bind_silent _ _ _ _ (show (M.pure PUnit.unit : M PUnit) w = _ from rfl)]
      exact rethrow_ok _ _ _ _ _ _ hbody
    by_cases hmeta : fMap.length = 2 ∧ (fMap.lookup "write_date").isSome = true ∧
        (fMap.lookup "write_uid").isSome = true
    · refine ⟨w, hstart w (doUpdateBody_metadata x _ rc fMap w hmeta.1 hmeta.2.1 hmeta.2.2),
        rfl, fun _ => rfl, fun h => absurd hmeta h⟩
    · obtain ⟨w2, c2, hg, hc2, hbody⟩ := doUpdateBody_neg_run x n w rc fMap r m q e c h1 h2 h3
        h4 h5 hneg hf hz hreg hslug hmeta
      refine ⟨_, hstart _ hbody, hg.2.2.2.1, fun h => absurd h hmeta, fun _ hnd => ?_⟩
      refine ⟨_, getElem?_set_self_of_some _ _ _ _ hc2, fun id hid k v hkv => ?_⟩
      exact writtenCache_get m.name _ fMap k v hnd hkv id r.ids c2 hid
  · intro rSet w1 w2 w4 ev1 ev2 ev4 rs r1 r2 rs2 m1 m2 cd e2 c2 hperm hrule hs hsf hsm hsq hse
      hsids g1 g2 hcomp gs gneg g3 g4 g5 g6 hupd
    have hun := unlink_unfold x n w w1 rc rSet r rs e ev1 hperm h1 h4 hrule hs hsf hsm hsq hse
    have hzz : ¬ (rs.ids.length == 0) = true := by
      simp only [beq_iff_eq, List.length_eq_zero]; exact hsids
    refine ⟨?_, fun p hp => ((invalidated_data _ _ _ p).mp hp).2⟩
    rw [hun, bind_ok _ _ w w1 () ev1 rfl, if_neg hzz,
      unlinkBody_run x w1 w2 _ w4 rc rSet rs.ids r1 m1 cd 0 ev2 _ ev4 g1 g2 hcomp
        (unlinkStore_neg_run x w2 rc rSet rs.ids r2 rs2 m2 e2 c2 g3 g4 g5 g6 gs gneg) hupd]
    simp

/-- C13, run on the in-memory record -1 of `memoryWorld`: a write of the name sends
nothing, leaves the storage journal as it is and puts the name in the cache; `unlink`
returns 0, sends nothing and empties the cache of the record. -/
theorem negative_ids_never_reach_storage_witness :
    (∃ w2 : World,
      doUpdate extPlain (knot extPlain 1) 0 [("name", Value.str "Bob")] memoryWorld
        = ⟨Except.ok (), w2, []⟩ ∧ w2.db = memoryWorld.db ∧
      ∃ c2, w2.caches[0]? = some c2 ∧ ∀ id ∈ [(-1 : Int)], ∀ k v,
        (k, v) ∈ [("name", Value.str "Bob")] → c2.get "Partner" id k "" = v) ∧
    unlink extPlain (knot extPlain 1) 0 memoryWorld
      = ⟨Except.ok 0, memoryWorld.withCache 0 {}, []⟩ :=
  have h := negative_ids_never_reach_storage extPlain 0 memoryWorld 0 _ partnerModel _
    { uid := 1, nextNegativeID := -1, cache := 0 } _ rfl rfl rfl rfl rfl rfl rfl (by decide)
    (by decide) (by decide) (fun _ _ _ _ _ => rfl)
  have hd := h.1 [("name", Value.str "Bob")] rfl
  ⟨⟨hd.choose, hd.choose_spec.1, hd.choose_spec.2.1,
      hd.choose_spec.2.2.2 (by decide) (by decide)⟩,
    (h.2 0 memoryWorld memoryWorld (memoryWorld.withCache 0 {}) [] [] [] _ _ _ _ partnerModel
      partnerModel Value.null { uid := 1, nextNegativeID := -1, cache := 0 } _ rfl rfl rfl rfl
      rfl rfl rfl (by decide) rfl rfl rfl rfl rfl rfl rfl rfl rfl (by decide!)).1⟩

/-- C13 fails as stated: `doUpdate` of the write date and user only on the in-memory
record -1 of `memoryWorld` (`hasNegIds` set) returns with the world as it was: the cache
is not updated for the record and these fields, it still gives `nil` for the write
user. -/
theorem doUpdate_metadata_only_skips_cache :
    (memoryWorld.rcs[0]?).map (fun r => (r.hasNegIds, r.ids)) = some (true, [-1]) ∧
    doUpdate extPlain (knot extPlain 1) 0
        [("write_date", Value.str "2026-01-02 00:00:00"), ("write_uid", Value.int 1)]
        memoryWorld = ⟨Except.ok (), memoryWorld, []⟩ ∧
    (memoryWorld.caches[0]?).map (fun c => c.get "Partner" (-1) "write_uid" "")
      = some Value.null := by
  decide!

/-! ## Get on an empty collection -/

theorem withIds_nil_run (x : Ext) (w : World) (rc : Nat) (r : RecordCollection)
    (h1 : w.rcs[rc]? = some r) :
    withIds x rc [] w = ⟨Except.ok rc, w.withRC rc (withIdsRC r []), []⟩ := by
  simp [withIds, withIdsLoop, M.bind, M.pure, modifyRC, h1, World.withRC, withIdsRC, survivors]

/-- The run of `Scan` of a zero value (`nil`, the id 0 or no id) on a usable collection
without ids, when `SortedDefault` of a collection without ids gives, without a statement,
a collection without ids of the same model: the collection has no ids afterwards. -/
theorem scan_zero_run (x : Ext) (w : World) (res : Nat) (v : RecordCollection)
    (zero : Value) (h1 : w.rcs[res]? = some v) (hm : v.model.isSome = true)
    (hq : v.query.isSome = true) (he : v.env.isSome = true) (hids : v.ids = [])
    (hzero : zero = Value.null ∨ zero = Value.int 0 ∨ zero = Value.ids [])
    (hsort : ∀ (W : World) (p : Nat) (u : RecordCollection), W.rcs[p]? = some u → u.ids = [] →
      ∃ (s : Nat) (W2 : World) (u2 : RecordCollection),
        x.sortedDefault p W = ⟨Except.ok s, W2, []⟩ ∧ W2.rcs[s]? = some u2 ∧ u2.ids = [] ∧
        u2.model = u.model ∧ (W2.rcs[p]?).isSome = true) :
    ∃ (W2 : World) (u2 : RecordCollection),
      Scan x res zero w = ⟨Except.ok none, W2, []⟩ ∧ W2.rcs[res]? = some u2 ∧ u2.ids = [] ∧
      u2.model = v.model := by
  have hvalid : IsValid (some res) w = ⟨Except.ok true, w, []⟩ := by
    rw [isValid_run w res v h1, hm, hq, he]; rfl
  have hfin : ∀ (W : World) (u : RecordCollection), W.rcs[res]? = some u → u.ids = [] →
      u.model = v.model →
      ∃ (W2 : World) (u2 : RecordCollection),
        M.bind (x.sortedDefault res) (fun sorted => M.bind (derefRC sorted) (fun sv =>
          M.bind (modifyRC res (fun _ => sv)) (fun _ => M.pure (none : Option String)))) W
          = ⟨Except.ok none, W2, []⟩ ∧ W2.rcs[res]? = some u2 ∧ u2.ids = [] ∧
        u2.model = v.model := by
    intro W u hu huids hum
    obtain ⟨s, W2, u2, hs, hs2, hs3, hs4, hs5⟩ := hsort W res u hu huids
    obtain ⟨u3, hu3⟩ := Option.isSome_iff_exists.mp hs5
    refine ⟨W2.withRC res u2, u2, ?_, getElem?_set_self_of_some _ _ _ _ hu3, hs3,
      hs4.trans hum⟩
    rw [bind_ok _ _ _ _ _ _ hs, bind_silent _ _ _ _ (derefRC_run _ _ _ hs2)]
    simp only [M.bind, modifyRC, hu3, M.pure, World.withRC, List.append_nil]
  simp only [Scan, bind_run, pure_run]
  rw [bind_silent _ _ _ _ hvalid]
  simp only [Bool.not_true, Bool.false_eq_true, if_false]
  rw [bind_silent _ _ _ _ (show (M.pure PUnit.unit : M PUnit) w = _ from rfl)]
  rcases hzero with hz | hz | hz
  · subst hz
    simp only
    rw [bind_silent _ _ _ _ (show (M.pure (none : Option String)) w = _ from rfl)]
    simp only [Option.isSome_none, Bool.false_eq_true, if_false]
    rw [bind_silent _ _ _ _ (show (M.pure PUnit.unit : M PUnit) w = _ from rfl)]
    exact hfin w v h1 hids rfl
  · subst hz
    simp only [ne_eq, not_true_eq_false, if_false]
    rw [bind_silent _ _ _ _ (show (M.pure (none : Option String)) w = _ from rfl)]
    simp only [Option.isSome_none, Bool.false_eq_true, if_false]
    rw [bind_silent _ _ _ _ (show (M.pure PUnit.unit : M PUnit) w = _ from rfl)]
    exact hfin w v h1 hids rfl
  · subst hz
    simp only
    rw [bind_ok _ _ _ _ _ _ (show M.bind (withIds x res []) (fun _ =>
        M.pure (none : Option String)) w
          = ⟨Except.ok none, w.withRC res (withIdsRC v []), []⟩ from by
      rw [bind_ok _ _ _ _ _ _ (withIds_nil_run x w res v h1)]; rfl)]
    simp only [Option.isSome_none, Bool.false_eq_true, if_false]
    obtain ⟨W2, u2, g1, g2, g3, g4⟩ := hfin (w.withRC res (withIdsRC v [])) _
      (getElem?_set_self_of_some _ _ _ _ h1) rfl rfl
    refine ⟨W2, u2, ?_, g2, g3, g4⟩
    rw [bind_silent _ _ _ _ (show (M.pure PUnit.unit : M PUnit)
      (w.withRC res (withIdsRC v [])) = _ from rfl), g1]
    rfl
/-- The run of `convertToRecordSet` on a zero value: a new collection of the related
model without ids. -/
theorem convertToRecordSet_zero (x : Ext) (w : World) (rc : Nat) (r : RecordCollection)
    (zero : Value) (name : String) (mr : Model)
    (h1 : w.rcs[rc]? = some r)
    (he : r.env = none ∨ ∃ e, r.env.bind (fun a => w.envs[a]?) = some e)
    (hreg : x.registry.find? (fun m2 => m2.name == name) = some mr)
    (hzero : zero = Value.null ∨ zero = Value.int 0 ∨ zero = Value.ids [])
    (hsort : ∀ (W : World) (p : Nat) (u : RecordCollection), W.rcs[p]? = some u → u.ids = [] →
      ∃ (s : Nat) (W2 : World) (u2 : RecordCollection),
        x.sortedDefault p W = ⟨Except.ok s, W2, []⟩ ∧ W2.rcs[s]? = some u2 ∧ u2.ids = [] ∧
        u2.model = u.model ∧ (W2.rcs[p]?).isSome = true) :
    ∃ (p : Nat) (W2 : World) (u : RecordCollection),
      convertToRecordSet x rc zero name w = ⟨Except.ok p, W2, []⟩ ∧ W2.rcs[p]? = some u ∧
      u.ids = [] ∧ u.model = some mr := by
  simp only [convertToRecordSet, bind_run, pure_run]
  rw [bind_silent _ _ _ _ (derefRC_run _ _ _ h1)]
  rcases he with he | ⟨e, he⟩
  · simp only [he, Option.isNone_none, if_true]
    obtain ⟨rv, hrv⟩ : ∃ rv : RecordCollection,
        rv = { model := some mr, query := some w.queries.length, ids := [] } := ⟨_, rfl⟩
    obtain ⟨W2, hW2⟩ : ∃ W2 : World, W2 =
        { w with rcs := w.rcs ++ [rv], queries := w.queries ++ [{ recordSet := w.rcs.length }] } :=
      ⟨_, rfl⟩
    refine ⟨w.rcs.length, W2, rv, ?_, ?_, ?_, ?_⟩
    · simp only [InvalidRecordCollection, registryMustGet, hreg, bind_run, pure_run, M.bind,
        M.pure, allocRC, allocQuery, modifyRC, getElem?_length_append,
        list_set_length_append, List.append_nil, hW2, hrv]
    · rw [hW2]; exact getElem?_length_append _ _
    · rw [hrv]
    · rw [hrv]
  · have hsome : r.env.isNone = false := by
      cases hr : r.env with
      | none => rw [hr] at he; cases he
      | some _ => rfl
    simp only [hsome, Bool.false_eq_true, if_false]
    rw [bind_silent _ _ _ _ (env_run w rc r e h1 he),
      bind_ok _ _ _ _ _ _ (newRecordCollection_run x w e name mr hreg)]
    obtain ⟨W2, u2, g1, g2, g3, g4⟩ := scan_zero_run x
      (w.grown { model := some mr, query := some w.queries.length,
                 env := some w.envs.length, ids := [] } { recordSet := w.rcs.length } e)
      w.rcs.length
      { model := some mr, query := some w.queries.length, env := some w.envs.length, ids := [] }
      zero (getElem?_length_append _ _) rfl rfl rfl rfl hzero hsort
    refine ⟨w.rcs.length, W2, u2, ?_, g2, g3, g4⟩
    rw [bind_ok _ _ _ _ _ _ g1]
    simp [M.pure]

theorem isEmpty_of_noop_fetch (x : Ext) (n : Nat) (w : World) (rc : Nat)
    (r : RecordCollection) (h1 : w.rcs[rc]? = some r)
    (hm : r.model.isSome = true) (hq : r.query.isSome = true) (he : r.env.isSome = true)
    (hfetch : Fetch x (knot x n) rc w = ⟨Except.ok rc, w, []⟩) :
    IsEmpty (knot x (n + 1)) (some rc) w = ⟨Except.ok (r.ids.length == 0), w, []⟩ := by
  have hf : (knot x (n + 1)).Fetch rc w = ⟨Except.ok rc, w, []⟩ := hfetch
  simp only [IsEmpty, Len, bind_run, pure_run]
  rw [bind_silent _ _ _ _ (isValid_run w rc r h1), hm, hq, he]
  simp only [Bool.and_self, Bool.not_true, Bool.false_eq_true, if_false, Option.getD_some]
  rw [bind_silent _ _ _ _ (show (M.pure PUnit.unit : M PUnit) w = _ from rfl),
    bind_silent _ _ _ _ (show M.bind ((knot x (n + 1)).Fetch rc) (fun _ =>
      M.bind (derefRC rc) (fun r => M.pure r.ids.length)) w
        = ⟨Except.ok r.ids.length, w, []⟩ from by
      rw [bind_silent _ _ _ _ hf, bind_silent _ _ _ _ (derefRC_run _ _ _ h1)]; rfl)]
  rfl

/-- C15: `Get` of a field of the model on an empty collection. On an invalid collection
(no query or no environment) `Get` returns the zero value of the field at once, nothing
changes and nothing is sent. On a valid collection, for a user who may load, when `Fetch`
leaves the collection without ids, `Get` returns the zero value of the field, and the
world and the statements are those `Fetch` left: nothing is computed and nothing more is
loaded. For a relation field the zero value is given as a collection: the result is a new
collection of the related model without ids (here the related model is in the registry,
the zero value is `nil`, the id 0 or no id, and `SortedDefault` of a collection without
ids gives, without a statement, a collection without ids of the same model). -/
theorem get_empty_gives_zero (x : Ext) (n : Nat) (w : World) (rc : Nat) (f : FieldName)
    (r : RecordCollection) (m : Model) (fi : Field)
    (h1 : w.rcs[rc]? = some r) (h2 : r.model = some m)
    (hfi : x.getRelatedFieldInfo m f = Except.ok fi)
    (hrelation : fi.isRelationField = true → ∃ mr,
      x.registry.find? (fun m2 => m2.name == fi.relatedModelName) = some mr ∧
      (fi.zero = Value.null ∨ fi.zero = Value.int 0 ∨ fi.zero = Value.ids []) ∧
      ∀ (W : World) (p : Nat) (u : RecordCollection), W.rcs[p]? = some u → u.ids = [] →
        ∃ (s : Nat) (W2 : World) (u2 : RecordCollection),
          x.sortedDefault p W = ⟨Except.ok s, W2, []⟩ ∧ W2.rcs[s]? = some u2 ∧ u2.ids = [] ∧
          u2.model = u.model ∧ (W2.rcs[p]?).isSome = true) :
    ((r.query.isSome && r.env.isSome) = false →
      (r.env = none ∨ ∃ e, r.env.bind (fun a => w.envs[a]?) = some e) →
      (fi.isRelationField = false → Get x (knot x n) rc f w = ⟨Except.ok fi.zero, w, []⟩) ∧
      (fi.isRelationField = true → ∃ (p : Nat) (W2 : World) (u : RecordCollection),
        Get x (knot x n) rc f w = ⟨Except.ok (Value.rs p), W2, []⟩ ∧ W2.rcs[p]? = some u ∧
        u.ids = [] ∧ (u.model.map (fun mr => mr.name)) = some fi.relatedModelName)) ∧
    (∀ (w1 : World) (ev1 : List Stmt) (r1 : RecordCollection) (e1 : Environment),
      (r.query.isSome && r.env.isSome) = true →
      x.checkExecutionPermission w rc "Load" = none →
      Fetch x (knot x n) rc w = ⟨Except.ok rc, w1, ev1⟩ →
      w1.rcs[rc]? = some r1 → r1.model.isSome = true → r1.query.isSome = true →
      r1.env.bind (fun a => w1.envs[a]?) = some e1 → r1.ids = [] →
      Fetch x (knot x n) rc w1 = ⟨Except.ok rc, w1, []⟩ →
      (fi.isRelationField = false →
        Get x (knot x (n + 1)) rc f w = ⟨Except.ok fi.zero, w1, ev1⟩) ∧
      (fi.isRelationField = true → ∃ (p : Nat) (W2 : World) (u : RecordCollection),
        Get x (knot x (n + 1)) rc f w = ⟨Except.ok (Value.rs p), W2, ev1⟩ ∧
        W2.rcs[p]? = some u ∧ u.ids = [] ∧
        (u.model.map (fun mr => mr.name)) = some fi.relatedModelName)) := by
  have hname : ∀ mr : Model,
      x.registry.find? (fun m2 => m2.name == fi.relatedModelName) = some mr →
      mr.name = fi.relatedModelName := by
    intro mr h
    have := List.find?_some h
    simpa using this
  constructor
  · intro hinv he
    have hvalid : IsValid (some rc) w = ⟨Except.ok false, w, []⟩ := by
      rw [isValid_run w rc r h1, h2]
      simp only [Option.isSome_some, Bool.true_and, hinv]
    constructor
    · intro hrel
      simp only [Get, bind_run, pure_run]
      rw [bind_silent _ _ _ _ (derefRC_run _ _ _ h1), h2,
        bind_silent _ _ _ _ (derefModel_run m w), hfi, liftExcept_ok, pure_bind,
        bind_silent _ _ _ _ hvalid]
      simp only [Bool.not_false, if_true, hrel, Bool.false_eq_true, if_false]
      rfl
    · intro hrel
      obtain ⟨mr, hreg, hzero, hsort⟩ := hrelation hrel
      obtain ⟨p, W2, u, g1, g2, g3, g4⟩ := convertToRecordSet_zero x w rc r fi.zero
        fi.relatedModelName mr h1 he hreg hzero hsort
      refine ⟨p, W2, u, ?_, g2, g3, by rw [g4]; simp [hname mr hreg]⟩
      simp only [Get, bind_run, pure_run]
      rw [bind_silent _ _ _ _ (derefRC_run _ _ _ h1), h2,
        bind_silent _ _ _ _ (derefModel_run m w), hfi, liftExcept_ok, pure_bind,
        bind_silent _ _ _ _ hvalid]
      simp only [Bool.not_false, if_true, hrel]
      rw [bind_ok _ _ _ _ _ _ g1]
      simp [M.pure]
  · intro w1 ev1 r1 e1 hval hperm hfetch g1 gm gq ge gids hnoop
    have hvalid : IsValid (some rc) w = ⟨Except.ok true, w, []⟩ := by
      rw [isValid_run w rc r h1, h2]
      simp only [Option.isSome_some, Bool.true_and, hval]
    have gesome : r1.env.isSome = true := by
      cases hr : r1.env with
      | none => rw [hr] at ge; cases ge
      | some _ => rfl
    have hempty := isEmpty_of_noop_fetch x n w1 rc r1 g1 gm gq gesome hnoop
    rw [gids] at hempty
    have hkf : (knot x (n + 1)).Fetch rc w = ⟨Except.ok rc, w1, ev1⟩ := hfetch
    constructor
    · intro hrel
      simp only [Get, bind_run, pure_run]
      rw [bind_silent _ _ _ _ (derefRC_run _ _ _ h1), h2,
        bind_silent _ _ _ _ (derefModel_run m w), hfi, liftExcept_ok, pure_bind,
        bind_silent _ _ _ _ hvalid]
      simp only [Bool.not_true, Bool.false_eq_true, if_false]
      rw [bind_silent _ _ _ _ (show (M.pure PUnit.unit : M PUnit) w = _ from rfl),
        bind_silent _ _ _ _ (checkPermission_ok x w rc _ hperm), bind_ok _ _ _ _ _ _ hkf,
        bind_silent _ _ _ _ hempty]
      simp only [List.length_nil, beq_self_eq_true, if_true, pure_bind, ite_self, hrel,
        Bool.false_eq_true, if_false]
      simp [M.pure]
    · intro hrel
      obtain ⟨mr, hreg, hzero, hsort⟩ := hrelation hrel
      obtain ⟨p, W2, u, k1, k2, k3, k4⟩ := convertToRecordSet_zero x w1 rc r1 fi.zero
        fi.relatedModelName mr g1 (Or.inr ⟨e1, ge⟩) hreg hzero hsort
      refine ⟨p, W2, u, ?_, k2, k3, by rw [k4]; simp [hname mr hreg]⟩
      simp only [Get, bind_run, pure_run]
      rw [bind_silent _ _ _ _ (derefRC_run _ _ _ h1), h2,
        bind_silent _ _ _ _ (derefModel_run m w), hfi, liftExcept_ok, pure_bind,
        bind_silent _ _ _ _ hvalid]
      simp only [Bool.not_true, Bool.false_eq_true, if_false]
      rw [bind_silent _ _ _ _ (show (M.pure PUnit.unit : M PUnit) w = _ from rfl),
        bind_silent _ _ _ _ (checkPermission_ok x w rc _ hperm), bind_ok _ _ _ _ _ _ hkf,
        bind_silent _ _ _ _ hempty]
      simp only [List.length_nil, beq_self_eq_true, if_true, pure_bind, ite_self, hrel]
      rw [bind_ok _ _ _ _ _ _ k1]
      simp [M.pure]

/-- C15, run on the new `Partner` collection of `poolWorld`, whose query has no condition:
`Get` of the tags gives a new collection of the model `Tag` without ids, and no statement
is sent. -/
theorem get_empty_gives_zero_witness :
    ∃ (p : Nat) (W2 : World) (u : RecordCollection),
      Get extTags (knot extTags 2) 0 ⟨"Tags", "tags"⟩ poolWorld
        = ⟨Except.ok (Value.rs p), W2, []⟩ ∧
      W2.rcs[p]? = some u ∧ u.ids = [] ∧ (u.model.map (fun mr => mr.name)) = some "Tag" :=
  ((get_empty_gives_zero extTags 1 poolWorld 0 ⟨"Tags", "tags"⟩ _ partnerModel tagsField
      rfl rfl rfl
      (fun _ => ⟨tagModel, rfl, Or.inr (Or.inr rfl),
        fun W p u h1 h2 => ⟨p, W, u, rfl, h1, h2, rfl, by simp [h1]⟩⟩)).2
    poolWorld [] _ { uid := 1, cache := 0 } rfl rfl rfl rfl rfl rfl rfl rfl rfl).2 rfl

/-! ## The one2many case of updateRelationFields -/

/-- The same parent written with the children it has already, 1, 2 and 3: both
differences hold no record and no method is called. -/
theorem updateOne2Many_same_children_silent :
    (updateOne2Many extFamily (knot extFamily 3) 0 childrenField (Value.ids [1, 2, 3])
        familyWorld).out = Except.ok () ∧
    (updateOne2Many extFamily (knot extFamily 3) 0 childrenField (Value.ids [1, 2, 3])
        familyWorld).ev = [] :=
  ⟨by decide!, by decide!⟩

/-! ## Defaults -/

theorem lookup_none_of_not_mem_keys (l : FieldMap) (k : String)
    (h : k ∉ l.map Prod.fst) : List.lookup k l = none := by
  induction l with
  | nil => rfl
  | cons a l ih =>
    obtain ⟨k0, v0⟩ := a
    simp only [List.map_cons, List.mem_cons, not_or] at h
    have hne : (k == k0) = false := by simpa using h.1
    simp only [List.lookup, hne]
    exact ih h.2

/-- The map written by a merge: each key holds the value of the other map when the other
map has the key, and its old value otherwise. -/
theorem lookup_merge (o : FieldMap) (k : String) (hn : (o.map Prod.fst).Nodup) :
    ∀ d : FieldMap, List.lookup k (o.foldl (fun acc p => FieldMap.insert acc p.1 p.2) d)
      = (List.lookup k o).or (List.lookup k d) := by
  induction o with
  | nil => intro d; rfl
  | cons a o ih =>
    intro d
    obtain ⟨k0, v0⟩ := a
    simp only [List.map_cons, List.nodup_cons] at hn
    simp only [List.foldl_cons]
    rw [ih hn.2, lookup_fieldMap_insert]
    by_cases hk : k = k0
    · subst hk
      rw [lookup_none_of_not_mem_keys o k hn.1]
      simp [List.lookup]
    · have hne : (k == k0) = false := by simpa using hk
      simp only [if_neg hk, List.lookup, hne]

theorem default_prefix_append (j : String) :
    "default_".toList.isPrefixOf ("default_" ++ j).toList = true := by
  rw [List.isPrefixOf_iff_prefix]
  exact ⟨j.toList, by simp [String.toList]⟩

theorem default_prefix_drop (j : String) :
    String.mk (("default_" ++ j).toList.drop "default_".length) = j := by
  have : ("default_" ++ j).toList = "default_".toList ++ j.toList := by simp [String.toList]
  rw [this]
  have hl : "default_".length = "default_".toList.length := rfl
  rw [hl, List.drop_left]
  rfl

theorem default_prefix_eq (k : String)
    (h : "default_".toList.isPrefixOf k.toList = true) :
    k = "default_" ++ String.mk (k.toList.drop "default_".length) := by
  rw [List.isPrefixOf_iff_prefix] at h
  obtain ⟨t, ht⟩ := h
  have hl : "default_".length = "default_".toList.length := rfl
  apply String.ext
  rw [String.data_append]
  show k.toList = "default_".toList ++ List.drop _ k.toList
  rw [← ht, hl, List.drop_left]

theorem default_append_inj (j s : String) (h : "default_" ++ j = "default_" ++ s) : j = s := by
  have := default_prefix_drop j
  rw [h, default_prefix_drop] at this
  exact this.symm

/-- The context defaults hold, for a field name of the model, the value of the context
entry `default_<name>`, and nothing for any other name. -/
theorem ctxDefaults_lookup (m : Model) (j : String) (ctx : List (String × Value))
    (hn : (ctx.map Prod.fst).Nodup) :
    List.lookup j (ctxDefaults m ctx)
      = if (m.getField j).isSome = true then List.lookup ("default_" ++ j) ctx else none := by
  have key : ∀ (l : List (String × Value)), (l.map Prod.fst).Nodup → ∀ acc : FieldMap,
      List.lookup j (l.foldl (fun (acc : FieldMap) kv =>
        if !("default_".toList.isPrefixOf kv.1.toList) then acc
        else if (m.getField (String.mk (kv.1.toList.drop "default_".length))).isNone then acc
        else FieldMap.insert acc (String.mk (kv.1.toList.drop "default_".length)) kv.2) acc)
      = (if (m.getField j).isSome = true then List.lookup ("default_" ++ j) l else none).or
          (List.lookup j acc) := by
    intro l
    induction l with
    | nil => intro _ acc; simp [List.lookup]
    | cons a l ih =>
      intro hnd acc
      obtain ⟨k0, v0⟩ := a
      simp only [List.map_cons, List.nodup_cons] at hnd
      simp only [List.foldl_cons]
      rw [ih hnd.2]
      by_cases hp : "default_".toList.isPrefixOf k0.toList = true
      · have hk0 := default_prefix_eq k0 hp
        generalize String.mk (k0.toList.drop "default_".length) = s at hk0 ⊢
        subst hk0
        simp only [default_prefix_append, Bool.not_true, Bool.false_eq_true, if_false]
        by_cases hj : j = s
        · subst hj
          have hnone : List.lookup ("default_" ++ j) l = none :=
            lookup_none_of_not_mem_keys l _ hnd.1
          by_cases hg : (m.getField j).isSome = true
          · have hg2 : (m.getField j).isNone = false := by
              cases hgf : m.getField j with
              | none => rw [hgf] at hg; cases hg
              | some _ => rfl
            simp [hg, hg2, hnone, lookup_fieldMap_insert, List.lookup]
          · have hg2 : (m.getField j).isNone = true := by
              cases hgf : m.getField j with
              | none => rfl
              | some _ => rw [hgf] at hg; simp at hg
            simp [hg, hg2]
        · have hne : ("default_" ++ j == "default_" ++ s) = false := by
            simp only [beq_eq_false_iff_ne, ne_eq]
            exact fun h => hj (default_append_inj j s h)
          have hl : List.lookup ("default_" ++ j) (("default_" ++ s, v0) :: l)
              = List.lookup ("default_" ++ j) l := by
            simp only [List.lookup, hne]
          rw [hl]
          by_cases hs : (m.getField s).isNone = true
          · simp only [hs, if_true]
          · simp only [hs, Bool.false_eq_true, if_false, lookup_fieldMap_insert, if_neg hj]
      · have hne : ("default_" ++ j == k0) = false := by
          simp only [beq_eq_false_iff_ne, ne_eq]
          intro h
          exact hp (h ▸ default_prefix_append j)
        have hl : List.lookup ("default_" ++ j) ((k0, v0) :: l)
            = List.lookup ("default_" ++ j) l := by
          simp only [List.lookup, hne]
        rw [hl]
        simp only [hp, Bool.not_false, if_true]
  have := key ctx hn []
  simp only [ctxDefaults]
  rw [this]
  simp [List.lookup]

/-- One step of the loop of `getDefaults` writes the default of the field as the
specification words it, when the field is a field of the model and has one. -/
theorem getDefaultsStep_spec (m : Model) (ctx : List (String × Value)) (create : Bool)
    (dv : Field → Value) (md : ModelData) (fi : Field) (hfi : fi ∈ m.fields)
    (hn : (ctx.map Prod.fst).Nodup) :
    getDefaultsStep m (ctxDefaults m ctx) create dv md fi
      = match specDefault ctx create dv fi with
        | some v => md.Set (m.FieldName fi.name) v
        | none => md := by
  have hsome : (m.getField fi.json).isSome = true := by
    simp only [Model.getField, List.find?_isSome]
    exact ⟨fi, hfi, by simp⟩
  have hl : FieldMap.lookup (ctxDefaults m ctx) fi.json
      = List.lookup ("default_" ++ fi.json) ctx := by
    simp only [FieldMap.lookup]
    rw [ctxDefaults_lookup m fi.json ctx hn, if_pos hsome]
  simp only [getDefaultsStep, specDefault, hl]
  by_cases h1 : fi.isSettable = true
  · by_cases h2 : (create && (fi.isComputedField || (fi.isRelatedField && !fi.isContextedField)))
        = true
    · have h2b : create = true ∧ (fi.isComputedField = true ∨
          (fi.isRelatedField = true ∧ fi.isContextedField = false)) := by
        simpa using h2
      simp only [h1, Bool.not_true, Bool.false_eq_true, if_false, h2, if_true, if_pos h2b]
      simp
    · have h2b : ¬ (create = true ∧ (fi.isComputedField = true ∨
          (fi.isRelatedField = true ∧ fi.isContextedField = false))) := by
        simpa using h2
      simp only [h1, Bool.not_true, Bool.false_eq_true, if_false, h2, if_neg h2b]
      cases hc : List.lookup ("default_" ++ fi.json) ctx with
      | some v => simp [Option.or]
      | none =>
        by_cases h3 : fi.defaultFunc = true
        · simp [Option.or, h3]
        · simp [Option.or, h3]
  · have h1b : fi.isSettable = false := by simpa using h1
    simp only [h1b, Bool.not_false, if_true]

/-- A loop that writes at most one entry per field, under keys that differ from field to
field: afterwards the key of a field holds what was written for the field, or what it
held before when nothing was written for it. -/
theorem lookup_foldl_entries (key : Field → FieldName) (entry : Field → Option Value)
    (fs : List Field) (hn : (fs.map (fun fi => (key fi).json)).Nodup) :
    ∀ (md : ModelData), ∀ fi ∈ fs,
      List.lookup (key fi).json (fs.foldl (fun (md : ModelData) fi =>
        match entry fi with
        | some v => md.Set (key fi) v
        | none => md) md).FieldMap
      = (entry fi).or (List.lookup (key fi).json md.FieldMap) := by
  have other : ∀ (l : List Field) (k : String), k ∉ l.map (fun fi => (key fi).json) →
      ∀ md : ModelData, List.lookup k (l.foldl (fun (md : ModelData) fi =>
        match entry fi with
        | some v => md.Set (key fi) v
        | none => md) md).FieldMap = List.lookup k md.FieldMap := by
    intro l
    induction l with
    | nil => intro k _ md; rfl
    | cons a l ih =>
      intro k hk md
      simp only [List.map_cons, List.mem_cons, not_or] at hk
      simp only [List.foldl_cons]
      rw [ih k hk.2]
      cases entry a with
      | none => rfl
      | some v =>
        simp only [ModelData.Set, ModelData.FieldMap, lookup_fieldMap_insert, if_neg hk.1]
  induction fs with
  | nil => intro md fi hfi; cases hfi
  | cons a l ih =>
    intro md fi hfi
    simp only [List.map_cons, List.nodup_cons] at hn
    simp only [List.foldl_cons]
    rcases List.mem_cons.mp hfi with h | h
    · subst h
      rw [other l _ hn.1]
      cases entry fi with
      | none => rfl
      | some v =>
        simp only [ModelData.Set, ModelData.FieldMap, lookup_fieldMap_insert, if_true, Option.or]
    · rw [ih hn.2 _ fi h]
      have hne : (key fi).json ≠ (key a).json := by
        intro he
        exact hn.1 (he ▸ List.mem_map_of_mem (fun fi => (key fi).json) h)
      cases entry a with
      | none => rfl
      | some v =>
        simp only [ModelData.Set, ModelData.FieldMap, lookup_fieldMap_insert, if_neg hne]

/-- Every entry of the data after such a loop was there before or is under the key of a
field for which something was written. -/
theorem mem_foldl_entries (key : Field → FieldName) (entry : Field → Option Value)
    (fs : List Field) :
    ∀ (md : ModelData) (p : String × Value),
      p ∈ (fs.foldl (fun (md : ModelData) fi =>
        match entry fi with
        | some v => md.Set (key fi) v
        | none => md) md).FieldMap →
      p ∈ md.FieldMap ∨ ∃ fi ∈ fs, (entry fi).isSome = true ∧ p.1 = (key fi).json := by
  induction fs with
  | nil => intro md p hp; exact Or.inl hp
  | cons a l ih =>
    intro md p hp
    simp only [List.foldl_cons] at hp
    rcases ih _ p hp with h | ⟨fi, hfi, h1, h2⟩
    · cases he : entry a with
      | none =>
        rw [he] at h
        exact Or.inl h
      | some v =>
        rw [he] at h
        simp only [ModelData.Set, ModelData.FieldMap] at h
        rcases mem_fieldMap_insert _ _ _ _ h with h | h
        · exact Or.inr ⟨a, List.mem_cons_self _ _, by simp [he], by rw [h]⟩
        · exact Or.inl h
    · exact Or.inr ⟨fi, List.mem_cons_of_mem _ hfi, h1, h2⟩

/-- The run of `getDefaults` on a collection with a model and an environment, when the
default functions called give the values `dv` and do nothing else: the loop over the
fields of the model, from empty data; nothing changes and nothing is sent. -/
theorem getDefaults_run (x : Ext) (w : World) (rc : Nat) (create : Bool)
    (r : RecordCollection) (m : Model) (e : Environment) (dv : Field → Value)
    (h1 : w.rcs[rc]? = some r) (h2 : r.model = some m)
    (h4 : r.env.bind (fun a => w.envs[a]?) = some e)
    (hreg : x.registry.find? (fun m2 => m2.name == m.name) = some m)
    (hdf : ∀ fi ∈ m.fields, fi.defaultFunc = true →
      x.defaultFunc fi e w = ⟨Except.ok (dv fi), w, []⟩) :
    getDefaults x rc create w
      = ⟨Except.ok (m.fields.foldl (getDefaultsStep m (ctxDefaults m e.context) create dv)
          NewModelData), w, []⟩ := by
  simp only [getDefaults, bind_run, pure_run]
  rw [bind_silent _ _ _ _ (derefRC_run _ _ _ h1), bind_silent _ _ _ _ (derefEnv_run _ _ _ h4),
    h2, bind_silent _ _ _ _ (derefModel_run m w),
    bind_silent _ _ _ _ (modelName_run w rc r m h1 h2),
    bind_silent _ _ _ _ (show registryMustGet x m.name w = ⟨Except.ok m, w, []⟩ from by
      simp only [registryMustGet, hreg]; rfl)]
  refine foldlM_pure_run_mem _ _ w m.fields NewModelData ?_
  intro md fi hfi
  simp only [getDefaultsStep]
  by_cases hs : fi.isSettable = true
  · simp only [hs, Bool.not_true, Bool.false_eq_true, if_false]
    rw [bind_silent _ _ _ _ (show (M.pure PUnit.unit : M PUnit) w = _ from rfl)]
    by_cases hc : (create && (fi.isComputedField || (fi.isRelatedField && !fi.isContextedField)))
        = true
    · simp only [hc, if_true]
      rfl
    · simp only [hc, Bool.false_eq_true, if_false]
      rw [bind_silent _ _ _ _ (show (M.pure PUnit.unit : M PUnit) w = _ from rfl)]
      cases hl : FieldMap.lookup (ctxDefaults m e.context) fi.json with
      | some v => rfl
      | none =>
        simp only
        by_cases hd : fi.defaultFunc = true
        · simp only [hd, Bool.not_true, Bool.false_eq_true, if_false]
          rw [bind_silent _ _ _ _ (show (M.pure PUnit.unit : M PUnit) w = _ from rfl),
            bind_silent _ _ _ _ (env_run w rc r e h1 h4),
            bind_silent _ _ _ _ (hdf fi hfi hd)]
          rfl
        · simp only [hd, Bool.not_false, if_true]
          rfl
  · simp only [hs, Bool.not_false, if_true]
    rfl

/-- C20: default merging. `applyDefaults` gives the data that `DefaultGet` returns merged
with the input: a field set by the input keeps the value of the input, a field not set by
the input has the default of `DefaultGet` (the keys of the input differ from one
another, as in a Go map). `getDefaults`, on a collection whose model is the model of its
name in the registry, with fields of different names, and with default functions that
give the values `dv` and do nothing else, returns data that holds for each field of the
model its default in the words of the specification and nothing else: only a settable
field has a default, a context entry `default_<field>` is taken in preference to the
default function, and with `create` set a computed field, or a related field that is not
contexted, has none. -/
theorem defaults_merge (x : Ext) (w : World) (rc : Nat) (create : Bool) :
    (∀ (md defaults : ModelData) (c : Nat) (w1 w2 : World) (e1 e2 : List Stmt),
      (md.FieldMap.map Prod.fst).Nodup →
      x.withContext rc "erp_ignore_computed_defaults" (Value.bool create) w
        = ⟨Except.ok c, w1, e1⟩ →
      x.call c "DefaultGet" [] w1 = ⟨Except.ok (Dyn.data defaults), w2, e2⟩ →
      ∃ res : ModelData, applyDefaults x rc md create w = ⟨Except.ok res, w2, e1 ++ e2⟩ ∧
        ∀ k : String, List.lookup k res.FieldMap
          = (List.lookup k md.FieldMap).or (List.lookup k defaults.FieldMap)) ∧
    (∀ (r : RecordCollection) (m : Model) (e : Environment) (dv : Field → Value),
      w.rcs[rc]? = some r → r.model = some m →
      r.env.bind (fun a => w.envs[a]?) = some e →
      x.registry.find? (fun m2 => m2.name == m.name) = some m →
      (e.context.map Prod.fst).Nodup →
      (m.fields.map (fun fi => (m.FieldName fi.name).json)).Nodup →
      (∀ fi ∈ m.fields, fi.defaultFunc = true →
        x.defaultFunc fi e w = ⟨Except.ok (dv fi), w, []⟩) →
      ∃ d : ModelData, getDefaults x rc create w = ⟨Except.ok d, w, []⟩ ∧
        (∀ fi ∈ m.fields, List.lookup (m.FieldName fi.name).json d.FieldMap
          = specDefault e.context create dv fi) ∧
        (∀ (k : String) (v : Value), (k, v) ∈ d.FieldMap →
          ∃ fi ∈ m.fields, k = (m.FieldName fi.name).json)) := by
  constructor
  · intro md defaults c w1 w2 e1 e2 hn hc hd
    refine ⟨defaults.MergeWith md, ?_, ?_⟩
    · simp only [applyDefaults, bind_run, pure_run]
      rw [bind_ok_eq _ _ _ _ _ _ _ _ _ hc (bind_ok_eq _ _ _ _ _ _ _ _ _ hd
        (show _ = (⟨Except.ok (defaults.MergeWith md), w2, []⟩ : Res ModelData) from rfl))]
      simp
    · intro k
      simp only [ModelData.MergeWith, ModelData.FieldMap]
      exact lookup_merge md.FieldMap k hn defaults.FieldMap
  · intro r m e dv h1 h2 h4 hreg hctx hkeys hdf
    refine ⟨_, getDefaults_run x w rc create r m e dv h1 h2 h4 hreg hdf, ?_, ?_⟩
    · intro fi hfi
      rw [List.foldl_ext _ (fun (md : ModelData) fi =>
        match specDefault e.context create dv fi with
        | some v => md.Set (m.FieldName fi.name) v
        | none => md) NewModelData
        (fun md fi hfi => getDefaultsStep_spec m e.context create dv md fi hfi hctx)]
      rw [lookup_foldl_entries (fun fi => m.FieldName fi.name)
        (specDefault e.context create dv) m.fields hkeys NewModelData fi hfi]
      cases specDefault e.context create dv fi <;> rfl
    · intro k v hkv
      rw [List.foldl_ext _ (fun (md : ModelData) fi =>
        match specDefault e.context create dv fi with
        | some v => md.Set (m.FieldName fi.name) v
        | none => md) NewModelData
        (fun md fi hfi => getDefaultsStep_spec m e.context create dv md fi hfi hctx)] at hkv
      rcases mem_foldl_entries (fun fi => m.FieldName fi.name)
        (specDefault e.context create dv) m.fields NewModelData (k, v) hkv with h | h
      · cases h
      · obtain ⟨fi, hfi, _, hk⟩ := h
        exact ⟨fi, hfi, hk⟩

/-- C20, run on the new `Member` collection of `memberWorld` for a create: the input sets
the name, which keeps its value `Ada` and not the default of the default function, and
the age, which the input does not set, takes the default 30 of the context entry
`default_age`; `getDefaults` gives the name and the age a default and nothing to the id,
the computed score and the note. -/
theorem defaults_merge_witness :
    (∃ res : ModelData,
      applyDefaults extMember 0 (ModelData.mk [("name", Value.str "Ada")] []) true memberWorld
        = ⟨Except.ok res, memberWorld, []⟩ ∧
      ∀ k : String, List.lookup k res.FieldMap
        = (List.lookup k [("name", Value.str "Ada")]).or
            (List.lookup k [("name", Value.str "default name"), ("age", Value.int 30)])) ∧
    (∃ d : ModelData, getDefaults extMember 0 true memberWorld = ⟨Except.ok d, memberWorld, []⟩ ∧
      (∀ fi ∈ memberModel.fields, List.lookup (memberModel.FieldName fi.name).json d.FieldMap
        = specDefault [("default_age", Value.int 30), ("lang", Value.str "en")] true
            memberDefault fi) ∧
      (∀ (k : String) (v : Value), (k, v) ∈ d.FieldMap →
        ∃ fi ∈ memberModel.fields, k = (memberModel.FieldName fi.name).json)) :=
  ⟨(defaults_merge extMember memberWorld 0 true).1
      (ModelData.mk [("name", Value.str "Ada")] [])
      (ModelData.mk [("name", Value.str "default name"), ("age", Value.int 30)] [])
      0 memberWorld memberWorld [] [] (by decide) rfl rfl,
    (defaults_merge extMember memberWorld 0 true).2 _ memberModel
      { uid := 1, cache := 0,
        context := [("default_age", Value.int 30), ("lang", Value.str "en")] }
      memberDefault rfl rfl rfl rfl (by decide) (by decide) (fun _ _ _ => rfl)⟩

/-! ## Narrowing a fetched collection -/

/-- The run of the common part of the five narrowing operations: the struct is copied to
a new address with a clone of the query, to which `f` is applied. -/
theorem narrow_copy_run (w : World) (rc : Nat) (f : Query → Query) (r : RecordCollection)
    (q : Query) (h1 : w.rcs[rc]? = some r)
    (h3 : r.query.bind (fun a => w.queries[a]?) = some q) :
    (M.bind (derefRC rc) (fun r => M.bind (allocRC r) (fun rSet =>
      M.bind (Query.clone r.query rSet) (fun q =>
        M.bind (modifyRC rSet (fun v => { v with query := some q })) (fun _ =>
          M.bind (modifyQuery (some q) f) (fun _ => M.pure rSet)))))) w
      = ⟨Except.ok w.rcs.length,
          w.copied { r with query := some w.queries.length }
            (f { q with recordSet := w.rcs.length }), []⟩ := by
  cases hq : r.query with
  | none => rw [hq] at h3; cases h3
  | some qp =>
    rw [hq] at h3
    have h4 : w.queries[qp]? = some q := h3
    simp [M.bind, M.pure, derefRC, allocRC, Query.clone, derefQuery, allocQuery, modifyRC,
      modifyQuery, h1, hq, h4, World.copied]

theorem copied_rc (w : World) (rv : RecordCollection) (qv : Query) :
    (w.copied rv qv).rcs[w.rcs.length]? = some rv := by
  simp [World.copied]

/-- A fetched copy of the struct at a new address is fetched with the same ids, for
`Fetch`, `Ids` and `Len`. -/
theorem keepsFetched_of_run (x : Ext) (n : Nat) (w : World) (r : RecordCollection)
    (op : M Nat) (qv : Query) (hf : r.fetched = true)
    (hrun : op w = ⟨Except.ok w.rcs.length,
      w.copied { r with query := some w.queries.length } qv, []⟩) :
    w.keepsFetched x n r op := by
  have hc := copied_rc w { r with query := some w.queries.length } qv
  exact ⟨_, _, _, hrun, hc, hf, rfl, fetch_of_fetched x _ _ _ _ hc hf,
    ids_of_fetched x n _ _ { r with query := some w.queries.length } hc hf,
    len_of_fetched x n _ _ { r with query := some w.queries.length } hc hf⟩

/-- C28: on a usable collection that is fetched already, `Search`, `Limit`, `Offset`,
`OrderBy` and `GroupBy`, for every argument, return a collection that still has the
fetched flag set and holds the ids of the receiver: `Fetch` on it returns it as it is and
sends no statement, and `Ids` and `Len` give the ids of the receiver and their number
without a statement. -/
theorem narrowing_keeps_fetched_ids (x : Ext) (n : Nat) (w : World) (rc : Nat)
    (r : RecordCollection) (m : Model) (q : Query)
    (h1 : w.rcs[rc]? = some r) (h2 : r.model = some m)
    (h3 : r.query.bind (fun a => w.queries[a]?) = some q) (hf : r.fetched = true)
    (cond : Condition) (limit offset : Int) (exprs : List String) (fields : List FieldName) :
    w.keepsFetched x n r (Search rc cond) ∧ w.keepsFetched x n r (Limit rc limit) ∧
    w.keepsFetched x n r (Offset rc offset) ∧ w.keepsFetched x n r (OrderBy x rc exprs) ∧
    w.keepsFetched x n r (GroupBy rc fields) := by
  refine ⟨?_, ?_, ?_, ?_, ?_⟩
  · exact keepsFetched_of_run x n w r _ _ hf (narrow_copy_run w rc _ r q h1 h3)
  · exact keepsFetched_of_run x n w r _ _ hf (narrow_copy_run w rc _ r q h1 h3)
  · exact keepsFetched_of_run x n w r _ _ hf (narrow_copy_run w rc _ r q h1 h3)
  · refine keepsFetched_of_run x n w r _
      ({ q with recordSet := w.rcs.length, orders := x.ordersFromStrings m exprs }) hf ?_
    cases hq : r.query with
    | none => rw [hq] at h3; cases h3
    | some qp =>
      rw [hq] at h3
      have h4 : w.queries[qp]? = some q := h3
      have hrc := lt_length_of_getElem? _ _ _ h1
      simp [OrderBy, M.bind, M.pure, derefRC, allocRC, Query.clone, derefQuery, allocQuery,
        modifyRC, modifyQuery, derefModel, h1, h2, hq, h4, World.copied, List.getElem?_set,
        List.getElem?_append, hrc, Nat.ne_of_gt hrc]
  · exact keepsFetched_of_run x n w r _ _ hf (narrow_copy_run w rc _ r q h1 h3)

/-- C28, run on the fetched collection of the stored record 5 of `storedWorld`: the
collection that `Search` returns is at the new address 1, is fetched and holds the id
5. -/
theorem narrowing_keeps_fetched_ids_witness :
    storedWorld.keepsFetched extPlain 0 ((storedWorld.rcs[0]?).getD default)
      (Search 0 (Condition.pred "name" "=" (Value.str "Ada"))) :=
  (narrowing_keeps_fetched_ids extPlain 0 storedWorld 0 _ partnerModel _ rfl rfl rfl rfl
    (Condition.pred "name" "=" (Value.str "Ada")) 1 0 [] []).1

/-! ## Records -/

theorem forall₂_getElem? {α β : Type} (R : α → β → Prop) (l1 : List α) (l2 : List β)
    (h : List.Forall₂ R l1 l2) :
    ∀ (i : Nat) (a : α), l1[i]? = some a → ∃ b, l2[i]? = some b ∧ R a b := by
  induction h with
  | nil => intro i a ha; simp at ha
  | cons hab _ ih =>
    intro i a ha
    cases i with
    | zero =>
      simp only [List.getElem?_cons_zero, Option.some.injEq] at ha
      subst ha
      exact ⟨_, by simp, hab⟩
    | succ j =>
      simp only [List.getElem?_cons_succ] at ha ⊢
      exact ih j a ha

/-- C23: `Records` on a fetched collection of a model of the registry, whose ids are not
zero. It returns as many collections as the receiver has ids, in the order of the ids and
without sending a statement: the collection at position `i` is a singleton that holds the
id at position `i` alone, has the model of the receiver, and has the receiver as its
prefetch collection. The struct of the receiver, its ids included, is as before. -/
theorem records_singletons (x : Ext) (n : Nat) (w : World) (rc : Nat) (r : RecordCollection)
    (m : Model) (e : Environment) (c : Cache)
    (h1 : w.rcs[rc]? = some r) (h2 : r.model = some m)
    (h4 : r.env.bind (fun a => w.envs[a]?) = some e) (h5 : w.caches[e.cache]? = some c)
    (hf : r.fetched = true) (hz : (0 : Int) ∉ r.ids)
    (hreg : x.registry.find? (fun m2 => m2.name == m.name) = some m) :
    ∃ (w2 : World) (recs : List Nat),
      Records x (knot x (n + 1)) rc w = ⟨Except.ok recs, w2, []⟩ ∧
      recs.length = r.ids.length ∧
      (∀ (i : Nat) (id : Int), r.ids[i]? = some id →
        ∃ (rec : Nat) (rv : RecordCollection), recs[i]? = some rec ∧
          w2.rcs[rec]? = some rv ∧ rv.ids = [id] ∧ rv.model = some m ∧
          rv.prefetchRC = some rc) ∧
      w2.rcs[rc]? = some r := by
  obtain ⟨w2, recs, hrun, hg, hall⟩ := records_run x n w rc r m m e c h1 h2 h4 h5 hf hreg
  refine ⟨w2, recs, hrun, hall.length_eq.symm, ?_, hg.1 rc r h1⟩
  intro i id hid
  obtain ⟨rec, hrec, qa, ea, hv, -, -⟩ := forall₂_getElem? _ _ _ hall i id hid
  have hne : id ≠ 0 := by
    intro h0
    exact hz (h0 ▸ List.getElem?_mem hid)
  refine ⟨rec, _, hrec, hv, ?_, rfl, rfl⟩
  simp [recordOf, withIdsRC, survivors_single id hne]

/-- C23, run on the `Team` collection of the records 1 and 2 of `teamWorld`: two
collections are returned, the first holds the id 1 and the second the id 2, and the
receiver still holds both ids. -/
theorem records_singletons_witness :
    ∃ (w2 : World) (recs : List Nat),
      Records extTrace (knot extTrace 1) 0 teamWorld = ⟨Except.ok recs, w2, []⟩ ∧
      recs.length = 2 ∧
      (∀ (i : Nat) (id : Int), [(1 : Int), 2][i]? = some id →
        ∃ (rec : Nat) (rv : RecordCollection), recs[i]? = some rec ∧
          w2.rcs[rec]? = some rv ∧ rv.ids = [id] ∧ rv.model = some teamModel ∧
          rv.prefetchRC = some 0) ∧
      w2.rcs[0]? = some { model := some teamModel, query := some 0, env := some 0,
                          ids := [1, 2], fetched := true } :=
  records_singletons extTrace 0 teamWorld 0 _ teamModel { uid := 1, cache := 0 } {}
    rfl rfl rfl rfl rfl (by decide) rfl

/-! ## doUpdate on stored records -/

theorem crExecute_run (x : Ext) (sql : String) (args : List Value) (w : World)
    (o : Except String Int) (ho : x.rowsAffected w.db (Stmt.execute sql args) = o) :
    crExecute x sql args w
      = ⟨o, w.sent [Stmt.execute sql args], [Stmt.execute sql args]⟩ := by
  subst ho
  simp only [crExecute, execStmt, bind_run, M.bind, send, liftExcept, World.sent]
  cases x.rowsAffected w.db (Stmt.execute sql args) <;> rfl

/-- The cache update at the end of `doUpdate` on a fetched collection of a model of the
registry: every entry of the map is written to the cache for every id, and nothing is
sent. -/
theorem doUpdate_cache_run (x : Ext) (n : Nat) (w : World) (rc : Nat) (fMap : FieldMap)
    (r : RecordCollection) (m : Model) (q : Query) (e : Environment) (c : Cache) (s : String)
    (h1 : w.rcs[rc]? = some r) (h2 : r.model = some m)
    (h3 : r.query.bind (fun a => w.queries[a]?) = some q)
    (h4 : r.env.bind (fun a => w.envs[a]?) = some e) (h5 : w.caches[e.cache]? = some c)
    (hf : r.fetched = true) (hz : (0 : Int) ∉ r.ids)
    (hreg : x.registry.find? (fun m2 => m2.name == m.name) = some m)
    (hs : ∀ W : World, x.ctxArgsSlug W q = s) :
    ∃ (w2 : World) (c2 : Cache), w.grows w2 e.cache ∧ w2.caches[e.cache]? = some c2 ∧
      M.bind (Records x (knot x (n + 1)) rc) (fun recs =>
        forEach recs (fun rec => forEach fMap (fun kv =>
          M.bind (Ids (knot x (n + 1)) rec) (fun ids => M.bind (firstId ids) (fun id =>
            cacheUpdateEntry x rc id kv.1 kv.2))))) w
        = ⟨Except.ok (), w2.withCache e.cache (writtenCache c2 m.name s r.ids fMap), []⟩ := by
  obtain ⟨w2, recs, hrec, hg, hall⟩ := records_run x n w rc r m m e c h1 h2 h4 h5 hf hreg
  obtain ⟨c2, hc2⟩ := grows_cache_some w w2 e.cache c hg h5
  have hall2 : List.Forall₂ (fun id rec => ∃ rv, w2.rcs[rec]? = some rv ∧ rv.ids = [id] ∧
      rv.fetched = true) r.ids recs := by
    refine forall₂_imp_mem _ _ _ _ hall ?_
    rintro id rec hid ⟨qa, ea, hrv, -, -⟩
    refine ⟨_, hrv, ?_, rfl⟩
    have h0 : id ≠ 0 := fun h => hz (h ▸ hid)
    simp only [recordOf, withIdsRC, survivors_single id h0]
  have hloop := doUpdate_records_loop x n rc r m q e s hs h2 fMap w2.rcs r.ids recs hall2 w2 c2
    rfl (hg.1 rc r h1) (grows_query_bind _ _ _ hg _ _ h3) (grows_env_bind _ _ _ hg _ _ h4) hc2
  refine ⟨w2, c2, hg, hc2, ?_⟩
  rw [bind_ok _ _ _ _ _ _ hrec, hloop]
  rfl

/-- The part of `doUpdate` after the test for a map with the write date and user only, on
a fetched collection without negative ids: the `UPDATE` statement of the query is sent;
when the driver fails or reports no row the body panics there, otherwise every entry of
the map is written to the cache for every id. -/
theorem doUpdateBody_pos_run (x : Ext) (n : Nat) (w : World) (rc : Nat) (fMap : FieldMap)
    (r : RecordCollection) (m : Model) (q : Query) (e : Environment) (c : Cache)
    (h1 : w.rcs[rc]? = some r) (h2 : r.model = some m)
    (h3 : r.query.bind (fun a => w.queries[a]?) = some q)
    (h4 : r.env.bind (fun a => w.envs[a]?) = some e) (h5 : w.caches[e.cache]? = some c)
    (hneg : r.hasNegIds = false) (hf : r.fetched = true) (hz : (0 : Int) ∉ r.ids)
    (hreg : x.registry.find? (fun m2 => m2.name == m.name) = some m)
    (hslug : ∀ (w1 w2 : World) (q1 q2 : Query), q1.ctxCond = q2.ctxCond →
      x.ctxArgsSlug w1 q1 = x.ctxArgsSlug w2 q2)
    (hmeta : ¬ (fMap.length = 2 ∧ (fMap.lookup "write_date").isSome = true ∧
      (fMap.lookup "write_uid").isSome = true)) :
    (∀ msg : String,
      x.rowsAffected w.db (Stmt.execute (x.updateQuery w q fMap).1 (x.updateQuery w q fMap).2)
        = Except.error msg →
      doUpdateBody x (knot x (n + 1)) rc fMap w
        = ⟨Except.error msg,
            w.sent [Stmt.execute (x.updateQuery w q fMap).1 (x.updateQuery w q fMap).2],
            [Stmt.execute (x.updateQuery w q fMap).1 (x.updateQuery w q fMap).2]⟩) ∧
    (x.rowsAffected w.db (Stmt.execute (x.updateQuery w q fMap).1 (x.updateQuery w q fMap).2)
        = Except.ok 0 →
      doUpdateBody x (knot x (n + 1)) rc fMap w
        = ⟨Except.error "Unexpected noop on update (num = 0)",
            w.sent [Stmt.execute (x.updateQuery w q fMap).1 (x.updateQuery w q fMap).2],
            [Stmt.execute (x.updateQuery w q fMap).1 (x.updateQuery w q fMap).2]⟩) ∧
    (∀ num : Int, num ≠ 0 →
      x.rowsAffected w.db (Stmt.execute (x.updateQuery w q fMap).1 (x.updateQuery w q fMap).2)
        = Except.ok num →
      ∃ (w2 : World) (c2 : Cache),
        (w.sent [Stmt.execute (x.updateQuery w q fMap).1 (x.updateQuery w q fMap).2]).grows
          w2 e.cache ∧
        w2.caches[e.cache]? = some c2 ∧
        doUpdateBody x (knot x (n + 1)) rc fMap w
          = ⟨Except.ok (),
              w2.withCache e.cache (writtenCache c2 m.name (x.ctxArgsSlug w q) r.ids fMap),
              [Stmt.execute (x.updateQuery w q fMap).1 (x.updateQuery w q fMap).2]⟩) := by
  have hstart : ∀ (o : Except String Int) (res : Res Unit),
      x.rowsAffected w.db (Stmt.execute (x.updateQuery w q fMap).1 (x.updateQuery w q fMap).2)
        = o →
      M.bind (fun _ => (⟨o,
          w.sent [Stmt.execute (x.updateQuery w q fMap).1 (x.updateQuery w q fMap).2],
          [Stmt.execute (x.updateQuery w q fMap).1 (x.updateQuery w q fMap).2]⟩ : Res Int))
        (fun num => if num = 0 then
            M.bind (logPanic "Unexpected noop on update (num = 0)") (fun (_ : PUnit) =>
              M.bind (Records x (knot x (n + 1)) rc) (fun recs =>
                forEach recs (fun rec => forEach fMap (fun kv =>
                  M.bind (Ids (knot x (n + 1)) rec) (fun ids => M.bind (firstId ids) (fun id =>
                    cacheUpdateEntry x rc id kv.1 kv.2))))))
          else
            M.bind (M.pure PUnit.unit) (fun _ =>
              M.bind (Records x (knot x (n + 1)) rc) (fun recs =>
                forEach recs (fun rec => forEach fMap (fun kv =>
                  M.bind (Ids (knot x (n + 1)) rec) (fun ids => M.bind (firstId ids) (fun id =>
                    cacheUpdateEntry x rc id kv.1 kv.2))))))) w = res →
      doUpdateBody x (knot x (n + 1)) rc fMap w = res := by
    intro o res ho hres
    rw [← hres]
    have hexec := crExecute_run x (x.updateQuery w q fMap).1 (x.updateQuery w q fMap).2 w o ho
    have hhead : ∀ (K : Int → M Unit),
        M.bind (derefQuery r.query) (fun q => M.bind getW (fun w =>
          M.bind (derefEnv r.env) (fun _ =>
            M.bind (crExecute x (x.updateQuery w q fMap).1 (x.updateQuery w q fMap).2) K))) w
        = M.bind (fun _ => (⟨o,
            w.sent [Stmt.execute (x.updateQuery w q fMap).1 (x.updateQuery w q fMap).2],
            [Stmt.execute (x.updateQuery w q fMap).1 (x.updateQuery w q fMap).2]⟩ : Res Int))
            K w := by
      intro K
      rw [bind_silent _ _ _ _ (derefQuery_run _ _ _ h3), bind_silent _ _ _ _ (getW_run _),
        bind_silent _ _ _ _ (derefEnv_run _ _ _ h4)]
      simp only [M.bind, hexec]
    simp only [doUpdateBody, bind_run, pure_run]
    by_cases hlen : fMap.length = 2
    · rw [if_pos hlen]
      have hcond : ¬ ((fMap.lookup "write_date").isSome && (fMap.lookup "write_uid").isSome)
          = true := by
        intro hc
        rw [Bool.and_eq_true] at hc
        exact hmeta ⟨hlen, hc.1, hc.2⟩
      rw [if_neg hcond, bind_silent _ _ _ _ (show (M.pure PUnit.unit : M PUnit) w = _ from rfl),
        bind_silent _ _ _ _ (derefRC_run _ _ _ h1)]
      simp only [hneg, Bool.not_false, if_true]
      exact hhead _
    · rw [if_neg hlen, bind_silent _ _ _ _ (show (M.pure PUnit.unit : M PUnit) w = _ from rfl),
        bind_silent _ _ _ _ (derefRC_run _ _ _ h1)]
      simp only [hneg, Bool.not_false, if_true]
      exact hhead _
  refine ⟨?_, ?_, ?_⟩
  · intro msg hmsg
    exact hstart _ _ hmsg rfl
  · intro h0
    refine hstart _ _ h0 ?_
    simp [M.bind, logPanic]
  · intro num hnum hok
    obtain ⟨w2, c2, hg, hc2, hrun⟩ := doUpdate_cache_run x n
      (w.sent [Stmt.execute (x.updateQuery w q fMap).1 (x.updateQuery w q fMap).2]) rc fMap
      r m q e c (x.ctxArgsSlug w q) h1 h2 h3 h4 h5 hf hz hreg (fun W => hslug W w q q rfl)
    refine ⟨w2, c2, hg, hc2, hstart _ _ hok ?_⟩
    simp only [M.bind, if_neg hnum, M.pure] at hrun ⊢
    simp only [hrun, List.append_nil, List.nil_append]

/-- C29: `doUpdate` on a usable, fetched collection with ids and without negative ids, for
a user who may write. When the map has two entries and holds the write date and the write
user, `doUpdate` returns with nothing sent and nothing changed: no `UPDATE`, no cache
update. In every other case (a map with one of the two keys only, an empty map, any other
map) it sends the `UPDATE` statement of the query first; when the driver reports no row
it panics there (`Unexpected noop on update`), as it does when the driver fails; and
when the driver reports rows, it sends nothing else and the cache gives afterwards, for
every id of the collection and every entry of the map, the value of the entry. -/
theorem doUpdate_skips_iff_metadata (x : Ext) (n : Nat) (w : World) (rc : Nat)
    (fMap : FieldMap) (r : RecordCollection) (m : Model) (q : Query) (e : Environment)
    (c : Cache)
    (h1 : w.rcs[rc]? = some r) (h2 : r.model = some m)
    (h3 : r.query.bind (fun a => w.queries[a]?) = some q)
    (h4 : r.env.bind (fun a => w.envs[a]?) = some e) (h5 : w.caches[e.cache]? = some c)
    (hneg : r.hasNegIds = false) (hf : r.fetched = true) (hids : r.ids ≠ [])
    (hz : (0 : Int) ∉ r.ids)
    (hreg : x.registry.find? (fun m2 => m2.name == m.name) = some m)
    (hslug : ∀ (w1 w2 : World) (q1 q2 : Query), q1.ctxCond = q2.ctxCond →
      x.ctxArgsSlug w1 q1 = x.ctxArgsSlug w2 q2)
    (hperm : x.checkExecutionPermission w rc "Write" = none) :
    ((fMap.length = 2 ∧ (fMap.lookup "write_date").isSome = true ∧
        (fMap.lookup "write_uid").isSome = true) →
      doUpdate x (knot x (n + 1)) rc fMap w = ⟨Except.ok (), w, []⟩) ∧
    (¬ (fMap.length = 2 ∧ (fMap.lookup "write_date").isSome = true ∧
        (fMap.lookup "write_uid").isSome = true) →
      (∀ msg : String,
        x.rowsAffected w.db
          (Stmt.execute (x.updateQuery w q fMap).1 (x.updateQuery w q fMap).2)
          = Except.error msg →
        ∃ msg2 : String, doUpdate x (knot x (n + 1)) rc fMap w
          = ⟨Except.error msg2,
              w.sent [Stmt.execute (x.updateQuery w q fMap).1 (x.updateQuery w q fMap).2],
              [Stmt.execute (x.updateQuery w q fMap).1 (x.updateQuery w q fMap).2]⟩) ∧
      (x.rowsAffected w.db
          (Stmt.execute (x.updateQuery w q fMap).1 (x.updateQuery w q fMap).2)
          = Except.ok 0 →
        doUpdate x (knot x (n + 1)) rc fMap w
          = ⟨Except.error (substituteSQLErrorMessage x rc
                (w.sent [Stmt.execute (x.updateQuery w q fMap).1 (x.updateQuery w q fMap).2])
                "Unexpected noop on update (num = 0)"),
              w.sent [Stmt.execute (x.updateQuery w q fMap).1 (x.updateQuery w q fMap).2],
              [Stmt.execute (x.updateQuery w q fMap).1 (x.updateQuery w q fMap).2]⟩) ∧
      (∀ num : Int, num ≠ 0 →
        x.rowsAffected w.db
          (Stmt.execute (x.updateQuery w q fMap).1 (x.updateQuery w q fMap).2)
          = Except.ok num →
        ∃ w2 : World, doUpdate x (knot x (n + 1)) rc fMap w
            = ⟨Except.ok (), w2,
                [Stmt.execute (x.updateQuery w q fMap).1 (x.updateQuery w q fMap).2]⟩ ∧
          w2.db = w.db ++
            [Stmt.execute (x.updateQuery w q fMap).1 (x.updateQuery w q fMap).2] ∧
          ((fMap.map Prod.fst).Nodup →
            ∃ c2, w2.caches[e.cache]? = some c2 ∧ ∀ id ∈ r.ids, ∀ k v, (k, v) ∈ fMap →
              c2.get m.name id k (x.ctxArgsSlug w q) = v))) := by
  have hm : r.model.isSome = true := by rw [h2]; rfl
  have hq : r.query.isSome = true := by
    cases hqq : r.query with
    | none => rw [hqq] at h3; cases h3
    | some _ => rfl
  have he : r.env.isSome = true := by
    cases hee : r.env with
    | none => rw [hee] at h4; cases h4
    | some _ => rfl
  have hnz : (r.ids.length == 0) = false := by
    rw [beq_eq_false_iff_ne]
    intro h
    exact hids (List.length_eq_zero.mp h)
  have hwrap : doUpdate x (knot x (n + 1)) rc fMap w
      = rethrow (substituteSQLErrorMessage x rc) (doUpdateBody x (knot x (n + 1)) rc fMap) w := by
    simp only [doUpdate, bind_run, pure_run]
    rw [bind_silent _ _ _ _ (checkPermission_ok x w rc _ hperm),
      bind_silent _ _ _ _ (isEmpty_of_fetched x n w rc r h1 hf hm hq he)]
    simp only [hnz, Bool.false_eq_true, if_false]
    rw [bind_silent _ _ _ _ (show (M.pure PUnit.unit : M PUnit) w = _ from rfl)]
  constructor
  · intro hmeta
    rw [hwrap]
    exact rethrow_ok _ _ _ _ _ _
      (doUpdateBody_metadata x _ rc fMap w hmeta.1 hmeta.2.1 hmeta.2.2)
  · intro hmeta
    obtain ⟨herr, hzero, hrows⟩ := doUpdateBody_pos_run x n w rc fMap r m q e c h1 h2 h3 h4 h5
      hneg hf hz hreg hslug hmeta
    refine ⟨?_, ?_, ?_⟩
    · intro msg hmsg
      exact ⟨_, by rw [hwrap]; exact rethrow_error _ _ _ _ _ _ (herr msg hmsg)⟩
    · intro h0
      rw [hwrap]
      exact rethrow_error _ _ _ _ _ _ (hzero h0)
    · intro num hnum hok
      obtain ⟨w2, c2, hg, hc2, hbody⟩ := hrows num hnum hok
      refine ⟨_, by rw [hwrap]; exact rethrow_ok _ _ _ _ _ _ hbody, ?_, fun hnd => ?_⟩
      · simp only [World.withCache]
        exact hg.2.2.2.1
      · refine ⟨_, getElem?_set_self_of_some _ _ _ _ hc2, fun id hid k v hkv => ?_⟩
        exact writtenCache_get m.name _ fMap k v hnd hkv id r.ids c2 hid

/-- C29, run on the stored record 5 of `storedWorld`: a write of the write user alone is
not skipped, the `UPDATE` is sent and the cache then gives the new write user. -/
theorem doUpdate_skips_iff_metadata_witness :
    ∃ w2 : World,
      doUpdate extPlain (knot extPlain 1) 0 [("write_uid", Value.int 2)] storedWorld
        = ⟨Except.ok (), w2, [Stmt.execute "UPDATE" [Value.int 2]]⟩ ∧
      w2.db = [Stmt.execute "UPDATE" [Value.int 2]] ∧
      ∃ c2, w2.caches[0]? = some c2 ∧ ∀ id ∈ [(5 : Int)], ∀ k v,
        (k, v) ∈ [("write_uid", Value.int 2)] → c2.get "Partner" id k "" = v :=
  have h := ((doUpdate_skips_iff_metadata extPlain 0 storedWorld 0 [("write_uid", Value.int 2)]
    _ partnerModel _ { uid := 1, cache := 0 } _ rfl rfl rfl rfl rfl rfl rfl (by decide)
    (by decide) rfl (fun _ _ _ _ _ => rfl) rfl).2 (by decide)).2.2 1 (by decide) rfl
  ⟨h.choose, h.choose_spec.1, h.choose_spec.2.1, h.choose_spec.2.2 (by decide)⟩

/-! ## relatedFieldMap -/

theorem splitOn_append_sep (c : Char) (a b : List Char) :
    (a ++ c :: b).splitOn c = a.splitOn c ++ b.splitOn c := by
  simp only [List.splitOn]
  induction a with
  | nil => simp
  | cons x a ih =>
    simp only [List.cons_append, List.splitOnP_cons]
    by_cases hx : (x == c) = true
    · simp only [hx, if_true, List.cons_append, ih]
    · simp only [hx, Bool.false_eq_true, if_false, ih]
      cases hs : List.splitOnP (fun y => y == c) a with
      | nil => exact absurd hs (List.splitOnP_ne_nil _ _)
      | cons h t => rfl

theorem splitOn_piece_no_sep (c : Char) (xs : List Char) :
    ∀ l ∈ xs.splitOn c, c ∉ l := by
  simp only [List.splitOn]
  induction xs with
  | nil => intro l hl; simp at hl; subst hl; simp
  | cons x xs ih =>
    intro l hl
    rw [List.splitOnP_cons] at hl
    by_cases hx : (x == c) = true
    · simp only [hx, if_true, List.mem_cons] at hl
      rcases hl with h | h
      · subst h; simp
      · exact ih l h
    · simp only [hx, Bool.false_eq_true, if_false] at hl
      cases hs : List.splitOnP (fun y => y == c) xs with
      | nil => exact absurd hs (List.splitOnP_ne_nil _ _)
      | cons h t =>
        rw [hs] at hl ih
        simp only [List.modifyHead, List.mem_cons] at hl
        rcases hl with h1 | h1
        · subst h1
          have := ih h (List.mem_cons_self _ _)
          simp only [List.mem_cons, not_or]
          refine ⟨?_, this⟩
          intro hcx
          exact hx (by simp [hcx])
        · exact ih l (List.mem_cons_of_mem _ h1)

theorem map_toList_map_mk (l : List (List Char)) :
    (l.map String.mk).map String.toList = l := by
  induction l with
  | nil => rfl
  | cons a l ih =>
    rw [List.map_cons, List.map_cons, ih]
    rfl

theorem joinExpr_splitExpr (s : String) : joinExpr (splitExpr s) = s := by
  simp only [joinExpr, splitExpr, map_toList_map_mk, List.intercalate_splitOn]
  rfl

/-- The segments of a key that starts with a path of `k` segments and the separator:
without its first `k` segments the key is what follows the separator. -/
theorem joinExpr_drop_head (q f : String) (rest : List Char) (k : Nat)
    (hq : (q.toList.splitOn '.').length = k) (hf : f.toList = q.toList ++ '.' :: rest) :
    joinExpr ((splitExpr f).drop k) = String.mk rest := by
  simp only [joinExpr, splitExpr, hf, splitOn_append_sep, List.map_append]
  rw [← hq, ← List.length_map (List.splitOn '.' q.toList) String.mk, List.drop_left,
    map_toList_map_mk, List.intercalate_splitOn]

theorem prefix_sep_iff (q f : String) :
    (q ++ ExprSep).toList.isPrefixOf f.toList = true
      ↔ ∃ rest : List Char, f.toList = q.toList ++ '.' :: rest := by
  rw [List.isPrefixOf_iff_prefix]
  have h : (q ++ ExprSep).toList = q.toList ++ ['.'] := by
    simp [String.toList, ExprSep]
  rw [h]
  constructor
  · rintro ⟨t, ht⟩
    exact ⟨t, by rw [← ht]; simp⟩
  · rintro ⟨rest, hr⟩
    exact ⟨rest, by rw [hr]; simp⟩

theorem map_json_zipWith (a b : List String) (h : a.length = b.length) :
    (List.zipWith (fun n j => (⟨n, j⟩ : FieldName)) a b).map (fun e => e.json) = b := by
  induction a generalizing b with
  | nil =>
    cases b with
    | nil => rfl
    | cons _ _ => simp at h
  | cons x a ih =>
    cases b with
    | nil => simp at h
    | cons y b =>
      simp only [List.zipWith_cons_cons, List.map_cons, List.length_cons, Nat.add_right_cancel_iff]
        at h ⊢
      rw [ih b h]

/-- The path to the related record of a field path whose name and storage name have the
same number of segments: its storage name is the storage name of the path without the last
segment, and it has one segment less than the path, when the path has two or more. -/
theorem relatedPrefix_segments (p : FieldName)
    (hwf : (splitExpr p.name).length = (splitExpr p.json).length) :
    (splitFieldNames p).length = (splitExpr p.json).length ∧
    (joinFieldNames (splitFieldNames p).dropLast).json
      = joinExpr ((splitExpr p.json).dropLast) ∧
    (2 ≤ (splitFieldNames p).length →
      ((joinFieldNames (splitFieldNames p).dropLast).json.toList.splitOn '.').length
        = (splitFieldNames p).length - 1) := by
  have hlen : (splitFieldNames p).length = (splitExpr p.json).length := by
    simp only [splitFieldNames, List.length_zipWith, hwf, Nat.min_self]
  have hjson : (joinFieldNames (splitFieldNames p).dropLast).json
      = joinExpr ((splitExpr p.json).dropLast) := by
    simp only [joinFieldNames, List.map_dropLast]
    rw [show (splitFieldNames p).map (fun e => e.json) = splitExpr p.json from
      map_json_zipWith _ _ hwf]
  refine ⟨hlen, hjson, fun h2 => ?_⟩
  rw [hjson, hlen]
  simp only [joinExpr, splitExpr]
  rw [← List.map_dropLast, map_toList_map_mk]
  have hne : (p.json.toList.splitOn '.').dropLast ≠ [] := by
    intro h0
    have hl : ((p.json.toList.splitOn '.').dropLast).length = 0 := by rw [h0]; rfl
    rw [List.length_dropLast] at hl
    rw [hlen] at h2
    simp only [splitExpr, List.length_map] at h2
    omega
  show (List.splitOn '.' (List.intercalate ['.'] (p.json.toList.splitOn '.').dropLast)).length = _
  rw [List.splitOn_intercalate _ '.' (fun l hl =>
    splitOn_piece_no_sep '.' p.json.toList l (List.dropLast_subset _ hl)) hne,
    List.length_dropLast, List.length_map]

/-- The keys of a map under the path to a related record are sent to different keys by
the removal of the first segments. -/
theorem strip_injective (q : String) (k : Nat)
    (hk : k = 0 ∨ (q.toList.splitOn '.').length = k) (a b : String)
    (ha : (q ++ ExprSep).toList.isPrefixOf a.toList = true)
    (hb : (q ++ ExprSep).toList.isPrefixOf b.toList = true)
    (h : joinExpr ((splitExpr a).drop k) = joinExpr ((splitExpr b).drop k)) : a = b := by
  rcases hk with hk | hk
  · subst hk
    simpa [joinExpr_splitExpr] using h
  · obtain ⟨ra, hra⟩ := (prefix_sep_iff q a).mp ha
    obtain ⟨rb, hrb⟩ := (prefix_sep_iff q b).mp hb
    rw [joinExpr_drop_head q a ra k hk hra, joinExpr_drop_head q b rb k hk hrb] at h
    have hr : ra = rb := by injection h
    apply String.ext
    show a.toList = b.toList
    rw [hra, hrb, hr]

/-- A loop that writes the kept entries of a map (a Go map: its keys are distinct) under
new keys that differ from one kept key to the other: afterwards a key holds a value
exactly when it is the new key of a kept entry with this value, or when no kept entry
has this new key and it held the value before. -/
theorem lookup_foldl_rekeyed (P : String → Bool) (g : String → String) (m : FieldMap)
    (hn : (m.map Prod.fst).Nodup)
    (hinj : ∀ a b, a ∈ m.map Prod.fst → b ∈ m.map Prod.fst → P a = true → P b = true →
      g a = g b → a = b) :
    ∀ (acc : FieldMap) (key : String) (v : Value),
      List.lookup key (m.foldl (fun (res : FieldMap) kv =>
        if P kv.1 = true then FieldMap.insert res (g kv.1) kv.2 else res) acc) = some v
      ↔ (∃ f, (f, v) ∈ m ∧ P f = true ∧ g f = key) ∨
        ((∀ f v2, (f, v2) ∈ m → P f = true → g f ≠ key) ∧ List.lookup key acc = some v) := by
  induction m with
  | nil =>
    intro acc key v
    simp
  | cons kv m ih =>
    intro acc key v
    obtain ⟨f0, v0⟩ := kv
    simp only [List.map_cons, List.nodup_cons] at hn
    have hinj2 : ∀ a b, a ∈ m.map Prod.fst → b ∈ m.map Prod.fst → P a = true → P b = true →
        g a = g b → a = b := fun a b ha hb =>
      hinj a b (List.mem_cons_of_mem _ ha) (List.mem_cons_of_mem _ hb)
    rw [List.foldl_cons, ih hn.2 hinj2]
    by_cases hP : P f0 = true
    · simp only [hP, if_true, lookup_fieldMap_insert]
      by_cases hk : key = g f0
      · subst hk
        have hnone : ∀ f v2, (f, v2) ∈ m → P f = true → g f ≠ g f0 := by
          intro f v2 hf hPf hg
          have : f = f0 := hinj f f0
            (List.mem_cons_of_mem _ (List.mem_map_of_mem Prod.fst hf))
            (List.mem_cons_self _ _) hPf hP hg
          exact hn.1 (this ▸ List.mem_map_of_mem Prod.fst hf)
        constructor
        · rintro (⟨f, hf, hPf, hg⟩ | ⟨_, hv⟩)
          · exact absurd hg (hnone f v hf hPf)
          · simp only [if_true, Option.some.injEq] at hv
            subst hv
            exact Or.inl ⟨f0, List.mem_cons_self _ _, hP, rfl⟩
        · rintro (⟨f, hf, hPf, hg⟩ | ⟨hno, _⟩)
          · rcases List.mem_cons.mp hf with h | h
            · injection h with h1 h2
              subst h2
              exact Or.inr ⟨hnone, by simp⟩
            · exact absurd hg (hnone f v h hPf)
          · exact absurd rfl (hno f0 v0 (List.mem_cons_self _ _) hP)
      · simp only [if_neg hk]
        constructor
        · rintro (⟨f, hf, hPf, hg⟩ | ⟨hno, hv⟩)
          · exact Or.inl ⟨f, List.mem_cons_of_mem _ hf, hPf, hg⟩
          · refine Or.inr ⟨?_, hv⟩
            intro f v2 hf hPf
            rcases List.mem_cons.mp hf with h | h
            · injection h with h1 h2
              subst h1
              exact fun hg => hk hg.symm
            · exact hno f v2 h hPf
        · rintro (⟨f, hf, hPf, hg⟩ | ⟨hno, hv⟩)
          · rcases List.mem_cons.mp hf with h | h
            · injection h with h1 h2
              subst h1
              exact absurd hg.symm hk
            · exact Or.inl ⟨f, h, hPf, hg⟩
          · exact Or.inr ⟨fun f v2 hf => hno f v2 (List.mem_cons_of_mem _ hf), hv⟩
    · simp only [hP, Bool.false_eq_true, if_false]
      constructor
      · rintro (⟨f, hf, hPf, hg⟩ | ⟨hno, hv⟩)
        · exact Or.inl ⟨f, List.mem_cons_of_mem _ hf, hPf, hg⟩
        · refine Or.inr ⟨?_, hv⟩
          intro f v2 hf hPf
          rcases List.mem_cons.mp hf with h | h
          · injection h with h1 h2
            subst h1
            exact absurd hPf hP
          · exact hno f v2 h hPf
      · rintro (⟨f, hf, hPf, hg⟩ | ⟨hno, hv⟩)
        · rcases List.mem_cons.mp hf with h | h
          · injection h with h1 h2
            subst h1
            exact absurd hPf hP
          · exact Or.inl ⟨f, h, hPf, hg⟩
        · exact Or.inr ⟨fun f v2 hf => hno f v2 (List.mem_cons_of_mem _ hf), hv⟩

/-- C30: `relatedFieldMap` of a map (a Go map: its keys are distinct) and a field path
whose name and storage name have the same number of segments. It returns the path `q`
without its last segment, and a map in which a key holds a value exactly when it is a key
of the given map that starts with the storage name of `q` and the separator, with its
first segments removed (as many as `q` has: one less than the path), and the given map
holds this value for it; other keys of the given map do not appear. For a path of two or
more segments the new key is what follows `q` and the separator in the old key. The given
map is a value: it is not modified. -/
theorem relatedFieldMap_spec (m : FieldMap) (p : FieldName)
    (hn : (m.map Prod.fst).Nodup)
    (hwf : (splitExpr p.name).length = (splitExpr p.json).length) :
    (relatedFieldMap m p).2 = joinFieldNames (splitFieldNames p).dropLast ∧
    (∀ (key : String) (v : Value),
      List.lookup key (relatedFieldMap m p).1 = some v ↔
        ∃ f : String, (f, v) ∈ m ∧
          ((relatedFieldMap m p).2.json ++ ExprSep).toList <+: f.toList ∧
          key = joinExpr ((splitExpr f).drop ((splitFieldNames p).length - 1))) ∧
    (2 ≤ (splitFieldNames p).length → ∀ rest : String,
      joinExpr ((splitExpr ((relatedFieldMap m p).2.json ++ ExprSep ++ rest)).drop
        ((splitFieldNames p).length - 1)) = rest) := by
  obtain ⟨_, _, hseg⟩ := relatedPrefix_segments p hwf
  have hk : (splitFieldNames p).length - 1 = 0 ∨
      ((joinFieldNames (splitFieldNames p).dropLast).json.toList.splitOn '.').length
        = (splitFieldNames p).length - 1 := by
    by_cases h2 : 2 ≤ (splitFieldNames p).length
    · exact Or.inr (hseg h2)
    · exact Or.inl (by omega)
  refine ⟨rfl, ?_, ?_⟩
  · intro key v
    have hfold := lookup_foldl_rekeyed
      (fun f => ((joinFieldNames (splitFieldNames p).dropLast).json ++ ExprSep).toList.isPrefixOf
        f.toList)
      (fun f => joinExpr ((splitExpr f).drop ((splitFieldNames p).length - 1))) m hn
      (fun a b _ _ ha hb hg => strip_injective _ _ hk a b ha hb hg) [] key v
    simp only [relatedFieldMap]
    rw [hfold]
    constructor
    · rintro (⟨f, hf, hP, hg⟩ | ⟨_, hv⟩)
      · exact ⟨f, hf, List.isPrefixOf_iff_prefix.mp hP, hg.symm⟩
      · simp [List.lookup] at hv
    · rintro ⟨f, hf, hP, hg⟩
      exact Or.inl ⟨f, hf, List.isPrefixOf_iff_prefix.mpr hP, hg.symm⟩
  · intro h2 rest
    have hq := hseg h2
    have hf : ((joinFieldNames (splitFieldNames p).dropLast).json ++ ExprSep ++ rest).toList
        = (joinFieldNames (splitFieldNames p).dropLast).json.toList ++ '.' :: rest.toList := by
      simp [String.toList, ExprSep]
    simp only [relatedFieldMap]
    rw [joinExpr_drop_head _ _ rest.toList _ hq hf]
    rfl

/-- C30, run on a map with two keys under the path `partner`, the key `partner` itself
and another key, for the field path `partner.name`: the path `partner` is returned with
the map of the two keys under it, named relative to it. -/
theorem relatedFieldMap_spec_witness :
    relatedFieldMap [("partner.name", Value.str "Ada"), ("partner.age", Value.int 36),
        ("name", Value.str "Bob"), ("partner", Value.int 5)] ⟨"Partner.Name", "partner.name"⟩
      = ([("name", Value.str "Ada"), ("age", Value.int 36)], ⟨"Partner", "partner"⟩) ∧
    (∀ (key : String) (v : Value),
      List.lookup key (relatedFieldMap [("partner.name", Value.str "Ada"),
        ("partner.age", Value.int 36), ("name", Value.str "Bob"), ("partner", Value.int 5)]
        ⟨"Partner.Name", "partner.name"⟩).1 = some v ↔
        ∃ f : String, (f, v) ∈ [("partner.name", Value.str "Ada"),
            ("partner.age", Value.int 36), ("name", Value.str "Bob"), ("partner", Value.int 5)] ∧
          ((relatedFieldMap [("partner.name", Value.str "Ada"), ("partner.age", Value.int 36),
            ("name", Value.str "Bob"), ("partner", Value.int 5)]
            ⟨"Partner.Name", "partner.name"⟩).2.json ++ ExprSep).toList <+: f.toList ∧
          key = joinExpr ((splitExpr f).drop
            ((splitFieldNames ⟨"Partner.Name", "partner.name"⟩).length - 1))) :=
  ⟨by decide!, (relatedFieldMap_spec _ ⟨"Partner.Name", "partner.name"⟩ (by decide)
    (by decide)).2.1⟩

/-! ## Aggregates -/

/-- A loop whose body returns without effect on every element collects the results. -/
theorem forMap_pure_run {α β : Type} (f : α → M β) (g : α → β) (w : World) (l : List α)
    (h : ∀ a ∈ l, f a w = ⟨Except.ok (g a), w, []⟩) :
    forMap l f w = ⟨Except.ok (l.map g), w, []⟩ := by
  induction l with
  | nil => rfl
  | cons a l ih =>
    simp only [forMap, bind_run, pure_run]
    rw [bind_silent _ _ _ _ (h a (List.mem_cons_self _ _)),
      bind_silent _ _ _ _ (ih (fun b hb => h b (List.mem_cons_of_mem _ hb)))]
    rfl

/-- The row that `Aggregates` makes of a row of the storage with the count `cnt`. -/
theorem aggregateRow_run (x : Ext) (w : World) (rc : Nat) (r : RecordCollection) (q : Query)
    (groups : List FieldName) (substMap : List (String × String)) (vals : FieldMap)
    (cnt : Int) (h1 : w.rcs[rc]? = some r)
    (h3 : r.query.bind (fun a => w.queries[a]?) = some q)
    (hc : List.lookup "__count" vals = some (Value.int cnt)) :
    aggregateRow x rc groups substMap (Except.ok vals) w
      = ⟨Except.ok ⟨NewModelDataFromRS (x.substituteKeys (FieldMap.remove vals "__count") substMap),
          cnt, x.getGroupCondition groups
            (x.substituteKeys (FieldMap.remove vals "__count") substMap) q.cond⟩, w, []⟩ := by
  simp only [aggregateRow, bind_run, pure_run, hc]
  rw [bind_silent _ _ _ _ (show (M.pure cnt : M Int) w = _ from rfl),
    bind_silent _ _ _ _ (derefRC_run _ _ _ h1), bind_silent _ _ _ _ (derefQuery_run _ _ _ h3)]
  rfl

theorem remove_no_key (m : FieldMap) (k : String) :
    k ∉ (FieldMap.remove m k).map Prod.fst := by
  simp [FieldMap.remove]

/-- C21: `Aggregates` on a collection with a query. When the query has no group by
expression it panics at once: nothing is changed and nothing is sent, the record rules
are not applied. When the query is grouped and the part up to the query has returned the
rows of the storage, each scanned into a map with an integer under `__count`, it returns
one row for each of them, in their order: the count of the row is the value under
`__count`, and its values are made from the map without the key `__count` (they do not
hold this key, as `substituteKeys` adds no such key). -/
theorem aggregates_grouped_only (x : Ext) (w : World) (rc : Nat)
    (fieldNames : List FieldName) (r : RecordCollection) (q : Query)
    (h1 : w.rcs[rc]? = some r) (h3 : r.query.bind (fun a => w.queries[a]?) = some q) :
    (q.groups = [] →
      Aggregates x rc fieldNames w
        = ⟨Except.error "Trying to get aggregates of a non-grouped query", w, []⟩) ∧
    (q.groups ≠ [] →
      ∀ (rows : List (Except String FieldMap)) (substMap : List (String × String))
        (w1 : World) (ev1 : List Stmt) (r1 : RecordCollection) (q1 : Query),
      aggregatesSelect x rc fieldNames w = ⟨Except.ok (rows, substMap), w1, ev1⟩ →
      w1.rcs[rc]? = some r1 → r1.query.bind (fun a => w1.queries[a]?) = some q1 →
      (∀ row ∈ rows, ∃ (vals : FieldMap) (cnt : Int), row = Except.ok vals ∧
        List.lookup "__count" vals = some (Value.int cnt)) →
      (∀ fm : FieldMap, "__count" ∉ fm.map Prod.fst →
        "__count" ∉ (x.substituteKeys fm substMap).map Prod.fst) →
      ∃ res : List GroupAggregateRow,
        Aggregates x rc fieldNames w = ⟨Except.ok res, w1, ev1⟩ ∧
        res.length = rows.length ∧
        ∀ (i : Nat) (vals : FieldMap), rows[i]? = some (Except.ok vals) →
          ∃ line : GroupAggregateRow, res[i]? = some line ∧
            List.lookup "__count" vals = some (Value.int line.Count) ∧
            "__count" ∉ line.Values.FieldMap.map Prod.fst) := by
  constructor
  · intro hg
    simp only [Aggregates, bind_run, pure_run]
    rw [bind_silent _ _ _ _ (derefRC_run _ _ _ h1), bind_silent _ _ _ _ (derefQuery_run _ _ _ h3)]
    simp [hg, M.bind, logPanic]
  · intro hg rows substMap w1 ev1 r1 q1 hsel g1 g3 hrows hkeys
    have hlen : ¬ q.groups.length = 0 := fun h => hg (List.length_eq_zero.mp h)
    obtain ⟨g, hgdef⟩ : ∃ g : Except String FieldMap → GroupAggregateRow, g = fun row =>
        match row with
        | Except.ok vals =>
          ⟨NewModelDataFromRS (x.substituteKeys (FieldMap.remove vals "__count") substMap),
            (match List.lookup "__count" vals with
              | some (Value.int c) => c
              | _ => 0),
            x.getGroupCondition q.groups
              (x.substituteKeys (FieldMap.remove vals "__count") substMap) q1.cond⟩
        | Except.error _ => ⟨NewModelData, 0, Condition.empty⟩ := ⟨_, rfl⟩
    have hloop := forMap_pure_run (aggregateRow x rc q.groups substMap) g w1 rows (by
      intro row hrow
      obtain ⟨vals, cnt, hv, hc⟩ := hrows row hrow
      subst hv
      rw [aggregateRow_run x w1 rc r1 q1 q.groups substMap vals cnt g1 g3 hc, hgdef]
      simp only [hc])
    refine ⟨rows.map g, ?_, List.length_map _ _, ?_⟩
    · simp only [Aggregates, bind_run, pure_run]
      rw [bind_silent _ _ _ _ (derefRC_run _ _ _ h1),
        bind_silent _ _ _ _ (derefQuery_run _ _ _ h3), if_neg hlen,
        bind_silent _ _ _ _ (show (M.pure PUnit.unit : M PUnit) w = _ from rfl)]
      refine (bind_ok_eq _ _ _ _ _ _ _ _ _ hsel hloop).trans ?_
      simp
    · intro i vals hi
      obtain ⟨vals2, cnt, hv, hc⟩ := hrows _ (List.getElem?_mem hi)
      injection hv with hv
      subst hv
      refine ⟨g (Except.ok vals), by simp [hi], ?_, ?_⟩
      · rw [hgdef]
        simp only [hc]
      · rw [hgdef]
        exact hkeys _ (remove_no_key vals "__count")

/-- C21, run on the `Sale` collection of `saleWorld`, grouped by the department, with the
two groups the storage of `extSale` gives: two rows are returned, with the counts 2 and
1, and their values do not hold `__count`. -/
theorem aggregates_grouped_only_witness :
    ∃ res : List GroupAggregateRow,
      Aggregates extSale 0 [⟨"Amt", "amt"⟩] saleWorld
        = ⟨Except.ok res, saleSelect.w, [Stmt.query "SELECT GROUP" []]⟩ ∧
      res.length = saleRows.length ∧
      ∀ (i : Nat) (vals : FieldMap), saleRows[i]? = some (Except.ok vals) →
        ∃ line : GroupAggregateRow, res[i]? = some line ∧
          List.lookup "__count" vals = some (Value.int line.Count) ∧
          "__count" ∉ line.Values.FieldMap.map Prod.fst :=
  (aggregates_grouped_only extSale saleWorld 0 [⟨"Amt", "amt"⟩] _ _ rfl rfl).2 (by decide)
    saleRows [] saleSelect.w [Stmt.query "SELECT GROUP" []]
    ((saleSelect.w.rcs[0]?).getD default) ((saleSelect.w.queries[0]?).getD default)
    (by decide!) (by decide!) (by decide!)
    (by
      intro row hrow
      simp only [saleRows, List.mem_cons, List.mem_singleton, List.not_mem_nil, or_false]
        at hrow
      rcases hrow with h | h
      · exact ⟨_, 2, h, rfl⟩
      · exact ⟨_, 1, h, rfl⟩)
    (fun _ h => h)

/-! ## fixGroupByOrders -/

/-- A step that sends nothing and returns hands its result and world to the next. -/
theorem bind_quiet {α β : Type} (m : M α) (f : α → M β) (w w1 : World) (a : α)
    (h : m w = ⟨Except.ok a, w1, []⟩) : M.bind m f w = f a w1 := by
  simp only [M.bind, h]
  rfl

theorem copied_query (w : World) (rv : RecordCollection) (qv : Query) :
    (w.copied rv qv).queries[w.queries.length]? = some qv := by
  simp [World.copied]

theorem copied_keeps_rc (w : World) (rv : RecordCollection) (qv : Query) (p : Nat)
    (r : RecordCollection) (h : w.rcs[p]? = some r) : (w.copied rv qv).rcs[p]? = some r :=
  getElem?_append_of_some _ _ _ _ h

theorem copied_keeps_query (w : World) (rv : RecordCollection) (qv : Query)
    (p : Option Nat) (q : Query) (h : p.bind (fun a => w.queries[a]?) = some q) :
    p.bind (fun a => (w.copied rv qv).queries[a]?) = some q := by
  cases p with
  | none => cases h
  | some a => exact getElem?_append_of_some _ _ _ _ h

/-- A narrowing step from the current collection keeps the state of `fixGroupByOrders`,
with the groups and orders of the new query. -/
theorem regrouped_copied (w : World) (rc : Nat) (r : RecordCollection) (q : Query) (p : Nat)
    (G G2 : List FieldName) (rp : RecordCollection) (qv : Query)
    (h : w.regrouped rc r q p G) (hrp : w.rcs[p]? = some rp)
    (hg : qv.groups = G2) (ho : qv.orders = q.orders) :
    (w.copied { rp with query := some w.queries.length } qv).regrouped rc r q w.rcs.length
      G2 := by
  obtain ⟨h1, h3, rp2, qp, g1, g2, _, _, _⟩ := h
  rw [hrp] at g1
  cases g1
  exact ⟨copied_keeps_rc _ _ _ _ _ h1, copied_keeps_query _ _ _ _ _ h3, _, qv,
    copied_rc _ _ _, g2, copied_query _ _ _, hg, ho⟩

/-- The first loop of `fixGroupByOrders`: every order expression that is neither among
`groupFields` nor among the given fields is added to the groups, one `GroupBy` each. -/
theorem fixGroupBy_orders_loop (rc : Nat) (r : RecordCollection) (q : Query)
    (groupFields fieldNames : List FieldName) (orderExprs : List (List FieldName)) :
    ∀ (w : World) (p : Nat) (G : List FieldName), w.regrouped rc r q p G →
      ∃ (w2 : World) (p2 : Nat),
        orderExprs.foldlM (fun (rSet : Nat) o =>
          if (!groupFields.contains (joinFieldNames o) &&
              !fieldNames.contains (joinFieldNames o)) = true then
            GroupBy rSet [joinFieldNames o]
          else M.pure rSet) p w = ⟨Except.ok p2, w2, []⟩ ∧
        w2.regrouped rc r q p2 (G ++ (orderExprs.map joinFieldNames).filter (fun o =>
          !groupFields.contains o && !fieldNames.contains o)) := by
  induction orderExprs with
  | nil =>
    intro w p G h
    exact ⟨w, p, rfl, by simpa using h⟩
  | cons o l ih =>
    intro w p G h
    by_cases hc : (!groupFields.contains (joinFieldNames o) &&
        !fieldNames.contains (joinFieldNames o)) = true
    · obtain ⟨h1, h3, rp, qp, g1, g2, g3, g4, g5⟩ := h
      have hrun : GroupBy p [joinFieldNames o] w
          = ⟨Except.ok w.rcs.length,
              w.copied { rp with query := some w.queries.length }
                { qp with recordSet := w.rcs.length, groups := qp.groups ++ [joinFieldNames o] },
              []⟩ := by
        have := narrow_copy_run w p
          (fun qv => { qv with groups := qv.groups ++ [joinFieldNames o] }) rp qp g1 g3
        simpa [GroupBy] using this
      obtain ⟨w2, p2, hl, hinv⟩ := ih _ _ (G ++ [joinFieldNames o])
        (regrouped_copied w rc r q p G (G ++ [joinFieldNames o]) rp
          { qp with recordSet := w.rcs.length, groups := qp.groups ++ [joinFieldNames o] }
          ⟨h1, h3, rp, qp, g1, g2, g3, g4, g5⟩ g1 (by rw [← g4]) g5)
      refine ⟨w2, p2, ?_, ?_⟩
      · simp only [List.foldlM_cons, bind_run, if_pos hc]
        rw [bind_quiet _ _ _ _ _ hrun]
        exact hl
      · have hf : List.filter (fun o => !groupFields.contains o && !fieldNames.contains o)
            (joinFieldNames o :: l.map joinFieldNames)
            = joinFieldNames o :: List.filter (fun o => !groupFields.contains o &&
                !fieldNames.contains o) (l.map joinFieldNames) :=
          List.filter_cons_of_pos hc
        rw [List.map_cons, hf, ← List.singleton_append, ← List.append_assoc]
        exact hinv
    · obtain ⟨w2, p2, hl, hinv⟩ := ih w p G h
      refine ⟨w2, p2, ?_, ?_⟩
      · simp only [List.foldlM_cons, bind_run, if_neg hc]
        rw [bind_silent _ _ _ _ (show (M.pure p : M Nat) w = _ from rfl)]
        exact hl
      · have hf : List.filter (fun o => !groupFields.contains o && !fieldNames.contains o)
            (joinFieldNames o :: l.map joinFieldNames)
            = List.filter (fun o => !groupFields.contains o && !fieldNames.contains o)
                (l.map joinFieldNames) :=
          List.filter_cons_of_neg hc
        rw [List.map_cons, hf]
        exact hinv

/-- The step of the second loop of `fixGroupByOrders`: a clone of the current collection
whose query has one more context group. -/
theorem ctxGroup_step_run (w : World) (p : Nat) (rp : RecordCollection) (qp : Query)
    (oName : FieldName) (g1 : w.rcs[p]? = some rp)
    (g3 : rp.query.bind (fun a => w.queries[a]?) = some qp) :
    (do
      let c ← clone p
      modifyQuery (← derefRC c).query (fun qv => { qv with ctxGroups := qv.ctxGroups ++ [oName] })
      return c : M Nat) w
      = ⟨Except.ok w.rcs.length,
          w.copied { rp with query := some w.queries.length }
            { qp with recordSet := w.rcs.length, ctxGroups := qp.ctxGroups ++ [oName] }, []⟩ := by
  cases hq : rp.query with
  | none => rw [hq] at g3; cases g3
  | some a =>
    rw [hq] at g3
    have h4 : w.queries[a]? = some qp := g3
    have hrc := lt_length_of_getElem? _ _ _ g1
    simp [clone, M.bind, M.pure, derefRC, allocRC, Query.clone, derefQuery, allocQuery,
      modifyRC, modifyQuery, g1, hq, h4, World.copied, List.getElem?_set,
      List.getElem?_append, hrc, Nat.ne_of_gt hrc]

/-- The second loop of `fixGroupByOrders` adds context groups on clones: the groups and
the orders of the current query are kept. -/
theorem fixGroupBy_ctx_loop (rc : Nat) (r : RecordCollection) (q : Query)
    (ctxGroupFields fieldNames : List FieldName) (ctxOrderExprs : List (List FieldName)) :
    ∀ (w : World) (p : Nat) (G : List FieldName), w.regrouped rc r q p G →
      ∃ (w2 : World) (p2 : Nat),
        ctxOrderExprs.foldlM (fun (rSet : Nat) o => (do
          let oName := joinFieldNames o
          if !ctxGroupFields.contains oName && !fieldNames.contains oName then
            let c ← clone rSet
            modifyQuery (← derefRC c).query
              (fun qv => { qv with ctxGroups := qv.ctxGroups ++ [oName] })
            return c
          else return rSet : M Nat)) p w = ⟨Except.ok p2, w2, []⟩ ∧
        w2.regrouped rc r q p2 G := by
  induction ctxOrderExprs with
  | nil =>
    intro w p G h
    exact ⟨w, p, rfl, h⟩
  | cons o l ih =>
    intro w p G h
    by_cases hc : (!ctxGroupFields.contains (joinFieldNames o) &&
        !fieldNames.contains (joinFieldNames o)) = true
    · obtain ⟨h1, h3, rp, qp, g1, g2, g3, g4, g5⟩ := h
      have hrun := ctxGroup_step_run w p rp qp (joinFieldNames o) g1 g3
      obtain ⟨w2, p2, hl, hinv⟩ := ih _ _ G
        (regrouped_copied w rc r q p G G rp
          { qp with recordSet := w.rcs.length, ctxGroups := qp.ctxGroups ++ [joinFieldNames o] }
          ⟨h1, h3, rp, qp, g1, g2, g3, g4, g5⟩ g1 g4 g5)
      refine ⟨w2, p2, ?_, hinv⟩
      rw [List.foldlM_cons]
      simp only [bind_run, pure_run] at hrun
      simp only [hc, if_true, bind_run, pure_run]
      rw [bind_quiet _ _ _ _ _ hrun]
      exact hl
    · obtain ⟨w2, p2, hl, hinv⟩ := ih w p G h
      refine ⟨w2, p2, ?_, hinv⟩
      rw [List.foldlM_cons]
      simp only [hc, Bool.false_eq_true, if_false, bind_run, pure_run]
      rw [bind_silent _ _ _ _ (show (M.pure p : M Nat) w = _ from rfl)]
      exact hl

/-- The run of `OrderBy` on a collection with a model and a query. -/
theorem orderBy_run (x : Ext) (w : World) (p : Nat) (rp : RecordCollection) (m : Model)
    (qp : Query) (exprs : List String) (g1 : w.rcs[p]? = some rp) (g2 : rp.model = some m)
    (g3 : rp.query.bind (fun a => w.queries[a]?) = some qp) :
    OrderBy x p exprs w
      = ⟨Except.ok w.rcs.length,
          w.copied { rp with query := some w.queries.length }
            { qp with recordSet := w.rcs.length, orders := x.ordersFromStrings m exprs }, []⟩ := by
  cases hq : rp.query with
  | none => rw [hq] at g3; cases g3
  | some a =>
    rw [hq] at g3
    have h4 : w.queries[a]? = some qp := g3
    have hrc := lt_length_of_getElem? _ _ _ g1
    simp [OrderBy, M.bind, M.pure, derefRC, allocRC, Query.clone, derefQuery, allocQuery,
      modifyRC, modifyQuery, derefModel, g1, g2, hq, h4, World.copied, List.getElem?_set,
      List.getElem?_append, hrc, Nat.ne_of_gt hrc]

/-- C22, as the code has it: `fixGroupByOrders` on a collection with a model and a query,
whose order and group expressions are the orders and the groups of its query. It returns,
without sending a statement, a collection whose query has the groups of the receiver
followed by the order-by fields of the receiver that are neither grouped nor among the
given fields. When the receiver has orders, the returned query has the same orders, and
each of its order-by fields is in its group by list or is one of the given fields (one of
the given fields is not added to the groups). When the receiver has no order, the
returned query is ordered by its groups. The struct and the query of the receiver, its
groups included, are as before. -/
theorem fixGroupByOrders_adds_orders (x : Ext) (w : World) (rc : Nat)
    (fieldNames : List FieldName) (r : RecordCollection) (m : Model) (q : Query)
    (h1 : w.rcs[rc]? = some r) (h2 : r.model = some m)
    (h3 : r.query.bind (fun a => w.queries[a]?) = some q)
    (hord : (x.getOrderByExpressions q).map joinFieldNames = q.orders.map (fun o => o.field))
    (hgrp : (x.getGroupByExpressions q).map joinFieldNames = q.groups) :
    ∃ (p : Nat) (w2 : World) (r2 : RecordCollection) (q2 : Query),
      fixGroupByOrders x rc fieldNames w = ⟨Except.ok p, w2, []⟩ ∧
      w2.rcs[p]? = some r2 ∧ r2.query.bind (fun a => w2.queries[a]?) = some q2 ∧
      q2.groups = q.groups ++ (q.orders.map (fun o => o.field)).filter (fun o =>
        !q.groups.contains o && !fieldNames.contains o) ∧
      (q.orders ≠ [] → q2.orders = q.orders ∧
        ∀ o ∈ q2.orders, o.field ∈ q2.groups ∨ o.field ∈ fieldNames) ∧
      (q.orders = [] → q2.orders = x.ordersFromStrings m (q.groups.map (fun g => g.json))) ∧
      w2.rcs[rc]? = some r ∧ r.query.bind (fun a => w2.queries[a]?) = some q := by
  have h0 : w.regrouped rc r q rc q.groups := ⟨h1, h3, r, q, h1, rfl, h3, rfl, rfl⟩
  obtain ⟨wa, pa, hla, hia⟩ := fixGroupBy_orders_loop rc r q
    ((x.getGroupByExpressions q).map joinFieldNames) fieldNames (x.getOrderByExpressions q)
    w rc q.groups h0
  rw [hord, hgrp] at hia
  obtain ⟨wb, pb, hlb, hib⟩ := fixGroupBy_ctx_loop rc r q [] fieldNames
    (x.getCtxOrderByExpressions q) wa pa _ hia
  obtain ⟨k1, k3, rp, qp, g1, g2, g3, g4, g5⟩ := hib
  have hhead : fixGroupByOrders x rc fieldNames w
      = M.bind (derefRC rc) (fun r0 => M.bind (derefQuery r0.query) (fun q0 =>
          if q0.orders.length = 0 then
            M.bind (derefRC pb) (fun rv => M.bind (derefQuery rv.query) (fun qv =>
              OrderBy x pb (qv.groups.map (fun g => g.json))))
          else M.pure pb)) wb := by
    simp only [fixGroupByOrders, bind_run, pure_run]
    rw [bind_silent _ _ _ _ (derefRC_run _ _ _ h1), bind_silent _ _ _ _ (derefQuery_run _ _ _ h3)]
    simp only [bind_run, pure_run] at hlb
    rw [bind_quiet _ _ _ _ _ hla, bind_quiet _ _ _ _ _ hlb]
  rw [hhead, bind_silent _ _ _ _ (derefRC_run _ _ _ k1),
    bind_silent _ _ _ _ (derefQuery_run _ _ _ k3)]
  by_cases ho : q.orders = []
  · have hlen : q.orders.length = 0 := by rw [ho]; rfl
    rw [if_pos hlen, bind_silent _ _ _ _ (derefRC_run _ _ _ g1),
      bind_silent _ _ _ _ (derefQuery_run _ _ _ g3),
      orderBy_run x wb pb rp m qp _ g1 (g2.trans h2) g3]
    have hG : qp.groups = q.groups := by rw [g4, ho]; simp
    refine ⟨_, _, _, _, rfl, copied_rc _ _ _, copied_query _ _ _, ?_, fun h => absurd ho h,
      fun _ => ?_, copied_keeps_rc _ _ _ _ _ k1, copied_keeps_query _ _ _ _ _ k3⟩
    · show qp.groups = _
      rw [hG, ho]
      simp
    · show x.ordersFromStrings m (qp.groups.map (fun g => g.json)) = _
      rw [hG]
  · have hlen : ¬ q.orders.length = 0 := fun h => ho (List.length_eq_zero.mp h)
    rw [if_neg hlen]
    refine ⟨pb, wb, rp, qp, rfl, g1, g3, g4, fun _ => ⟨g5, ?_⟩, fun h => absurd h ho, k1, k3⟩
    intro o hoo
    rw [g5] at hoo
    by_cases hin : o.field ∈ fieldNames
    · exact Or.inr hin
    · left
      rw [g4]
      by_cases hgr : o.field ∈ q.groups
      · exact List.mem_append_left _ hgr
      · refine List.mem_append_right _ (List.mem_filter.mpr ⟨List.mem_map_of_mem _ hoo, ?_⟩)
        simp [hgr, hin]

/-- C22, run on the `Sale` collection of `saleWorld`, grouped by the department and
ordered by the amount, with no field given: the amount is added to the groups of the
returned collection, and the receiver keeps its groups. -/
theorem fixGroupByOrders_adds_orders_witness :
    ∃ (p : Nat) (w2 : World) (r2 : RecordCollection) (q2 : Query),
      fixGroupByOrders extSale 0 [] saleWorld = ⟨Except.ok p, w2, []⟩ ∧
      w2.rcs[p]? = some r2 ∧ r2.query.bind (fun a => w2.queries[a]?) = some q2 ∧
      q2.groups = [⟨"Dept", "dept"⟩, ⟨"Amt", "amt"⟩] ∧
      q2.orders = [⟨⟨"Amt", "amt"⟩, false⟩] ∧
      (w2.queries[0]?).map (fun q => q.groups) = some [⟨"Dept", "dept"⟩] := by
  obtain ⟨p, w2, r2, q2, hrun, hr, hqq, hg, ho, _, _, hq⟩ :=
    fixGroupByOrders_adds_orders extSale saleWorld 0 []
      { model := some saleModel, query := some 0, env := some 0 } saleModel
      { recordSet := 0, groups := [⟨"Dept", "dept"⟩], orders := [⟨⟨"Amt", "amt"⟩, false⟩] }
      rfl rfl rfl (by decide!) (by decide!)
  have hq2 : w2.queries[0]? = some
      { recordSet := 0, groups := [⟨"Dept", "dept"⟩], orders := [⟨⟨"Amt", "amt"⟩, false⟩] } := hq
  exact ⟨p, w2, r2, q2, hrun, hr, hqq, hg.trans (by decide), (ho (by decide)).1,
    by rw [hq2]; rfl⟩

/-- C22 fails as stated: on the `Sale` collection of `saleWorld`, grouped by the
department and ordered by the amount, with the amount among the requested fields,
`fixGroupByOrders` returns the receiver as it is: the order-by field `amt` of its query is
not in its group by list. -/
theorem fixGroupByOrders_requested_order_not_grouped :
    fixGroupByOrders extSale 0 [⟨"Amt", "amt"⟩] saleWorld = ⟨Except.ok 0, saleWorld, []⟩ ∧
    (saleWorld.queries[0]?).map (fun q => (q.groups, q.orders.map (fun o => o.field)))
      = some ([⟨"Dept", "dept"⟩], [⟨"Amt", "amt"⟩]) := by
  decide!

/-! ## First and Set on an empty collection -/

/-- C25 fails on the code: `First` on the new `Partner` collection of `poolWorld`, which
is empty, does not return an empty ModelData. The ModelData made for the empty collection
is dropped, the fields are loaded and read, and the result holds every field of the model
with its zero value (for the tags, a new collection without ids). -/
theorem first_empty_sets_every_field :
    (IsEmpty (knot extTags 2) (some 0) poolWorld).out = Except.ok true ∧
    (First extTags (knot extTags 2) 0 poolWorld).out.toOption.map (fun d => d.FieldMap)
      = some [("id", Value.null), ("name", Value.null), ("age", Value.null),
          ("create_date", Value.null), ("create_uid", Value.null),
          ("write_date", Value.null), ("write_uid", Value.null), ("tags", Value.rs 1)] := by
  decide!

/-- The early return of `update`: on a collection without negative ids for which
`ForceLoad(ID)` gives an empty collection, `update` returns `true` and does nothing
else. -/
theorem update_empty_run (y : Ext) (k : Rec) (rc : Nat) (data : ModelData) (w w1 w2 : World)
    (r : RecordCollection) (loaded : Nat) (ev1 ev2 : List Stmt)
    (h1 : w.rcs[rc]? = some r) (hneg : r.hasNegIds = false)
    (hload : ForceLoad y k rc [ID] w = ⟨Except.ok loaded, w1, ev1⟩)
    (hempty : IsEmpty k (some loaded) w1 = ⟨Except.ok true, w2, ev2⟩) :
    update y k rc data w = ⟨Except.ok true, w2, ev1 ++ ev2⟩ := by
  simp only [update, bind_run, pure_run]
  rw [bind_silent _ _ _ _ (derefRC_run _ _ _ h1)]
  simp only [hneg, Bool.not_false, if_true]
  refine bind_ok_eq _ _ _ _ _ _ _ _ _ hload ?_
  rw [bind_ok _ _ _ _ _ _ hempty]
  simp [M.pure]

/-- Method `Set` makes one call of the method `Write` with the data that sets the field
alone; when `Write` is `update`, the outcome, the world and the statements of `Set` are
those of this one `update` of the whole collection. On a collection without negative ids
for which `ForceLoad(ID)` gives an empty collection, `update` returns at its first test,
so `Set` returns without a panic and does nothing but this load and test: `doUpdate`,
which panics on an empty collection, is not reached. -/
theorem set_writes_through_update (x y : Ext) (k : Rec) (w : World) (rc : Nat)
    (f : FieldName) (v : Value)
    (hW : x.call rc "Write" [Dyn.data (NewModelData.Set f v)] w
      = M.bind (update y k rc (NewModelData.Set f v))
          (fun b => M.pure (Dyn.val (Value.bool b))) w) :
    ((Set x rc f v w).out = (update y k rc (NewModelData.Set f v) w).out.map (fun _ => ()) ∧
      (Set x rc f v w).w = (update y k rc (NewModelData.Set f v) w).w ∧
      (Set x rc f v w).ev = (update y k rc (NewModelData.Set f v) w).ev) ∧
    (∀ (r : RecordCollection) (loaded : Nat) (w1 w2 : World) (ev1 ev2 : List Stmt),
      w.rcs[rc]? = some r → r.hasNegIds = false →
      ForceLoad y k rc [ID] w = ⟨Except.ok loaded, w1, ev1⟩ →
      IsEmpty k (some loaded) w1 = ⟨Except.ok true, w2, ev2⟩ →
      Set x rc f v w = ⟨Except.ok (), w2, ev1 ++ ev2⟩) := by
  have hset : Set x rc f v w
      = M.bind (M.bind (update y k rc (NewModelData.Set f v))
          (fun b => M.pure (Dyn.val (Value.bool b)))) (fun _ => M.pure ()) w := by
    simp only [Set, bind_run, pure_run]
    simp only [M.bind, hW]
  constructor
  · rw [hset]
    simp only [M.bind, M.pure]
    rcases update y k rc (NewModelData.Set f v) w with ⟨o, w1, e1⟩
    cases o with
    | error msg => simp [Except.map]
    | ok b => simp [Except.map]
  · intro r loaded w1 w2 ev1 ev2 h1 hneg hload hempty
    rw [hset]
    simp only [M.bind, M.pure,
      update_empty_run y k rc _ w w1 w2 r loaded ev1 ev2 h1 hneg hload hempty]
    simp

/-- Method `Set` on the stored record 5 of `storedWorld` with `Write` as `update`: `Set` of
the name is the one `update` of the collection, which sends the `SELECT` of its load and
one `UPDATE`. -/
theorem set_writes_through_update_witness :
    ((Set extWrite 0 ⟨"Name", "name"⟩ (Value.str "Bob") storedWorld).out
        = (update extDb (knot extDb 2) 0 (NewModelData.Set ⟨"Name", "name"⟩ (Value.str "Bob"))
            storedWorld).out.map (fun _ => ()) ∧
      (Set extWrite 0 ⟨"Name", "name"⟩ (Value.str "Bob") storedWorld).w
        = (update extDb (knot extDb 2) 0 (NewModelData.Set ⟨"Name", "name"⟩ (Value.str "Bob"))
            storedWorld).w ∧
      (Set extWrite 0 ⟨"Name", "name"⟩ (Value.str "Bob") storedWorld).ev
        = (update extDb (knot extDb 2) 0 (NewModelData.Set ⟨"Name", "name"⟩ (Value.str "Bob"))
            storedWorld).ev) ∧
    (Set extWrite 0 ⟨"Name", "name"⟩ (Value.str "Bob") storedWorld).ev
      = [Stmt.query "SELECT" [],
         Stmt.execute "UPDATE"
           [Value.str "Bob", Value.str "2026-01-01 00:00:00", Value.int 1]] :=
  ⟨(set_writes_through_update extWrite extDb (knot extDb 2) storedWorld 0 ⟨"Name", "name"⟩
    (Value.str "Bob") (by simp only [extWrite, beq_self_eq_true, if_true]; rfl)).1, by decide!⟩

/-- C26: the code at the empty collection. `Set` on the new `Partner` collection of
`poolWorld`, which is empty, with `Write` as `update`, returns without a panic and changes
nothing (its doc comment says that it panics on an empty RecordSet), while `doUpdate` on
the same collection does panic. -/
theorem set_on_empty_does_not_panic :
    (IsEmpty (knot extWrite 2) (some 0) poolWorld).out = Except.ok true ∧
    Set extWrite 0 ⟨"Name", "name"⟩ (Value.str "Bob") poolWorld
      = ⟨Except.ok (), poolWorld, []⟩ ∧
    (doUpdate extDb (knot extDb 2) 0 [("name", Value.str "Bob")] poolWorld).out
      = Except.error "Trying to update an empty RecordSet" := by
  decide!

/-! ## Get and the load of the row -/

/-- Method `get` on a fetched collection of stored records whose first record does not
have the field in the cache, when the load fails: `get` fails with it. -/
theorem get_of_missing_error (x : Ext) (n : Nat) (w w1 : World) (rc : Nat) (f : FieldName)
    (all : Bool) (r : RecordCollection) (m : Model) (q : Query) (e : Environment)
    (c : Cache) (id : Int) (rest : List Int) (msg : String) (ev : List Stmt)
    (h1 : w.rcs[rc]? = some r) (h2 : r.model = some m)
    (h3 : r.query.bind (fun a => w.queries[a]?) = some q)
    (h4 : r.env.bind (fun a => w.envs[a]?) = some e) (h5 : w.caches[e.cache]? = some c)
    (hf : r.fetched = true) (hids : r.ids = id :: rest) (hneg : r.hasNegIds = false)
    (hv : List.lookup ⟨m.name, id, f.json, x.ctxArgsSlug w q⟩ c.data = none)
    (hload : Load x (knot x (n + 1)) rc (if all = true then [f] ++ m.storedFieldNames else [f]) w
      = ⟨Except.error msg, w1, ev⟩) :
    get x (knot x (n + 1)) rc f all w = ⟨Except.error msg, w1, ev⟩ := by
  have hchk : checkIfInCache x rc [id] [f.json] w = ⟨Except.ok false, w, []⟩ := by
    rw [checkIfInCache_run x w rc _ _ r m q e c h1 h2 h3 h4 h5, checkIfInCache_single, hv]
    rfl
  simp only [get, bind_run, pure_run, knot]
  rw [bind_silent _ _ _ _ (fetch_of_fetched x _ w rc r h1 hf),
    bind_silent _ _ _ _ (derefRC_run _ _ _ h1), hids]
  simp only [firstId, pure_bind]
  rw [bind_silent _ _ _ _ hchk]
  simp only [hneg, Bool.not_false, Bool.and_self, if_true, h2]
  simp only [knot] at hload
  rw [bind_assoc_run, bind_silent _ _ _ _ (derefModel_run _ _), bind_assoc_run,
    bind_error _ _ _ _ _ _ hload]

/-- Method `get` on a fetched collection of stored records whose first record does not
have the field in the cache, when the load succeeds and leaves a fetched collection: the
value the cache then holds for the first record (nothing when no record is left), and the
mark of the call to storage. -/
theorem get_of_missing_ok (x : Ext) (n : Nat) (w w1 : World) (rc p : Nat) (f : FieldName)
    (all : Bool) (r r1 : RecordCollection) (m m1 : Model) (q q1 : Query) (e e1 : Environment)
    (c c1 : Cache) (id : Int) (rest : List Int) (ev : List Stmt)
    (h1 : w.rcs[rc]? = some r) (h2 : r.model = some m)
    (h3 : r.query.bind (fun a => w.queries[a]?) = some q)
    (h4 : r.env.bind (fun a => w.envs[a]?) = some e) (h5 : w.caches[e.cache]? = some c)
    (hf : r.fetched = true) (hids : r.ids = id :: rest) (hneg : r.hasNegIds = false)
    (hv : List.lookup ⟨m.name, id, f.json, x.ctxArgsSlug w q⟩ c.data = none)
    (hload : Load x (knot x (n + 1)) rc (if all = true then [f] ++ m.storedFieldNames else [f]) w
      = ⟨Except.ok p, w1, ev⟩)
    (g1 : w1.rcs[rc]? = some r1) (g2 : r1.model = some m1)
    (g3 : r1.query.bind (fun a => w1.queries[a]?) = some q1)
    (g4 : r1.env.bind (fun a => w1.envs[a]?) = some e1) (g5 : w1.caches[e1.cache]? = some c1)
    (gf : r1.fetched = true) :
    get x (knot x (n + 1)) rc f all w
      = ⟨Except.ok ((r1.ids.head?.map
            (fun i => c1.get m1.name i f.json (x.ctxArgsSlug w1 q1))).getD Value.null, true),
          w1, ev⟩ := by
  have hchk : checkIfInCache x rc [id] [f.json] w = ⟨Except.ok false, w, []⟩ := by
    rw [checkIfInCache_run x w rc _ _ r m q e c h1 h2 h3 h4 h5, checkIfInCache_single, hv]
    rfl
  have gq : r1.query.isSome = true := by
    cases hh : r1.query with
    | none => rw [hh] at g3; cases g3
    | some a => rfl
  have ge : r1.env.isSome = true := by
    cases hh : r1.env with
    | none => rw [hh] at g4; cases g4
    | some a => rfl
  have gm : r1.model.isSome = true := by rw [g2]; rfl
  have hie := isEmpty_of_fetched x n w1 rc r1 g1 gf gm gq ge
  simp only [get, bind_run, pure_run, knot]
  rw [bind_silent _ _ _ _ (fetch_of_fetched x _ w rc r h1 hf),
    bind_silent _ _ _ _ (derefRC_run _ _ _ h1), hids]
  simp only [firstId, pure_bind]
  rw [bind_silent _ _ _ _ hchk]
  simp only [hneg, Bool.not_false, Bool.and_self, if_true, h2]
  simp only [knot] at hload hie
  rw [bind_assoc_run, bind_silent _ _ _ _ (derefModel_run _ _), bind_assoc_run]
  have hev : ev = ev ++ [] := by simp
  rw [hev]
  refine bind_ok_eq _ _ _ _ _ _ _ _ _ hload ?_
  simp only [pure_bind, if_true]
  rw [bind_silent _ _ _ _ hie]
  cases hr : r1.ids with
  | nil =>
    simp only [List.length_nil, beq_self_eq_true, if_true, List.head?_nil, Option.map_none',
      Option.getD_none]
    rfl
  | cons i tl =>
    have hl : ((i :: tl).length == 0) = false := rfl
    simp only [hl, Bool.false_eq_true, if_false]
    rw [bind_silent _ _ _ _ (derefRC_run _ _ _ g1), bind_silent _ _ _ _ (derefEnv_run _ _ _ g4),
      bind_silent _ _ _ _ (derefCache_run _ _ _ g5), g2,
      bind_silent _ _ _ _ (derefModel_run _ _), hr]
    simp only [pure_bind]
    rw [bind_silent _ _ _ _ (derefQuery_run _ _ _ g3), bind_silent _ _ _ _ (getW_run _)]
    rfl
/-- Method `Get` of a field that is neither computed without storage nor related, on a
fetched collection of stored records: `get` with `all` set unless the field is a relation
that is not stored, then the zero value for `nil` and the collection of a relation. -/
theorem Get_stored_unfold (x : Ext) (n : Nat) (w : World) (rc : Nat) (f : FieldName)
    (r : RecordCollection) (m : Model) (id : Int) (rest : List Int) (fi : Field)
    (h1 : w.rcs[rc]? = some r) (h2 : r.model = some m)
    (hq : r.query.isSome = true) (he : r.env.isSome = true)
    (hf : r.fetched = true) (hids : r.ids = id :: rest) (hneg : r.hasNegIds = false)
    (hperm : x.checkExecutionPermission w rc "Load" = none)
    (hfi : x.getRelatedFieldInfo m f = Except.ok fi)
    (hcomp : (fi.isComputedField && !fi.isStored) = false)
    (hrel : fi.isRelatedField = false) :
    Get x (knot x (n + 1)) rc f w
      = M.bind (get x (knot x (n + 1)) rc f (!fi.fieldType.IsNonStoredRelationType))
          (fun p =>
            if fi.isRelationField = true then
              M.bind (convertToRecordSet x rc (if p.1 = Value.null then fi.zero else p.1)
                fi.relatedModelName) (fun a => M.pure (Value.rs a))
            else M.pure (if p.1 = Value.null then fi.zero else p.1)) w := by
  have hm : r.model.isSome = true := by rw [h2]; rfl
  have hp : CheckExecutionPermission x rc "Load" w = ⟨Except.ok (), w, []⟩ := by
    simp only [CheckExecutionPermission, hperm]
  have hlen : (r.ids.length == 0) = false := by rw [hids]; rfl
  simp only [Get, bind_run, pure_run]
  rw [bind_silent _ _ _ _ (derefRC_run _ _ _ h1), h2,
    bind_silent _ _ _ _ (derefModel_run _ _), hfi, liftExcept_ok, pure_bind,
    bind_silent _ _ _ _ (isValid_run w rc r h1)]
  simp only [h2, hq, he, Option.isSome_some, Bool.and_self, Bool.not_true, Bool.false_eq_true,
    if_false, pure_bind]
  rw [bind_silent _ _ _ _ hp]
  simp only [knot]
  rw [bind_silent _ _ _ _ (fetch_of_fetched x _ w rc r h1 hf)]
  have hie := isEmpty_of_fetched x n w rc r h1 hf hm hq he
  simp only [knot] at hie
  rw [bind_silent _ _ _ _ hie]
  simp only [hlen, Bool.false_eq_true, if_false, hcomp, hrel]
  simp only [getStored, bind_run, pure_run]
  rw [bind_assoc_run, bind_silent _ _ _ _ (derefRC_run _ _ _ h1)]
  simp only [hneg, Bool.false_and, Bool.false_eq_true, if_false, pure_bind]
  rw [bind_assoc_run]
  simp only [pure_bind]

/-- C24: `Get` of a field that is neither computed without storage nor related, on a
fetched collection of stored records (no negative ids). When the cache holds the field
for the first record, the value is read from the cache: nothing is loaded, the world is
left as it is and no statement is sent (a relation field builds its collection from the
cached value). When the cache does not hold it, the first thing `Get` does is one `Load`
of the field followed by all the stored field names of the model, or of the field alone
when it is a relation that is not stored; a failure of this load is the failure of `Get`,
and after it the value is the one the cache then holds, with no other statement. -/
theorem get_loads_whole_row (x : Ext) (n : Nat) (w : World) (rc : Nat) (f : FieldName)
    (r : RecordCollection) (m : Model) (q : Query) (e : Environment)
    (c : Cache) (id : Int) (rest : List Int) (fi : Field)
    (h1 : w.rcs[rc]? = some r) (h2 : r.model = some m)
    (h3 : r.query.bind (fun a => w.queries[a]?) = some q)
    (h4 : r.env.bind (fun a => w.envs[a]?) = some e) (h5 : w.caches[e.cache]? = some c)
    (hf : r.fetched = true) (hids : r.ids = id :: rest) (hneg : r.hasNegIds = false)
    (hperm : x.checkExecutionPermission w rc "Load" = none)
    (hfi : x.getRelatedFieldInfo m f = Except.ok fi)
    (hcomp : (fi.isComputedField && !fi.isStored) = false)
    (hrel : fi.isRelatedField = false) :
    (∀ v, List.lookup ⟨m.name, id, f.json, x.ctxArgsSlug w q⟩ c.data = some v →
      (fi.isRelationField = false →
        Get x (knot x (n + 1)) rc f w
          = ⟨Except.ok (if v = Value.null then fi.zero else v), w, []⟩) ∧
      (fi.isRelationField = true →
        Get x (knot x (n + 1)) rc f w
          = M.bind (convertToRecordSet x rc (if v = Value.null then fi.zero else v)
              fi.relatedModelName) (fun a => M.pure (Value.rs a)) w)) ∧
    (List.lookup ⟨m.name, id, f.json, x.ctxArgsSlug w q⟩ c.data = none →
      (∀ msg w1 ev,
        Load x (knot x (n + 1)) rc
            (if fi.fieldType.IsNonStoredRelationType = true then [f]
              else [f] ++ m.storedFieldNames) w = ⟨Except.error msg, w1, ev⟩ →
        Get x (knot x (n + 1)) rc f w = ⟨Except.error msg, w1, ev⟩) ∧
      (∀ p w1 ev r1 m1 q1 e1 c1 v,
        Load x (knot x (n + 1)) rc
            (if fi.fieldType.IsNonStoredRelationType = true then [f]
              else [f] ++ m.storedFieldNames) w = ⟨Except.ok p, w1, ev⟩ →
        w1.rcs[rc]? = some r1 → r1.model = some m1 →
        r1.query.bind (fun a => w1.queries[a]?) = some q1 →
        r1.env.bind (fun a => w1.envs[a]?) = some e1 → w1.caches[e1.cache]? = some c1 →
        r1.fetched = true →
        v = (r1.ids.head?.map
          (fun i => c1.get m1.name i f.json (x.ctxArgsSlug w1 q1))).getD Value.null →
        (fi.isRelationField = false →
          Get x (knot x (n + 1)) rc f w
            = ⟨Except.ok (if v = Value.null then fi.zero else v), w1, ev⟩) ∧
        (fi.isRelationField = true →
          Get x (knot x (n + 1)) rc f w
            = ⟨(M.bind (convertToRecordSet x rc (if v = Value.null then fi.zero else v)
                  fi.relatedModelName) (fun a => M.pure (Value.rs a)) w1).out,
                (M.bind (convertToRecordSet x rc (if v = Value.null then fi.zero else v)
                  fi.relatedModelName) (fun a => M.pure (Value.rs a)) w1).w,
                ev ++ (M.bind (convertToRecordSet x rc (if v = Value.null then fi.zero else v)
                  fi.relatedModelName) (fun a => M.pure (Value.rs a)) w1).ev⟩))) := by
  have hq : r.query.isSome = true := by
    cases hh : r.query with
    | none => rw [hh] at h3; cases h3
    | some a => rfl
  have he : r.env.isSome = true := by
    cases hh : r.env with
    | none => rw [hh] at h4; cases h4
    | some a => rfl
  have hun := Get_stored_unfold x n w rc f r m id rest fi h1 h2 hq he hf hids hneg hperm hfi
    hcomp hrel
  have hfields : (if (!fi.fieldType.IsNonStoredRelationType) = true then [f] ++ m.storedFieldNames
      else [f]) = (if fi.fieldType.IsNonStoredRelationType = true then [f]
        else [f] ++ m.storedFieldNames) := by
    cases fi.fieldType.IsNonStoredRelationType <;> rfl
  refine ⟨fun v hv => ?_, fun hv => ⟨fun msg w1 ev hload => ?_,
    fun p w1 ev r1 m1 q1 e1 c1 v hload g1 g2 g3 g4 g5 gf hval => ?_⟩⟩
  · have hg := get_of_cached x n w rc f (!fi.fieldType.IsNonStoredRelationType) r m q e c id
      rest v h1 h2 h3 h4 h5 hf hids hv
    rw [hun, bind_silent _ _ _ _ hg]
    constructor
    · intro hr
      simp only [hr, Bool.false_eq_true, if_false]
      rfl
    · intro hr
      simp only [hr, if_true]
  · rw [← hfields] at hload
    rw [hun, bind_error _ _ _ _ _ _ (get_of_missing_error x n w w1 rc f _ r m q e c id rest msg
      ev h1 h2 h3 h4 h5 hf hids hneg hv hload)]
  · rw [← hfields] at hload
    have hg := get_of_missing_ok x n w w1 rc p f _ r r1 m m1 q q1 e e1 c c1 id rest ev
      h1 h2 h3 h4 h5 hf hids hneg hv hload g1 g2 g3 g4 g5 gf
    rw [← hval] at hg
    rw [hun, bind_ok _ _ _ _ _ _ hg]
    constructor
    · intro hr
      simp only [hr, Bool.false_eq_true, if_false]
      simp [M.pure]
    · intro hr
      simp only [hr, if_true]
/-- C24, run on the stored record 5 of `storedWorld`, whose cache holds `id` and `name`:
`Get` of `Name` reads the cache and sends nothing; `Get` of `Age` sends one `SELECT` of
`age` and the seven stored fields; `Get` of the many2many `Tags` sends the `SELECT` of
`tags` alone (and the read of the link table that the load of this field makes). -/
theorem get_loads_whole_row_witness :
    Get extCols (knot extCols 2) 0 ⟨"Name", "name"⟩ storedWorld
        = ⟨Except.ok (Value.str "Ada"), storedWorld, []⟩ ∧
      (Get extCols (knot extCols 2) 0 ⟨"Age", "age"⟩ storedWorld
          = ⟨Except.ok (Value.int 36), ageLoad.w, ageLoad.ev⟩ ∧
        ageLoad.ev = [Stmt.query "SELECT" [Value.str "age", Value.str "id", Value.str "name",
          Value.str "age", Value.str "create_date", Value.str "create_uid",
          Value.str "write_date", Value.str "write_uid"]]) ∧
      ((Get extCols (knot extCols 2) 0 ⟨"Tags", "tags"⟩ storedWorld).out
          = Except.ok (Value.rs 2) ∧
        (Get extCols (knot extCols 2) 0 ⟨"Tags", "tags"⟩ storedWorld).ev
          = [Stmt.query "SELECT" [Value.str "tags"],
              Stmt.select "SELECT tag_id FROM partner_tag_rel WHERE partner_id = ?"
                [Value.int 5]]) :=
  ⟨((get_loads_whole_row extCols 1 storedWorld 0 ⟨"Name", "name"⟩ _ partnerModel _ _ _ 5 []
        { name := "Name", json := "name", constraint := "checkName" }
        rfl rfl rfl rfl rfl rfl rfl rfl rfl rfl rfl rfl).1 (Value.str "Ada") rfl).1 rfl,
    ⟨(((get_loads_whole_row extCols 1 storedWorld 0 ⟨"Age", "age"⟩ _ partnerModel _ _ _ 5 []
        { name := "Age", json := "age", fieldType := FieldType.Integer }
        rfl rfl rfl rfl rfl rfl rfl rfl rfl rfl rfl rfl).2 rfl).2 0 ageLoad.w ageLoad.ev
        { model := some partnerModel, query := some 0, env := some 0, ids := [5],
          fetched := true }
        partnerModel
        { recordSet := 0, cond := Condition.pred "id" "in" (Value.ids [5]) }
        { uid := 1, cache := 0 }
        { data := [(⟨"Partner", 5, "id", ""⟩, Value.int 5),
                   (⟨"Partner", 5, "age", ""⟩, Value.int 36),
                   (⟨"Partner", 5, "name", ""⟩, Value.str "Ada")] }
        (Value.int 36) (run_of_out ageLoad 0 (by decide!)) (by decide!) rfl (by decide!)
        (by decide!) (by decide!) rfl (by decide!)).1 rfl,
      by decide!⟩,
    by
      have h := (((get_loads_whole_row extCols 1 storedWorld 0 ⟨"Tags", "tags"⟩ _ partnerModel
        _ _ _ 5 [] tagsField rfl rfl rfl rfl rfl rfl rfl rfl rfl rfl rfl rfl).2 rfl).2 0
        tagsLoad.w tagsLoad.ev
        { model := some partnerModel, query := some 0, env := some 0, ids := [5],
          fetched := true }
        partnerModel
        { recordSet := 0, cond := Condition.pred "id" "in" (Value.ids [5]) }
        { uid := 1, cache := 0 }
        { data := [(⟨"Partner", 5, "tags", ""⟩, Value.ids []),
                   (⟨"Partner", 5, "id", ""⟩, Value.int 5),
                   (⟨"Partner", 5, "age", ""⟩, Value.int 36),
                   (⟨"Partner", 5, "name", ""⟩, Value.str "Ada")] }
        (Value.ids []) (run_of_out tagsLoad 0 (by decide!)) (by decide!) rfl (by decide!)
        (by decide!) (by decide!) rfl (by decide!)).2 rfl
      rw [h]
      exact ⟨by decide!, by decide!⟩⟩

/-! ## The order of the steps of create and update -/

theorem rethrow_ok_inv {α : Type} (f : World → String → String) (m : M α) (w w1 : World)
    (a : α) (e1 : List Stmt) (h : rethrow f m w = ⟨Except.ok a, w1, e1⟩) :
    m w = ⟨Except.ok a, w1, e1⟩ := by
  simp only [rethrow] at h
  rcases hm : m w with ⟨o, w2, e2⟩
  rw [hm] at h
  cases o with
  | error msg => simp at h
  | ok b => exact h

theorem derefRC_bind_inv {β : Type} (p : Nat) (f : RecordCollection → M β) (w w2 : World)
    (b : β) (ev : List Stmt) (h : M.bind (derefRC p) f w = ⟨Except.ok b, w2, ev⟩) :
    ∃ r, w.rcs[p]? = some r ∧ f r w = ⟨Except.ok b, w2, ev⟩ := by
  cases hr : w.rcs[p]? with
  | none =>
    rw [bind_error _ _ w w "nil pointer dereference" [] (by simp only [derefRC, hr])] at h
    simp at h
  | some r =>
    rw [bind_silent _ _ _ _ (derefRC_run _ _ _ hr)] at h
    exact ⟨r, rfl, h⟩

theorem derefQuery_bind_inv {β : Type} (p : Option Nat) (f : Query → M β) (w w2 : World)
    (b : β) (ev : List Stmt) (h : M.bind (derefQuery p) f w = ⟨Except.ok b, w2, ev⟩) :
    ∃ q, p.bind (fun a => w.queries[a]?) = some q ∧ f q w = ⟨Except.ok b, w2, ev⟩ := by
  cases hr : p.bind (fun a => w.queries[a]?) with
  | none =>
    rw [bind_error _ _ w w "nil pointer dereference" [] (by simp only [derefQuery, hr])] at h
    simp at h
  | some r =>
    rw [bind_silent _ _ _ _ (derefQuery_run _ _ _ hr)] at h
    exact ⟨r, rfl, h⟩

theorem derefEnv_bind_inv {β : Type} (p : Option Nat) (f : Environment → M β) (w w2 : World)
    (b : β) (ev : List Stmt) (h : M.bind (derefEnv p) f w = ⟨Except.ok b, w2, ev⟩) :
    ∃ e, p.bind (fun a => w.envs[a]?) = some e ∧ f e w = ⟨Except.ok b, w2, ev⟩ := by
  cases hr : p.bind (fun a => w.envs[a]?) with
  | none =>
    rw [bind_error _ _ w w "nil pointer dereference" [] (by simp only [derefEnv, hr])] at h
    simp at h
  | some r =>
    rw [bind_silent _ _ _ _ (derefEnv_run _ _ _ hr)] at h
    exact ⟨r, rfl, h⟩

theorem derefModel_bind_inv {β : Type} (p : Option Model) (f : Model → M β) (w w2 : World)
    (b : β) (ev : List Stmt) (h : M.bind (derefModel p) f w = ⟨Except.ok b, w2, ev⟩) :
    ∃ m, p = some m ∧ f m w = ⟨Except.ok b, w2, ev⟩ := by
  cases p with
  | none =>
    rw [bind_error _ _ w w "nil pointer dereference" [] rfl] at h
    simp at h
  | some m =>
    rw [bind_silent _ _ _ _ (derefModel_run _ _)] at h
    exact ⟨m, rfl, h⟩

theorem modifyCache_bind_inv {β : Type} (p : Nat) (g : Cache → Cache) (f : Unit → M β)
    (w w2 : World) (b : β) (ev : List Stmt)
    (h : M.bind (modifyCache p g) f w = ⟨Except.ok b, w2, ev⟩) :
    ∃ wc, modifyCache p g w = ⟨Except.ok (), wc, []⟩ ∧ f () wc = ⟨Except.ok b, w2, ev⟩ := by
  obtain ⟨a, w1, e1, e2, h1, h2, h3⟩ := bind_ok_inv _ _ _ _ _ _ h
  have he : e1 = [] := by
    have := silent_modifyCache p g w
    rw [h1] at this
    exact this
  subst he
  exact ⟨w1, h1, by rw [h3]; exact h2⟩

/-- Every successful run of the second part of `create` is the `INSERT` sent through
`cr.Get`, then the record added to the cache, then `withIds` on the new id. -/
theorem createStore_inv (x : Ext) (rc : Nat) (stored : FieldMap) (w w2 : World)
    (p : Nat) (ev : List Stmt) (h : createStore x rc stored w = ⟨Except.ok p, w2, ev⟩) :
    ∃ r q env m id wi ei q1 wc ew, w.rcs[rc]? = some r ∧
      r.query.bind (fun a => w.queries[a]?) = some q ∧
      r.env.bind (fun a => w.envs[a]?) = some env ∧ r.model = some m ∧
      crGet x (x.insertQuery w q stored).1 (x.insertQuery w q stored).2 w
        = ⟨Except.ok id, wi, ei⟩ ∧
      r.query.bind (fun a => wi.queries[a]?) = some q1 ∧
      modifyCache env.cache (fun c => c.addRecord m.name id stored (x.ctxArgsSlug wi q1)) wi
        = ⟨Except.ok (), wc, []⟩ ∧
      withIds x rc [id] wc = ⟨Except.ok p, w2, ew⟩ ∧ ev = ei ++ ew := by
  simp only [createStore, bind_run] at h
  obtain ⟨r, hr, h⟩ := derefRC_bind_inv _ _ _ _ _ _ h
  obtain ⟨q, hq, h⟩ := derefQuery_bind_inv _ _ _ _ _ _ h
  rw [bind_silent _ _ _ _ (getW_run _)] at h
  obtain ⟨env, he, h⟩ := derefEnv_bind_inv _ _ _ _ _ _ h
  obtain ⟨id, wi, ei, e2, hget, h, hev⟩ := bind_ok_inv _ _ _ _ _ _ h
  obtain ⟨m, hm, h⟩ := derefModel_bind_inv _ _ _ _ _ _ h
  obtain ⟨q1, hq1, h⟩ := derefQuery_bind_inv _ _ _ _ _ _ h
  rw [bind_silent _ _ _ _ (getW_run _)] at h
  obtain ⟨wc, hc, h⟩ := modifyCache_bind_inv _ _ _ _ _ _ _ h
  exact ⟨r, q, env, m, id, wi, ei, q1, wc, e2, hr, hq, he, hm, hget, hq1, hc, h, hev⟩
/-- Every successful run of the third part of `create` is a run of each of its steps
in turn. -/
theorem createSync_inv (x : Ext) (k : Rec) (rSet : Nat) (fMap : FieldMap) (data : ModelData)
    (w w6 : World) (ev : List Stmt)
    (h : createSync x k rSet fMap data w = ⟨Except.ok (), w6, ev⟩) :
    ∃ w2 w3 w4 w5 e2 e3 e4 e5 e6 r5 rm,
      updateRelationFields x k rSet fMap w = ⟨Except.ok (), w2, e2⟩ ∧
      updateRelatedFields x k rSet fMap w2 = ⟨Except.ok (), w3, e3⟩ ∧
      createReverseRelationRecords x rSet data w3 = ⟨Except.ok (), w4, e4⟩ ∧
      x.processInverseMethods rSet data w4 = ⟨Except.ok (), w5, e5⟩ ∧
      w5.rcs[rSet]? = some r5 ∧ r5.model = some rm ∧
      x.processTriggers rSet (fMap.FieldNames rm) w5 = ⟨Except.ok (), w6, e6⟩ ∧
      ev = e2 ++ (e3 ++ (e4 ++ (e5 ++ e6))) := by
  simp only [createSync, bind_run] at h
  obtain ⟨_, w2, e2, ev2, h2, h, hev2⟩ := bind_ok_inv _ _ _ _ _ _ h
  obtain ⟨_, w3, e3, ev3, h3, h, hev3⟩ := bind_ok_inv _ _ _ _ _ _ h
  obtain ⟨_, w4, e4, ev4, h4, h, hev4⟩ := bind_ok_inv _ _ _ _ _ _ h
  obtain ⟨_, w5, e5, ev5, h5, h, hev5⟩ := bind_ok_inv _ _ _ _ _ _ h
  obtain ⟨r5, hr5, h⟩ := derefRC_bind_inv _ _ _ _ _ _ h
  obtain ⟨rm, hrm, h⟩ := derefModel_bind_inv _ _ _ _ _ _ h
  exact ⟨w2, w3, w4, w5, e2, e3, e4, e5, ev5, r5, rm, h2, h3, h4, h5, hr5, hrm, h,
    by rw [hev2, hev3, hev4, hev5]⟩

/-- Every successful run of `create` is the chain of its steps. -/
theorem create_inv (x : Ext) (k : Rec) (rc : Nat) (data : ModelData) (w w9 : World)
    (ev : List Stmt) (p : Nat) (h : create x k rc data w = ⟨Except.ok p, w9, ev⟩) :
    createSteps x k rc data w w9 ev p := by
  have h := rethrow_ok_inv _ _ _ _ _ _ h
  simp only [bind_run, pure_run] at h
  obtain ⟨⟨fMap, stored, data2⟩, w0, e0, ev0, hprep, h, hev0⟩ := bind_ok_inv _ _ _ _ _ _ h
  simp only at h
  obtain ⟨rSet, w1, e1, ev1, hstore, h, hev1⟩ := bind_ok_inv _ _ _ _ _ _ h
  obtain ⟨_, w6, es, evs, hsync, h, hevs⟩ := bind_ok_inv _ _ _ _ _ _ h
  obtain ⟨r6, hr6, h⟩ := derefRC_bind_inv _ _ _ _ _ _ h
  obtain ⟨rm2, hrm2, h⟩ := derefModel_bind_inv _ _ _ _ _ _ h
  obtain ⟨_, w7, e7, ev7, hchk, h, hev7⟩ := bind_ok_inv _ _ _ _ _ _ h
  simp only [M.pure, Res.mk.injEq, Except.ok.injEq] at h
  obtain ⟨hp, hw, he⟩ := h
  subst hp hw he
  obtain ⟨r, q, env, m, id, wi, ei, q1, wc, ew, g1, g2, g3, g4, g5, g6, g7, g8, g9⟩ :=
    createStore_inv x rc stored w0 w1 rSet e1 hstore
  obtain ⟨w2, w3, w4, w5, e2, e3, e4, e5, e6, r5, rm, s1, s2, s3, s4, s5, s6, s7, s8⟩ :=
    createSync_inv x k rSet fMap data2 w1 w6 es hsync
  refine ⟨fMap, stored, data2, r, r5, r6, q, q1, env, m, rm, rm2, id, w0, wi, wc, w1, w2, w3,
    w4, w5, w6, e0, ei, ew, e2, e3, e4, e5, e6, e7, hprep, g1, g2, g3, g4, g5, g6, g7, g8,
    s1, s2, s3, s4, s5, s6, s7, hr6, hrm2, hchk, ?_⟩
  rw [hev0, hev1, hevs, hev7, g9, s8]
  simp
/-- The steps of `update` after its first test are the preparation followed by `doUpdate`
and the steps after it. -/
theorem update_rest_eq (x : Ext) (k : Rec) (rc : Nat) (data : ModelData) :
    (do
      let env ← Env rc
      let rSet ← x.addRecordRuleConditions rc env.uid "write"
      let data ← createFKRelationRecords x rc data
      let fMap := data.FieldMap
      let fMap ← addAccessFieldsUpdateData x rSet fMap
      let _ ← applyContexts rSet
      let fMap ← addContextsFieldsValues x rSet fMap
      x.processInverseMethods rSet data
      let rm ← derefModel (← derefRC rSet).model
      let fMap ← x.convertValuesToFieldType rm fMap true
      let fMap := fMap.RemovePK
      let storedFieldMap ← filterMapOnStoredFields rSet (x.rangeOrder fMap)
      doUpdate x k rSet storedFieldMap
      let _ ← Fetch x k rSet
      updateRelationFields x k rSet fMap
      updateRelatedFields x k rSet fMap
      createReverseRelationRecords x rSet data
      let rm ← derefModel (← derefRC rSet).model
      x.processTriggers rSet (fMap.FieldNames rm)
      CheckConstraints x k rSet (data.FieldMap.FieldNames rm)
      return true : M Bool)
    = M.bind (updatePrepare x rc data) (fun t => do
      doUpdate x k t.1 t.2.2.1
      let _ ← Fetch x k t.1
      updateRelationFields x k t.1 t.2.1
      updateRelatedFields x k t.1 t.2.1
      createReverseRelationRecords x t.1 t.2.2.2
      let rm ← derefModel (← derefRC t.1).model
      x.processTriggers t.1 (t.2.1.FieldNames rm)
      CheckConstraints x k t.1 (t.2.2.2.FieldMap.FieldNames rm)
      return true) := by
  simp only [updatePrepare, bind_run, pure_run, bind_assoc_run, pure_bind]

/-- Every successful run of the steps of `update` after its first test is the chain of
these steps, and gives `true`. -/
theorem update_rest_inv (x : Ext) (k : Rec) (rc : Nat) (data : ModelData) (w w9 : World)
    (ev : List Stmt) (b : Bool)
    (h : M.bind (updatePrepare x rc data) (fun t => do
      doUpdate x k t.1 t.2.2.1
      let _ ← Fetch x k t.1
      updateRelationFields x k t.1 t.2.1
      updateRelatedFields x k t.1 t.2.1
      createReverseRelationRecords x t.1 t.2.2.2
      let rm ← derefModel (← derefRC t.1).model
      x.processTriggers t.1 (t.2.1.FieldNames rm)
      CheckConstraints x k t.1 (t.2.2.2.FieldMap.FieldNames rm)
      return true) w = ⟨Except.ok b, w9, ev⟩) :
    b = true ∧ updateSteps x k rc data w w9 ev := by
  obtain ⟨⟨rSet, fMap, stored, data2⟩, wa, ea, eva, hprep, h, heva⟩ := bind_ok_inv _ _ _ _ _ _ h
  simp only [bind_run, pure_run] at h
  obtain ⟨_, wb, eb, evb, hupd, h, hevb⟩ := bind_ok_inv _ _ _ _ _ _ h
  obtain ⟨p, wc, ec, evc, hfetch, h, hevc⟩ := bind_ok_inv _ _ _ _ _ _ h
  obtain ⟨_, w2, e2, ev2, h2, h, hev2⟩ := bind_ok_inv _ _ _ _ _ _ h
  obtain ⟨_, w3, e3, ev3, h3, h, hev3⟩ := bind_ok_inv _ _ _ _ _ _ h
  obtain ⟨_, w4, e4, ev4, h4, h, hev4⟩ := bind_ok_inv _ _ _ _ _ _ h
  obtain ⟨r4, hr4, h⟩ := derefRC_bind_inv _ _ _ _ _ _ h
  obtain ⟨rm, hrm, h⟩ := derefModel_bind_inv _ _ _ _ _ _ h
  obtain ⟨_, w6, e6, ev6, h6, h, hev6⟩ := bind_ok_inv _ _ _ _ _ _ h
  obtain ⟨_, w7, e7, ev7, h7, h, hev7⟩ := bind_ok_inv _ _ _ _ _ _ h
  simp only [M.pure, Res.mk.injEq, Except.ok.injEq] at h
  obtain ⟨hb, hw, he⟩ := h
  subst hw he
  refine ⟨hb.symm, rSet, p, fMap, stored, data2, r4, rm, wa, wb, wc, w2, w3, w4, w6, ea, eb,
    ec, e2, e3, e4, e6, e7, hprep, hupd, hfetch, h2, h3, h4, hr4, hrm, h6, h7, ?_⟩
  rw [heva, hevb, hevc, hev2, hev3, hev4, hev6, hev7]
  simp

/-- Every successful run of `update` gives `true` and is either its early return, on a
collection without negative ids for which `ForceLoad(ID)` gives an empty collection, or
the chain of its steps (after this load and test when the collection has no negative
id). -/
theorem update_inv (x : Ext) (k : Rec) (rc : Nat) (data : ModelData) (w w9 : World)
    (ev : List Stmt) (b : Bool) (h : update x k rc data w = ⟨Except.ok b, w9, ev⟩) :
    b = true ∧ updateRun x k rc data w w9 ev := by
  unfold update at h
  rw [bind_run] at h
  obtain ⟨r, hr, h⟩ := derefRC_bind_inv _ _ _ _ _ _ h
  cases hneg : r.hasNegIds with
  | true =>
    simp only [hneg, Bool.not_true, Bool.false_eq_true, if_false] at h
    rw [update_rest_eq] at h
    obtain ⟨hb, hs⟩ := update_rest_inv x k rc data w w9 ev b h
    exact ⟨hb, r, hr, Or.inl ⟨hneg, hs⟩⟩
  | false =>
    simp only [hneg, Bool.not_false, if_true] at h
    rw [bind_run] at h
    obtain ⟨loaded, w1, e1, ev1, hload, h, hev1⟩ := bind_ok_inv _ _ _ _ _ _ h
    rw [bind_run] at h
    obtain ⟨e, ws, e2, ev2, hemp, h, hev2⟩ := bind_ok_inv _ _ _ _ _ _ h
    cases e with
    | true =>
      simp only [if_true, pure_run, M.pure, Res.mk.injEq, Except.ok.injEq] at h
      obtain ⟨hb, hw, he⟩ := h
      subst hw he
      refine ⟨hb.symm, r, hr, Or.inr ⟨hneg, loaded, w1, e1, e2, hload, Or.inl ⟨hemp, ?_⟩⟩⟩
      rw [hev1, hev2]
      simp
    | false =>
      simp only [Bool.false_eq_true, if_false] at h
      rw [update_rest_eq] at h
      obtain ⟨hb, hs⟩ := update_rest_inv x k rc data ws w9 ev2 b h
      refine ⟨hb, r, hr, Or.inr ⟨hneg, loaded, w1, e1, e2, hload, Or.inr ⟨ws, ev2, hemp, hs, ?_⟩⟩⟩
      rw [hev1, hev2]
/-- C27: every successful run of `create` is the chain of its steps in this order: the
preparation, the `INSERT`, then the new row added to the cache, `withIds`,
`updateRelationFields`, `updateRelatedFields`, `createReverseRelationRecords`, the inverse
methods, the triggers and last the constraint checks, each step run in the world the one
before it left and the statements sent being those of the steps in this order. Every
successful run of `update` that goes past its first test is the chain of its preparation,
`doUpdate`, `Fetch`, then `updateRelationFields`, `updateRelatedFields`,
`createReverseRelationRecords`, the triggers and last the constraint checks: the same
relative order. -/
theorem create_update_steps_in_order (x : Ext) (k : Rec) (rc : Nat) (data : ModelData)
    (w w9 : World) (ev : List Stmt) :
    (∀ p, create x k rc data w = ⟨Except.ok p, w9, ev⟩ →
      createSteps x k rc data w w9 ev p) ∧
    (∀ b, update x k rc data w = ⟨Except.ok b, w9, ev⟩ →
      b = true ∧ updateRun x k rc data w w9 ev) :=
  ⟨fun p h => create_inv x k rc data w w9 ev p h,
    fun b h => update_inv x k rc data w w9 ev b h⟩

/-- C27, run with collaborators that leave a trace: the create of a partner with a name
and a tag in `poolWorld`, and the update of the stored record 5 of `storedWorld` with the
same data, are the chains of their steps, and the statements show the order: the links
of the tag after the `INSERT` (or the `UPDATE`), then the triggers, then the constraint. -/
theorem create_update_steps_in_order_witness :
    (createSteps extSteps (knot extSteps 2) 0 tracedData poolWorld tracedCreate.w
        tracedCreate.ev 0 ∧
      tracedCreate.ev =
        [Stmt.get "INSERT" [Value.int 18, Value.str "Ada", Value.str "2026-01-01 00:00:00",
            Value.int 1],
          Stmt.execute "DELETE FROM partner_tag_rel WHERE partner_id IN (?)" [Value.ids [1]],
          Stmt.execute "INSERT INTO partner_tag_rel (partner_id, tag_id) VALUES (?, ?)"
            [Value.int 1, Value.int 2],
          Stmt.execute "inverse methods" [], Stmt.execute "triggers" [],
          Stmt.execute "constraint checkName" []]) ∧
    (updateRun extSteps (knot extSteps 2) 0 tracedData storedWorld tracedUpdate.w
        tracedUpdate.ev ∧
      tracedUpdate.ev =
        [Stmt.query "SELECT" [], Stmt.execute "inverse methods" [],
          Stmt.execute "UPDATE" [Value.str "Ada", Value.str "2026-01-01 00:00:00", Value.int 1],
          Stmt.execute "DELETE FROM partner_tag_rel WHERE partner_id IN (?)" [Value.ids [5]],
          Stmt.execute "INSERT INTO partner_tag_rel (partner_id, tag_id) VALUES (?, ?)"
            [Value.int 5, Value.int 2],
          Stmt.execute "triggers" [], Stmt.execute "constraint checkName" []]) :=
  ⟨⟨(create_update_steps_in_order extSteps (knot extSteps 2) 0 tracedData poolWorld
      tracedCreate.w tracedCreate.ev).1 0 (run_of_out tracedCreate 0 (by decide!)),
      by decide!⟩,
    ⟨((create_update_steps_in_order extSteps (knot extSteps 2) 0 tracedData storedWorld
      tracedUpdate.w tracedUpdate.ev).2 true (run_of_out tracedUpdate true (by decide!))).2,
      by decide!⟩⟩

/-- The decrement of the counter wraps at the least `int64`: `new` then mints the greatest
`int64`, a positive id, and the negative-id flag of the collection stays unset. -/
theorem new_wraps_at_least_int64 :
    ((new extPlain (knot extPlain 1) 0 adaData lastIdWorld).w.rcs[0]?).map
        (fun r => (r.ids, r.hasNegIds)) = some ([9223372036854775807], false) := by
  decide!

/-! ## The one2many synchronization -/

theorem keysIn_refl (c : Cache) : c.keysIn c := fun _ h => h

theorem keysIn_trans (c c1 c2 : Cache) (h1 : c.keysIn c1) (h2 : c1.keysIn c2) : c.keysIn c2 :=
  fun key h => h2 key (h1 key h)

theorem keysIn_updateEntry (c : Cache) (model : String) (id : Int) (field : String)
    (v : Value) (slug : String) : c.keysIn (c.updateEntry model id field v slug) := by
  intro key h
  by_cases hk : key = ⟨model, id, field, slug⟩
  · subst hk
    exact cache_has_updateEntry_same c model id field v slug
  · have hb : (key == (⟨model, id, field, slug⟩ : CacheKey)) = false := by
      rw [beq_eq_false_iff_ne]; exact hk
    simp only [Cache.updateEntry, List.lookup_cons, hb]
    rw [lookup_filter_other _ _ _ hk]
    exact h

theorem keysIn_addRecord (model : String) (id : Int) (slug : String) (row : FieldMap) :
    ∀ c : Cache, c.keysIn (c.addRecord model id row slug) := by
  induction row with
  | nil => intro c; exact keysIn_refl c
  | cons a row ih =>
    intro c
    have hstep : Cache.addRecord c model id (a :: row) slug
        = Cache.addRecord (c.updateEntry model id a.1 a.2 slug) model id row slug := by
      simp [Cache.addRecord]
    rw [hstep]
    exact keysIn_trans _ _ _ (keysIn_updateEntry c model id a.1 a.2 slug) (ih _)

/-- After `addRecord` of a row, the cache holds every key of the row under the record's
id. -/
theorem addRecord_has_key (model : String) (id : Int) (slug : String) (row : FieldMap) :
    ∀ (c : Cache) (field : String), (List.lookup field row).isSome = true →
      (List.lookup ⟨model, id, field, slug⟩ (c.addRecord model id row slug).data).isSome
        = true := by
  induction row with
  | nil => intro c field h; simp [List.lookup] at h
  | cons a row ih =>
    intro c field h
    obtain ⟨a1, a2⟩ := a
    have hstep : Cache.addRecord c model id ((a1, a2) :: row) slug
        = Cache.addRecord (c.updateEntry model id a1 a2 slug) model id row slug := by
      simp [Cache.addRecord]
    rw [hstep]
    by_cases hk : field = a1
    · subst hk
      exact keysIn_addRecord model id slug row _ _
        (cache_has_updateEntry_same c model id field a2 slug)
    · have hb : (field == a1) = false := by rw [beq_eq_false_iff_ne]; exact hk
      simp only [List.lookup_cons, hb] at h
      exact ih _ field h

theorem keepsKeys_refl (w : World) : w.keepsKeys w :=
  fun _ c h => ⟨c, h, keysIn_refl c⟩

theorem keepsKeys_trans (w w1 w2 : World) (h1 : w.keepsKeys w1) (h2 : w1.keepsKeys w2) :
    w.keepsKeys w2 := by
  intro p c hc
  obtain ⟨c1, hc1, k1⟩ := h1 p c hc
  obtain ⟨c2, hc2, k2⟩ := h2 p c1 hc1
  exact ⟨c2, hc2, keysIn_trans _ _ _ k1 k2⟩

theorem keepsKeys_of_caches_eq (w w2 : World) (h : w2.caches = w.caches) : w.keepsKeys w2 := by
  intro p c hc
  exact ⟨c, by rw [h]; exact hc, keysIn_refl c⟩

theorem keepsKeys_withCache (w : World) (p : Nat) (c c2 : Cache) (hc : w.caches[p]? = some c)
    (hk : c.keysIn c2) : w.keepsKeys (w.withCache p c2) := by
  intro p0 c0 h0
  have hlt := lt_length_of_getElem? _ _ _ hc
  by_cases hp : p = p0
  · subst hp
    rw [hc] at h0
    cases h0
    exact ⟨c2, by simp [World.withCache, List.getElem?_set, hlt], hk⟩
  · refine ⟨c0, ?_, keysIn_refl c0⟩
    simp only [World.withCache]
    rw [List.getElem?_set_ne hp]
    exact h0

theorem growsCache_of_keeps {α : Type} (m : M α) (h : M.keeps (fun w => w.caches) m) :
    M.growsCache m :=
  fun w => keepsKeys_of_caches_eq w _ (h w)

theorem growsCache_bind {α β : Type} (m : M α) (f : α → M β) (hm : M.growsCache m)
    (hf : ∀ a, M.growsCache (f a)) : M.growsCache (M.bind m f) := by
  intro w
  unfold M.bind
  have h1 := hm w
  rcases hmw : m w with ⟨o, w1, e1⟩
  rw [hmw] at h1
  cases o with
  | error msg => exact h1
  | ok a => exact keepsKeys_trans _ _ _ h1 (hf a w1)

theorem growsCache_forEach {α : Type} (l : List α) (f : α → M Unit)
    (hf : ∀ a, M.growsCache (f a)) : M.growsCache (forEach l f) := by
  induction l with
  | nil => exact growsCache_of_keeps _ (keeps_pure _ ())
  | cons a l ih => exact growsCache_bind _ _ (hf a) (fun _ => ih)

theorem growsCache_forMap {α β : Type} (l : List α) (f : α → M β)
    (hf : ∀ a, M.growsCache (f a)) : M.growsCache (forMap l f) := by
  induction l with
  | nil => exact growsCache_of_keeps _ (keeps_pure _ _)
  | cons a l ih =>
    exact growsCache_bind _ _ (hf a) (fun _ =>
      growsCache_bind _ _ ih (fun _ => growsCache_of_keeps _ (keeps_pure _ _)))

theorem growsCache_modifyCache (p : Nat) (f : Cache → Cache) (hf : ∀ c : Cache, c.keysIn (f c)) :
    M.growsCache (modifyCache p f) := by
  intro w
  unfold modifyCache
  cases hc : w.caches[p]? with
  | none => exact keepsKeys_refl w
  | some c => exact keepsKeys_withCache w p c (f c) hc (hf c)

theorem growsCache_withIds (x : Ext) (rc : Nat) (ids : List Int) :
    M.growsCache (withIds x rc ids) := by
  unfold withIds
  rcases withIdsLoop ids (fun _ => false) [] false with ⟨newIds, neg⟩
  simp only [bind_run, pure_run]
  refine growsCache_bind _ _ (growsCache_of_keeps _ (keeps_modifyRC _ _ _ (fun _ _ => rfl)))
    (fun _ => ?_)
  by_cases hpos : newIds.length > 0
  · simp only [hpos, if_true]
    refine growsCache_bind _ _ (growsCache_of_keeps _ (keeps_modifyRC _ _ _ (fun _ _ => rfl)))
      (fun _ => ?_)
    refine growsCache_bind _ _ (growsCache_forEach _ _ (fun id => ?_)) (fun _ => ?_)
    · refine growsCache_bind _ _ (growsCache_of_keeps _ (keeps_derefRC _ _)) (fun r => ?_)
      refine growsCache_bind _ _ (growsCache_of_keeps _ (keeps_derefEnv _ _)) (fun env => ?_)
      refine growsCache_bind _ _ (growsCache_of_keeps _ (keeps_derefQuery _ _)) (fun q => ?_)
      refine growsCache_bind _ _ (growsCache_of_keeps _ (keeps_getW _)) (fun w => ?_)
      refine growsCache_bind _ _ (growsCache_of_keeps _ (keeps_derefModel _ _)) (fun m => ?_)
      exact growsCache_modifyCache _ _ (fun c => keysIn_updateEntry c _ _ _ _ _)
    · refine growsCache_bind _ _ (growsCache_of_keeps _ (keeps_derefRC _ _)) (fun r => ?_)
      refine growsCache_bind _ _
        (growsCache_of_keeps _ (keeps_modifyQuery _ _ _ (fun _ _ => rfl))) (fun _ => ?_)
      exact growsCache_of_keeps _ (keeps_pure _ _)
  · simp only [hpos, if_false]
    exact growsCache_bind _ _ (growsCache_of_keeps _ (keeps_pure _ _))
      (fun _ => growsCache_of_keeps _ (keeps_pure _ _))

theorem growsCache_recordsLoop (x : Ext) (rc : Nat) (ids : List Int) :
    M.growsCache (forMap ids (fun id =>
      M.bind (Env rc) (fun env => M.bind (ModelName rc) (fun name =>
        M.bind (newRecordCollection x env name) (fun newRC =>
          M.bind (withIds x newRC [id]) (fun res =>
            M.bind (modifyRC res (fun r => { r with prefetchRC := some rc }))
              (fun _ => M.pure res))))))) := by
  refine growsCache_forMap _ _ (fun id => ?_)
  refine growsCache_bind _ _ (growsCache_of_keeps _ ?_) (fun env => ?_)
  · exact keeps_bind _ _ _ (keeps_derefRC _ _) (fun r => keeps_derefEnv _ _)
  refine growsCache_bind _ _ (growsCache_of_keeps _ ?_) (fun name => ?_)
  · exact keeps_bind _ _ _ (keeps_derefRC _ _) (fun r =>
      keeps_bind _ _ _ (keeps_derefModel _ _) (fun m => keeps_pure _ _))
  refine growsCache_bind _ _ (growsCache_of_keeps _ ?_) (fun newRC => ?_)
  · unfold newRecordCollection InvalidRecordCollection registryMustGet
    simp only [bind_run, pure_run]
    refine keeps_bind _ _ _ (keeps_bind _ _ _ ?_ (fun mi => ?_)) (fun p => ?_)
    · split
      · exact keeps_pure _ _
      · exact keeps_logPanic _ _
    · refine keeps_bind _ _ _ (fun w => rfl) (fun p => ?_)
      refine keeps_bind _ _ _ (fun w => rfl) (fun q => ?_)
      exact keeps_bind _ _ _ (keeps_modifyRC _ _ _ (fun _ _ => rfl)) (fun _ => keeps_pure _ _)
    · refine keeps_bind _ _ _ (fun w => rfl) (fun e => ?_)
      exact keeps_bind _ _ _ (keeps_modifyRC _ _ _ (fun _ _ => rfl)) (fun _ => keeps_pure _ _)
  refine growsCache_bind _ _ (growsCache_withIds x newRC [id]) (fun res => ?_)
  exact growsCache_of_keeps _
    (keeps_bind _ _ _ (keeps_modifyRC _ _ _ (fun _ _ => rfl)) (fun _ => keeps_pure _ _))

/-- Method `Records` on a fetched collection removes no key from the caches. -/
theorem records_keepsKeys (x : Ext) (n : Nat) (w : World) (rc : Nat) (r : RecordCollection)
    (h1 : w.rcs[rc]? = some r) (hf : r.fetched = true) :
    w.keepsKeys (Records x (knot x (n + 1)) rc w).w := by
  have h := growsCache_recordsLoop x rc r.ids w
  simp only [Records, bind_run, pure_run]
  rw [bind_silent _ _ _ _ (len_of_fetched x n w rc r h1 hf),
    bind_silent _ _ _ _ (ids_of_fetched x n w rc r h1 hf)]
  exact h

/-- The row loop of `ForceLoad` on a usable collection, when every row is scanned and
holds an integer id: the ids of the rows are returned, nothing is sent, and the cache of
the environment is the only thing that changes; it loses no key and holds, for every row,
every key of the row under the id of the row. -/
theorem loadRows_run (x : Ext) (rc : Nat) (r : RecordCollection) (m : Model) (q : Query)
    (e : Environment) (s : String) (hs : ∀ w2 : World, x.ctxArgsSlug w2 q = s)
    (rows : List (Except String FieldMap)) :
    ∀ (w : World) (c : Cache), w.rcs[rc]? = some r → r.model = some m →
      r.query.bind (fun a => w.queries[a]?) = some q →
      r.env.bind (fun a => w.envs[a]?) = some e → w.caches[e.cache]? = some c →
      (∀ row ∈ rows, ∃ (line : FieldMap) (i : Int), row = Except.ok line ∧
        line.val "id" = Value.int i) →
      ∃ c2 : Cache, loadRows x rc rc rows w
          = ⟨Except.ok (rows.map rowId), w.withCache e.cache c2, []⟩ ∧ c.keysIn c2 ∧
        ∀ (line : FieldMap), Except.ok line ∈ rows → ∀ field : String,
          (List.lookup field line).isSome = true →
          (List.lookup ⟨m.name, rowId (Except.ok line), field, s⟩ c2.data).isSome = true := by
  induction rows with
  | nil =>
    intro w c h1 h2 h3 h4 h5 _
    refine ⟨c, ?_, keysIn_refl c, fun line hl => by cases hl⟩
    simp only [loadRows, forMap, M.pure, World.withCache, list_set_same _ _ _ h5, List.map_nil]
  | cons row rows ih =>
    intro w c h1 h2 h3 h4 h5 hrows
    obtain ⟨line, i, hrow, hid⟩ := hrows row (List.mem_cons_self _ _)
    subst hrow
    have hlt := lt_length_of_getElem? _ _ _ h5
    obtain ⟨c1, hc1⟩ : ∃ c1 : Cache, c1 = c.addRecord m.name i line s := ⟨_, rfl⟩
    have g5 : (w.withCache e.cache c1).caches[e.cache]? = some c1 := by
      simp [World.withCache, List.getElem?_set, hlt]
    obtain ⟨c2, hrun, hkeys, hhas⟩ := ih (w.withCache e.cache c1) c1 h1 h2 h3 h4 g5
      (fun row hr => hrows row (List.mem_cons_of_mem _ hr))
    have hri : rowId (Except.ok line) = i := by simp only [rowId, hid]
    have hstep : (do
        let line ← liftExcept (Except.ok line : Except String FieldMap)
        let rs ← derefRC rc
        let env ← derefEnv rs.env
        let id ← (match line.val "id" with
          | Value.int i => M.pure i
          | _ => logPanic "interface conversion: not an int64")
        let r ← derefRC rc
        let q ← derefQuery r.query
        let w ← getW
        let m ← derefModel rs.model
        modifyCache env.cache (fun c => c.addRecord m.name id line (x.ctxArgsSlug w q))
        return id : M Int) w = ⟨Except.ok i, w.withCache e.cache c1, []⟩ := by
      simp only [bind_run, pure_run, liftExcept_ok, pure_bind]
      rw [bind_silent _ _ _ _ (derefRC_run _ _ _ h1), bind_silent _ _ _ _ (derefEnv_run _ _ _ h4),
        hid]
      simp only [pure_bind]
      rw [bind_silent _ _ _ _ (derefRC_run _ _ _ h1),
        bind_silent _ _ _ _ (derefQuery_run _ _ _ h3), bind_silent _ _ _ _ (getW_run _), h2,
        bind_silent _ _ _ _ (derefModel_run m w)]
      simp only [M.bind, modifyCache, h5, M.pure, World.withCache, hs, hc1, List.append_nil]
    refine ⟨c2, ?_, keysIn_trans _ _ _ (by rw [hc1]; exact keysIn_addRecord _ _ _ _ _) hkeys, ?_⟩
    · simp only [loadRows, forMap, List.map_cons, hri]
      simp only [loadRows] at hrun
      refine Eq.trans (bind_quiet _ _ _ _ _ hstep) ?_
      rw [bind_quiet _ _ _ _ _ hrun]
      simp [M.pure, World.withCache, List.set_set]
    · intro line2 hl field hf
      rcases List.mem_cons.mp hl with heq | hin
      · cases heq
        rw [hri]
        exact hkeys _ (by rw [hc1]; exact addRecord_has_key _ _ _ _ _ _ hf)
      · exact hhas line2 hin field hf

theorem forall₂_mem_right {α β : Type} (R : α → β → Prop) (l1 : List α) (l2 : List β)
    (h : List.Forall₂ R l1 l2) : ∀ b ∈ l2, ∃ a ∈ l1, R a b := by
  induction h with
  | nil => intro b hb; cases hb
  | cons hab _ ih =>
    intro b hb
    rcases List.mem_cons.mp hb with heq | hin
    · subst heq
      exact ⟨_, List.mem_cons_self _ _, hab⟩
    · obtain ⟨a, ha, hr⟩ := ih b hin
      exact ⟨a, List.mem_cons_of_mem _ ha, hr⟩

theorem forEach_pure_run {α : Type} (f : α → M Unit) (w : World) (l : List α)
    (h : ∀ a ∈ l, f a w = ⟨Except.ok (), w, []⟩) :
    forEach l f w = ⟨Except.ok (), w, []⟩ := by
  induction l with
  | nil => rfl
  | cons a l ih =>
    rw [forEach_cons, bind_silent _ _ _ _ (h a (List.mem_cons_self _ _))]
    exact ih (fun b hb => h b (List.mem_cons_of_mem _ hb))

/-- Method `loadRelationFields` on a fetched collection whose ids are not zero, for fields
none of which is a relation that is not stored: it makes the records of the collection
and loads nothing; no statement is sent and no key of the cache is lost. -/
theorem loadRelationFields_plain (x : Ext) (n : Nat) (w : World) (rc : Nat)
    (fields : List FieldName) (r : RecordCollection) (m mi : Model) (e : Environment)
    (c : Cache) (h1 : w.rcs[rc]? = some r) (h2 : r.model = some m)
    (h4 : r.env.bind (fun a => w.envs[a]?) = some e) (h5 : w.caches[e.cache]? = some c)
    (hf : r.fetched = true) (hz : (0 : Int) ∉ r.ids)
    (hreg : x.registry.find? (fun m2 => m2.name == m.name) = some mi)
    (hplain : ∀ f ∈ x.sortFieldNames fields, ∃ fi, x.getRelatedFieldInfo m f = Except.ok fi ∧
      fi.fieldType.IsNonStoredRelationType = false) :
    ∃ w2 : World, loadRelationFields x (knot x (n + 1)) rc fields w = ⟨Except.ok (), w2, []⟩ ∧
      w.grows w2 e.cache ∧ w.keepsKeys w2 := by
  by_cases hlen : fields.length = 0
  · refine ⟨w, ?_, grows_refl w _, keepsKeys_refl w⟩
    simp only [loadRelationFields, hlen, if_true, pure_run]
    rfl
  · obtain ⟨w2, recs, hrun, hg, hall⟩ := records_run x n w rc r m mi e c h1 h2 h4 h5 hf hreg
    have hkk := records_keepsKeys x n w rc r h1 hf
    rw [hrun] at hkk
    refine ⟨w2, ?_, hg, hkk⟩
    have g1 : w2.rcs[rc]? = some r := hg.1 rc r h1
    simp only [loadRelationFields, hlen, if_false, bind_run, pure_run]
    rw [bind_silent _ _ _ _ (show (M.pure PUnit.unit : M PUnit) w = _ from rfl)]
    refine Eq.trans (bind_quiet _ _ _ _ _ hrun) ?_
    refine forEach_pure_run _ w2 recs (fun rec hrec => ?_)
    obtain ⟨id, hid, qa, ea, hr, -, -⟩ := forall₂_mem_right _ _ _ hall rec hrec
    have hid0 : id ≠ 0 := fun h0 => hz (h0 ▸ hid)
    have hids : (recordOf mi qa ea rc id).ids = [id] := by
      simp [recordOf, withIdsRC, survivors_single id hid0]
    rw [bind_silent _ _ _ _ (derefRC_run _ _ _ hr), hids]
    simp only [firstId, pure_bind]
    refine forEach_pure_run _ w2 _ (fun f hfm => ?_)
    obtain ⟨fi, hfi, hns⟩ := hplain f hfm
    rw [bind_silent _ _ _ _ (derefRC_run _ _ _ g1), h2,
      bind_silent _ _ _ _ (derefModel_run m w2), hfi, liftExcept_ok, pure_bind]
    simp only [hns, Bool.not_false, if_true]
    rfl

theorem applyDefaultOrder_run (w : World) (rc : Nat) (r : RecordCollection) (m : Model)
    (qp : Nat) (q : Query) (h1 : w.rcs[rc]? = some r) (h2 : r.model = some m)
    (h3 : r.query = some qp) (h3b : w.queries[qp]? = some q) :
    applyDefaultOrder rc w
      = ⟨Except.ok (), w.withQuery qp
          { q with orders := if q.orders.length = 0 then m.defaultOrder else q.orders }, []⟩ := by
  simp only [applyDefaultOrder, bind_run, pure_run]
  rw [bind_silent _ _ _ _ (derefRC_run _ _ _ h1), h3,
    bind_silent _ _ _ _ (derefQuery_run (some qp) w q h3b)]
  by_cases ho : q.orders.length = 0
  · simp only [ho, if_true, h2]
    rw [bind_silent _ _ _ _ (derefModel_run m w)]
    simp only [modifyQuery, h3b, World.withQuery]
  · simp only [ho, if_false]
    simp only [M.pure, World.withQuery]
    rw [list_set_same _ _ _ h3b]

theorem applyContexts_plain (w : World) (rc : Nat) (r : RecordCollection) (m : Model)
    (qp : Nat) (q : Query) (h1 : w.rcs[rc]? = some r) (h2 : r.model = some m)
    (h3 : r.query = some qp) (h3b : w.queries[qp]? = some q)
    (hctx : ∀ fi ∈ m.fields, fi.contexts = none) :
    applyContexts rc w
      = ⟨Except.ok rc, w.withQuery qp { q with ctxCond := Condition.empty, ctxOrders := [] },
          []⟩ := by
  simp only [applyContexts, bind_run, pure_run]
  rw [bind_silent _ _ _ _ (derefRC_run _ _ _ h1), h2, bind_silent _ _ _ _ (derefModel_run m w)]
  rw [bind_silent _ _ _ _ (foldlM_pure_run_mem _ (fun acc _ => acc) w m.fields
    (Condition.empty, []) (fun b fi hfi => by rw [hctx fi hfi]; rfl))]
  have hfold : ∀ (l : List Field) (b : Condition × List OrderPredicate),
      List.foldl (fun acc _ => acc) b l = b := by
    intro l
    induction l with
    | nil => intro b; rfl
    | cons a l ih => intro b; exact ih b
  rw [hfold]
  simp only [M.bind, modifyQuery, h3, h3b, M.pure, World.withQuery, List.append_nil]

/-- Method `ForceLoad` in full, for a user who may load, on a usable collection without
negative id and without prefetch collection whose query is not empty and not grouped,
when the collaborators leave the collection as it is (no record rule, no name search, no
related field to substitute), the model has no context field and none of the fields is a
relation that is not stored, and when storage answers the `SELECT` with rows that are all
scanned and hold an integer id: the `SELECT` is the one statement sent, the receiver is
returned and holds the ids of the rows, and the cache of its environment has lost no key
and holds, for every row, every key of the row under the id of the row and the slug of
the query. -/
theorem forceLoad_run (x : Ext) (n : Nat) (w : World) (rc : Nat) (fieldNames : List FieldName)
    (r : RecordCollection) (m mi : Model) (qp : Nat) (q : Query) (ep : Nat) (e : Environment)
    (c : Cache) (rows : List (Except String FieldMap))
    (h1 : w.rcs[rc]? = some r) (h2 : r.model = some m) (h3 : r.query = some qp)
    (h3b : w.queries[qp]? = some q) (h4 : r.env = some ep) (h4b : w.envs[ep]? = some e)
    (h5 : w.caches[e.cache]? = some c)
    (hperm : x.checkExecutionPermission w rc "Load" = none)
    (hne : x.isEmpty q = false) (hneg : r.hasNegIds = false) (hgrp : q.groups = [])
    (hpre : r.prefetchRC = none)
    (hrule : ∀ w2, x.addRecordRuleConditions rc e.uid "read" w2 = ⟨Except.ok rc, w2, []⟩)
    (hname : ∀ w2, x.addNameSearchesToCondition rc w2 = ⟨Except.ok (), w2, []⟩)
    (hsubst : ∀ w2 l, x.substituteRelatedFields rc l w2 = ⟨Except.ok l, w2, []⟩)
    (hsubq : ∀ w2, x.substituteRelatedInQuery rc w2 = ⟨Except.ok rc, w2, []⟩)
    (hctx : ∀ fi ∈ m.fields, fi.contexts = none)
    (hplain : ∀ f ∈ x.sortFieldNames (loadFields m fieldNames),
      ∃ fi, x.getRelatedFieldInfo m f = Except.ok fi ∧
        fi.fieldType.IsNonStoredRelationType = false)
    (hreg : x.registry.find? (fun m2 => m2.name == m.name) = some mi)
    (hslug : ∀ (w1 w2 : World) (q1 q2 : Query), q1.ctxCond = q2.ctxCond →
      x.ctxArgsSlug w1 q1 = x.ctxArgsSlug w2 q2)
    (hrows : x.queryRows w.db (loadStmt x w qp q m fieldNames) = Except.ok rows)
    (hlines : ∀ row ∈ rows, ∃ (line : FieldMap) (i : Int), row = Except.ok line ∧
      line.val "id" = Value.int i) :
    ∃ (wF : World) (qF : Query) (cF : Cache),
      ForceLoad x (knot x (n + 1)) rc fieldNames w
        = ⟨Except.ok rc, wF, [loadStmt x w qp q m fieldNames]⟩ ∧
      wF.rcs[rc]? = some (withIdsRC r (rows.map rowId)) ∧
      wF.queries[qp]? = some qF ∧ qF.ctxCond = Condition.empty ∧
      wF.envs[ep]? = some e ∧ wF.caches[e.cache]? = some cF ∧ c.keysIn cF ∧
      ∀ (line : FieldMap), Except.ok line ∈ rows → ∀ field : String,
        (List.lookup field line).isSome = true →
        (List.lookup ⟨m.name, rowId (Except.ok line), field, x.ctxArgsSlug w (q.forLoad m)⟩
          cF.data).isSome = true := by
  have hq : r.query.bind (fun a => w.queries[a]?) = some q := by rw [h3]; exact h3b
  have he : r.env.bind (fun a => w.envs[a]?) = some e := by rw [h4]; exact h4b
  simp only [ForceLoad, bind_run, pure_run]
  rw [bind_silent _ _ _ _ (checkPermission_ok x w rc _ hperm),
    bind_silent _ _ _ _ (derefRC_run _ _ _ h1), bind_silent _ _ _ _ (derefQuery_run _ _ _ hq)]
  simp only [hne, Bool.false_eq_true, if_false, hneg, hgrp, List.length_nil, gt_iff_lt,
    Nat.lt_irrefl, pure_bind, hpre]
  have hie : IsEmpty (knot x (n + 1)) none w = ⟨Except.ok true, w, []⟩ := by
    simp only [IsEmpty, bind_run, pure_run]
    rw [bind_silent _ _ _ _ (show IsValid none w = ⟨Except.ok false, w, []⟩ from rfl)]
    rfl
  rw [bind_silent _ _ _ _ hie, bind_silent _ _ _ _ (derefRC_run _ _ _ h1)]
  simp only [Bool.not_true, Bool.false_and, Bool.false_eq_true, if_false]
  rw [bind_silent _ _ _ _ (env_run w rc r e h1 he), bind_silent _ _ _ _ (hrule w),
    bind_quiet _ _ _ _ _ (applyDefaultOrder_run w rc r m qp q h1 h2 h3 h3b)]
  obtain ⟨fs, hfs⟩ : ∃ fs, fs = loadFields m fieldNames := ⟨_, rfl⟩
  obtain ⟨q7, hq7⟩ : ∃ q7 : Query, q7 =
      { q with orders := if q.orders.length = 0 then m.defaultOrder else q.orders } := ⟨_, rfl⟩
  rw [← hq7]
  have g1 : (w.withQuery qp q7).rcs[rc]? = some r := h1
  have g3b : (w.withQuery qp q7).queries[qp]? = some q7 :=
    getElem?_set_self_of_some _ _ _ _ h3b
  have hK : ∀ (K : List FieldName → M Nat),
      (if fieldNames.length = 0 then
        M.bind (M.bind (derefRC rc) (fun d =>
          M.bind (derefModel d.model) (fun m => M.pure m.storedFieldNames))) K
      else K fieldNames) (w.withQuery qp q7) = K fs (w.withQuery qp q7) := by
    intro K
    by_cases hlen : fieldNames.length = 0
    · simp only [hlen, if_true, hfs, loadFields]
      rw [bind_silent _ _ _ _ (show M.bind (derefRC rc) (fun d =>
          M.bind (derefModel d.model) (fun m => M.pure m.storedFieldNames)) (w.withQuery qp q7)
          = ⟨Except.ok m.storedFieldNames, w.withQuery qp q7, []⟩ from by
        rw [bind_silent _ _ _ _ (derefRC_run _ _ _ g1), h2,
          bind_silent _ _ _ _ (derefModel_run m _)]
        rfl)]
    · simp only [hlen, if_false, hfs, loadFields]
  rw [hK]
  have hw10 : (w.withQuery qp q7).withQuery qp { q7 with ctxCond := Condition.empty, ctxOrders := [] }
      = w.withQuery qp (q.forLoad m) := by
    simp only [World.withQuery, List.set_set, Query.forLoad, hq7]
  have hctxrun := applyContexts_plain (w.withQuery qp q7) rc r m qp q7 g1 h2 h3 g3b hctx
  rw [hw10] at hctxrun
  rw [bind_silent _ _ _ _ (hname _), bind_quiet _ _ _ _ _ hctxrun,
    bind_silent _ _ _ _ (hsubst _ _), bind_silent _ _ _ _ (hsubq _)]
  obtain ⟨w10, hw10d⟩ : ∃ w10 : World, w10 = w.withQuery qp (q.forLoad m) := ⟨_, rfl⟩
  rw [← hw10d]
  have k1 : w10.rcs[rc]? = some r := by rw [hw10d]; exact h1
  have k3b : w10.queries[qp]? = some (q.forLoad m) := by
    rw [hw10d]; exact getElem?_set_self_of_some _ _ _ _ h3b
  have k3 : r.query.bind (fun a => w10.queries[a]?) = some (q.forLoad m) := by
    rw [h3]; exact k3b
  have k4b : w10.envs[ep]? = some e := by rw [hw10d]; exact h4b
  have k4 : r.env.bind (fun a => w10.envs[a]?) = some e := by rw [h4]; exact k4b
  have k5 : w10.caches[e.cache]? = some c := by rw [hw10d]; exact h5
  have kdb : w10.db = w.db := by rw [hw10d]; rfl
  rw [bind_silent _ _ _ _ (derefRC_run _ _ _ k1), h2, bind_silent _ _ _ _ (derefModel_run m _),
    bind_silent _ _ _ _ (derefQuery_run _ _ _ k3), bind_silent _ _ _ _ (getW_run _),
    bind_silent _ _ _ _ (derefEnv_run _ _ _ k4)]
  have hstmt : Stmt.query (x.selectQuery w10 (q.forLoad m) (x.filterOnDBFields m fs)).1
      (x.selectQuery w10 (q.forLoad m) (x.filterOnDBFields m fs)).2
      = loadStmt x w qp q m fieldNames := by
    rw [hw10d, hfs]; rfl
  obtain ⟨st, hst⟩ : ∃ st, st = loadStmt x w qp q m fieldNames := ⟨_, rfl⟩
  rw [← hst] at hrows hstmt ⊢
  have hdb : dbQuery x (x.selectQuery w10 (q.forLoad m) (x.filterOnDBFields m fs)).1
      (x.selectQuery w10 (q.forLoad m) (x.filterOnDBFields m fs)).2 w10
      = ⟨Except.ok rows, w10.sent [st], [st]⟩ := by
    simp only [dbQuery, bind_run, M.bind, send, hstmt, kdb, hrows, liftExcept, World.sent,
      List.append_nil]
  have hs : ∀ w2 : World, x.ctxArgsSlug w2 (q.forLoad m) = x.ctxArgsSlug w (q.forLoad m) :=
    fun w2 => hslug _ _ _ _ rfl
  obtain ⟨c13, hload, hk13, hhas⟩ := loadRows_run x rc r m (q.forLoad m) e
    (x.ctxArgsSlug w (q.forLoad m)) hs rows (w10.sent [st]) c k1 h2 k3 k4 k5 hlines
  obtain ⟨w13, hw13⟩ : ∃ w13 : World, w13 = (w10.sent [st]).withCache e.cache c13 := ⟨_, rfl⟩
  rw [← hw13] at hload
  have hlt := lt_length_of_getElem? _ _ _ k5
  have l1 : w13.rcs[rc]? = some r := by rw [hw13]; exact k1
  have l3b : w13.queries[qp]? = some (q.forLoad m) := by rw [hw13]; exact k3b
  have l4b : w13.envs[ep]? = some e := by rw [hw13]; exact k4b
  have l5 : w13.caches[e.cache]? = some c13 := by
    rw [hw13]; simp [World.withCache, World.sent, List.getElem?_set, hlt]
  obtain ⟨c14, hwith⟩ := withIds_run x w13 rc (rows.map rowId) r m qp (q.forLoad m) ep e c13
    l1 h2 h3 l3b h4 l4b l5
  obtain ⟨w14, hw14⟩ : ∃ w14 : World, w14 = ((w13.withRC rc (withIdsRC r (rows.map rowId))).withQuery
      qp (withIdsQuery (q.forLoad m) (rows.map rowId))).withCache e.cache c14 := ⟨_, rfl⟩
  rw [← hw14] at hwith
  have hk14 : c13.keysIn c14 := by
    have hg := growsCache_withIds x rc (rows.map rowId) w13
    rw [hwith] at hg
    obtain ⟨c', hc', hkk⟩ := hg e.cache c13 l5
    have : w14.caches[e.cache]? = some c14 := by
      rw [hw14]; exact getElem?_set_self_of_some _ _ _ _ l5
    rw [this] at hc'
    cases hc'
    exact hkk
  have m1 : w14.rcs[rc]? = some (withIdsRC r (rows.map rowId)) := by
    rw [hw14]; exact getElem?_set_self_of_some _ _ _ _ l1
  have m3b : w14.queries[qp]? = some (withIdsQuery (q.forLoad m) (rows.map rowId)) := by
    rw [hw14]; exact getElem?_set_self_of_some _ _ _ _ l3b
  have m4b : w14.envs[ep]? = some e := by rw [hw14]; exact l4b
  have m5 : w14.caches[e.cache]? = some c14 := by
    rw [hw14]; exact getElem?_set_self_of_some _ _ _ _ l5
  have hz : (0 : Int) ∉ (withIdsRC r (rows.map rowId)).ids := by
    intro h0
    exact ((survivors_spec (rows.map rowId) []).2 0).mp h0 |>.2.1 rfl
  have m4 : (withIdsRC r (rows.map rowId)).env.bind (fun a => w14.envs[a]?) = some e := by
    rw [show (withIdsRC r (rows.map rowId)).env = r.env by rfl, h4]; exact m4b
  obtain ⟨w15, hrel, hg15, hk15⟩ := loadRelationFields_plain x n w14 rc fs
    (withIdsRC r (rows.map rowId)) m mi e c14 m1 h2 m4 m5 rfl hz hreg (by rw [hfs]; exact hplain)
  obtain ⟨c15, hc15, hkk15⟩ := hk15 e.cache c14 m5
  refine ⟨w15, withIdsQuery (q.forLoad m) (rows.map rowId), c15, ?_, hg15.1 _ _ m1,
    hg15.2.1 _ _ m3b, ?_, hg15.2.2.1 _ _ m4b, hc15,
    keysIn_trans _ _ _ hk13 (keysIn_trans _ _ _ hk14 hkk15), ?_⟩
  · have hev : [st] = [st] ++ [] := rfl
    rw [hev]
    refine bind_ok_eq _ _ _ _ _ _ _ _ _ hdb ?_
    rw [bind_quiet _ _ _ _ _ hload, bind_quiet _ _ _ _ _ hwith, bind_quiet _ _ _ _ _ hrel]
    rfl
  · unfold withIdsQuery
    split <;> rfl
  · intro line hl field hf
    exact hkk15 _ (hk14 _ (hhas line hl field hf))

theorem loadFields_idem (m : Model) (fields : List FieldName) :
    loadFields m (loadFields m fields) = loadFields m fields := by
  unfold loadFields
  by_cases h : fields.length = 0
  · simp only [h, if_true]
    split <;> rfl
  · simp only [h, if_false]

/-- The strict cache check succeeds on ids and fields whose keys are all in the cache. -/
theorem checkIfInCache_of_keys (c : Cache) (noIds : Bool) (model : String) (ids : List Int)
    (fields : List String) (slug : String) (hno : ids = [] → noIds = true)
    (hk : ∀ id ∈ ids, ∀ f ∈ fields,
      (List.lookup ⟨model, id, f, slug⟩ c.data).isSome = true) :
    c.checkIfInCache noIds model ids fields slug = true := by
  unfold Cache.checkIfInCache
  cases ids with
  | nil => simpa using hno rfl
  | cons a l =>
    simp only [List.isEmpty_cons, Bool.false_eq_true, if_false, List.all_eq_true]
    intro id hid f hf
    rw [cache_any_iff_lookup]
    exact hk id hid f hf

/-! ## Two calls of Load -/

/-- C7, as the code has it. Two calls of `Load(f)` in a row, with nothing in between, on a
usable collection. When the query is empty neither call sends anything to storage and the
world is as before. When the requested fields are already cached for every id of the
receiver, both calls return the receiver from the cache and send nothing. Otherwise, when
the query is not empty and the fields are not all cached: for a receiver that may be loaded
(permission, no id of `New`, not grouped, no prefetch collection), on a model without
context fields, with no relation field held outside the table among the requested fields,
with record rules, name searches and related-field substitutions that leave the collection
as it is, a context slug that depends on the context condition only, and a storage whose
`SELECT` returns rows that scan to an integer id and hold every requested field (one row at
least, unless the cache check accepts an empty id list), the first call sends exactly one
statement, the `SELECT` of the requested fields, and leaves every requested field of every
id of the receiver in the cache; the second call then returns the receiver from that cache,
leaves the world as the first call left it and sends nothing, so that the two calls send
exactly one statement. -/
theorem load_twice_second_from_cache (x : Ext) (k : Rec) (n : Nat) (w : World) (rc : Nat)
    (fields : List FieldName) :
    (∀ r m q e c, w.rcs[rc]? = some r → r.model = some m →
      r.query.bind (fun a => w.queries[a]?) = some q →
      r.env.bind (fun a => w.envs[a]?) = some e → w.caches[e.cache]? = some c →
      x.isEmpty q = true →
        (M.bind (Load x k rc fields) (fun _ => Load x k rc fields) w).ev = [] ∧
        (M.bind (Load x k rc fields) (fun _ => Load x k rc fields) w).w = w) ∧
    (∀ r m q e c, w.rcs[rc]? = some r → r.model = some m →
      r.query.bind (fun a => w.queries[a]?) = some q →
      r.env.bind (fun a => w.envs[a]?) = some e → w.caches[e.cache]? = some c →
      c.checkIfInCache x.cacheCheckNoIds m.name r.ids
        ((loadFields m fields).map (fun v => v.json)) (x.ctxArgsSlug w q) = true →
        M.bind (Load x k rc fields) (fun _ => Load x k rc fields) w
          = ⟨Except.ok rc, w, []⟩) ∧
    (∀ (r : RecordCollection) (m mi : Model) (qp : Nat) (q : Query) (ep : Nat)
      (e : Environment) (c : Cache) (rows : List (Except String FieldMap)),
      w.rcs[rc]? = some r → r.model = some m → r.query = some qp →
      w.queries[qp]? = some q → r.env = some ep → w.envs[ep]? = some e →
      w.caches[e.cache]? = some c →
      x.checkExecutionPermission w rc "Load" = none →
      x.isEmpty q = false → r.hasNegIds = false → q.groups = [] → r.prefetchRC = none →
      (∀ w2, x.addRecordRuleConditions rc e.uid "read" w2 = ⟨Except.ok rc, w2, []⟩) →
      (∀ w2, x.addNameSearchesToCondition rc w2 = ⟨Except.ok (), w2, []⟩) →
      (∀ w2 l, x.substituteRelatedFields rc l w2 = ⟨Except.ok l, w2, []⟩) →
      (∀ w2, x.substituteRelatedInQuery rc w2 = ⟨Except.ok rc, w2, []⟩) →
      (∀ fi ∈ m.fields, fi.contexts = none) →
      (∀ f ∈ x.sortFieldNames (loadFields m fields),
        ∃ fi, x.getRelatedFieldInfo m f = Except.ok fi ∧
          fi.fieldType.IsNonStoredRelationType = false) →
      x.registry.find? (fun m2 => m2.name == m.name) = some mi →
      (∀ (w1 w2 : World) (q1 q2 : Query), q1.ctxCond = q2.ctxCond →
        x.ctxArgsSlug w1 q1 = x.ctxArgsSlug w2 q2) →
      c.checkIfInCache x.cacheCheckNoIds m.name r.ids
        ((loadFields m fields).map (fun v => v.json)) (x.ctxArgsSlug w q) = false →
      x.queryRows w.db (loadStmt x w qp q m fields) = Except.ok rows →
      (∀ row ∈ rows, ∃ (line : FieldMap) (i : Int), row = Except.ok line ∧
        line.val "id" = Value.int i) →
      (∀ (line : FieldMap), Except.ok line ∈ rows → ∀ f ∈ loadFields m fields,
        (List.lookup f.json line).isSome = true) →
      (survivors [] (rows.map rowId) = [] → x.cacheCheckNoIds = true) →
      ∃ (w1 : World) (r1 : RecordCollection) (q1 : Query) (c1 : Cache),
        Load x (knot x (n + 1)) rc fields w
          = ⟨Except.ok rc, w1, [loadStmt x w qp q m fields]⟩ ∧
        w1.rcs[rc]? = some r1 ∧ r1.ids = survivors [] (rows.map rowId) ∧
        r1.fetched = true ∧ w1.queries[qp]? = some q1 ∧
        w1.caches[e.cache]? = some c1 ∧
        c1.checkIfInCache x.cacheCheckNoIds m.name r1.ids
          ((loadFields m fields).map (fun v => v.json)) (x.ctxArgsSlug w1 q1) = true ∧
        Load x (knot x (n + 1)) rc fields w1 = ⟨Except.ok rc, w1, []⟩ ∧
        M.bind (Load x (knot x (n + 1)) rc fields)
            (fun _ => Load x (knot x (n + 1)) rc fields) w
          = ⟨Except.ok rc, w1, [loadStmt x w qp q m fields]⟩) := by
  refine ⟨?_, ?_, ?_⟩
  · intro r m q e c h1 h2 h3 h4 h5 he
    have hload : Load x k rc fields w = ⟨Except.ok rc, w, []⟩ ∨
        ∃ msg, Load x k rc fields w = ⟨Except.error msg, w, []⟩ := by
      cases hc : c.checkIfInCache x.cacheCheckNoIds m.name r.ids
        ((if fields.length = 0 then m.storedFieldNames else fields).map (fun v => v.json))
        (x.ctxArgsSlug w q) with
      | true => exact Or.inl (load_of_cached x k w rc fields r m q e c h1 h2 h3 h4 h5 hc)
      | false =>
        rw [load_of_missing x k w rc fields r m q e c h1 h2 h3 h4 h5 hc]
        exact forceLoad_empty_query x k w rc _ r q h1 h3 he
    rcases hload with h | ⟨msg, h⟩
    · rw [bind_silent _ _ _ _ h, h]
      exact ⟨rfl, rfl⟩
    · rw [bind_error _ _ _ _ _ _ h]
      exact ⟨rfl, rfl⟩
  · intro r m q e c h1 h2 h3 h4 h5 hc
    have h := load_of_cached x k w rc fields r m q e c h1 h2 h3 h4 h5 hc
    rw [bind_silent _ _ _ _ h, h]
  · intro r m mi qp q ep e c rows h1 h2 h3 h3b h4 h4b h5 hperm hne hneg hgrp hpre hrule hname
      hsubst hsubq hctx hplain hreg hslug hmiss hrows hlines hcols hsome
    have hq : r.query.bind (fun a => w.queries[a]?) = some q := by rw [h3]; exact h3b
    have he : r.env.bind (fun a => w.envs[a]?) = some e := by rw [h4]; exact h4b
    have hst : loadStmt x w qp q m (loadFields m fields) = loadStmt x w qp q m fields := by
      unfold loadStmt
      rw [loadFields_idem]
    obtain ⟨w1, q1, c1, hrun, g1, g3, gctx, g4, g5, _, gkeys⟩ :=
      forceLoad_run x n w rc (loadFields m fields) r m mi qp q ep e c rows h1 h2 h3 h3b h4 h4b
        h5 hperm hne hneg hgrp hpre hrule hname hsubst hsubq hctx
        (by rw [loadFields_idem]; exact hplain) hreg hslug (by rw [hst]; exact hrows) hlines
    rw [hst] at hrun
    have hfirst : Load x (knot x (n + 1)) rc fields w
        = ⟨Except.ok rc, w1, [loadStmt x w qp q m fields]⟩ := by
      rw [load_of_missing x _ w rc fields r m q e c h1 h2 hq he h5 hmiss]
      exact hrun
    have hcached : c1.checkIfInCache x.cacheCheckNoIds m.name
        (withIdsRC r (rows.map rowId)).ids
        ((loadFields m fields).map (fun v => v.json)) (x.ctxArgsSlug w1 q1) = true := by
      refine checkIfInCache_of_keys _ _ _ _ _ _ hsome ?_
      intro id hid f hf
      have hmem := ((survivors_spec (rows.map rowId) []).2 id).mp hid
      obtain ⟨row, hrow, hrid⟩ := List.mem_map.mp hmem.1
      obtain ⟨line, i, hline, _⟩ := hlines row hrow
      obtain ⟨v, hv, hvf⟩ := List.mem_map.mp hf
      subst hline
      have := gkeys line hrow f (by rw [← hvf]; exact hcols line hrow v hv)
      rw [hrid, hslug w (w1) (q.forLoad m) q1 (by rw [gctx]; rfl)] at this
      exact this
    have g3q : (withIdsRC r (rows.map rowId)).query.bind (fun a => w1.queries[a]?) = some q1 := by
      rw [show (withIdsRC r (rows.map rowId)).query = r.query by rfl, h3]; exact g3
    have g4e : (withIdsRC r (rows.map rowId)).env.bind (fun a => w1.envs[a]?) = some e := by
      rw [show (withIdsRC r (rows.map rowId)).env = r.env by rfl, h4]; exact g4
    have hsecond := load_of_cached x (knot x (n + 1)) w1 rc fields
      (withIdsRC r (rows.map rowId)) m q1 e c1 g1 h2 g3q g4e g5 hcached
    refine ⟨w1, withIdsRC r (rows.map rowId), q1, c1, hfirst, g1, rfl, rfl, g3, g5, hcached,
      hsecond, ?_⟩
    rw [bind_ok _ _ _ _ _ _ hfirst, hsecond]
    simp

/-- C7 fails as stated: two calls of `Load` of the name send no query to storage at all,
not one, on a new collection, whose query is empty, and on the stored collection of
`storedWorld`, whose query is not empty and whose name is in the cache already. -/
theorem load_twice_sends_nothing :
    M.bind (Load extPlain (knot extPlain 1) 0 [⟨"Name", "name"⟩])
        (fun _ => Load extPlain (knot extPlain 1) 0 [⟨"Name", "name"⟩]) poolWorld
      = ⟨Except.ok 0, poolWorld, []⟩ ∧
    M.bind (Load extDb (knot extDb 1) 0 [⟨"Name", "name"⟩])
        (fun _ => Load extDb (knot extDb 1) 0 [⟨"Name", "name"⟩]) storedWorld
      = ⟨Except.ok 0, storedWorld, []⟩ := by
  exact ⟨rfl, rfl⟩


/-- C7, run. On a new collection, whose query is empty, two calls of `Load` send nothing; on
the stored collection of `storedWorld` two calls of `Load` of the cached name send nothing;
on the collection of `searchWorld`, not fetched and with nothing in the cache, the first
`Load` of the age sends the one `SELECT` and caches the age of record 5, and the second
call sends nothing. -/
theorem load_twice_second_from_cache_witness :
    ((M.bind (Load extPlain (knot extPlain 1) 0 [⟨"Age", "age"⟩])
        (fun _ => Load extPlain (knot extPlain 1) 0 [⟨"Age", "age"⟩]) poolWorld).ev = [] ∧
      (M.bind (Load extPlain (knot extPlain 1) 0 [⟨"Age", "age"⟩])
        (fun _ => Load extPlain (knot extPlain 1) 0 [⟨"Age", "age"⟩]) poolWorld).w
        = poolWorld) ∧
    M.bind (Load extDb (knot extDb 1) 0 [⟨"Name", "name"⟩])
        (fun _ => Load extDb (knot extDb 1) 0 [⟨"Name", "name"⟩]) storedWorld
      = ⟨Except.ok 0, storedWorld, []⟩ ∧
    ∃ (w1 : World) (r1 : RecordCollection) (q1 : Query) (c1 : Cache),
      Load extDb (knot extDb 1) 0 [⟨"Age", "age"⟩] searchWorld
        = ⟨Except.ok 0, w1, [Stmt.query "SELECT" []]⟩ ∧
      w1.rcs[0]? = some r1 ∧ r1.ids = [5] ∧
      r1.fetched = true ∧ w1.queries[0]? = some q1 ∧
      w1.caches[0]? = some c1 ∧
      c1.checkIfInCache false "Partner" r1.ids ["age"] (extDb.ctxArgsSlug w1 q1) = true ∧
      Load extDb (knot extDb 1) 0 [⟨"Age", "age"⟩] w1 = ⟨Except.ok 0, w1, []⟩ ∧
      M.bind (Load extDb (knot extDb 1) 0 [⟨"Age", "age"⟩])
          (fun _ => Load extDb (knot extDb 1) 0 [⟨"Age", "age"⟩]) searchWorld
        = ⟨Except.ok 0, w1, [Stmt.query "SELECT" []]⟩ :=
  ⟨(load_twice_second_from_cache extPlain (knot extPlain 1) 0 poolWorld 0
      [⟨"Age", "age"⟩]).1 _ partnerModel _ _ _ rfl rfl rfl rfl rfl rfl,
    (load_twice_second_from_cache extDb (knot extDb 1) 0 storedWorld 0
      [⟨"Name", "name"⟩]).2.1 _ partnerModel _ _ _ rfl rfl rfl rfl rfl (by decide),
    (load_twice_second_from_cache extDb (knot extDb 1) 0 searchWorld 0
      [⟨"Age", "age"⟩]).2.2
      { model := some partnerModel, query := some 0, env := some 0 } partnerModel partnerModel 0
      { recordSet := 0, cond := Condition.pred "id" "in" (Value.ids [5]) } 0
      { uid := 1, cache := 0 } {} [Except.ok [("id", Value.int 5), ("age", Value.int 36)]]
      rfl rfl rfl rfl rfl rfl rfl rfl (by decide) rfl rfl rfl
      (fun _ => rfl) (fun _ => rfl) (fun _ _ => rfl) (fun _ => rfl) (by decide)
      (fun f hf => by
        have hfe : f = ⟨"Age", "age"⟩ := List.mem_singleton.mp hf
        subst hfe
        exact ⟨{ name := "Age", json := "age", fieldType := FieldType.Integer }, by decide, by decide⟩)
      (by decide) (fun _ _ _ _ _ => rfl) (by decide) rfl
      (fun row hr => by
        have hre := List.mem_singleton.mp hr
        subst hre
        exact ⟨_, 5, rfl, rfl⟩)
      (fun line hl f hf => by
        have hle := Except.ok.inj (List.mem_singleton.mp hl)
        have hfe : f = ⟨"Age", "age"⟩ := List.mem_singleton.mp hf
        subst hle
        subst hfe
        decide)
      (fun h => absurd h (by decide))⟩

/-! ## The round trip of create -/

/-- The value that `create` stores for the creation user when the data sets it depends on
the order in which the run ranges over the field map: in a run that ranges over the map
from its last entry to its first, the create of `stampData` stores the 42 of the data and
not the acting user. -/
theorem create_stamp_depends_on_order :
    (M.bind (create extReverse (knot extReverse 2) 0 stampData)
        (fun rSet => Get extReverse (knot extReverse 2) rSet ⟨"CreateUID", "create_uid"⟩)
        poolWorld).out = Except.ok (Value.int 42) := by
  decide!

end Goerp
